import Mathlib

/-!
# The CLI engine of `cli_demo` (src/infra/cli.c, src/src/infra/text_utils.c)

Conventions of the embedding.

* A byte is a `Nat` (0..255).  A C string is the list of its bytes before the
  terminating NUL.  A line slot is the raw buffer (a list of bytes, NULs
  included); `cstr` reads the C string stored in it.
* A command table is a list of `CLI_CmdTypeDef`; a function pointer is a `Nat`
  (0 is `NULL`).
* `uint8_t`, `uint16_t` and `uint32_t` counters are `Nat` reduced modulo
  256, 65536 and 4294967296 where they are incremented or accumulated.
* A loop whose counter may wrap takes a `fuel` argument and returns `none` when
  the fuel is exhausted; `none` is also the answer for a read outside a table.
* Terminal output, handler invocations and `CLI_TaskAlert` calls are recorded,
  in order, in the `trace` field of the engine state.
* `malloc` is an oracle: the functions that allocate take the outcome as a
  `Bool`.  Command handlers are an oracle `H pHandler argc argv` giving the
  returned `int`; they are assumed not to touch the engine state.
-/

namespace CliDemo

/-! ## Constants of cli.h and cli.c -/

def CLI_MAX_HISTORY_LINES : Nat := 10
def CLI_MAX_LINE_LENGTH : Nat := 80
def CLI_MAX_COMPLETIONS : Nat := 32
def CLI_MAX_PROMPT : Nat := 10
def CLI_MAX_COMMAND_NAME_LEN : Nat := 12
def CLI_MAX_NUM_PARAMS : Nat := 15
def CLI_RESET_CMD : Int := -10
def CLI_ARROW_UP : Nat := 200
def CLI_ARROW_DOWN : Nat := 201
def CLI_TAB : Nat := 202
def CLI_ARROW_RIGHT : Nat := 203
def CLI_ARROW_LEFT : Nat := 204
def CLI_MAX_ESCAPE : Nat := 10
def EXIT_FAILURE : Int := 1

/-- The bytes of a string literal. -/
def bytes (s : String) : List Nat := s.data.map Char.toNat

/-- The C string held in a buffer: the bytes before the first NUL. -/
def cstr (buf : List Nat) : List Nat := buf.takeWhile (fun b => b != 0)

/-! ## text_utils.c -/

def __toupper (c : Nat) : Nat := if 97 ≤ c ∧ c ≤ 122 then c - 32 else c

def __tolower (c : Nat) : Nat := if 65 ≤ c ∧ c ≤ 90 then c + 97 - 65 else c

def __isspace (c : Nat) : Bool := c == 32 || c == 10 || c == 9

/-- The inner loop of `__strtrim`: `p` is the offset of `ptr` from `str_begin`,
`e` the offset of `str_end`; the result is the final offset of `str_end`. -/
def strtrimScan : List Nat → Nat → Nat → Nat
  | [], _, e => e
  | c :: t, p, e => strtrimScan t (p + 1) (if __isspace c then e else p)

/-- `__strtrim`: the string left in the buffer. -/
def __strtrim (s : List Nat) : List Nat :=
  match (cstr s).dropWhile __isspace with
  | [] => []
  | r => r.take (strtrimScan r 0 0 + 1)

/-- `__stricmp` on the memory at two pointers: the end of a list is read as
the NUL byte, and the loop stops at the first NUL as in the source. -/
def __stricmp : List Nat → List Nat → Int
  | [], [] => 0
  | [], c2 :: _ => (0 : Int) - (__tolower c2 : Int)
  | c1 :: _, [] => (__tolower c1 : Int)
  | c1 :: s1, c2 :: s2 =>
    if (__tolower c1 : Int) - (__tolower c2 : Int) = 0 ∧ c1 ≠ 0 ∧ c2 ≠ 0 then __stricmp s1 s2
    else (__tolower c1 : Int) - (__tolower c2 : Int)

/-- `__strlwr`: the string left in the buffer. -/
def __strlwr (s : List Nat) : List Nat := (cstr s).map __tolower

/-- The C library `strcmp` (bytes compared as `unsigned char`, the end of a
list read as the NUL byte). -/
def strcmp : List Nat → List Nat → Int
  | [], [] => 0
  | [], c2 :: _ => (0 : Int) - (c2 : Int)
  | c1 :: _, [] => (c1 : Int)
  | c1 :: s1, c2 :: s2 =>
    if c1 = c2 ∧ c1 ≠ 0 then strcmp s1 s2 else (c1 : Int) - (c2 : Int)

/-! ## Data model (cli.h, cli.c) -/

/-- A command descriptor: the handler pointer and the C string in `Name[12]`. -/
structure CLI_CmdTypeDef where
  pHandler : Nat
  Name : List Nat
  deriving DecidableEq, Repr

inductive CLI_ExecTypeDef where
  | CLI_Exec_Nothing
  | CLI_Exec_AutoComplete
  | CLI_Exec_SearchAndExec
  | CLI_Exec_RetrieveHistory
  deriving DecidableEq, Repr

/-- A node of the chain of injected tables. -/
structure CLI_TableNode_TypeDef where
  table : List CLI_CmdTypeDef
  items : Nat
  deriving DecidableEq, Repr

structure CLI_EscTypeDef where
  string : List Nat
  value : Nat
  deriving DecidableEq, Repr

/-- What the engine does to the outside world. -/
inductive Event where
  | out (b : Nat)
  | call (pHandler : Nat) (argc : Nat) (argv : List (List Nat))
  | alert
  deriving DecidableEq, Repr

/-- The module state `gCliData`.  `argvBuf` and `completion` are scratch areas
written before every read and are not part of the state; of `cliInitData` only
the presence of the `putc` handler is kept. -/
structure CLI_DataTypeDef where
  line : List (List Nat)
  prompt : List Nat
  cmnds : Option (List CLI_CmdTypeDef)
  cmndsTableHead : List CLI_TableNode_TypeDef
  execType : CLI_ExecTypeDef
  cmndsCount : Nat
  lineIdx : Nat
  lineCurrent : Nat
  LineCount : Nat
  LineBack : Nat
  prmpSize : Nat
  escapeSequence : List CLI_EscTypeDef
  receivingEscapeSequence : Bool
  CurrentEscapeSequence : List Nat
  CurrentEscapeSequenceCount : Nat
  initialized : Bool
  echo : Bool
  locked : Bool
  autoLowerCase : Bool
  commandsSorted : Bool
  putc : Bool
  trace : List Event
  deriving DecidableEq, Repr

/-- The zero-filled entry left by `memset` in the commands array. -/
def zeroCmd : CLI_CmdTypeDef := { pHandler := 0, Name := [] }

/-- The state `gCliData = {0}` at program start. -/
def gCliData0 : CLI_DataTypeDef :=
  { line := List.replicate CLI_MAX_HISTORY_LINES (List.replicate (CLI_MAX_LINE_LENGTH + 16) 0)
    prompt := List.replicate (CLI_MAX_PROMPT + 2) 0
    cmnds := none
    cmndsTableHead := []
    execType := CLI_ExecTypeDef.CLI_Exec_Nothing
    cmndsCount := 0
    lineIdx := 0
    lineCurrent := 0
    LineCount := 0
    LineBack := 0
    prmpSize := 0
    escapeSequence := []
    receivingEscapeSequence := false
    CurrentEscapeSequence := List.replicate CLI_MAX_ESCAPE 0
    CurrentEscapeSequenceCount := 0
    initialized := false
    echo := false
    locked := false
    autoLowerCase := false
    commandsSorted := false
    putc := false
    trace := [] }

/-! ## The command registry: CLI_InjectCommands and CLI_BuildTable -/

/-- `CLI_Compare`, the comparator handed to `qsort`. -/
def CLI_Compare (a b : CLI_CmdTypeDef) : Int := strcmp a.Name b.Name

/-- The C library `qsort` with `CLI_Compare`, as an insertion sort. -/
def qsort (l : List CLI_CmdTypeDef) : List CLI_CmdTypeDef :=
  l.insertionSort (fun a b => CLI_Compare a b ≤ 0)

/-- Modelled from the spec: the macro `LL_APPEND` of llist.h, a header that is
not among the sources ("appends a new `CommandTableSource` to the chain",
"sources are chained (insertion order preserved)").  `LL_FOREACH`, of the same
header, visits the chain from its head. -/
def LL_APPEND (head : List CLI_TableNode_TypeDef) (add : CLI_TableNode_TypeDef) :
    List CLI_TableNode_TypeDef :=
  head ++ [add]

/-- `CLI_InjectCommands(table, items)`: the returned `int` and the new state. -/
def CLI_InjectCommands (mallocOk : Bool) (table : Option (List CLI_CmdTypeDef)) (items : Int)
    (s : CLI_DataTypeDef) : Int × CLI_DataTypeDef :=
  match table with
  | none => (0, s)
  | some t =>
    if items = 0 ∨ s.commandsSorted = true then (0, s)
    else if mallocOk = false then (0, s)
    else
      (((items % 4294967296 + 2147483648) % 4294967296 - 2147483648 : Int),
        { s with cmndsTableHead :=
            LL_APPEND s.cmndsTableHead { table := t, items := (items % 4294967296).toNat } })

/-- The copy placed in the commands array: `Name[11] = 0`, then `strtrim`
and `strlwr`. -/
def normalizeCmd (e : CLI_CmdTypeDef) : CLI_CmdTypeDef :=
  { pHandler := e.pHandler
    Name := __strlwr (__strtrim (e.Name.take (CLI_MAX_COMMAND_NAME_LEN - 1))) }

/-- One pass of the body of the `position` loop of `CLI_BuildTable` on the
array and `cmndsCount`: the duplicate scan, then the copy. -/
def mergeEntry (st : List CLI_CmdTypeDef × Nat) (e : CLI_CmdTypeDef) :
    List CLI_CmdTypeDef × Nat :=
  if (st.1.take st.2).any (fun c => decide (__stricmp c.Name e.Name = 0)) then st
  else (st.1.set st.2 (normalizeCmd e), (st.2 + 1) % 65536)

/-- The loop `for (position = 0; position < instance->items; position++)`,
`position` being a `uint16_t`. -/
def mergeTable : Nat → CLI_TableNode_TypeDef → Nat → List CLI_CmdTypeDef × Nat →
    Option (List CLI_CmdTypeDef × Nat)
  | 0, _, _, _ => none
  | fuel + 1, node, position, st =>
    if position < node.items then
      match node.table[position]? with
      | none => none
      | some e => mergeTable fuel node ((position + 1) % 65536) (mergeEntry st e)
    else some st

/-- The loop `LL_FOREACH(gCliData.cmndsTableHead, instance)` of the merge. -/
def mergeChain (fuel : Nat) : List CLI_TableNode_TypeDef → List CLI_CmdTypeDef × Nat →
    Option (List CLI_CmdTypeDef × Nat)
  | [], st => some st
  | node :: rest, st =>
    match mergeTable fuel node 0 st with
    | none => none
    | some st1 => mergeChain fuel rest st1

/-- The `uint32_t total_items` of `CLI_BuildTable`. -/
def totalItems (chain : List CLI_TableNode_TypeDef) : Nat :=
  (chain.map (fun n => n.items)).sum % 4294967296

/-- `CLI_BuildTable()`: the returned `bool` and the new state.  The size in
bytes of the allocation is not modelled: the array has `total_items + 1`
zero-filled entries when `malloc` succeeds. -/
def CLI_BuildTable (fuel : Nat) (mallocOk : Bool) (s : CLI_DataTypeDef) :
    Option (Bool × CLI_DataTypeDef) :=
  if s.commandsSorted = true ∨ s.cmndsTableHead = [] then some (false, s)
  else if totalItems s.cmndsTableHead = 0 then some (false, s)
  else if mallocOk = false then some (false, { s with cmnds := none })
  else
    match mergeChain fuel s.cmndsTableHead
        (List.replicate (totalItems s.cmndsTableHead + 1) zeroCmd, s.cmndsCount) with
    | none => none
    | some (arr, cnt) =>
      some (true, { s with cmnds := some (qsort (arr.take cnt) ++ arr.drop cnt)
                           cmndsCount := cnt
                           commandsSorted := true })

/-- The registry proper: the first `cmndsCount` entries of the array. -/
def registry (s : CLI_DataTypeDef) : List CLI_CmdTypeDef :=
  match s.cmnds with
  | none => []
  | some arr => arr.take s.cmndsCount

/-! ## Terminal output -/

/-- `CLI_PutByte`: the byte goes out only when a `putc` handler is installed. -/
def CLI_PutByte (c : Nat) (s : CLI_DataTypeDef) : CLI_DataTypeDef :=
  if s.putc = true then { s with trace := s.trace ++ [Event.out c] } else s

/-- A run of `CLI_PutByte` calls. -/
def putBytes (l : List Nat) (s : CLI_DataTypeDef) : CLI_DataTypeDef :=
  if s.putc = true then { s with trace := s.trace ++ l.map Event.out } else s

/-- `CLI_Print(s, len)` on the memory `buf` that starts at `s`. -/
def CLI_Print (buf : List Nat) (len : Nat) (s : CLI_DataTypeDef) : CLI_DataTypeDef :=
  if len = 0 then putBytes (cstr buf) s
  else if len = 1 then CLI_PutByte (buf.headD 0) s
  else putBytes ((cstr buf).take len) s

/-- `CLI_SEND_CRLF()`. -/
def CLI_SEND_CRLF (s : CLI_DataTypeDef) : CLI_DataTypeDef := CLI_Print [13, 10, 0] 2 s

/-- The C library `printf`, `putchar`-free: the bytes go straight to stdout. -/
def printf (l : List Nat) (s : CLI_DataTypeDef) : CLI_DataTypeDef :=
  { s with trace := s.trace ++ l.map Event.out }

/-- The loop `while (addCrLfCnt-- > 0) CLI_SEND_CRLF();`. -/
def crlfTimes : Nat → CLI_DataTypeDef → CLI_DataTypeDef
  | 0, s => s
  | n + 1, s => crlfTimes n (CLI_SEND_CRLF s)

/-- `CLI_PrintPrompt(addCrLfCnt)`; a negative count behaves as 0. -/
def CLI_PrintPrompt (addCrLfCnt : Nat) (s : CLI_DataTypeDef) : CLI_DataTypeDef :=
  if s.locked = false then
    let s1 := crlfTimes addCrLfCnt s
    CLI_Print s1.prompt s1.prmpSize s1
  else s

/-! ## Line slots -/

/-- The buffer `gCliData.line[idx]`. -/
def lineAt (s : CLI_DataTypeDef) (idx : Nat) : List Nat := s.line.getD idx []

/-- The store `gCliData.line[idx][i] = b`. -/
def pokeLine (idx i b : Nat) (s : CLI_DataTypeDef) : CLI_DataTypeDef :=
  { s with line := s.line.set idx ((lineAt s idx).set i b) }

/-! ## The dispatcher: CLI_ParseEndExec -/

/-- `if (gCliData.echo == true) CLI_SEND_CRLF();`. -/
def crlfIfEcho (s : CLI_DataTypeDef) : CLI_DataTypeDef :=
  if s.echo = true then CLI_SEND_CRLF s else s

/-- `if (gCliData.echo == false) CLI_SEND_CRLF();`. -/
def crlfIfNoEcho (s : CLI_DataTypeDef) : CLI_DataTypeDef :=
  if s.echo = false then CLI_SEND_CRLF s else s

/-- The C library `strtok(·, " ")` on the text at the saved pointer: the token
and the text after the delimiter that ended it, or `none` for `NULL`. -/
def strtok (p : List Nat) : Option (List Nat × List Nat) :=
  match p.dropWhile (fun c => c == 32) with
  | [] => none
  | r => some (r.takeWhile (fun c => c != 32), (r.dropWhile (fun c => c != 32)).drop 1)

/-- The `while (1)` loop of `CLI_ParseEndExec` that fills `param`; the inner
`none` is the "Too many arguments" exit. -/
def tokenLoop : Nat → List Nat → List (List Nat) → Option (Option (List (List Nat)))
  | 0, _, _ => none
  | fuel + 1, rest, param =>
    match strtok rest with
    | none => some (some param)
    | some (tok, rest1) =>
      if param.length + 1 > CLI_MAX_NUM_PARAMS - 1 then some none
      else tokenLoop fuel rest1 (param ++ [tok])

/-- The loop `while (i < gCliData.cmndsCount)` of `CLI_ParseEndExec`, with its
`uint8_t i`: the index of the entry whose handler is called, or the inner `none`
when the loop ends with `handled == 0`. -/
def cmdScan (arr : List CLI_CmdTypeDef) (cmndsCount : Nat) (param0 : List Nat) :
    Nat → Nat → Option (Option Nat)
  | 0, _ => none
  | fuel + 1, i =>
    if i < cmndsCount then
      match arr[i]? with
      | none => none
      | some e =>
        if __stricmp param0 e.Name = 0 then some (some i)
        else cmdScan arr cmndsCount param0 fuel ((i + 1) % 256)
    else some none

/-- The "Too many arguments" exit of `CLI_ParseEndExec`. -/
def tooManyArgs (s : CLI_DataTypeDef) : CLI_DataTypeDef :=
  crlfIfEcho (printf (bytes "Too many arguments") s)

/-- The state after the call `pCommand[i].pHandler(paramCount, param)` and the
line breaks around it. -/
def callHandler (pHandler : Nat) (param : List (List Nat)) (s : CLI_DataTypeDef) :
    CLI_DataTypeDef :=
  crlfIfEcho { crlfIfNoEcho s with
    trace := (crlfIfNoEcho s).trace ++ [Event.call pHandler param.length param] }

/-- The `if (!handled)` block of `CLI_ParseEndExec`; after `strtok` the buffer
`line` reads as its leading blanks and the first token. -/
def notRecognized (line tok0 : List Nat) (s : CLI_DataTypeDef) : CLI_DataTypeDef :=
  crlfIfEcho (printf (bytes "'" ++ (line.takeWhile (fun c => c == 32) ++ tok0)
    ++ bytes "' is not recognized as an internal command.\r\n") s)

/-- `CLI_ParseEndExec(pCommand, line)`: the returned `int` and the new state.
`line` is the C string in `argvBuf`.  The test `(paramCount - 1) >= 0` of the
source always holds, so its "Not enough arguments" branch is left out. -/
def CLI_ParseEndExec (H : Nat → Nat → List (List Nat) → Int) (fuel : Nat)
    (pCommand : Option (List CLI_CmdTypeDef)) (line : List Nat) (s : CLI_DataTypeDef) :
    Option (Int × CLI_DataTypeDef) :=
  match pCommand with
  | none => some (0, s)
  | some arr =>
    if line.head? = some 35 then some (-1, s)
    else
      match strtok line with
      | none => some (-1, s)
      | some (tok0, rest) =>
        match tokenLoop fuel rest [tok0] with
        | none => none
        | some none => some (-1, tooManyArgs s)
        | some (some param) =>
          match cmdScan arr s.cmndsCount tok0 fuel 0 with
          | none => none
          | some (some i) =>
            some (H (arr.getD i zeroCmd).pHandler param.length param,
              callHandler (arr.getD i zeroCmd).pHandler param s)
          | some none => some (EXIT_FAILURE, notRecognized line tok0 s)

/-! ## CLI_ExecuteCommand -/

/-- The move to the next history slot in `CLI_ExecuteCommand`. -/
def advanceHistory (s : CLI_DataTypeDef) : CLI_DataTypeDef :=
  { s with
    lineCurrent := ((s.lineCurrent + CLI_MAX_HISTORY_LINES + 1) % 256) % CLI_MAX_HISTORY_LINES
    LineCount := if s.LineCount < CLI_MAX_HISTORY_LINES - 1 then (s.LineCount + 1) % 256
      else s.LineCount }

/-- `gCliData.lineIdx = 0; gCliData.line[gCliData.lineCurrent][0] = '\0';`. -/
def clearCurrent (s : CLI_DataTypeDef) : CLI_DataTypeDef :=
  pokeLine s.lineCurrent 0 0 { s with lineIdx := 0 }

/-- The `uint8_t prev_line_idx` of `CLI_ExecuteCommand`. -/
def prevLineIdx (s : CLI_DataTypeDef) : Nat :=
  ((s.lineCurrent + CLI_MAX_HISTORY_LINES - 1) % 256) % CLI_MAX_HISTORY_LINES

/-- The history step of `CLI_ExecuteCommand` after the command ran. -/
def commitLine (s : CLI_DataTypeDef) : CLI_DataTypeDef :=
  clearCurrent
    (if strcmp (cstr (lineAt s s.lineCurrent)) (cstr (lineAt s (prevLineIdx s))) ≠ 0
     then advanceHistory s else s)

/-- The prompt at the end of `CLI_ExecuteCommand`. -/
def promptUnlessReset (cmdRet : Int) (s : CLI_DataTypeDef) : CLI_DataTypeDef :=
  if cmdRet ≠ CLI_RESET_CMD then
    (if s.echo = true then CLI_PrintPrompt 0 s else CLI_PrintPrompt 1 s)
  else s

/-- The text `strncpy` leaves in `argvBuf`. -/
def argvText (s : CLI_DataTypeDef) : List Nat :=
  (cstr (lineAt s s.lineCurrent)).take (CLI_MAX_LINE_LENGTH + 16 - 1)

/-- `CLI_ExecuteCommand()`. -/
def CLI_ExecuteCommand (H : Nat → Nat → List (List Nat) → Int) (fuel : Nat)
    (s : CLI_DataTypeDef) : Option CLI_DataTypeDef :=
  match s.cmnds with
  | none => some s
  | some arr =>
    if (lineAt (crlfIfEcho s) (crlfIfEcho s).lineCurrent).headD 0 ≠ 0 then
      match CLI_ParseEndExec H fuel (some arr) (argvText (crlfIfEcho s)) (crlfIfEcho s) with
      | none => none
      | some (cmdRet, s2) => some (promptUnlessReset cmdRet (commitLine s2))
    else some (promptUnlessReset 0 (crlfIfEcho s))

/-! ## CLI_SearchChar and CLI_SearchAndExecute -/

/-- The loop `while (__toupper(*sptr) == __toupper(*pptr))` of `__stristr`
for a pattern that is not empty: does the pattern match at `start`? -/
def stristrMatch : List Nat → List Nat → Bool
  | _, [] => true
  | [], _ :: _ => false
  | c :: t, p :: ps => if __toupper c = __toupper p then stristrMatch t ps else false

/-- The `for` loop of `__stristr` over `start`, for a pattern that is not
empty: is the result different from `NULL`? -/
def stristrLoop (pat : List Nat) : List Nat → Bool
  | [] => false
  | c :: t =>
    if (c :: t).length < pat.length then false
    else if __toupper c ≠ __toupper (pat.headD 0) then stristrLoop pat t
    else if stristrMatch (c :: t) pat then true
    else stristrLoop pat t

/-- `__stristr(String, Pattern) != NULL`.  With an empty pattern the C code
reads past the terminator of the pattern: no result. -/
def __stristr (str pat : List Nat) : Option Bool :=
  if pat = [] then none else some (stristrLoop pat str)

/-- The value of a byte read through a plain (signed) `char`. -/
def scharVal (b : Nat) : Int := if b < 128 then (b : Int) else (b : Int) - 256

/-- The binary-search loop of `CLI_SearchChar`; both the `return middle` inside
the loop and the one after it give `middle`. -/
def searchSorted (arr : List CLI_CmdTypeDef) (c : Nat) :
    Nat → Int → Int → Int → Option Int
  | 0, _, _, _ => none
  | fuel + 1, startIndex, count, middle =>
    if startIndex ≤ count then
      match arr[(startIndex + (count - startIndex) / 2).toNat]? with
      | none => none
      | some e =>
        if e.Name.headD 0 = c then some (startIndex + (count - startIndex) / 2)
        else if scharVal (e.Name.headD 0) < scharVal c then
          searchSorted arr c fuel (startIndex + (count - startIndex) / 2 + 1) count
            (startIndex + (count - startIndex) / 2)
        else
          searchSorted arr c fuel startIndex (startIndex + (count - startIndex) / 2 - 1)
            (startIndex + (count - startIndex) / 2)
    else some middle

/-- The linear loop of `CLI_SearchChar` (`int32_t i`, `found` starts at -1). -/
def searchLinear (arr : List CLI_CmdTypeDef) (cmndsCount : Nat) (searched : List Nat) :
    Nat → Nat → Option Int
  | 0, _ => none
  | fuel + 1, i =>
    if i < cmndsCount then
      match arr[i]? with
      | none => none
      | some e =>
        match __stristr searched e.Name with
        | none => none
        | some true => some (i : Int)
        | some false => searchLinear arr cmndsCount searched fuel (i + 1)
    else some (-1)

/-- `CLI_SearchChar(pCommand, startIndex, count, searched, matchAll, sorted)`;
`searched` is the C string pointed to, `cmndsCount` is `gCliData.cmndsCount`. -/
def CLI_SearchChar (fuel : Nat) (cmndsCount : Nat) (pCommand : Option (List CLI_CmdTypeDef))
    (startIndex count : Int) (searched : List Nat) (matchAll sorted : Bool) : Option Int :=
  match pCommand with
  | none => some (-1)
  | some arr =>
    if count = 0 ∨ startIndex > count ∨ searched = [] then some (-1)
    else if sorted = true then searchSorted arr (searched.headD 0) fuel startIndex count (-1)
    else if matchAll = true then searchLinear arr cmndsCount searched fuel 0
    else some 0

/-- The "fast verification" of `CLI_SearchAndExecute`: the value of
`CLI_SearchChar` for a line that is not empty, 0 (not -1) for an empty one. -/
def worthExecuting (fuel : Nat) (s : CLI_DataTypeDef) : Option Int :=
  if (lineAt s s.lineCurrent).headD 0 ≠ 0 then
    CLI_SearchChar fuel s.cmndsCount s.cmnds 0 (s.cmndsCount : Int)
      (cstr (lineAt s s.lineCurrent)) true s.commandsSorted
  else some 0

/-- The `else` branch of `CLI_SearchAndExecute`: nothing to execute. -/
def rejectLine (s : CLI_DataTypeDef) : CLI_DataTypeDef :=
  CLI_PrintPrompt 1
    (if (lineAt s s.lineCurrent).headD 0 ≠ 0 then
      clearCurrent (printf (bytes "\r\n'" ++ cstr (lineAt s s.lineCurrent)
        ++ bytes "' is not recognized as an internal command.\r\n") s)
     else s)

/-- `CLI_SearchAndExecute()`: the returned `bool` and the new state. -/
def CLI_SearchAndExecute (H : Nat → Nat → List (List Nat) → Int) (fuel : Nat)
    (s : CLI_DataTypeDef) : Option (Bool × CLI_DataTypeDef) :=
  if s.initialized = false then some (false, s)
  else
    match worthExecuting fuel s with
    | none => none
    | some r =>
      if r ≠ -1 then
        match CLI_ExecuteCommand H fuel s with
        | none => none
        | some s1 => some (true, s1)
      else some (false, rejectLine s)

/-! ## The tab completer -/

/-- The `for` loop of `CLI_MatchChars`. -/
def matchLoop : List Nat → List Nat → Nat → Nat
  | a :: as, b :: bs, i => if a ≠ b then i else matchLoop as bs (i + 1)
  | _, _, _ => 0

/-- `CLI_MatchChars(a, b)`; the lengths are cast to `uint8_t`. -/
def CLI_MatchChars (a b : List Nat) : Nat :=
  matchLoop (a.take (min (a.length % 256) (b.length % 256)))
    (b.take (min (a.length % 256) (b.length % 256))) 0

/-- The C library `strncmp(a, b, n) == 0`. -/
def strncmpEq (a b : List Nat) (n : Nat) : Bool := decide (strcmp (a.take n) (b.take n) = 0)

/-- The collecting loop `while (i < cmndsCount && completionCount < 32)` of
`CLI_TabCompleter`, with its `uint8_t i`; the result is `completion[]`. -/
def completionLoop (arr : List CLI_CmdTypeDef) (cmndsCount : Nat) (cmpLine : List Nat)
    (cmpLen : Nat) : Nat → Nat → List (List Nat) → Option (List (List Nat))
  | 0, _, _ => none
  | fuel + 1, i, completion =>
    if i < cmndsCount ∧ completion.length < CLI_MAX_COMPLETIONS then
      match arr[i]? with
      | none => none
      | some e =>
        completionLoop arr cmndsCount cmpLine cmpLen fuel ((i + 1) % 256)
          (if cmpLen > 0 ∧ strncmpEq e.Name cmpLine cmpLen = true then completion ++ [e.Name]
           else completion)
    else some completion

/-- The loop `for (i = 1; i < completionCount; i++)` that narrows `plen`. -/
def narrowPlen (lcd : List Nat) (cmpLen : Nat) : List (List Nat) → Nat → Nat
  | [], plen => plen
  | c :: rest, plen =>
    narrowPlen lcd cmpLen rest
      (if CLI_MatchChars lcd (c.drop cmpLen) < plen then CLI_MatchChars lcd (c.drop cmpLen)
       else plen)

/-- The final `plen` of `CLI_TabCompleter` for the candidates `c0 :: rest`. -/
def completionPlen (cmpLen : Nat) (c0 : List Nat) (rest : List (List Nat)) : Nat :=
  narrowPlen (c0.drop cmpLen) cmpLen rest ((c0.drop cmpLen).length % 256)

/-- `memcpy(dst, src, n)` into a buffer from a C string followed by zeros. -/
def memcpyStr (dst src : List Nat) (n : Nat) : List Nat :=
  ((src ++ List.replicate n 0).take n ++ dst.drop n).take dst.length

/-- `gCliData.lineIdx = cmpLen + plen; memcpy(line, completion[0], lineIdx);
line[lineIdx] = '\0';`. -/
def rewriteLine (c0 : List Nat) (idx : Nat) (s : CLI_DataTypeDef) : CLI_DataTypeDef :=
  pokeLine s.lineCurrent idx 0
    { s with lineIdx := idx
             line := s.line.set s.lineCurrent (memcpyStr (lineAt s s.lineCurrent) c0 idx) }

/-- `line[gCliData.lineIdx++] = ' '; line[gCliData.lineIdx] = '\0';`. -/
def appendSpace (s : CLI_DataTypeDef) : CLI_DataTypeDef :=
  pokeLine s.lineCurrent ((s.lineIdx + 1) % 256) 0
    (pokeLine s.lineCurrent s.lineIdx 32 { s with lineIdx := (s.lineIdx + 1) % 256 })

/-- The listing loop of `CLI_TabCompleter`: `display` counts the names of the
row; the name is the last one when none is left after it. -/
def listLoop : List (List Nat) → Nat → CLI_DataTypeDef → CLI_DataTypeDef
  | [], _, s => s
  | c :: rest, display, s =>
    if display + 1 = 3 ∧ rest ≠ [] then
      listLoop rest 0
        (crlfIfEcho (CLI_Print (c ++ List.replicate (19 - c.length) 32 ++ [0]) (max c.length 19) s))
    else
      listLoop rest (display + 1)
        (printf [32] (CLI_Print (c ++ List.replicate (19 - c.length) 32 ++ [0])
          (max c.length 19) s))

/-- `CLI_Print(line, 0)` on the current line. -/
def printLine (s : CLI_DataTypeDef) : CLI_DataTypeDef :=
  CLI_Print (lineAt s s.lineCurrent) 0 s

/-- The `else` branch of `if (plen != 0)`: the multi-column listing. -/
def showListing (completion : List (List Nat)) (s : CLI_DataTypeDef) : CLI_DataTypeDef :=
  printLine (CLI_PrintPrompt 1 (crlfIfEcho (listLoop completion 0 (crlfIfEcho s))))

/-- The output at the end of `CLI_TabCompleter`. -/
def completionOutput (plen cmpLen : Nat) (completion : List (List Nat))
    (s : CLI_DataTypeDef) : CLI_DataTypeDef :=
  if plen ≠ 0 then CLI_Print ((lineAt s s.lineCurrent).drop cmpLen) 0 s
  else showListing completion s

/-- The block `if (completionCount > 0)` of `CLI_TabCompleter` for the
candidates `c0 :: rest`. -/
def applyCompletion (cmpLen : Nat) (c0 : List Nat) (rest : List (List Nat))
    (s : CLI_DataTypeDef) : CLI_DataTypeDef :=
  completionOutput (completionPlen cmpLen c0 rest) cmpLen (c0 :: rest)
    (if rest = [] then
      appendSpace (rewriteLine c0 ((cmpLen + completionPlen cmpLen c0 rest) % 256) s)
     else rewriteLine c0 ((cmpLen + completionPlen cmpLen c0 rest) % 256) s)

/-- The first-letter search `CLI_TabCompleter` runs on a sorted array; 0 when
the array is not sorted. -/
def tabPreSearch (fuel : Nat) (arr : List CLI_CmdTypeDef) (s : CLI_DataTypeDef) : Option Int :=
  if s.commandsSorted = true then
    CLI_SearchChar fuel s.cmndsCount (some arr) 0 (s.cmndsCount : Int)
      (cstr (lineAt s s.lineCurrent)) false s.commandsSorted
  else some 0

/-- `CLI_TabCompleter(cmpLine, cmpLen)` called on the current line: the
returned count and the new state. -/
def CLI_TabCompleter (fuel : Nat) (cmpLen : Nat) (s : CLI_DataTypeDef) :
    Option (Nat × CLI_DataTypeDef) :=
  match s.cmnds with
  | none => some (0, s)
  | some arr =>
    match tabPreSearch fuel arr s with
    | none => none
    | some r =>
      if s.commandsSorted = true ∧ r = -1 then some (0, s)
      else
        match completionLoop arr s.cmndsCount (cstr (lineAt s s.lineCurrent)) cmpLen fuel 0 [] with
        | none => none
        | some [] => some (0, s)
        | some (c0 :: rest) => some ((c0 :: rest).length, applyCompletion cmpLen c0 rest s)

/-! ## Line editing and history -/

/-- The `do ... while (sum && (i < (len - 1)))` loop of `__itoa`; the first
argument bounds the number of passes (`len` passes are never needed). -/
def itoaLoop (base len : Int) : Nat → Int → Nat → List Nat → Int × Nat × List Nat
  | 0, sum, i, str => (sum, i, str)
  | n + 1, sum, i, str =>
    if Int.tdiv sum base ≠ 0 ∧ ((i : Int) + 1 < len - 1) then
      itoaLoop base len n (Int.tdiv sum base) (i + 1)
        (str.set i (if Int.tmod sum base < 10 then 48 + Int.tmod sum base
          else 65 + Int.tmod sum base - 10).toNat)
    else (Int.tdiv sum base, i + 1,
        str.set i (if Int.tmod sum base < 10 then 48 + Int.tmod sum base
          else 65 + Int.tmod sum base - 10).toNat)

/-- `__strrev` on the C string of a buffer. -/
def __strrev (str : List Nat) : List Nat :=
  (cstr str).reverse ++ str.drop (cstr str).length

/-- `__itoa(num, str, base)`: the returned `int` and the buffer. -/
def __itoa (num : Int) (str : List Nat) (base : Int) : Int × List Nat :=
  if ((itoaLoop base ((cstr str).length : Int) ((cstr str).length + 1) num 0 str).2.1 : Int)
      = ((cstr str).length : Int) - 1
      ∧ (itoaLoop base ((cstr str).length : Int) ((cstr str).length + 1) num 0 str).1 ≠ 0 then
    (-1, (itoaLoop base ((cstr str).length : Int) ((cstr str).length + 1) num 0 str).2.2)
  else
    (0, __strrev
      ((itoaLoop base ((cstr str).length : Int) ((cstr str).length + 1) num 0 str).2.2.set
        (itoaLoop base ((cstr str).length : Int) ((cstr str).length + 1) num 0 str).2.1 0))

/-- `CLI_EraseChar()`. -/
def CLI_EraseChar (s : CLI_DataTypeDef) : CLI_DataTypeDef :=
  if s.lineIdx ≠ 0 then
    CLI_Print [8, 32, 8, 0] 3 (pokeLine s.lineCurrent (s.lineIdx - 1) 0
      { s with lineIdx := s.lineIdx - 1 })
  else s

/-- The buffer `lenVal` of `CLI_EraseLine` after the call of the `itoa` handler. -/
def eraseLenVal (s : CLI_DataTypeDef) : List Nat :=
  (__itoa ((s.prmpSize : Int) + (s.lineIdx : Int)) (List.replicate 8 0) 10).2

/-- `CLI_EraseLine()`. -/
def CLI_EraseLine (s : CLI_DataTypeDef) : CLI_DataTypeDef :=
  CLI_Print [68, 27, 91, 75, 0] 4
    (CLI_Print (eraseLenVal s) (cstr (eraseLenVal s)).length (CLI_Print [27, 91, 0] 3 s))

/-- The `uint8_t history_idx` of `cliRetrieveHistory`. -/
def historyIdx (s : CLI_DataTypeDef) : Nat :=
  (((s.lineCurrent : Int) + (CLI_MAX_HISTORY_LINES : Int) - (s.LineBack : Int)) % 256).toNat
    % CLI_MAX_HISTORY_LINES

/-- The copy loop of `cliRetrieveHistory` and the terminator after it. -/
def copyHistoryLine (s : CLI_DataTypeDef) : CLI_DataTypeDef :=
  { s with
    lineIdx := (cstr (lineAt s (historyIdx s))).length % 256
    line := s.line.set s.lineCurrent
      ((cstr (lineAt s (historyIdx s)) ++
          0 :: (lineAt s s.lineCurrent).drop ((cstr (lineAt s (historyIdx s))).length + 1)).take
        (lineAt s s.lineCurrent).length) }

/-- `len = strlen(line); CLI_Print(line, len);` on the current line. -/
def printLineLen (s : CLI_DataTypeDef) : CLI_DataTypeDef :=
  CLI_Print (lineAt s s.lineCurrent) (cstr (lineAt s s.lineCurrent)).length s

/-- `cliRetrieveHistory()`: the returned `bool` and the new state. -/
def cliRetrieveHistory (s : CLI_DataTypeDef) : Bool × CLI_DataTypeDef :=
  (true, printLineLen (CLI_PrintPrompt 0 (copyHistoryLine (CLI_EraseLine s))))

/-! ## The byte processor -/

/-- `CLI_TaskAlert()` (cli_task.c): the call is recorded. -/
def CLI_TaskAlert (s : CLI_DataTypeDef) : CLI_DataTypeDef :=
  { s with trace := s.trace ++ [Event.alert] }

/-- `gCliData.CurrentEscapeSequence[gCliData.CurrentEscapeSequenceCount++] = c;`. -/
def escAccumulate (c : Nat) (s : CLI_DataTypeDef) : CLI_DataTypeDef :=
  { s with
    CurrentEscapeSequence := s.CurrentEscapeSequence.set s.CurrentEscapeSequenceCount c
    CurrentEscapeSequenceCount := (s.CurrentEscapeSequenceCount + 1) % 256 }

/-- The rules of `escapeSequence` whose string agrees with the accumulated
bytes (`strncmp(..., CurrentEscapeSequenceCount) == 0`), in table order. -/
def escMatches (s : CLI_DataTypeDef) : List CLI_EscTypeDef :=
  s.escapeSequence.filter
    (fun r => strncmpEq (cstr s.CurrentEscapeSequence) r.string s.CurrentEscapeSequenceCount)

/-- `CLI_ProcessEscapeSequnceChar(c)`: the returned code and the new state. -/
def CLI_ProcessEscapeSequnceChar (c : Nat) (s : CLI_DataTypeDef) : Nat × CLI_DataTypeDef :=
  match escMatches (escAccumulate c s) with
  | [] => (0, { escAccumulate c s with receivingEscapeSequence := false })
  | [r] => (r.value, { escAccumulate c s with receivingEscapeSequence := false })
  | _ => (0, escAccumulate c s)

/-- The C library `tolower` on a byte below 128. -/
def tolower (c : Nat) : Nat := if 65 ≤ c ∧ c ≤ 90 then c + 32 else c

/-- `case '\033'`. -/
def keyEscape (s : CLI_DataTypeDef) : CLI_DataTypeDef :=
  { s with CurrentEscapeSequenceCount := 0, receivingEscapeSequence := true }

/-- `case '\r'`. -/
def keyReturn (s : CLI_DataTypeDef) : CLI_DataTypeDef :=
  { (if s.locked = true then clearCurrent s
     else CLI_TaskAlert { s with execType := CLI_ExecTypeDef.CLI_Exec_SearchAndExec }) with
    LineBack := 0 }

/-- `case '\t'` and `case CLI_TAB`. -/
def keyTab (s : CLI_DataTypeDef) : CLI_DataTypeDef :=
  if s.lineIdx > 0 then
    { CLI_TaskAlert { s with execType := CLI_ExecTypeDef.CLI_Exec_AutoComplete } with
      LineBack := 0 }
  else s

/-- `case '\b'`. -/
def keyBackspace (s : CLI_DataTypeDef) : CLI_DataTypeDef :=
  { CLI_EraseChar s with LineBack := 0 }

/-- `case CLI_ARROW_DOWN`. -/
def keyDown (s : CLI_DataTypeDef) : CLI_DataTypeDef :=
  if s.LineBack ≠ 0 then
    CLI_TaskAlert { s with LineBack := s.LineBack - 1
                           execType := CLI_ExecTypeDef.CLI_Exec_RetrieveHistory }
  else s

/-- `case CLI_ARROW_UP`. -/
def keyUp (s : CLI_DataTypeDef) : CLI_DataTypeDef :=
  if s.LineBack < s.LineCount then
    CLI_TaskAlert { s with LineBack := (s.LineBack + 1) % 256
                           execType := CLI_ExecTypeDef.CLI_Exec_RetrieveHistory }
  else s

/-- The byte stored by the `default` case: lower-cased when configured. -/
def lowerIfAuto (c : Nat) (s : CLI_DataTypeDef) : Nat :=
  if s.autoLowerCase = true then tolower c else c

/-- The echo of the `default` case. -/
def echoChar (c : Nat) (s : CLI_DataTypeDef) : CLI_DataTypeDef :=
  if s.echo = true ∧ s.locked = false then CLI_Print [c] 1 s else s

/-- `line[lineCurrent][lineIdx++] = c; line[lineCurrent][lineIdx] = '\0';`. -/
def storeChar (c : Nat) (s : CLI_DataTypeDef) : CLI_DataTypeDef :=
  pokeLine s.lineCurrent ((s.lineIdx + 1) % 256) 0
    (pokeLine s.lineCurrent s.lineIdx c { s with lineIdx := (s.lineIdx + 1) % 256 })

/-- The `default` case. -/
def keyDefault (c : Nat) (s : CLI_DataTypeDef) : CLI_DataTypeDef :=
  { (if s.lineIdx < CLI_MAX_LINE_LENGTH - 1 then
       storeChar (lowerIfAuto c s) (echoChar (lowerIfAuto c s) s)
     else { s with lineIdx := 0 }) with
    LineBack := 0 }

/-- The `switch (c)` of `CLI_ProcessChar`. -/
def processKey (c : Nat) (s : CLI_DataTypeDef) : CLI_DataTypeDef :=
  if c = 27 then keyEscape s
  else if c = 13 then keyReturn s
  else if c = 9 then keyTab s
  else if c = 8 then keyBackspace s
  else if c = CLI_ARROW_DOWN then keyDown s
  else if c = CLI_ARROW_UP then keyUp s
  else if c = CLI_ARROW_RIGHT then s
  else if c = CLI_ARROW_LEFT then s
  else if c = CLI_TAB then keyTab s
  else keyDefault c s

/-- `CLI_ProcessChar(c)`: the returned `bool` (`commandTriggered` is never
set) and the new state. -/
def CLI_ProcessChar (c : Nat) (s : CLI_DataTypeDef) : Bool × CLI_DataTypeDef :=
  if s.initialized = false ∨ c = 0 ∨ c ≥ 128
      ∨ s.execType ≠ CLI_ExecTypeDef.CLI_Exec_Nothing then (false, s)
  else if s.cmnds = none then (false, s)
  else if s.receivingEscapeSequence = true then
    if (CLI_ProcessEscapeSequnceChar c s).1 = 0 then (false, (CLI_ProcessEscapeSequnceChar c s).2)
    else (false, processKey (CLI_ProcessEscapeSequnceChar c s).1 (CLI_ProcessEscapeSequnceChar c s).2)
  else (false, processKey c s)

/-- The `switch (gCliData.execType)` of `CLI_ProcessState`. -/
def runPending (H : Nat → Nat → List (List Nat) → Int) (fuel : Nat)
    (s : CLI_DataTypeDef) : Option (Bool × CLI_DataTypeDef) :=
  match s.execType with
  | CLI_ExecTypeDef.CLI_Exec_SearchAndExec => CLI_SearchAndExecute H fuel s
  | CLI_ExecTypeDef.CLI_Exec_AutoComplete =>
    match CLI_TabCompleter fuel s.lineIdx s with
    | none => none
    | some (n, s1) => some (decide (n ≠ 0), s1)
  | CLI_ExecTypeDef.CLI_Exec_RetrieveHistory => some (cliRetrieveHistory s)
  | CLI_ExecTypeDef.CLI_Exec_Nothing => some (false, s)

/-- `CLI_ProcessState()`: the returned `bool` and the new state. -/
def CLI_ProcessState (H : Nat → Nat → List (List Nat) → Int) (fuel : Nat)
    (s : CLI_DataTypeDef) : Option (Bool × CLI_DataTypeDef) :=
  if s.initialized = false then some (false, s)
  else
    match runPending H fuel s with
    | none => none
    | some (retVal, s1) =>
      some (retVal, { s1 with execType := CLI_ExecTypeDef.CLI_Exec_Nothing })

/-- `CLI_ResetState()`. -/
def CLI_ResetState (s : CLI_DataTypeDef) : CLI_DataTypeDef :=
  if s.initialized = false then s
  else
    { s with
      line := List.replicate CLI_MAX_HISTORY_LINES (List.replicate (CLI_MAX_LINE_LENGTH + 16) 0)
      lineIdx := 0
      lineCurrent := 0
      LineCount := 0
      LineBack := 0 }

/-- The fields of `CLI_InitTypeDef` the engine reads; `putc` tells whether the
`putc` handler is set, the other handlers are the functions of text_utils.c as
main.c installs them. -/
structure CLI_InitTypeDef where
  putc : Bool
  printPrompt : Bool
  autoLowerCase : Bool
  echo : Bool
  prompt : List Nat
  deriving DecidableEq, Repr

/-- The rule set `CLI_Init` installs for an echo setting. -/
def escapeRules (echo : Bool) : List CLI_EscTypeDef :=
  if echo = true then
    [⟨[91, 65], CLI_ARROW_UP⟩, ⟨[91, 66], CLI_ARROW_DOWN⟩, ⟨[91, 67], CLI_ARROW_RIGHT⟩,
     ⟨[91, 68], CLI_ARROW_LEFT⟩]
  else
    [⟨[84], CLI_TAB⟩, ⟨[65], CLI_ARROW_UP⟩, ⟨[66], CLI_ARROW_DOWN⟩, ⟨[67], CLI_ARROW_RIGHT⟩,
     ⟨[68], CLI_ARROW_LEFT⟩]

/-- The text `snprintf(Prompt, CLI_MAX_PROMPT + 1, "%s>", cliInit->prompt)` writes. -/
def promptText (cfg : CLI_InitTypeDef) : List Nat :=
  (cstr cfg.prompt ++ [62]).take CLI_MAX_PROMPT

/-- The stores of `CLI_Init` into `gCliData` before the prompt is printed. -/
def storeConfig (cfg : CLI_InitTypeDef) (s : CLI_DataTypeDef) : CLI_DataTypeDef :=
  { s with
    putc := cfg.putc
    autoLowerCase := cfg.autoLowerCase
    echo := cfg.echo
    escapeSequence := escapeRules cfg.echo
    prompt := (promptText cfg ++ List.replicate (CLI_MAX_PROMPT + 1) 0).take (CLI_MAX_PROMPT + 1)
      ++ s.prompt.drop (CLI_MAX_PROMPT + 1)
    prmpSize := (promptText cfg).length }

/-- `CLI_Init(cliInit)`: the returned `bool` and the new state.  The start of
the worker thread by `CLI_InitTask` is outside the state. -/
def CLI_Init (cliInit : Option CLI_InitTypeDef) (s : CLI_DataTypeDef) : Bool × CLI_DataTypeDef :=
  match cliInit with
  | none => (false, s)
  | some cfg =>
    if s.initialized = true then (false, s)
    else
      (true, { (if cfg.printPrompt = true then CLI_PrintPrompt 1 (storeConfig cfg s)
                else storeConfig cfg s) with initialized := true })

/-! ## Reachable states -/

/-- The states the engine can be in: from the zeroed `gCliData`, any sequence
of calls of the exported functions, with any allocation outcome, any handler
results and any fuel that lets the call return. -/
inductive Reachable (H : Nat → Nat → List (List Nat) → Int) : CLI_DataTypeDef → Prop where
  | start : Reachable H gCliData0
  | init (cliInit : Option CLI_InitTypeDef) (s : CLI_DataTypeDef) :
      Reachable H s → Reachable H (CLI_Init cliInit s).2
  | inject (mallocOk : Bool) (table : Option (List CLI_CmdTypeDef)) (items : Int)
      (s : CLI_DataTypeDef) : Reachable H s → Reachable H (CLI_InjectCommands mallocOk table items s).2
  | build (fuel : Nat) (mallocOk b : Bool) (s s1 : CLI_DataTypeDef) :
      Reachable H s → CLI_BuildTable fuel mallocOk s = some (b, s1) → Reachable H s1
  | char (c : Nat) (s : CLI_DataTypeDef) : Reachable H s → Reachable H (CLI_ProcessChar c s).2
  | state (fuel : Nat) (b : Bool) (s s1 : CLI_DataTypeDef) :
      Reachable H s → CLI_ProcessState H fuel s = some (b, s1) → Reachable H s1
  | reset (s : CLI_DataTypeDef) : Reachable H s → Reachable H (CLI_ResetState s)

/-! ## Sample inputs -/

/-- The table `{h1, "help"}, {h2, " help"}`. -/
def tableHelpSpace : List CLI_CmdTypeDef := [⟨1, bytes "help"⟩, ⟨2, bytes " help"⟩]

/-- The table `{h1, " help"}, {h2, " HELP"}`. -/
def tableSpaceHelpTwice : List CLI_CmdTypeDef := [⟨1, bytes " help"⟩, ⟨2, bytes " HELP"⟩]

/-- The table of the demo (clicmds.c), with handlers numbered 1 to 4. -/
def gCliBaseCommands : List CLI_CmdTypeDef :=
  [⟨1, bytes "?"⟩, ⟨1, bytes "help"⟩, ⟨2, bytes "exit"⟩, ⟨3, bytes "reset"⟩,
   ⟨4, bytes "version"⟩]

/-- The configuration main.c passes to `CLI_Init`. -/
def demoInit : CLI_InitTypeDef :=
  { putc := true, printPrompt := true, autoLowerCase := false, echo := true,
    prompt := bytes "Intel" }

/-- The demo after `CLI_Init` and `cli_addCommands`. -/
def demoInjected : CLI_DataTypeDef :=
  (CLI_InjectCommands true (some gCliBaseCommands) 5 (CLI_Init (some demoInit) gCliData0).2).2

/-! ## Vocabulary of the claims -/

/-- The handler invocations recorded in a trace. -/
def calls (t : List Event) : List Event :=
  t.filter (fun e => match e with
    | Event.call _ _ _ => true
    | _ => false)

/-- The space-separated non-empty tokens of a text. -/
def tokens (l : List Nat) : List (List Nat) := (l.splitOn 32).filter (fun t => t ≠ [])

/-- The state after the bytes of `l` went through `CLI_ProcessChar`. -/
def typeBytes (l : List Nat) (s : CLI_DataTypeDef) : CLI_DataTypeDef :=
  l.foldl (fun st c => (CLI_ProcessChar c st).2) s

/-! ## More sample inputs -/

/-- The demo after `CLI_BuildTable`. -/
def demoBuilt : CLI_DataTypeDef :=
  match CLI_BuildTable 6 true demoInjected with
  | some (_, s) => s
  | none => demoInjected

/-- The name of entry `i` of the large table: two letters. -/
def bigName (i : Nat) : List Nat := [97 + i / 26, 97 + i % 26]

/-- A table of 257 commands with distinct names, in ascending order. -/
def bigTable : List CLI_CmdTypeDef := (List.range 257).map (fun i => ⟨i + 1, bigName i⟩)

/-- The engine after `CLI_Init` and the injection of the large table. -/
def bigInjected : CLI_DataTypeDef :=
  (CLI_InjectCommands true (some bigTable) 257 (CLI_Init (some demoInit) gCliData0).2).2

/-- The state `CLI_BuildTable` reaches from `bigInjected`. -/
def bigBuilt : CLI_DataTypeDef :=
  { bigInjected with
    cmnds := some (bigTable ++ [zeroCmd]), cmndsCount := 257, commandsSorted := true }

/-- A handler oracle: every handler returns 0. -/
def H0 : Nat → Nat → List (List Nat) → Int := fun _ _ _ => 0

/-- A line of 14 tokens, the first one the demo command `help`. -/
def line14 : List Nat := bytes "help 2 3 4 5 6 7 8 9 10 11 12 13 14"

/-- A line of 15 tokens, the first one the demo command `help`. -/
def line15 : List Nat := bytes "help 2 3 4 5 6 7 8 9 10 11 12 13 14 15"

/-- A line of 16 tokens, the first one the demo command `help`. -/
def line16 : List Nat := bytes "help 2 3 4 5 6 7 8 9 10 11 12 13 14 15 16"

/-- A line of 16 tokens that starts with the comment marker. -/
def hashLine16 : List Nat := bytes "# 2 3 4 5 6 7 8 9 10 11 12 13 14 15 16"

/-- Two states that differ at most in the trace. -/
def TraceOnly (s s1 : CLI_DataTypeDef) : Prop := { s1 with trace := s.trace } = s

/-- The bytes `CLI_Print(s, len)` hands to `CLI_PutByte`. -/
def printed (buf : List Nat) (len : Nat) : List Nat :=
  if len = 0 then cstr buf else if len = 1 then [buf.headD 0] else (cstr buf).take len

/-- The trace of bytes sent through `CLI_PutByte`: nothing without a `putc` handler. -/
def outs (putc : Bool) (l : List Nat) : List Event :=
  if putc = true then l.map Event.out else []

/-- The demo engine with the comment line `#help` typed in. -/
def demoHashTyped : CLI_DataTypeDef := typeBytes (bytes "#help") demoBuilt

/-- The demo engine right after the escape introducer was typed. -/
def demoInEscape : CLI_DataTypeDef := typeBytes [27] demoBuilt

/-! ## Well-formed engine states -/

/-- The history ring `line[10][96]`: ten buffers of 96 bytes, each holding a
text of at most 79 characters and still zero from byte 80 on, and a current
slot index below 10. -/
def SlotsOk (s : CLI_DataTypeDef) : Prop :=
  s.line.length = CLI_MAX_HISTORY_LINES ∧ s.lineCurrent < CLI_MAX_HISTORY_LINES ∧
  ∀ b ∈ s.line, b.length = CLI_MAX_LINE_LENGTH + 16 ∧ (cstr b).length ≤ CLI_MAX_LINE_LENGTH - 1
    ∧ b.drop CLI_MAX_LINE_LENGTH = List.replicate 16 0

/-- The line index does not pass the terminator of the current line. -/
def IdxOk (s : CLI_DataTypeDef) : Prop := s.lineIdx ≤ (cstr (lineAt s s.lineCurrent)).length

/-- The names in the commands array are texts of at most 11 characters. -/
def NamesOk (s : CLI_DataTypeDef) : Prop :=
  ∀ arr, s.cmnds = some arr →
    ∀ e ∈ arr, e.Name.length ≤ CLI_MAX_COMMAND_NAME_LEN - 1 ∧ ∀ x ∈ e.Name, x ≠ 0

/-- The history counters: the step-back counter is at most the filled count,
the filled count at most `CLI_MAX_HISTORY_LINES - 1`. -/
def HistOk (s : CLI_DataTypeDef) : Prop :=
  s.LineBack ≤ s.LineCount ∧ s.LineCount ≤ CLI_MAX_HISTORY_LINES - 1

/-- The four properties together. -/
def Inv (s : CLI_DataTypeDef) : Prop := SlotsOk s ∧ IdxOk s ∧ NamesOk s ∧ HistOk s

/-! ## Vocabulary of the escape sequences -/

/-- The state in escape mode after the introducer and the bytes of `acc` went
into the accumulator. -/
def escFeed (acc : List Nat) (s : CLI_DataTypeDef) : CLI_DataTypeDef :=
  acc.foldl (fun st c => escAccumulate c st) (keyEscape s)

/-- The state back in normal mode with the bytes of `acc` left in the
accumulator. -/
def escExit (acc : List Nat) (s : CLI_DataTypeDef) : CLI_DataTypeDef :=
  { escFeed acc s with receivingEscapeSequence := false }

/-- The rules whose string starts with the bytes accumulated so far. -/
def rulesFor (rules : List CLI_EscTypeDef) (acc : List Nat) : List CLI_EscTypeDef :=
  rules.filter (fun r => strncmpEq acc r.string acc.length)

/-- An engine that accepts input: initialised, commands array built, no action
pending, not in escape mode, with the accumulator `CurrentEscapeSequence[10]`. -/
def Listening (s : CLI_DataTypeDef) : Prop :=
  s.initialized = true ∧ s.cmnds ≠ none ∧ s.execType = CLI_ExecTypeDef.CLI_Exec_Nothing ∧
  s.receivingEscapeSequence = false ∧ s.CurrentEscapeSequence.length = CLI_MAX_ESCAPE

/-! ## Vocabulary of the history claims -/

/-- A byte that the `default` case of `CLI_ProcessChar` stores in the line:
from 1 to 127 and none of ESC, CR, TAB and BS. -/
@[reducible]
def plainByte (c : Nat) : Prop := c ≠ 0 ∧ c < 128 ∧ c ≠ 27 ∧ c ≠ 13 ∧ c ≠ 9 ∧ c ≠ 8

/-- The text of the current line. -/
def currentText (s : CLI_DataTypeDef) : List Nat := cstr (lineAt s s.lineCurrent)

/-- The text in the slot `k` places before the current one in the ring. -/
def textBack (s : CLI_DataTypeDef) (k : Nat) : List Nat :=
  cstr (lineAt s ((s.lineCurrent + CLI_MAX_HISTORY_LINES - k) % CLI_MAX_HISTORY_LINES))

/-- The bytes a terminal sends for the up arrow under the rule set of an echo
setting. -/
def keysUp (echo : Bool) : List Nat := if echo = true then [27, 91, 65] else [27, 65]

/-- The bytes a terminal sends for the down arrow under the rule set of an echo
setting. -/
def keysDown (echo : Bool) : List Nat := if echo = true then [27, 91, 66] else [27, 66]

/-- The state after the bytes of `l` arrived and the worker ran
`CLI_ProcessState`; `none` when the worker does not return. -/
def feed (H : Nat → Nat → List (List Nat) → Int) (fuel : Nat) (l : List Nat)
    (s : CLI_DataTypeDef) : Option CLI_DataTypeDef :=
  match CLI_ProcessState H fuel (typeBytes l s) with
  | none => none
  | some (_, s1) => some s1

/-- `k` presses of the up arrow, the worker running after each one. -/
def pressUp (H : Nat → Nat → List (List Nat) → Int) (fuel : Nat) :
    Nat → CLI_DataTypeDef → Option CLI_DataTypeDef
  | 0, s => some s
  | k + 1, s =>
    match feed H fuel (keysUp s.echo) s with
    | none => none
    | some s1 => pressUp H fuel k s1

/-- The engine is ready for a line: well formed, initialised with the rule set
of its echo setting, commands array built, unlocked, no action pending, not in
escape mode, the current line empty, the line index and the step-back counter
at 0. -/
def Ready (s : CLI_DataTypeDef) : Prop :=
  Inv s ∧ Listening s ∧ s.locked = false ∧ s.escapeSequence = escapeRules s.echo ∧
  s.LineBack = 0 ∧ s.lineIdx = 0 ∧ currentText s = []

/-- The ring holds the committed lines `L`, most recent first: the filled count
is their number, capped at 9, and the slot `k + 1` places before the current one
holds line `k` of `L`. -/
def HistoryOf (L : List (List Nat)) (s : CLI_DataTypeDef) : Prop :=
  s.LineCount = min L.length (CLI_MAX_HISTORY_LINES - 1) ∧
  ∀ k, k < min L.length (CLI_MAX_HISTORY_LINES - 1) → textBack s (k + 1) = L.getD k []

/-- The engine states after the lines of `L` (most recent first) were
committed: from a ready engine whose slots are all empty and whose filled count
is 0, each line is typed byte by byte, stored as the `default` case stores it,
not empty, at most 79 characters long and different from the line committed
before it, then sent with a carriage return, and the worker executes it. -/
inductive Committed (H : Nat → Nat → List (List Nat) → Int) :
    List (List Nat) → CLI_DataTypeDef → Prop where
  | fresh (s : CLI_DataTypeDef) : Ready s → s.LineCount = 0 → (∀ b ∈ s.line, cstr b = []) →
      Committed H [] s
  | line (L : List (List Nat)) (s s1 : CLI_DataTypeDef) (t : List Nat) (fuel : Nat) :
      Committed H L s → t ≠ [] → t.length ≤ CLI_MAX_LINE_LENGTH - 1 → (∀ c ∈ t, plainByte c) →
      L.head? ≠ some (t.map (fun c => lowerIfAuto c s)) →
      CLI_ProcessState H fuel (typeBytes (t ++ [13]) s) = some (true, s1) →
      Committed H (t.map (fun c => lowerIfAuto c s) :: L) s1

/-- The engine is browsing the history `L`, `j` steps back: well formed,
listening with the rule set of its echo setting, the ring holding `L`, the
step-back counter at `j`, and for `j` at least 1 the current line showing entry
`j` of `L` (counted from 1, most recent first). -/
def Browsing (L : List (List Nat)) (j : Nat) (s : CLI_DataTypeDef) : Prop :=
  Inv s ∧ Listening s ∧ s.escapeSequence = escapeRules s.echo ∧ HistoryOf L s ∧
  s.LineBack = j ∧ (1 ≤ j → currentText s = L.getD (j - 1) [])

/-- The state after the line `t` was typed and sent with a carriage return and
the worker ran; the state as it was when the worker does not return. -/
def enterLine (H : Nat → Nat → List (List Nat) → Int) (fuel : Nat) (t : List Nat)
    (s : CLI_DataTypeDef) : CLI_DataTypeDef :=
  match feed H fuel (t ++ [13]) s with
  | some s1 => s1
  | none => s

/-- The demo after the lines `help` and `version` were entered. -/
def demoTwoLines : CLI_DataTypeDef :=
  enterLine H0 16 (bytes "version") (enterLine H0 16 (bytes "help") demoBuilt)

/-- Ten distinct one-letter lines, `a` to `j`. -/
def tenLines : List (List Nat) := (List.range 10).map (fun i => [97 + i])

/-- The demo after the ten lines `a` to `j` were entered, in this order. -/
def tenEntered : CLI_DataTypeDef := tenLines.foldl (fun s t => enterLine H0 16 t s) demoBuilt

/-- The demo with `help` typed on the current line. -/
def demoHelpTyped : CLI_DataTypeDef := typeBytes (bytes "help") demoBuilt

/-- The table `{h1, "help"}, {h2, "helper"}`. -/
def tableHelpHelper : List CLI_CmdTypeDef := [⟨1, bytes "help"⟩, ⟨2, bytes "helper"⟩]

/-- The engine of the demo configuration with the table `help`, `helper` built
and `he` typed on the current line. -/
def helpHelperTyped : CLI_DataTypeDef :=
  typeBytes (bytes "he")
    (match CLI_BuildTable 3 true
        (CLI_InjectCommands true (some tableHelpHelper) 2 (CLI_Init (some demoInit) gCliData0).2).2 with
     | some (_, s) => s
     | none => gCliData0)

/-- The engine with the large table built and `jw`, the name of its entry 256,
typed on the current line. -/
def bigJwTyped : CLI_DataTypeDef := typeBytes (bigName 256) bigBuilt

/-! ## Sample inputs of the editing claims -/

/-- A line of 79 characters: `help` and an argument of 74 letters. -/
def line79 : List Nat := bytes "help " ++ List.replicate 74 120

/-- The demo after 80 bytes were typed on the empty line: the 79 bytes of
`line79` and one more letter. -/
def demoOverflow : CLI_DataTypeDef := typeBytes (line79 ++ [120]) demoBuilt

/-- The configuration of the demo with local echo switched off. -/
def quietInit : CLI_InitTypeDef := { demoInit with echo := false }

/-- The demo engine initialised with `quietInit`, after the build. -/
def quietBuilt : CLI_DataTypeDef :=
  match CLI_BuildTable 6 true
      (CLI_InjectCommands true (some gCliBaseCommands) 5 (CLI_Init (some quietInit) gCliData0).2).2 with
  | some (_, s) => s
  | none => gCliData0

/-- The demo engine with `help` typed in and the lock flag set. -/
def demoLocked : CLI_DataTypeDef := { demoHelpTyped with locked := true }

/-- The demo after `help` and `version` were entered and the up arrow was
pressed once: the step-back counter is 1 and the retrieval is pending. -/
def demoUpPressed : CLI_DataTypeDef := typeBytes (keysUp true) demoTwoLines

/-! ## Vocabulary of the normalised names -/

/-- Following the spec's words ("trimmed"): a blank is a space, a tab or a
newline. -/
def isBlank (c : Nat) : Bool := c == 32 || c == 9 || c == 10

/-- Following the spec's words ("trimmed"): the text without its leading and
its trailing blanks. -/
def trimmedText (l : List Nat) : List Nat :=
  ((l.dropWhile isBlank).reverse.dropWhile isBlank).reverse

/-- Following the spec's words ("case-folded"): every ASCII upper-case letter
replaced by its lower-case letter. -/
def loweredText (l : List Nat) : List Nat :=
  l.map (fun c => if 65 ≤ c ∧ c ≤ 90 then c + 32 else c)

/-- Following the spec's words: the stored form of an injected name, the
lower-cased, trimmed form of its first 11 characters. -/
def normalName (name : List Nat) : List Nat :=
  loweredText (trimmedText ((cstr name).take (CLI_MAX_COMMAND_NAME_LEN - 1)))

/-- A table with names in mixed case, with blanks around them, and one of 12
characters that fills `Name[12]` without a terminator. -/
def tableMixed : List CLI_CmdTypeDef :=
  [⟨1, bytes "  HeLp \t"⟩, ⟨2, bytes "VERSION-LONG"⟩, ⟨3, bytes "exit"⟩]

/-- The engine of the demo configuration after the injection of `tableMixed`. -/
def mixedInjected : CLI_DataTypeDef :=
  (CLI_InjectCommands true (some tableMixed) 3 (CLI_Init (some demoInit) gCliData0).2).2

/-- The engine of the demo configuration with `tableMixed` built. -/
def mixedBuilt : CLI_DataTypeDef :=
  match CLI_BuildTable 4 true mixedInjected with
  | some (_, s) => s
  | none => mixedInjected

/-- Following the spec's words: the byte at position `k` of a NUL-terminated
string, the terminator at its end and after it. -/
def byteAt (l : List Nat) (k : Nat) : Nat := l.getD k 0

/-- The byte `pCommand[i].Name[0]` the first-letter search compares; the end
of the name is read as NUL. -/
def firstChar (arr : List CLI_CmdTypeDef) (i : Nat) : Nat := (arr.getD i zeroCmd).Name.headD 0

/-- History-previous followed by history-next: the bytes of the up arrow, the
worker, the bytes of the down arrow, the worker; `none` when the worker does not
return. -/
def upThenDown (H : Nat → Nat → List (List Nat) → Int) (fuel : Nat) (s : CLI_DataTypeDef) :
    Option CLI_DataTypeDef :=
  match feed H fuel (keysUp s.echo) s with
  | none => none
  | some s1 => feed H fuel (keysDown s1.echo) s1

/-- The escape matcher is in step: the accumulator `CurrentEscapeSequence[10]`
has its 10 bytes, the count is at most 2 and at most 1 while escape mode lasts,
an initialised engine holds the rule set of its echo setting, and only an
initialised engine is in escape mode. -/
def EscOk (s : CLI_DataTypeDef) : Prop :=
  s.CurrentEscapeSequence.length = CLI_MAX_ESCAPE ∧ s.CurrentEscapeSequenceCount ≤ 2 ∧
  (s.receivingEscapeSequence = true → s.CurrentEscapeSequenceCount ≤ 1) ∧
  (s.initialized = true → s.escapeSequence = escapeRules s.echo) ∧
  (s.receivingEscapeSequence = true → s.initialized = true)

/-- The demo session in escape mode with one byte accumulated: ESC `[`. -/
def demoEscBracket : CLI_DataTypeDef := typeBytes [27, 91] demoBuilt

/-! ## The worker thread (cli_task.c) -/

/-- `#define CLI_TASK_EVENT_INIT (uint32_t)(1 << 0)`. -/
def CLI_TASK_EVENT_INIT : Nat := 1 <<< 0

/-- `#define CLI_TASK_EVENT_CLI_CMD_REQ (uint32_t)(1 << 1)`. -/
def CLI_TASK_EVENT_CLI_CMD_REQ : Nat := 1 <<< 1

/-- `#define CLI_TASK_EVENT_CLI_POLL_RX (uint32_t)(1 << 2)`. -/
def CLI_TASK_EVENT_CLI_POLL_RX : Nat := 1 <<< 2

/-- `#define CLI_TASK_EVENT_SIGTERM (uint32_t)(1 << 3)`. -/
def CLI_TASK_EVENT_SIGTERM : Nat := 1 <<< 3

/-- The test `(events & flag) != 0`. -/
def flagSet (events flag : Nat) : Bool := (events &&& flag) != 0

/-- Where the worker thread stands in `CLI_Task`: not created yet, blocked in
`CLI_WaitEvents`, before one of the four tests of a batch of event flags, or
returned. -/
inductive TaskPoint where
  | notCreated
  | waitEvents
  | testInit
  | testCmdReq
  | testPollRx
  | testSigterm
  | returned
  deriving DecidableEq, Repr

/-- The engine `gCliData` (`cli`), the task data `gTaskCli` (`event_flags`,
`initialized`), whether the periodic timer of `CLI_Timer_Set` runs, and the
worker thread: its place in `CLI_Task` and its local `cli_events`.  The mutex
makes every access to `event_flags` one step. -/
structure TaskWorld where
  cli : CLI_DataTypeDef
  event_flags : Nat
  initialized : Bool
  timerRuns : Bool
  point : TaskPoint
  cli_events : Nat
  deriving DecidableEq

/-- The program at its start: zeroed `gCliData` and `gTaskCli`, no worker. -/
def world0 : TaskWorld :=
  { cli := gCliData0, event_flags := 0, initialized := false, timerRuns := false,
    point := TaskPoint.notCreated, cli_events := 0 }

/-- `CLI_SignalEvent(event_flag)`: `event_flags |= event_flag`. -/
def CLI_SignalEvent (event_flag : Nat) (w : TaskWorld) : TaskWorld :=
  { w with event_flags := w.event_flags ||| event_flag }

/-- `CLI_TimerHandler`. -/
def CLI_TimerHandler (w : TaskWorld) : TaskWorld :=
  CLI_SignalEvent CLI_TASK_EVENT_CLI_POLL_RX w

/-- `CLI_WaitEvents()`: blocked (`none`) while `event_flags` is 0; otherwise the
flags go to `cli_events` and are reset. -/
def CLI_WaitEvents (w : TaskWorld) : Option TaskWorld :=
  if w.event_flags = 0 then none
  else some { w with cli_events := w.event_flags, event_flags := 0 }

/-- `CLI_TaskAlert()` of cli_task.c on the task data. -/
def TaskWorld.CLI_TaskAlert (w : TaskWorld) : TaskWorld :=
  if w.initialized = true then CLI_SignalEvent CLI_TASK_EVENT_CLI_CMD_REQ w else w

/-- The signal of `CLI_TaskTerminate()`. -/
def CLI_TaskTerminate (w : TaskWorld) : TaskWorld :=
  if w.initialized = true then CLI_SignalEvent CLI_TASK_EVENT_SIGTERM w else w

/-- `CLI_InitTask()`: `syncOk` tells whether the mutex and the condition
variable were set up, `createOk` whether `pthread_create` succeeded. -/
def CLI_InitTask (syncOk createOk : Bool) (w : TaskWorld) : TaskWorld :=
  if syncOk = false then w
  else if createOk = false then { w with event_flags := 0 }
  else CLI_SignalEvent CLI_TASK_EVENT_INIT
    { w with event_flags := 0, point := TaskPoint.waitEvents }

/-- The number of calls of `CLI_TaskAlert()` a trace records. -/
def alertCount (t : List Event) : Nat := t.count Event.alert

/-- A call of an engine function: `gCliData` becomes `s1`, and every call of
`CLI_TaskAlert()` the engine recorded during the call acts on the task data. -/
def engineCall (s1 : CLI_DataTypeDef) (w : TaskWorld) : TaskWorld :=
  Nat.iterate TaskWorld.CLI_TaskAlert (alertCount s1.trace - alertCount w.cli.trace)
    { w with cli := s1 }

/-- The steps of the program: the five pieces of one round of the loop of
`CLI_Task` (with what the environment delivers: whether the timer could be
started, the fuel of the handler call, the byte `read` returned if any), the
firing of the periodic timer, `CLI_TaskTerminate`, and the calls of the other
exported engine functions from outside the worker. -/
inductive TaskAction where
  | waitEvents
  | initEvent (timerOk : Bool)
  | cmdReq (fuel : Nat)
  | pollRx (byte : Option Nat)
  | sigterm
  | timer
  | terminate
  | init (cliInit : Option CLI_InitTypeDef) (syncOk createOk : Bool)
  | inject (mallocOk : Bool) (table : Option (List CLI_CmdTypeDef)) (items : Int)
  | build (fuel : Nat) (mallocOk : Bool)
  | reset

/-- The handler of the INIT event in `CLI_Task`. -/
def taskInitEvent (timerOk : Bool) (w : TaskWorld) : TaskWorld :=
  if flagSet w.cli_events CLI_TASK_EVENT_INIT = true then
    { w with initialized := true, timerRuns := w.timerRuns || timerOk }
  else w

/-- One step of the program; `none` when the step cannot be taken: the worker
is elsewhere or blocked, the handler does not return, the timer does not run. -/
def taskStep (H : Nat → Nat → List (List Nat) → Int) (a : TaskAction) (w : TaskWorld) :
    Option TaskWorld :=
  match a with
  | TaskAction.waitEvents =>
    if w.point = TaskPoint.waitEvents then
      match CLI_WaitEvents w with
      | none => none
      | some w1 => some { w1 with point := TaskPoint.testInit }
    else none
  | TaskAction.initEvent timerOk =>
    if w.point = TaskPoint.testInit then
      some { taskInitEvent timerOk w with point := TaskPoint.testCmdReq }
    else none
  | TaskAction.cmdReq fuel =>
    if w.point = TaskPoint.testCmdReq then
      if flagSet w.cli_events CLI_TASK_EVENT_CLI_CMD_REQ = true then
        match CLI_ProcessState H fuel w.cli with
        | none => none
        | some (_, s1) => some { engineCall s1 w with point := TaskPoint.testPollRx }
      else some { w with point := TaskPoint.testPollRx }
    else none
  | TaskAction.pollRx byte =>
    if w.point = TaskPoint.testPollRx then
      if flagSet w.cli_events CLI_TASK_EVENT_CLI_POLL_RX = true then
        match byte with
        | none => some { w with point := TaskPoint.testSigterm }
        | some c =>
          if c < 256 then
            some { engineCall (CLI_ProcessChar c w.cli).2 w with point := TaskPoint.testSigterm }
          else none
      else some { w with point := TaskPoint.testSigterm }
    else none
  | TaskAction.sigterm =>
    if w.point = TaskPoint.testSigterm then
      some { w with point := if flagSet w.cli_events CLI_TASK_EVENT_SIGTERM = true
                             then TaskPoint.returned else TaskPoint.waitEvents }
    else none
  | TaskAction.timer => if w.timerRuns = true then some (CLI_TimerHandler w) else none
  | TaskAction.terminate => some (CLI_TaskTerminate w)
  | TaskAction.init cliInit syncOk createOk =>
    if (CLI_Init cliInit w.cli).1 = true then
      some (CLI_InitTask syncOk createOk (engineCall (CLI_Init cliInit w.cli).2 w))
    else some (engineCall (CLI_Init cliInit w.cli).2 w)
  | TaskAction.inject mallocOk table items =>
    some (engineCall (CLI_InjectCommands mallocOk table items w.cli).2 w)
  | TaskAction.build fuel mallocOk =>
    match CLI_BuildTable fuel mallocOk w.cli with
    | none => none
    | some (_, s1) => some (engineCall s1 w)
  | TaskAction.reset => some (engineCall (CLI_ResetState w.cli) w)

/-- A run of the program: the steps of `l` one after the other. -/
def taskRun (H : Nat → Nat → List (List Nat) → Int) : List TaskAction → TaskWorld →
    Option TaskWorld
  | [], w => some w
  | a :: l, w =>
    match taskStep H a w with
    | none => none
    | some w1 => taskRun H l w1

/-- The command-request flag is on its way to the test of `CLI_Task`: set in
`event_flags` while the worker waits or finishes a batch, set in `cli_events`
before the command-request test of the batch. -/
def cmdReqSignalled (w : TaskWorld) : Prop :=
  ((w.point = TaskPoint.waitEvents ∨ w.point = TaskPoint.testSigterm
      ∨ w.point = TaskPoint.returned)
    ∧ flagSet w.event_flags CLI_TASK_EVENT_CLI_CMD_REQ = true)
  ∨ ((w.point = TaskPoint.testInit ∨ w.point = TaskPoint.testCmdReq)
    ∧ flagSet w.cli_events CLI_TASK_EVENT_CLI_CMD_REQ = true)

/-- What holds of the program at every step. -/
def TaskInv (w : TaskWorld) : Prop :=
  (w.timerRuns = true → w.initialized = true) ∧
  (flagSet w.event_flags CLI_TASK_EVENT_CLI_POLL_RX = true → w.timerRuns = true) ∧
  (flagSet w.cli_events CLI_TASK_EVENT_CLI_POLL_RX = true → w.timerRuns = true) ∧
  (w.point ≠ TaskPoint.notCreated → w.cli.initialized = true) ∧
  (w.cli.execType ≠ CLI_ExecTypeDef.CLI_Exec_Nothing → cmdReqSignalled w)

/-- A run of the demo: `CLI_Init` starts the worker, the table is injected and
built; a first batch handles INIT and starts the timer; after a timer tick the
second batch reads a carriage return, which sets the execute action; after
another tick the third batch is at its command-request test. -/
def demoSteps : List TaskAction :=
  [TaskAction.init (some demoInit) true true,
   TaskAction.inject true (some gCliBaseCommands) 5,
   TaskAction.build 6 true,
   TaskAction.waitEvents, TaskAction.initEvent true, TaskAction.cmdReq 0,
   TaskAction.pollRx none, TaskAction.sigterm,
   TaskAction.timer,
   TaskAction.waitEvents, TaskAction.initEvent true, TaskAction.cmdReq 0,
   TaskAction.pollRx (some 13), TaskAction.sigterm,
   TaskAction.timer,
   TaskAction.waitEvents, TaskAction.initEvent true]

/-- The world the demo run reaches. -/
def demoWorld : TaskWorld :=
  match taskRun H0 demoSteps world0 with
  | some w => w
  | none => world0

/-- The world after the command-request test of the third batch of the demo run. -/
def demoWorldPolling : TaskWorld :=
  match taskStep H0 (TaskAction.cmdReq 20) demoWorld with
  | some w => w
  | none => demoWorld

/-! # Theorems -/

/-! ## strcmp is a total preorder -/

theorem strcmp_total (a b : List Nat) : strcmp a b ≤ 0 ∨ strcmp b a ≤ 0 := by
  induction a generalizing b with
  | nil =>
    cases b with
    | nil => left; simp [strcmp]
    | cons c t => left; simp [strcmp]
  | cons c1 s1 ih =>
    cases b with
    | nil => right; simp [strcmp]
    | cons c2 s2 =>
      by_cases h : c1 = c2
      · subst h
        by_cases h0 : c1 = 0
        · left; simp [strcmp, h0]
        · simpa [strcmp, h0] using ih s2
      · have h2 : ¬ c2 = c1 := fun e => h e.symm
        simp only [strcmp, h, h2, false_and, if_false]
        omega

theorem strcmp_trans (a b c : List Nat) (hab : strcmp a b ≤ 0) (hbc : strcmp b c ≤ 0) :
    strcmp a c ≤ 0 := by
  induction a generalizing b c with
  | nil =>
    cases c with
    | nil => simp [strcmp]
    | cons c3 t => simp [strcmp]
  | cons c1 s1 ih =>
    cases b with
    | nil =>
      have h1 : c1 = 0 := by simp [strcmp] at hab; omega
      subst h1
      cases c with
      | nil => simp [strcmp]
      | cons c3 s3 =>
        by_cases h3 : c3 = 0
        · simp [strcmp, h3]
        · have : ¬ (0 = c3) := fun e => h3 e.symm
          simp [strcmp, this]
    | cons c2 s2 =>
      cases c with
      | nil =>
        have h2 : c2 = 0 := by simp [strcmp] at hbc; omega
        subst h2
        by_cases h1 : c1 = 0
        · simp [strcmp, h1]
        · simp only [strcmp, h1, false_and, and_false, if_false] at hab
          omega
      | cons c3 s3 =>
        by_cases h12 : c1 = c2
        · subst h12
          by_cases h0 : c1 = 0
          · subst h0
            by_cases h3 : c3 = 0
            · simp [strcmp, h3]
            · have : ¬ (0 = c3) := fun e => h3 e.symm
              simp [strcmp, this]
          · by_cases h13 : c1 = c3
            · subst h13
              simp [strcmp, h0] at hab hbc ⊢
              exact ih s2 s3 hab hbc
            · simp only [strcmp, h13, false_and, if_false] at hbc ⊢
              exact hbc
        · by_cases h23 : c2 = c3
          · subst h23
            simp only [strcmp, h12, false_and, if_false] at hab ⊢
            exact hab
          · simp only [strcmp, h12, h23, false_and, if_false] at hab hbc
            by_cases h13 : c1 = c3
            · omega
            · simp only [strcmp, h13, false_and, if_false]
              omega

/-! ## The sort step of CLI_BuildTable -/

theorem qsort_perm (l : List CLI_CmdTypeDef) : (qsort l).Perm l :=
  List.perm_insertionSort _ l

theorem qsort_length (l : List CLI_CmdTypeDef) : (qsort l).length = l.length :=
  (qsort_perm l).length_eq

theorem qsort_sorted (l : List CLI_CmdTypeDef) :
    (qsort l).Pairwise (fun a b => CLI_Compare a b ≤ 0) := by
  haveI : IsTotal CLI_CmdTypeDef (fun a b => CLI_Compare a b ≤ 0) :=
    ⟨fun a b => strcmp_total a.Name b.Name⟩
  haveI : IsTrans CLI_CmdTypeDef (fun a b => CLI_Compare a b ≤ 0) :=
    ⟨fun a b c => strcmp_trans a.Name b.Name c.Name⟩
  exact List.sorted_insertionSort _ l

theorem take_qsort_append (arr : List CLI_CmdTypeDef) (cnt : Nat) :
    (qsort (arr.take cnt) ++ arr.drop cnt).take cnt = qsort (arr.take cnt) := by
  have hl : (qsort (arr.take cnt)).length = min cnt arr.length := by
    rw [qsort_length, List.length_take]
  by_cases h : cnt ≤ arr.length
  · have : (qsort (arr.take cnt)).length = cnt := by rw [hl]; omega
    exact List.take_left' this
  · have hd : arr.drop cnt = [] := List.drop_eq_nil_of_le (by omega)
    rw [hd, List.append_nil, List.take_of_length_le]
    rw [hl]; omega

/-- A successful build is the merge followed by the sort and the seal. -/
theorem build_true (fuel : Nat) (ok : Bool) (s s1 : CLI_DataTypeDef)
    (h : CLI_BuildTable fuel ok s = some (true, s1)) :
    ∃ arr cnt, mergeChain fuel s.cmndsTableHead
        (List.replicate (totalItems s.cmndsTableHead + 1) zeroCmd, s.cmndsCount) = some (arr, cnt)
      ∧ s1 = { s with cmnds := some (qsort (arr.take cnt) ++ arr.drop cnt)
                      cmndsCount := cnt
                      commandsSorted := true } := by
  unfold CLI_BuildTable at h
  split at h
  · simp at h
  · split at h
    · simp at h
    · split at h
      · simp at h
      · split at h
        · simp at h
        · rename_i arr cnt hm
          simp at h
          exact ⟨arr, cnt, hm, h.symm⟩

/-! ## The registry fields are written by CLI_BuildTable alone -/

theorem reg_PutByte (c : Nat) (s : CLI_DataTypeDef) :
    (CLI_PutByte c s).cmnds = s.cmnds ∧ (CLI_PutByte c s).commandsSorted = s.commandsSorted
    ∧ (CLI_PutByte c s).cmndsCount = s.cmndsCount ∧ (CLI_PutByte c s).cmndsTableHead = s.cmndsTableHead := by
  unfold CLI_PutByte
  repeat' split
  all_goals exact ⟨rfl, rfl, rfl, rfl⟩

theorem reg_putBytes (l : List Nat) (s : CLI_DataTypeDef) :
    (putBytes l s).cmnds = s.cmnds ∧ (putBytes l s).commandsSorted = s.commandsSorted
    ∧ (putBytes l s).cmndsCount = s.cmndsCount ∧ (putBytes l s).cmndsTableHead = s.cmndsTableHead := by
  unfold putBytes
  repeat' split
  all_goals exact ⟨rfl, rfl, rfl, rfl⟩

theorem reg_Print (buf : List Nat) (n : Nat) (s : CLI_DataTypeDef) :
    (CLI_Print buf n s).cmnds = s.cmnds ∧ (CLI_Print buf n s).commandsSorted = s.commandsSorted
    ∧ (CLI_Print buf n s).cmndsCount = s.cmndsCount ∧ (CLI_Print buf n s).cmndsTableHead = s.cmndsTableHead := by
  unfold CLI_Print
  repeat' split
  all_goals simp only [reg_PutByte, reg_putBytes, and_self]

theorem reg_CRLF (s : CLI_DataTypeDef) :
    (CLI_SEND_CRLF s).cmnds = s.cmnds ∧ (CLI_SEND_CRLF s).commandsSorted = s.commandsSorted
    ∧ (CLI_SEND_CRLF s).cmndsCount = s.cmndsCount ∧ (CLI_SEND_CRLF s).cmndsTableHead = s.cmndsTableHead := by
  exact reg_Print _ _ s

theorem reg_printf (l : List Nat) (s : CLI_DataTypeDef) :
    (printf l s).cmnds = s.cmnds ∧ (printf l s).commandsSorted = s.commandsSorted
    ∧ (printf l s).cmndsCount = s.cmndsCount ∧ (printf l s).cmndsTableHead = s.cmndsTableHead := by
  exact ⟨rfl, rfl, rfl, rfl⟩

theorem reg_crlfTimes (n : Nat) (s : CLI_DataTypeDef) :
    (crlfTimes n s).cmnds = s.cmnds ∧ (crlfTimes n s).commandsSorted = s.commandsSorted
    ∧ (crlfTimes n s).cmndsCount = s.cmndsCount ∧ (crlfTimes n s).cmndsTableHead = s.cmndsTableHead := by
  induction n generalizing s with
  | zero => exact ⟨rfl, rfl, rfl, rfl⟩
  | succ n ih => simp only [crlfTimes, ih, reg_CRLF, and_self]

theorem reg_PrintPrompt (n : Nat) (s : CLI_DataTypeDef) :
    (CLI_PrintPrompt n s).cmnds = s.cmnds ∧ (CLI_PrintPrompt n s).commandsSorted = s.commandsSorted
    ∧ (CLI_PrintPrompt n s).cmndsCount = s.cmndsCount ∧ (CLI_PrintPrompt n s).cmndsTableHead = s.cmndsTableHead := by
  unfold CLI_PrintPrompt
  repeat' split
  all_goals simp only [reg_Print, reg_crlfTimes, and_self]

theorem reg_pokeLine (a b c : Nat) (s : CLI_DataTypeDef) :
    (pokeLine a b c s).cmnds = s.cmnds ∧ (pokeLine a b c s).commandsSorted = s.commandsSorted
    ∧ (pokeLine a b c s).cmndsCount = s.cmndsCount ∧ (pokeLine a b c s).cmndsTableHead = s.cmndsTableHead := by
  exact ⟨rfl, rfl, rfl, rfl⟩

theorem reg_crlfIfEcho (s : CLI_DataTypeDef) :
    (crlfIfEcho s).cmnds = s.cmnds ∧ (crlfIfEcho s).commandsSorted = s.commandsSorted
    ∧ (crlfIfEcho s).cmndsCount = s.cmndsCount ∧ (crlfIfEcho s).cmndsTableHead = s.cmndsTableHead := by
  unfold crlfIfEcho
  repeat' split
  all_goals simp only [reg_CRLF, and_self]

theorem reg_crlfIfNoEcho (s : CLI_DataTypeDef) :
    (crlfIfNoEcho s).cmnds = s.cmnds ∧ (crlfIfNoEcho s).commandsSorted = s.commandsSorted
    ∧ (crlfIfNoEcho s).cmndsCount = s.cmndsCount ∧ (crlfIfNoEcho s).cmndsTableHead = s.cmndsTableHead := by
  unfold crlfIfNoEcho
  repeat' split
  all_goals simp only [reg_CRLF, and_self]

theorem reg_tooManyArgs (s : CLI_DataTypeDef) :
    (tooManyArgs s).cmnds = s.cmnds ∧ (tooManyArgs s).commandsSorted = s.commandsSorted
    ∧ (tooManyArgs s).cmndsCount = s.cmndsCount ∧ (tooManyArgs s).cmndsTableHead = s.cmndsTableHead := by
  unfold tooManyArgs
  simp only [reg_crlfIfEcho, reg_printf, and_self]

theorem reg_callHandler (h : Nat) (param : List (List Nat)) (s : CLI_DataTypeDef) :
    (callHandler h param s).cmnds = s.cmnds ∧ (callHandler h param s).commandsSorted = s.commandsSorted
    ∧ (callHandler h param s).cmndsCount = s.cmndsCount ∧ (callHandler h param s).cmndsTableHead = s.cmndsTableHead := by
  unfold callHandler
  simp only [reg_crlfIfEcho, reg_crlfIfNoEcho, and_self]

theorem reg_notRecognized (l t : List Nat) (s : CLI_DataTypeDef) :
    (notRecognized l t s).cmnds = s.cmnds ∧ (notRecognized l t s).commandsSorted = s.commandsSorted
    ∧ (notRecognized l t s).cmndsCount = s.cmndsCount ∧ (notRecognized l t s).cmndsTableHead = s.cmndsTableHead := by
  unfold notRecognized
  simp only [reg_crlfIfEcho, reg_printf, and_self]

theorem reg_advanceHistory (s : CLI_DataTypeDef) :
    (advanceHistory s).cmnds = s.cmnds ∧ (advanceHistory s).commandsSorted = s.commandsSorted
    ∧ (advanceHistory s).cmndsCount = s.cmndsCount ∧ (advanceHistory s).cmndsTableHead = s.cmndsTableHead := by
  exact ⟨rfl, rfl, rfl, rfl⟩

theorem reg_clearCurrent (s : CLI_DataTypeDef) :
    (clearCurrent s).cmnds = s.cmnds ∧ (clearCurrent s).commandsSorted = s.commandsSorted
    ∧ (clearCurrent s).cmndsCount = s.cmndsCount ∧ (clearCurrent s).cmndsTableHead = s.cmndsTableHead := by
  exact ⟨rfl, rfl, rfl, rfl⟩

theorem reg_commitLine (s : CLI_DataTypeDef) :
    (commitLine s).cmnds = s.cmnds ∧ (commitLine s).commandsSorted = s.commandsSorted
    ∧ (commitLine s).cmndsCount = s.cmndsCount ∧ (commitLine s).cmndsTableHead = s.cmndsTableHead := by
  unfold commitLine
  repeat' split
  all_goals simp only [reg_clearCurrent, reg_advanceHistory, and_self]

theorem reg_promptUnlessReset (r : Int) (s : CLI_DataTypeDef) :
    (promptUnlessReset r s).cmnds = s.cmnds ∧ (promptUnlessReset r s).commandsSorted = s.commandsSorted
    ∧ (promptUnlessReset r s).cmndsCount = s.cmndsCount ∧ (promptUnlessReset r s).cmndsTableHead = s.cmndsTableHead := by
  unfold promptUnlessReset
  repeat' split
  all_goals simp only [reg_PrintPrompt, and_self]

theorem reg_rejectLine (s : CLI_DataTypeDef) :
    (rejectLine s).cmnds = s.cmnds ∧ (rejectLine s).commandsSorted = s.commandsSorted
    ∧ (rejectLine s).cmndsCount = s.cmndsCount ∧ (rejectLine s).cmndsTableHead = s.cmndsTableHead := by
  unfold rejectLine
  repeat' split
  all_goals simp only [reg_PrintPrompt, reg_clearCurrent, reg_printf, and_self]

theorem reg_rewriteLine (c0 : List Nat) (idx : Nat) (s : CLI_DataTypeDef) :
    (rewriteLine c0 idx s).cmnds = s.cmnds ∧ (rewriteLine c0 idx s).commandsSorted = s.commandsSorted
    ∧ (rewriteLine c0 idx s).cmndsCount = s.cmndsCount ∧ (rewriteLine c0 idx s).cmndsTableHead = s.cmndsTableHead := by
  exact ⟨rfl, rfl, rfl, rfl⟩

theorem reg_appendSpace (s : CLI_DataTypeDef) :
    (appendSpace s).cmnds = s.cmnds ∧ (appendSpace s).commandsSorted = s.commandsSorted
    ∧ (appendSpace s).cmndsCount = s.cmndsCount ∧ (appendSpace s).cmndsTableHead = s.cmndsTableHead := by
  exact ⟨rfl, rfl, rfl, rfl⟩

theorem reg_listLoop (l : List (List Nat)) (d : Nat) (s : CLI_DataTypeDef) :
    (listLoop l d s).cmnds = s.cmnds ∧ (listLoop l d s).commandsSorted = s.commandsSorted
    ∧ (listLoop l d s).cmndsCount = s.cmndsCount ∧ (listLoop l d s).cmndsTableHead = s.cmndsTableHead := by
  induction l generalizing d s with
  | nil => exact ⟨rfl, rfl, rfl, rfl⟩
  | cons c rest ih =>
    unfold listLoop
    split
    · simp only [ih, reg_crlfIfEcho, reg_Print, and_self]
    · simp only [ih, reg_printf, reg_Print, and_self]

theorem reg_printLine (s : CLI_DataTypeDef) :
    (printLine s).cmnds = s.cmnds ∧ (printLine s).commandsSorted = s.commandsSorted
    ∧ (printLine s).cmndsCount = s.cmndsCount ∧ (printLine s).cmndsTableHead = s.cmndsTableHead := by
  unfold printLine
  simp only [reg_Print, and_self]

theorem reg_showListing (l : List (List Nat)) (s : CLI_DataTypeDef) :
    (showListing l s).cmnds = s.cmnds ∧ (showListing l s).commandsSorted = s.commandsSorted
    ∧ (showListing l s).cmndsCount = s.cmndsCount ∧ (showListing l s).cmndsTableHead = s.cmndsTableHead := by
  unfold showListing
  simp only [reg_printLine, reg_PrintPrompt, reg_crlfIfEcho, reg_listLoop, and_self]

theorem reg_completionOutput (p c : Nat) (l : List (List Nat)) (s : CLI_DataTypeDef) :
    (completionOutput p c l s).cmnds = s.cmnds ∧ (completionOutput p c l s).commandsSorted = s.commandsSorted
    ∧ (completionOutput p c l s).cmndsCount = s.cmndsCount ∧ (completionOutput p c l s).cmndsTableHead = s.cmndsTableHead := by
  unfold completionOutput
  repeat' split
  all_goals simp only [reg_Print, reg_showListing, and_self]

theorem reg_applyCompletion (n : Nat) (c0 : List Nat) (rest : List (List Nat)) (s : CLI_DataTypeDef) :
    (applyCompletion n c0 rest s).cmnds = s.cmnds ∧ (applyCompletion n c0 rest s).commandsSorted = s.commandsSorted
    ∧ (applyCompletion n c0 rest s).cmndsCount = s.cmndsCount ∧ (applyCompletion n c0 rest s).cmndsTableHead = s.cmndsTableHead := by
  unfold applyCompletion
  repeat' split
  all_goals simp only [reg_completionOutput, reg_appendSpace, reg_rewriteLine, and_self]

theorem reg_EraseChar (s : CLI_DataTypeDef) :
    (CLI_EraseChar s).cmnds = s.cmnds ∧ (CLI_EraseChar s).commandsSorted = s.commandsSorted
    ∧ (CLI_EraseChar s).cmndsCount = s.cmndsCount ∧ (CLI_EraseChar s).cmndsTableHead = s.cmndsTableHead := by
  unfold CLI_EraseChar
  repeat' split
  all_goals simp only [reg_Print, reg_pokeLine, and_self]

theorem reg_EraseLine (s : CLI_DataTypeDef) :
    (CLI_EraseLine s).cmnds = s.cmnds ∧ (CLI_EraseLine s).commandsSorted = s.commandsSorted
    ∧ (CLI_EraseLine s).cmndsCount = s.cmndsCount ∧ (CLI_EraseLine s).cmndsTableHead = s.cmndsTableHead := by
  unfold CLI_EraseLine
  simp only [reg_Print, and_self]

theorem reg_copyHistoryLine (s : CLI_DataTypeDef) :
    (copyHistoryLine s).cmnds = s.cmnds ∧ (copyHistoryLine s).commandsSorted = s.commandsSorted
    ∧ (copyHistoryLine s).cmndsCount = s.cmndsCount ∧ (copyHistoryLine s).cmndsTableHead = s.cmndsTableHead := by
  exact ⟨rfl, rfl, rfl, rfl⟩

theorem reg_printLineLen (s : CLI_DataTypeDef) :
    (printLineLen s).cmnds = s.cmnds ∧ (printLineLen s).commandsSorted = s.commandsSorted
    ∧ (printLineLen s).cmndsCount = s.cmndsCount ∧ (printLineLen s).cmndsTableHead = s.cmndsTableHead := by
  unfold printLineLen
  simp only [reg_Print, and_self]

theorem reg_cliRetrieveHistory (s : CLI_DataTypeDef) :
    ((cliRetrieveHistory s).2).cmnds = s.cmnds ∧ ((cliRetrieveHistory s).2).commandsSorted = s.commandsSorted
    ∧ ((cliRetrieveHistory s).2).cmndsCount = s.cmndsCount ∧ ((cliRetrieveHistory s).2).cmndsTableHead = s.cmndsTableHead := by
  unfold cliRetrieveHistory
  simp only [reg_printLineLen, reg_PrintPrompt, reg_copyHistoryLine, reg_EraseLine, and_self]

theorem reg_TaskAlert (s : CLI_DataTypeDef) :
    (CLI_TaskAlert s).cmnds = s.cmnds ∧ (CLI_TaskAlert s).commandsSorted = s.commandsSorted
    ∧ (CLI_TaskAlert s).cmndsCount = s.cmndsCount ∧ (CLI_TaskAlert s).cmndsTableHead = s.cmndsTableHead := by
  exact ⟨rfl, rfl, rfl, rfl⟩

theorem reg_escAccumulate (c : Nat) (s : CLI_DataTypeDef) :
    (escAccumulate c s).cmnds = s.cmnds ∧ (escAccumulate c s).commandsSorted = s.commandsSorted
    ∧ (escAccumulate c s).cmndsCount = s.cmndsCount ∧ (escAccumulate c s).cmndsTableHead = s.cmndsTableHead := by
  exact ⟨rfl, rfl, rfl, rfl⟩

theorem reg_ProcessEscape (c : Nat) (s : CLI_DataTypeDef) :
    ((CLI_ProcessEscapeSequnceChar c s).2).cmnds = s.cmnds ∧ ((CLI_ProcessEscapeSequnceChar c s).2).commandsSorted = s.commandsSorted
    ∧ ((CLI_ProcessEscapeSequnceChar c s).2).cmndsCount = s.cmndsCount ∧ ((CLI_ProcessEscapeSequnceChar c s).2).cmndsTableHead = s.cmndsTableHead := by
  unfold CLI_ProcessEscapeSequnceChar
  repeat' split
  all_goals exact ⟨rfl, rfl, rfl, rfl⟩

theorem reg_keyEscape (s : CLI_DataTypeDef) :
    (keyEscape s).cmnds = s.cmnds ∧ (keyEscape s).commandsSorted = s.commandsSorted
    ∧ (keyEscape s).cmndsCount = s.cmndsCount ∧ (keyEscape s).cmndsTableHead = s.cmndsTableHead := by
  exact ⟨rfl, rfl, rfl, rfl⟩

theorem reg_keyReturn (s : CLI_DataTypeDef) :
    (keyReturn s).cmnds = s.cmnds ∧ (keyReturn s).commandsSorted = s.commandsSorted
    ∧ (keyReturn s).cmndsCount = s.cmndsCount ∧ (keyReturn s).cmndsTableHead = s.cmndsTableHead := by
  unfold keyReturn
  repeat' split
  all_goals simp only [reg_clearCurrent, reg_TaskAlert, and_self]

theorem reg_keyTab (s : CLI_DataTypeDef) :
    (keyTab s).cmnds = s.cmnds ∧ (keyTab s).commandsSorted = s.commandsSorted
    ∧ (keyTab s).cmndsCount = s.cmndsCount ∧ (keyTab s).cmndsTableHead = s.cmndsTableHead := by
  unfold keyTab
  repeat' split
  all_goals simp only [reg_TaskAlert, and_self]

theorem reg_keyBackspace (s : CLI_DataTypeDef) :
    (keyBackspace s).cmnds = s.cmnds ∧ (keyBackspace s).commandsSorted = s.commandsSorted
    ∧ (keyBackspace s).cmndsCount = s.cmndsCount ∧ (keyBackspace s).cmndsTableHead = s.cmndsTableHead := by
  unfold keyBackspace
  simp only [reg_EraseChar, and_self]

theorem reg_keyDown (s : CLI_DataTypeDef) :
    (keyDown s).cmnds = s.cmnds ∧ (keyDown s).commandsSorted = s.commandsSorted
    ∧ (keyDown s).cmndsCount = s.cmndsCount ∧ (keyDown s).cmndsTableHead = s.cmndsTableHead := by
  unfold keyDown
  repeat' split
  all_goals simp only [reg_TaskAlert, and_self]

theorem reg_keyUp (s : CLI_DataTypeDef) :
    (keyUp s).cmnds = s.cmnds ∧ (keyUp s).commandsSorted = s.commandsSorted
    ∧ (keyUp s).cmndsCount = s.cmndsCount ∧ (keyUp s).cmndsTableHead = s.cmndsTableHead := by
  unfold keyUp
  repeat' split
  all_goals simp only [reg_TaskAlert, and_self]

theorem reg_echoChar (c : Nat) (s : CLI_DataTypeDef) :
    (echoChar c s).cmnds = s.cmnds ∧ (echoChar c s).commandsSorted = s.commandsSorted
    ∧ (echoChar c s).cmndsCount = s.cmndsCount ∧ (echoChar c s).cmndsTableHead = s.cmndsTableHead := by
  unfold echoChar
  repeat' split
  all_goals simp only [reg_Print, and_self]

theorem reg_storeChar (c : Nat) (s : CLI_DataTypeDef) :
    (storeChar c s).cmnds = s.cmnds ∧ (storeChar c s).commandsSorted = s.commandsSorted
    ∧ (storeChar c s).cmndsCount = s.cmndsCount ∧ (storeChar c s).cmndsTableHead = s.cmndsTableHead := by
  exact ⟨rfl, rfl, rfl, rfl⟩

theorem reg_keyDefault (c : Nat) (s : CLI_DataTypeDef) :
    (keyDefault c s).cmnds = s.cmnds ∧ (keyDefault c s).commandsSorted = s.commandsSorted
    ∧ (keyDefault c s).cmndsCount = s.cmndsCount ∧ (keyDefault c s).cmndsTableHead = s.cmndsTableHead := by
  unfold keyDefault
  repeat' split
  all_goals simp only [reg_storeChar, reg_echoChar, and_self]

theorem reg_processKey (c : Nat) (s : CLI_DataTypeDef) :
    (processKey c s).cmnds = s.cmnds ∧ (processKey c s).commandsSorted = s.commandsSorted
    ∧ (processKey c s).cmndsCount = s.cmndsCount ∧ (processKey c s).cmndsTableHead = s.cmndsTableHead := by
  unfold processKey
  repeat' split
  all_goals simp only [reg_keyEscape, reg_keyReturn, reg_keyTab, reg_keyBackspace, reg_keyDown, reg_keyUp, reg_keyDefault, and_self]

theorem reg_ProcessChar (c : Nat) (s : CLI_DataTypeDef) :
    ((CLI_ProcessChar c s).2).cmnds = s.cmnds ∧ ((CLI_ProcessChar c s).2).commandsSorted = s.commandsSorted
    ∧ ((CLI_ProcessChar c s).2).cmndsCount = s.cmndsCount ∧ ((CLI_ProcessChar c s).2).cmndsTableHead = s.cmndsTableHead := by
  unfold CLI_ProcessChar
  repeat' split
  all_goals simp only [reg_processKey, reg_ProcessEscape, and_self]

theorem reg_ResetState (s : CLI_DataTypeDef) :
    (CLI_ResetState s).cmnds = s.cmnds ∧ (CLI_ResetState s).commandsSorted = s.commandsSorted
    ∧ (CLI_ResetState s).cmndsCount = s.cmndsCount ∧ (CLI_ResetState s).cmndsTableHead = s.cmndsTableHead := by
  unfold CLI_ResetState
  repeat' split
  all_goals exact ⟨rfl, rfl, rfl, rfl⟩

theorem reg_storeConfig (cfg : CLI_InitTypeDef) (s : CLI_DataTypeDef) :
    (storeConfig cfg s).cmnds = s.cmnds ∧ (storeConfig cfg s).commandsSorted = s.commandsSorted
    ∧ (storeConfig cfg s).cmndsCount = s.cmndsCount ∧ (storeConfig cfg s).cmndsTableHead = s.cmndsTableHead := by
  exact ⟨rfl, rfl, rfl, rfl⟩

theorem reg_Init (cliInit : Option CLI_InitTypeDef) (s : CLI_DataTypeDef) :
    ((CLI_Init cliInit s).2).cmnds = s.cmnds ∧ ((CLI_Init cliInit s).2).commandsSorted = s.commandsSorted
    ∧ ((CLI_Init cliInit s).2).cmndsCount = s.cmndsCount ∧ ((CLI_Init cliInit s).2).cmndsTableHead = s.cmndsTableHead := by
  unfold CLI_Init
  repeat' split
  all_goals simp only [reg_PrintPrompt, reg_storeConfig, and_self]

theorem reg_ParseEndExec (H : Nat → Nat → List (List Nat) → Int) (fuel : Nat)
    (p : Option (List CLI_CmdTypeDef)) (line : List Nat) (r : Int) (s s1 : CLI_DataTypeDef)
    (h : CLI_ParseEndExec H fuel p line s = some (r, s1)) :
    s1.cmnds = s.cmnds ∧ s1.commandsSorted = s.commandsSorted
    ∧ s1.cmndsCount = s.cmndsCount ∧ s1.cmndsTableHead = s.cmndsTableHead := by
  unfold CLI_ParseEndExec at h
  repeat' split at h
  all_goals first
    | (simp only [Option.some.injEq, Prod.mk.injEq] at h
       obtain ⟨_, rfl⟩ := h
       simp only [reg_tooManyArgs, reg_callHandler, reg_notRecognized, and_self])
    | exact absurd h (by simp)

theorem reg_ExecuteCommand (H : Nat → Nat → List (List Nat) → Int) (fuel : Nat)
    (s s1 : CLI_DataTypeDef) (h : CLI_ExecuteCommand H fuel s = some s1) :
    s1.cmnds = s.cmnds ∧ s1.commandsSorted = s.commandsSorted
    ∧ s1.cmndsCount = s.cmndsCount ∧ s1.cmndsTableHead = s.cmndsTableHead := by
  unfold CLI_ExecuteCommand at h
  split at h
  · simp only [Option.some.injEq] at h
    subst h
    exact ⟨rfl, rfl, rfl, rfl⟩
  · split at h
    · split at h
      · exact absurd h (by simp)
      · rename_i cmdRet s2 hp
        simp only [Option.some.injEq] at h
        subst h
        have h2 := reg_ParseEndExec _ _ _ _ _ _ _ hp
        simp only [reg_promptUnlessReset, reg_commitLine, h2, reg_crlfIfEcho, and_self]
    · simp only [Option.some.injEq] at h
      subst h
      simp only [reg_promptUnlessReset, reg_crlfIfEcho, and_self]

theorem reg_SearchAndExecute (H : Nat → Nat → List (List Nat) → Int) (fuel : Nat) (b : Bool)
    (s s1 : CLI_DataTypeDef) (h : CLI_SearchAndExecute H fuel s = some (b, s1)) :
    s1.cmnds = s.cmnds ∧ s1.commandsSorted = s.commandsSorted
    ∧ s1.cmndsCount = s.cmndsCount ∧ s1.cmndsTableHead = s.cmndsTableHead := by
  unfold CLI_SearchAndExecute at h
  split at h
  · simp only [Option.some.injEq, Prod.mk.injEq] at h
    obtain ⟨_, rfl⟩ := h
    exact ⟨rfl, rfl, rfl, rfl⟩
  · split at h
    · exact absurd h (by simp)
    · split at h
      · split at h
        · exact absurd h (by simp)
        · rename_i s2 he
          simp only [Option.some.injEq, Prod.mk.injEq] at h
          obtain ⟨_, rfl⟩ := h
          exact reg_ExecuteCommand _ _ _ _ he
      · simp only [Option.some.injEq, Prod.mk.injEq] at h
        obtain ⟨_, rfl⟩ := h
        simp only [reg_rejectLine, and_self]

theorem reg_TabCompleter (fuel cmpLen n : Nat) (s s1 : CLI_DataTypeDef)
    (h : CLI_TabCompleter fuel cmpLen s = some (n, s1)) :
    s1.cmnds = s.cmnds ∧ s1.commandsSorted = s.commandsSorted
    ∧ s1.cmndsCount = s.cmndsCount ∧ s1.cmndsTableHead = s.cmndsTableHead := by
  unfold CLI_TabCompleter at h
  repeat' split at h
  all_goals first
    | (simp only [Option.some.injEq, Prod.mk.injEq] at h
       obtain ⟨_, rfl⟩ := h
       simp only [reg_applyCompletion, and_self])
    | exact absurd h (by simp)

theorem reg_runPending (H : Nat → Nat → List (List Nat) → Int) (fuel : Nat) (b : Bool)
    (s s1 : CLI_DataTypeDef) (h : runPending H fuel s = some (b, s1)) :
    s1.cmnds = s.cmnds ∧ s1.commandsSorted = s.commandsSorted
    ∧ s1.cmndsCount = s.cmndsCount ∧ s1.cmndsTableHead = s.cmndsTableHead := by
  unfold runPending at h
  split at h
  · exact reg_SearchAndExecute _ _ _ _ _ h
  · split at h
    · exact absurd h (by simp)
    · rename_i n s2 ht
      simp only [Option.some.injEq, Prod.mk.injEq] at h
      obtain ⟨_, rfl⟩ := h
      exact reg_TabCompleter _ _ _ _ _ ht
  · simp only [Option.some.injEq] at h
    have h2 := reg_cliRetrieveHistory s
    rw [h] at h2
    exact h2
  · simp only [Option.some.injEq, Prod.mk.injEq] at h
    obtain ⟨_, rfl⟩ := h
    exact ⟨rfl, rfl, rfl, rfl⟩

theorem reg_ProcessState (H : Nat → Nat → List (List Nat) → Int) (fuel : Nat) (b : Bool)
    (s s1 : CLI_DataTypeDef) (h : CLI_ProcessState H fuel s = some (b, s1)) :
    s1.cmnds = s.cmnds ∧ s1.commandsSorted = s.commandsSorted
    ∧ s1.cmndsCount = s.cmndsCount ∧ s1.cmndsTableHead = s.cmndsTableHead := by
  unfold CLI_ProcessState at h
  split at h
  · simp only [Option.some.injEq, Prod.mk.injEq] at h
    obtain ⟨_, rfl⟩ := h
    exact ⟨rfl, rfl, rfl, rfl⟩
  · split at h
    · exact absurd h (by simp)
    · rename_i r s2 hr
      simp only [Option.some.injEq, Prod.mk.injEq] at h
      obtain ⟨_, rfl⟩ := h
      exact reg_runPending H fuel r s s2 hr

theorem reg_Inject (ok : Bool) (table : Option (List CLI_CmdTypeDef)) (items : Int)
    (s : CLI_DataTypeDef) :
    (CLI_InjectCommands ok table items s).2.cmnds = s.cmnds
    ∧ (CLI_InjectCommands ok table items s).2.commandsSorted = s.commandsSorted
    ∧ (CLI_InjectCommands ok table items s).2.cmndsCount = s.cmndsCount := by
  unfold CLI_InjectCommands
  repeat' split
  all_goals exact ⟨rfl, rfl, rfl⟩

/-- What `CLI_BuildTable` returns when it fails. -/
theorem build_false (fuel : Nat) (ok : Bool) (s s1 : CLI_DataTypeDef)
    (h : CLI_BuildTable fuel ok s = some (false, s1)) :
    s1 = s ∨ (s.commandsSorted = false ∧ s1 = { s with cmnds := none }) := by
  unfold CLI_BuildTable at h
  split at h
  · simp only [Option.some.injEq, Prod.mk.injEq, true_and] at h
    exact Or.inl h.symm
  · rename_i hns
    split at h
    · simp only [Option.some.injEq, Prod.mk.injEq, true_and] at h
      exact Or.inl h.symm
    · split at h
      · simp only [Option.some.injEq, Prod.mk.injEq, true_and] at h
        refine Or.inr ⟨?_, h.symm⟩
        cases hc : s.commandsSorted with
        | false => rfl
        | true => exact absurd (Or.inl hc) hns
      · split at h
        · exact absurd h (by simp)
        · simp at h

/-- In every reachable state an array exists only once the registry is sealed. -/
theorem reachable_unsealed (H : Nat → Nat → List (List Nat) → Int) (s : CLI_DataTypeDef)
    (hr : Reachable H s) : s.commandsSorted = false → s.cmnds = none := by
  induction hr with
  | start => intro _; rfl
  | init cliInit s _ ih =>
    intro h
    rw [(reg_Init cliInit s).1]
    exact ih (by rw [← (reg_Init cliInit s).2.1]; exact h)
  | inject ok table items s _ ih =>
    intro h
    rw [(reg_Inject ok table items s).1]
    exact ih (by rw [← (reg_Inject ok table items s).2.1]; exact h)
  | build fuel ok b s s1 _ hb ih =>
    intro h
    cases b with
    | true =>
      obtain ⟨arr, cnt, _, hs⟩ := build_true fuel ok s s1 hb
      subst hs
      simp at h
    | false =>
      rcases build_false fuel ok s s1 hb with hs | ⟨_, hs⟩
      · subst hs; exact ih h
      · subst hs; rfl
  | char c s _ ih =>
    intro h
    rw [(reg_ProcessChar c s).1]
    exact ih (by rw [← (reg_ProcessChar c s).2.1]; exact h)
  | state fuel b s s1 _ hp ih =>
    intro h
    have hf := reg_ProcessState H fuel b s s1 hp
    rw [hf.1]
    exact ih (by rw [← hf.2.1]; exact h)
  | reset s _ ih =>
    intro h
    rw [(reg_ResetState s).1]
    exact ih (by rw [← (reg_ResetState s).2.1]; exact h)

/-! ## Tokens and strtok -/

theorem splitOn_space (l : List Nat) :
    l.splitOn 32 = l.takeWhile (fun c => c != 32) ::
      (match l.dropWhile (fun c => c != 32) with
       | [] => []
       | _ :: r => r.splitOn 32) := by
  induction l with
  | nil => rfl
  | cons x xs ih =>
    unfold List.splitOn at ih ⊢
    rw [List.splitOnP_cons]
    by_cases hx : x = 32
    · subst hx
      simp
    · have h1 : (x == 32) = false := by simpa using hx
      have h2 : (x != 32) = true := by simpa using hx
      rw [h1]
      simp only [Bool.false_eq_true, if_false, List.takeWhile_cons, h2, if_true,
        List.dropWhile_cons]
      rw [ih]
      rfl

theorem tokens_nil : tokens [] = [] := by decide

theorem tokens_space (l : List Nat) : tokens (32 :: l) = tokens l := by
  unfold tokens
  rw [splitOn_space (32 :: l)]
  simp

theorem tokens_dropWhile (l : List Nat) : tokens (l.dropWhile (fun c => c == 32)) = tokens l := by
  induction l with
  | nil => rfl
  | cons x xs ih =>
    by_cases hx : x = 32
    · subst hx
      rw [tokens_space]
      simpa using ih
    · have h1 : (x == 32) = false := by simpa using hx
      simp [List.dropWhile_cons, h1]

theorem tokens_cons (x : Nat) (xs : List Nat) (hx : x ≠ 32) :
    tokens (x :: xs) = (x :: xs).takeWhile (fun c => c != 32) ::
      tokens (((x :: xs).dropWhile (fun c => c != 32)).drop 1) := by
  have h2 : (x != 32) = true := by simpa using hx
  unfold tokens
  rw [splitOn_space (x :: xs)]
  have hne : (x :: xs).takeWhile (fun c => c != 32) ≠ [] := by
    simp [List.takeWhile_cons, h2]
  rw [List.filter_cons_of_pos (by simpa using hne)]
  congr 1
  cases hd : (x :: xs).dropWhile (fun c => c != 32) with
  | nil => rfl
  | cons c r => rfl

/-- `strtok` returns `NULL` exactly when no token is left, and otherwise the
first token and a text holding the remaining tokens. -/
theorem strtok_tokens (l : List Nat) :
    (strtok l = none ∧ tokens l = []) ∨
    (∃ t r, strtok l = some (t, r) ∧ tokens l = t :: tokens r) := by
  unfold strtok
  cases hd : l.dropWhile (fun c => c == 32) with
  | nil =>
    left
    refine ⟨rfl, ?_⟩
    rw [← tokens_dropWhile, hd, tokens_nil]
  | cons x xs =>
    right
    have hx : x ≠ 32 := by
      have := List.head_dropWhile_not (fun c => c == 32) l (by rw [hd]; simp)
      simp only [hd, List.head_cons] at this
      simpa using this
    refine ⟨_, _, rfl, ?_⟩
    rw [← tokens_dropWhile, hd, tokens_cons x xs hx]

/-- The token loop gives the tokens of the text, or fails from the fifteenth. -/
theorem tokenLoop_tokens (fuel : Nat) (rest : List Nat) (param : List (List Nat))
    (hp : param.length ≤ 14) (hf : 16 ≤ param.length + fuel) :
    tokenLoop fuel rest param =
      if 15 ≤ param.length + (tokens rest).length then some none
      else some (some (param ++ tokens rest)) := by
  induction fuel generalizing rest param with
  | zero => omega
  | succ n ih =>
    unfold tokenLoop
    rcases strtok_tokens rest with ⟨h1, h2⟩ | ⟨t, r, h1, h2⟩
    · rw [h1, h2]
      simp only [List.length_nil, Nat.add_zero, List.append_nil]
      rw [if_neg (by omega)]
    · rw [h1, h2]
      simp only [List.length_cons, CLI_MAX_NUM_PARAMS]
      by_cases h14 : param.length + 1 > 15 - 1
      · rw [if_pos h14, if_pos (by omega)]
      · rw [if_neg h14]
        rw [ih r (param ++ [t]) (by simp; omega) (by simp; omega)]
        simp only [List.length_append, List.length_singleton, List.append_assoc,
          List.singleton_append]
        by_cases h15 : 15 ≤ param.length + ((tokens r).length + 1)
        · rw [if_pos h15, if_pos (by omega)]
        · rw [if_neg h15, if_neg (by omega)]

/-! ## Handler invocations in the trace -/

theorem calls_append (t u : List Event) : calls (t ++ u) = calls t ++ calls u := by
  simp [calls, List.filter_append]

theorem calls_out (l : List Nat) : calls (l.map Event.out) = [] := by
  induction l with
  | nil => rfl
  | cons x xs ih =>
    simp only [List.map_cons, calls, List.filter_cons] at ih ⊢
    simp

theorem calls_append_out (t : List Event) (l : List Nat) :
    calls (t ++ l.map Event.out) = calls t := by
  rw [calls_append, calls_out, List.append_nil]

theorem calls_PutByte (c : Nat) (s : CLI_DataTypeDef) :
    calls (CLI_PutByte c s).trace = calls s.trace := by
  unfold CLI_PutByte
  split
  · exact calls_append_out s.trace [c]
  · rfl

theorem calls_putBytes (l : List Nat) (s : CLI_DataTypeDef) :
    calls (putBytes l s).trace = calls s.trace := by
  unfold putBytes
  split
  · exact calls_append_out s.trace l
  · rfl

theorem calls_printf (l : List Nat) (s : CLI_DataTypeDef) :
    calls (printf l s).trace = calls s.trace := calls_append_out s.trace l

theorem calls_TaskAlert (s : CLI_DataTypeDef) :
    calls (CLI_TaskAlert s).trace = calls s.trace := by
  simp [CLI_TaskAlert, calls_append, calls]

theorem calls_Print (buf : List Nat) (n : Nat) (s : CLI_DataTypeDef) :
    calls (CLI_Print buf n s).trace = calls s.trace := by
  unfold CLI_Print
  repeat' split
  all_goals simp only [calls_PutByte, calls_putBytes]

theorem calls_CRLF (s : CLI_DataTypeDef) :
    calls (CLI_SEND_CRLF s).trace = calls s.trace := by
  exact calls_Print _ _ s

theorem calls_crlfTimes (n : Nat) (s : CLI_DataTypeDef) :
    calls (crlfTimes n s).trace = calls s.trace := by
  induction n generalizing s with
  | zero => rfl
  | succ n ih => simp only [crlfTimes, ih, calls_CRLF]

theorem calls_PrintPrompt (n : Nat) (s : CLI_DataTypeDef) :
    calls (CLI_PrintPrompt n s).trace = calls s.trace := by
  unfold CLI_PrintPrompt
  repeat' split
  all_goals simp only [calls_Print, calls_crlfTimes]

theorem calls_pokeLine (a b c : Nat) (s : CLI_DataTypeDef) :
    calls (pokeLine a b c s).trace = calls s.trace := by
  rfl

theorem calls_crlfIfEcho (s : CLI_DataTypeDef) :
    calls (crlfIfEcho s).trace = calls s.trace := by
  unfold crlfIfEcho
  repeat' split
  all_goals simp only [calls_CRLF]

theorem calls_crlfIfNoEcho (s : CLI_DataTypeDef) :
    calls (crlfIfNoEcho s).trace = calls s.trace := by
  unfold crlfIfNoEcho
  repeat' split
  all_goals simp only [calls_CRLF]

theorem calls_tooManyArgs (s : CLI_DataTypeDef) :
    calls (tooManyArgs s).trace = calls s.trace := by
  unfold tooManyArgs
  simp only [calls_crlfIfEcho, calls_printf]

theorem calls_notRecognized (l t : List Nat) (s : CLI_DataTypeDef) :
    calls (notRecognized l t s).trace = calls s.trace := by
  unfold notRecognized
  simp only [calls_crlfIfEcho, calls_printf]

theorem calls_advanceHistory (s : CLI_DataTypeDef) :
    calls (advanceHistory s).trace = calls s.trace := by
  rfl

theorem calls_clearCurrent (s : CLI_DataTypeDef) :
    calls (clearCurrent s).trace = calls s.trace := by
  rfl

theorem calls_commitLine (s : CLI_DataTypeDef) :
    calls (commitLine s).trace = calls s.trace := by
  unfold commitLine
  repeat' split
  all_goals simp only [calls_clearCurrent, calls_advanceHistory]

theorem calls_promptUnlessReset (r : Int) (s : CLI_DataTypeDef) :
    calls (promptUnlessReset r s).trace = calls s.trace := by
  unfold promptUnlessReset
  repeat' split
  all_goals simp only [calls_PrintPrompt]

theorem calls_rejectLine (s : CLI_DataTypeDef) :
    calls (rejectLine s).trace = calls s.trace := by
  unfold rejectLine
  repeat' split
  all_goals simp only [calls_PrintPrompt, calls_clearCurrent, calls_printf]

theorem calls_keyReturn (s : CLI_DataTypeDef) :
    calls (keyReturn s).trace = calls s.trace := by
  unfold keyReturn
  repeat' split
  all_goals simp only [calls_clearCurrent, calls_TaskAlert]

theorem calls_callHandler (h : Nat) (param : List (List Nat)) (s : CLI_DataTypeDef) :
    calls (callHandler h param s).trace = calls s.trace ++ [Event.call h param.length param] := by
  unfold callHandler
  rw [calls_crlfIfEcho]
  simp only [calls_append, calls_crlfIfNoEcho]
  rfl

/-- The command scan stops at the first matching entry when its index is below 256. -/
theorem cmdScan_found (arr : List CLI_CmdTypeDef) (cnt : Nat) (p : List Nat) (i0 : Nat)
    (e0 : CLI_CmdTypeDef) (h0 : i0 < cnt) (h256 : i0 < 256) (he : arr[i0]? = some e0)
    (hm : __stricmp p e0.Name = 0)
    (hfirst : ∀ j, j < i0 → ∃ e, arr[j]? = some e ∧ __stricmp p e.Name ≠ 0)
    (fuel i : Nat) (hi : i ≤ i0) (hf : i0 - i < fuel) :
    cmdScan arr cnt p fuel i = some (some i0) := by
  induction fuel generalizing i with
  | zero => omega
  | succ n ih =>
    unfold cmdScan
    rw [if_pos (by omega)]
    by_cases hii : i = i0
    · subst hii
      rw [he]
      simp only
      rw [if_pos hm]
    · obtain ⟨e, hje, hjm⟩ := hfirst i (by omega)
      rw [hje]
      simp only
      rw [if_neg hjm]
      have hmod : (i + 1) % 256 = i + 1 := Nat.mod_eq_of_lt (by omega)
      rw [hmod]
      exact ih (i + 1) (by omega) (by omega)

/-- With 256 entries or more and no match among the first 256, the scan never ends. -/
theorem cmdScan_diverges (arr : List CLI_CmdTypeDef) (cnt : Nat) (p : List Nat)
    (hcnt : 256 ≤ cnt)
    (hno : ∀ j, j < 256 → ∃ e, arr[j]? = some e ∧ __stricmp p e.Name ≠ 0)
    (fuel i : Nat) (hi : i < 256) :
    cmdScan arr cnt p fuel i = none := by
  induction fuel generalizing i with
  | zero => rfl
  | succ n ih =>
    unfold cmdScan
    rw [if_pos (by omega)]
    obtain ⟨e, hje, hjm⟩ := hno i hi
    rw [hje]
    simp only
    rw [if_neg hjm]
    exact ih ((i + 1) % 256) (Nat.mod_lt _ (by decide))

/-! ## Functions that only write to the terminal -/

theorem traceOnly_refl (s : CLI_DataTypeDef) : TraceOnly s s := by
  cases s; rfl

theorem traceOnly_trans {a b c : CLI_DataTypeDef} (h1 : TraceOnly a b) (h2 : TraceOnly b c) :
    TraceOnly a c := by
  cases a; cases b; cases c
  simp only [TraceOnly, CLI_DataTypeDef.mk.injEq] at h1 h2 ⊢
  obtain ⟨a1, a2, a3, a4, a5, a6, a7, a8, a9, a10, a11, a12, a13, a14, a15, a16, a17, a18, a19,
    a20, a21, _⟩ := h1
  obtain ⟨b1, b2, b3, b4, b5, b6, b7, b8, b9, b10, b11, b12, b13, b14, b15, b16, b17, b18, b19,
    b20, b21, _⟩ := h2
  exact ⟨b1.trans a1, b2.trans a2, b3.trans a3, b4.trans a4, b5.trans a5, b6.trans a6,
    b7.trans a7, b8.trans a8, b9.trans a9, b10.trans a10, b11.trans a11, b12.trans a12,
    b13.trans a13, b14.trans a14, b15.trans a15, b16.trans a16, b17.trans a17, b18.trans a18,
    b19.trans a19, b20.trans a20, b21.trans a21, trivial⟩

theorem traceOnly_upd (s : CLI_DataTypeDef) (t : List Event) :
    TraceOnly s { s with trace := t } := by
  cases s; rfl

/-- States that differ at most in the trace agree on every other field. -/
theorem traceOnly_fields {s s1 : CLI_DataTypeDef} (h : TraceOnly s s1) :
    s1.line = s.line ∧ s1.lineIdx = s.lineIdx ∧ s1.lineCurrent = s.lineCurrent
    ∧ s1.LineCount = s.LineCount ∧ s1.LineBack = s.LineBack ∧ s1.execType = s.execType
    ∧ s1.echo = s.echo ∧ s1.locked = s.locked ∧ s1.putc = s.putc ∧ s1.prompt = s.prompt
    ∧ s1.prmpSize = s.prmpSize ∧ s1.cmnds = s.cmnds ∧ s1.cmndsCount = s.cmndsCount
    ∧ s1.commandsSorted = s.commandsSorted ∧ s1.initialized = s.initialized := by
  cases s; cases s1
  simp only [TraceOnly, CLI_DataTypeDef.mk.injEq] at h
  obtain ⟨a1, a2, a3, a4, a5, a6, a7, a8, a9, a10, a11, a12, a13, a14, a15, a16, a17, a18, a19,
    a20, a21, _⟩ := h
  exact ⟨a1, a7, a8, a9, a10, a5, a17, a18, a21, a2, a11, a3, a6, a20, a16⟩

theorem traceOnly_PutByte (c : Nat) (s : CLI_DataTypeDef) :
    TraceOnly s (CLI_PutByte c s) := by
  unfold CLI_PutByte
  repeat' split
  all_goals exact traceOnly_refl s

theorem traceOnly_putBytes (l : List Nat) (s : CLI_DataTypeDef) :
    TraceOnly s (putBytes l s) := by
  unfold putBytes
  repeat' split
  all_goals exact traceOnly_refl s

theorem traceOnly_Print (buf : List Nat) (n : Nat) (s : CLI_DataTypeDef) :
    TraceOnly s (CLI_Print buf n s) := by
  unfold CLI_Print
  repeat' split
  · exact traceOnly_putBytes _ s
  · exact traceOnly_PutByte _ s
  · exact traceOnly_putBytes _ s

theorem traceOnly_CRLF (s : CLI_DataTypeDef) :
    TraceOnly s (CLI_SEND_CRLF s) := by
  exact traceOnly_Print _ _ s

theorem traceOnly_printf (l : List Nat) (s : CLI_DataTypeDef) :
    TraceOnly s (printf l s) := by
  exact traceOnly_upd s _

theorem traceOnly_TaskAlert (s : CLI_DataTypeDef) :
    TraceOnly s (CLI_TaskAlert s) := by
  exact traceOnly_upd s _

theorem traceOnly_crlfTimes (n : Nat) (s : CLI_DataTypeDef) :
    TraceOnly s (crlfTimes n s) := by
  induction n generalizing s with
  | zero => exact traceOnly_refl s
  | succ n ih => exact traceOnly_trans (traceOnly_CRLF s) (ih _)

theorem traceOnly_PrintPrompt (n : Nat) (s : CLI_DataTypeDef) :
    TraceOnly s (CLI_PrintPrompt n s) := by
  unfold CLI_PrintPrompt
  split
  · exact traceOnly_trans (traceOnly_crlfTimes n s) (traceOnly_Print _ _ _)
  · exact traceOnly_refl s

theorem traceOnly_crlfIfEcho (s : CLI_DataTypeDef) :
    TraceOnly s (crlfIfEcho s) := by
  unfold crlfIfEcho
  split
  · exact traceOnly_CRLF s
  · exact traceOnly_refl s

theorem traceOnly_crlfIfNoEcho (s : CLI_DataTypeDef) :
    TraceOnly s (crlfIfNoEcho s) := by
  unfold crlfIfNoEcho
  split
  · exact traceOnly_CRLF s
  · exact traceOnly_refl s

theorem traceOnly_tooManyArgs (s : CLI_DataTypeDef) :
    TraceOnly s (tooManyArgs s) := by
  exact traceOnly_trans (traceOnly_printf _ s) (traceOnly_crlfIfEcho _)

theorem traceOnly_notRecognized (l t : List Nat) (s : CLI_DataTypeDef) :
    TraceOnly s (notRecognized l t s) := by
  exact traceOnly_trans (traceOnly_printf _ s) (traceOnly_crlfIfEcho _)

theorem traceOnly_callHandler (h : Nat) (param : List (List Nat)) (s : CLI_DataTypeDef) :
    TraceOnly s (callHandler h param s) := by
  exact traceOnly_trans (traceOnly_trans (traceOnly_crlfIfNoEcho s) (traceOnly_upd _ _))
    (traceOnly_crlfIfEcho _)

theorem traceOnly_promptUnlessReset (r : Int) (s : CLI_DataTypeDef) :
    TraceOnly s (promptUnlessReset r s) := by
  unfold promptUnlessReset
  repeat' split
  · exact traceOnly_PrintPrompt 0 s
  · exact traceOnly_PrintPrompt 1 s
  · exact traceOnly_refl s

/-- `CLI_ParseEndExec` changes nothing but the trace. -/
theorem traceOnly_ParseEndExec (H : Nat → Nat → List (List Nat) → Int) (fuel : Nat)
    (p : Option (List CLI_CmdTypeDef)) (line : List Nat) (r : Int) (s s1 : CLI_DataTypeDef)
    (h : CLI_ParseEndExec H fuel p line s = some (r, s1)) : TraceOnly s s1 := by
  unfold CLI_ParseEndExec at h
  repeat' split at h
  all_goals first
    | (simp only [Option.some.injEq, Prod.mk.injEq] at h
       obtain ⟨_, rfl⟩ := h
       first
         | exact traceOnly_refl s
         | exact traceOnly_tooManyArgs s
         | exact traceOnly_callHandler _ _ s
         | exact traceOnly_notRecognized _ _ s)
    | exact absurd h (by simp)

/-! ## What the output functions add to the trace -/

theorem trace_putBytes (l : List Nat) (s : CLI_DataTypeDef) :
    (putBytes l s).trace = s.trace ++ outs s.putc l := by
  unfold putBytes outs
  split
  · rfl
  · exact (List.append_nil _).symm

theorem trace_Print (buf : List Nat) (n : Nat) (s : CLI_DataTypeDef) :
    (CLI_Print buf n s).trace = s.trace ++ outs s.putc (printed buf n) := by
  unfold CLI_Print printed
  split
  · exact trace_putBytes _ s
  · split
    · unfold CLI_PutByte outs
      split
      · rfl
      · exact (List.append_nil _).symm
    · exact trace_putBytes _ s

theorem trace_CRLF (s : CLI_DataTypeDef) :
    (CLI_SEND_CRLF s).trace = s.trace ++ outs s.putc [13, 10] :=
  trace_Print [13, 10, 0] 2 s

theorem trace_crlfIfEcho (s : CLI_DataTypeDef) :
    (crlfIfEcho s).trace = s.trace ++ (if s.echo = true then outs s.putc [13, 10] else []) := by
  unfold crlfIfEcho
  split
  · exact trace_CRLF s
  · exact (List.append_nil _).symm

/-! ## CLI_ParseEndExec case by case -/

theorem parse_hash (H : Nat → Nat → List (List Nat) → Int) (fuel : Nat)
    (arr : List CLI_CmdTypeDef) (line : List Nat) (s : CLI_DataTypeDef)
    (h : line.head? = some 35) :
    CLI_ParseEndExec H fuel (some arr) line s = some (-1, s) := by
  unfold CLI_ParseEndExec
  simp only
  rw [if_pos h]

/-- The first `strtok` and the token loop, in terms of the tokens of the line. -/
theorem tokenize (fuel : Nat) (line : List Nat) (t0 : List Nat) (ts : List (List Nat))
    (ht : tokens line = t0 :: ts) (hf : 15 ≤ fuel) :
    ∃ rest, strtok line = some (t0, rest) ∧
      tokenLoop fuel rest [t0] =
        if 15 ≤ (t0 :: ts).length then some none else some (some (t0 :: ts)) := by
  rcases strtok_tokens line with ⟨_, h2⟩ | ⟨t, r, h1, h2⟩
  · rw [ht] at h2
    exact absurd h2 (by simp)
  · rw [ht] at h2
    simp only [List.cons.injEq] at h2
    obtain ⟨rfl, rfl⟩ := h2
    refine ⟨r, h1, ?_⟩
    rw [tokenLoop_tokens fuel r [t0] (by simp) (by simp; omega)]
    simp only [List.length_singleton, List.length_cons, List.singleton_append]
    by_cases h15 : 15 ≤ 1 + (tokens r).length
    · rw [if_pos (by simp only [List.length_nil]; omega), if_pos (by omega)]
    · rw [if_neg (by simp only [List.length_nil]; omega), if_neg (by omega)]

theorem parse_tooMany (H : Nat → Nat → List (List Nat) → Int) (fuel : Nat)
    (arr : List CLI_CmdTypeDef) (line : List Nat) (s : CLI_DataTypeDef)
    (hh : line.head? ≠ some 35) (ht : 15 ≤ (tokens line).length) (hf : 15 ≤ fuel) :
    CLI_ParseEndExec H fuel (some arr) line s = some (-1, tooManyArgs s) := by
  cases htk : tokens line with
  | nil => rw [htk] at ht; simp at ht
  | cons t0 ts =>
    obtain ⟨rest, h1, h2⟩ := tokenize fuel line t0 ts htk hf
    rw [htk] at ht
    rw [if_pos ht] at h2
    unfold CLI_ParseEndExec
    simp only
    rw [if_neg hh, h1]
    simp only
    rw [h2]

theorem parse_found (H : Nat → Nat → List (List Nat) → Int) (fuel : Nat)
    (arr : List CLI_CmdTypeDef) (line : List Nat) (s : CLI_DataTypeDef)
    (t0 : List Nat) (ts : List (List Nat)) (i0 : Nat) (e0 : CLI_CmdTypeDef)
    (hh : line.head? ≠ some 35) (ht : tokens line = t0 :: ts) (hlen : (t0 :: ts).length ≤ 14)
    (hf : 15 ≤ fuel) (hfi : i0 < fuel) (h0 : i0 < s.cmndsCount) (h256 : i0 < 256)
    (he : arr[i0]? = some e0) (hm : __stricmp t0 e0.Name = 0)
    (hfirst : ∀ j, j < i0 → ∃ e, arr[j]? = some e ∧ __stricmp t0 e.Name ≠ 0) :
    CLI_ParseEndExec H fuel (some arr) line s =
      some (H e0.pHandler (t0 :: ts).length (t0 :: ts), callHandler e0.pHandler (t0 :: ts) s) := by
  obtain ⟨rest, h1, h2⟩ := tokenize fuel line t0 ts ht hf
  rw [if_neg (by omega)] at h2
  have h3 := cmdScan_found arr s.cmndsCount t0 i0 e0 h0 h256 he hm hfirst fuel 0
    (Nat.zero_le _) (by omega)
  have h4 : arr.getD i0 zeroCmd = e0 := by
    rw [List.getD_eq_getElem?_getD, he]
    rfl
  unfold CLI_ParseEndExec
  simp only
  rw [if_neg hh, h1]
  simp only
  rw [h2]
  simp only
  rw [h3]
  simp only
  rw [h4]

/-- Whatever `CLI_ParseEndExec` returns on a line that starts with '#', no
handler was called. -/
theorem parse_hash_calls (H : Nat → Nat → List (List Nat) → Int) (fuel : Nat)
    (p : Option (List CLI_CmdTypeDef)) (line : List Nat) (s s1 : CLI_DataTypeDef) (r : Int)
    (h : line.head? = some 35) (hp : CLI_ParseEndExec H fuel p line s = some (r, s1)) :
    s1 = s := by
  cases p with
  | none =>
    unfold CLI_ParseEndExec at hp
    simp only [Option.some.injEq, Prod.mk.injEq] at hp
    exact hp.2.symm
  | some arr =>
    rw [parse_hash H fuel arr line s h] at hp
    simp only [Option.some.injEq, Prod.mk.injEq] at hp
    exact hp.2.symm

/-! ## Termination of the first-letter search -/

theorem searchSorted_returns (arr : List CLI_CmdTypeDef) (c : Nat) (fuel : Nat)
    (startIndex count middle : Int) (h0 : 0 ≤ startIndex) (hc : count < (arr.length : Int))
    (hf : (count + 1 - startIndex).toNat < fuel) :
    ∃ r, searchSorted arr c fuel startIndex count middle = some r := by
  induction fuel generalizing startIndex count middle with
  | zero => omega
  | succ n ih =>
    unfold searchSorted
    by_cases hle : startIndex ≤ count
    · rw [if_pos hle]
      have hm1 : startIndex ≤ startIndex + (count - startIndex) / 2 := by omega
      have hm2 : startIndex + (count - startIndex) / 2 ≤ count := by omega
      have hlt : (startIndex + (count - startIndex) / 2).toNat < arr.length := by omega
      cases hget : arr[(startIndex + (count - startIndex) / 2).toNat]? with
      | none =>
        rw [List.getElem?_eq_none_iff] at hget
        omega
      | some e =>
        simp only
        by_cases h1 : e.Name.headD 0 = c
        · rw [if_pos h1]
          exact ⟨_, rfl⟩
        · rw [if_neg h1]
          by_cases h2 : scharVal (e.Name.headD 0) < scharVal c
          · rw [if_pos h2]
            exact ih _ _ _ (by omega) hc (by omega)
          · rw [if_neg h2]
            exact ih _ _ _ h0 (by omega) (by omega)
    · rw [if_neg hle]
      exact ⟨_, rfl⟩

/-! ## Executing a comment line, and a carriage return on an empty line -/

theorem lineAt_traceOnly {s s1 : CLI_DataTypeDef} (h : TraceOnly s s1) (idx : Nat) :
    lineAt s1 idx = lineAt s idx := by
  unfold lineAt
  rw [(traceOnly_fields h).1]

theorem argvText_hash (s : CLI_DataTypeDef) (hh : (lineAt s s.lineCurrent).head? = some 35) :
    (argvText s).head? = some 35 := by
  unfold argvText cstr
  cases hl : lineAt s s.lineCurrent with
  | nil => rw [hl] at hh; simp at hh
  | cons x xs =>
    rw [hl] at hh
    simp only [List.head?_cons, Option.some.injEq] at hh
    subst hh
    rfl

/-- On a line that starts with '#' the command step only prints: the line break,
then the history step and the prompt. -/
theorem exec_hash (H : Nat → Nat → List (List Nat) → Int) (fuel : Nat) (s : CLI_DataTypeDef)
    (arr : List CLI_CmdTypeDef) (hc : s.cmnds = some arr)
    (hh : (lineAt s s.lineCurrent).head? = some 35) :
    CLI_ExecuteCommand H fuel s
      = some (promptUnlessReset (-1) (commitLine (crlfIfEcho s))) := by
  have hf := traceOnly_fields (traceOnly_crlfIfEcho s)
  have hl : lineAt (crlfIfEcho s) (crlfIfEcho s).lineCurrent = lineAt s s.lineCurrent := by
    rw [lineAt_traceOnly (traceOnly_crlfIfEcho s), hf.2.2.1]
  have hne : (lineAt (crlfIfEcho s) (crlfIfEcho s).lineCurrent).headD 0 ≠ 0 := by
    rw [hl]
    cases hx : lineAt s s.lineCurrent with
    | nil => rw [hx] at hh; simp at hh
    | cons x xs =>
      rw [hx] at hh
      simp only [List.head?_cons, Option.some.injEq] at hh
      subst hh
      simp
  have ha : (argvText (crlfIfEcho s)).head? = some 35 := by
    apply argvText_hash
    rw [hl]
    exact hh
  unfold CLI_ExecuteCommand
  rw [hc]
  simp only
  rw [if_pos hne, parse_hash H fuel arr _ _ ha]

theorem exec_hash_calls (H : Nat → Nat → List (List Nat) → Int) (fuel : Nat)
    (s s1 : CLI_DataTypeDef) (hh : (lineAt s s.lineCurrent).head? = some 35)
    (he : CLI_ExecuteCommand H fuel s = some s1) : calls s1.trace = calls s.trace := by
  cases hc : s.cmnds with
  | none =>
    unfold CLI_ExecuteCommand at he
    rw [hc] at he
    simp only [Option.some.injEq] at he
    rw [← he]
  | some arr =>
    rw [exec_hash H fuel s arr hc hh] at he
    simp only [Option.some.injEq] at he
    rw [← he, calls_promptUnlessReset, calls_commitLine, calls_crlfIfEcho]

theorem search_hash_calls (H : Nat → Nat → List (List Nat) → Int) (fuel : Nat) (b : Bool)
    (s s1 : CLI_DataTypeDef) (hh : (lineAt s s.lineCurrent).head? = some 35)
    (h : CLI_SearchAndExecute H fuel s = some (b, s1)) : calls s1.trace = calls s.trace := by
  unfold CLI_SearchAndExecute at h
  split at h
  · simp only [Option.some.injEq, Prod.mk.injEq] at h
    rw [← h.2]
  · split at h
    · exact absurd h (by simp)
    · split at h
      · split at h
        · exact absurd h (by simp)
        · rename_i s2 he
          simp only [Option.some.injEq, Prod.mk.injEq] at h
          rw [← h.2]
          exact exec_hash_calls H fuel s s2 hh he
      · simp only [Option.some.injEq, Prod.mk.injEq] at h
        rw [← h.2, calls_rejectLine]

/-- On a sealed registry the "fast verification" returns once the fuel exceeds
the number of commands by two. -/
theorem worthExecuting_returns (fuel : Nat) (s : CLI_DataTypeDef) (arr : List CLI_CmdTypeDef)
    (hc : s.cmnds = some arr) (hs : s.commandsSorted = true) (hlen : s.cmndsCount < arr.length)
    (hf : s.cmndsCount + 2 ≤ fuel) : ∃ r, worthExecuting fuel s = some r := by
  unfold worthExecuting
  split
  · unfold CLI_SearchChar
    rw [hc]
    simp only
    split
    · exact ⟨_, rfl⟩
    · exact searchSorted_returns arr _ fuel 0 _ (-1) (le_refl 0) (by omega) (by omega)
  · exact ⟨_, rfl⟩

theorem search_hash_returns (H : Nat → Nat → List (List Nat) → Int) (fuel : Nat)
    (s : CLI_DataTypeDef) (arr : List CLI_CmdTypeDef)
    (hh : (lineAt s s.lineCurrent).head? = some 35)
    (hc : s.cmnds = some arr) (hs : s.commandsSorted = true) (hlen : s.cmndsCount < arr.length)
    (hf : s.cmndsCount + 2 ≤ fuel) : ∃ b s1, CLI_SearchAndExecute H fuel s = some (b, s1) := by
  obtain ⟨r, hr⟩ := worthExecuting_returns fuel s arr hc hs hlen hf
  unfold CLI_SearchAndExecute
  split
  · exact ⟨_, _, rfl⟩
  · rw [hr]
    simp only
    split
    · rw [exec_hash H fuel s arr hc hh]
      exact ⟨_, _, rfl⟩
    · exact ⟨_, _, rfl⟩

theorem trace_PrintPrompt_zero (s : CLI_DataTypeDef) (hl : s.locked = false) :
    (CLI_PrintPrompt 0 s).trace = s.trace ++ outs s.putc (printed s.prompt s.prmpSize) := by
  unfold CLI_PrintPrompt
  rw [if_pos hl]
  exact trace_Print _ _ s

theorem trace_PrintPrompt_one (s : CLI_DataTypeDef) (hl : s.locked = false) :
    (CLI_PrintPrompt 1 s).trace
      = s.trace ++ outs s.putc [13, 10] ++ outs s.putc (printed s.prompt s.prmpSize) := by
  have hf := traceOnly_fields (traceOnly_CRLF s)
  unfold CLI_PrintPrompt
  rw [if_pos hl]
  show (CLI_Print (CLI_SEND_CRLF s).prompt (CLI_SEND_CRLF s).prmpSize (CLI_SEND_CRLF s)).trace = _
  rw [trace_Print, trace_CRLF, hf.2.2.2.2.2.2.2.2.1, hf.2.2.2.2.2.2.2.2.2.1,
    hf.2.2.2.2.2.2.2.2.2.2.1]

/-- The prompt step of the command step on an unlocked engine: one line break
in all (before the prompt or before the command) and the prompt. -/
theorem trace_prompt_after_crlf (s : CLI_DataTypeDef) (hl : s.locked = false) :
    (promptUnlessReset 0 (crlfIfEcho s)).trace
      = s.trace ++ outs s.putc [13, 10] ++ outs s.putc (printed s.prompt s.prmpSize) := by
  have hf := traceOnly_fields (traceOnly_crlfIfEcho s)
  have hl2 : (crlfIfEcho s).locked = false := by rw [hf.2.2.2.2.2.2.2.1]; exact hl
  unfold promptUnlessReset
  rw [if_pos (by decide)]
  rw [hf.2.2.2.2.2.2.1]
  by_cases he : s.echo = true
  · rw [if_pos he, trace_PrintPrompt_zero _ hl2, trace_crlfIfEcho, if_pos he,
      hf.2.2.2.2.2.2.2.2.1, hf.2.2.2.2.2.2.2.2.2.1, hf.2.2.2.2.2.2.2.2.2.2.1]
  · rw [if_neg he, trace_PrintPrompt_one _ hl2, trace_crlfIfEcho, if_neg he,
      hf.2.2.2.2.2.2.2.2.1, hf.2.2.2.2.2.2.2.2.2.1, hf.2.2.2.2.2.2.2.2.2.2.1,
      List.append_nil]

/-! ## The build of the large table -/

/-- With at most 65535 items, all present in the table, the `position` loop is
a left fold of the loop body over the entries from `position` on. -/
theorem mergeTable_fold (node : CLI_TableNode_TypeDef) (hi : node.items = node.table.length)
    (h16 : node.items ≤ 65535) (fuel position : Nat) (st : List CLI_CmdTypeDef × Nat)
    (hp : position ≤ node.items) (hf : node.items - position < fuel) :
    mergeTable fuel node position st = some ((node.table.drop position).foldl mergeEntry st) := by
  induction fuel generalizing position st with
  | zero => omega
  | succ n ih =>
    unfold mergeTable
    by_cases hlt : position < node.items
    · rw [if_pos hlt]
      have hlen : position < node.table.length := by omega
      rw [List.getElem?_eq_getElem hlen]
      simp only
      rw [Nat.mod_eq_of_lt (by omega), ih (position + 1) _ (by omega) (by omega)]
      rw [List.drop_eq_getElem_cons hlen]
      rfl
    · rw [if_neg hlt]
      have : position = node.table.length := by omega
      rw [this, List.drop_length]
      rfl

/-- Entries that are already normalised and differ from all earlier ones fill
the array in order. -/
theorem fold_mergeEntry_distinct (suf pre : List CLI_CmdTypeDef) (m : Nat)
    (hm : suf.length ≤ m) (h16 : pre.length + suf.length < 65536)
    (hnorm : ∀ e ∈ suf, normalizeCmd e = e)
    (hd : (pre ++ suf).Pairwise (fun a b => __stricmp a.Name b.Name ≠ 0)) :
    suf.foldl mergeEntry (pre ++ List.replicate m zeroCmd, pre.length)
      = (pre ++ suf ++ List.replicate (m - suf.length) zeroCmd, pre.length + suf.length) := by
  induction suf generalizing pre m with
  | nil => simp
  | cons e rest ih =>
    simp only [List.length_cons] at hm h16
    have hnodup : ((pre ++ List.replicate m zeroCmd).take pre.length).any
        (fun c => decide (__stricmp c.Name e.Name = 0)) = false := by
      rw [List.take_left' rfl]
      rw [List.any_eq_false]
      intro c hc
      have := (List.pairwise_append.mp hd).2.2 c hc e (List.mem_cons_self _ _)
      simpa using this
    have hset : (pre ++ List.replicate m zeroCmd).set pre.length (normalizeCmd e)
        = (pre ++ [e]) ++ List.replicate (m - 1) zeroCmd := by
      rw [hnorm e (List.mem_cons_self _ _)]
      obtain ⟨k, rfl⟩ : ∃ k, m = k + 1 := ⟨m - 1, by omega⟩
      rw [List.replicate_succ, List.set_append_right _ _ (le_refl _)]
      simp
    have hstep : mergeEntry (pre ++ List.replicate m zeroCmd, pre.length) e
        = ((pre ++ [e]) ++ List.replicate (m - 1) zeroCmd, (pre ++ [e]).length) := by
      unfold mergeEntry
      simp only
      rw [hnodup]
      simp only [Bool.false_eq_true, if_false]
      rw [hset, Nat.mod_eq_of_lt (by omega)]
      simp
    rw [List.foldl_cons, hstep]
    rw [ih (pre ++ [e]) (m - 1) (by omega) (by simp; omega)
      (fun x hx => hnorm x (List.mem_cons_of_mem _ hx)) (by simpa using hd)]
    have h1 : m - 1 - rest.length = m - (rest.length + 1) := by omega
    have h2 : (pre ++ [e]).length + rest.length = pre.length + (rest.length + 1) := by
      simp only [List.length_append, List.length_singleton]
      omega
    rw [h1, h2]
    simp only [List.append_assoc, List.singleton_append, List.length_cons]

theorem bigName_stricmp (i j : Nat) (hi : i < 257) (hj : j < 257)
    (h : __stricmp (bigName i) (bigName j) = 0) : i = j := by
  have t1 : __tolower (97 + i / 26) = 97 + i / 26 := by
    unfold __tolower; rw [if_neg (by omega)]
  have t2 : __tolower (97 + i % 26) = 97 + i % 26 := by
    unfold __tolower; rw [if_neg (by omega)]
  have t3 : __tolower (97 + j / 26) = 97 + j / 26 := by
    unfold __tolower; rw [if_neg (by omega)]
  have t4 : __tolower (97 + j % 26) = 97 + j % 26 := by
    unfold __tolower; rw [if_neg (by omega)]
  simp only [bigName, __stricmp, t1, t2, t3, t4] at h
  split at h
  · split at h
    · omega
    · omega
  · omega

theorem bigName_strcmp (i j : Nat) (hij : i < j) :
    strcmp (bigName i) (bigName j) ≤ 0 := by
  simp only [bigName, strcmp]
  split
  · split
    · omega
    · omega
  · omega

theorem bigTable_length : bigTable.length = 257 := by
  simp [bigTable]

theorem bigTable_distinct :
    bigTable.Pairwise (fun a b => __stricmp a.Name b.Name ≠ 0) := by
  unfold bigTable
  rw [List.pairwise_map]
  refine List.Pairwise.imp_of_mem ?_ (List.pairwise_lt_range 257)
  intro i j hi hj hij h
  have := bigName_stricmp i j (List.mem_range.mp hi) (List.mem_range.mp hj) h
  omega

theorem bigTable_sorted : bigTable.Sorted (fun a b => CLI_Compare a b ≤ 0) := by
  unfold bigTable List.Sorted
  rw [List.pairwise_map]
  refine List.Pairwise.imp ?_ (List.pairwise_lt_range 257)
  intro i j hij
  exact bigName_strcmp i j hij

set_option maxRecDepth 100000 in
theorem bigTable_normal : ∀ e ∈ bigTable, normalizeCmd e = e := by
  decide

set_option maxRecDepth 100000 in
/-- The large table builds into `bigBuilt`: 257 entries, already in order. -/
theorem big_build : CLI_BuildTable 258 true bigInjected = some (true, bigBuilt) := by
  have hchain : bigInjected.cmndsTableHead = [⟨bigTable, 257⟩] := rfl
  have hmerge : mergeChain 258 [⟨bigTable, 257⟩] (List.replicate 258 zeroCmd, 0)
      = some (bigTable ++ [zeroCmd], 257) := by
    unfold mergeChain
    rw [mergeTable_fold ⟨bigTable, 257⟩ bigTable_length.symm (by decide) 258 0 _
      (Nat.zero_le _) (by decide)]
    simp only [List.drop_zero]
    have h := fold_mergeEntry_distinct bigTable [] 258 (by rw [bigTable_length]; decide)
      (by rw [bigTable_length]; decide) bigTable_normal (by simpa using bigTable_distinct)
    simp only [List.nil_append, List.length_nil, Nat.zero_add, bigTable_length] at h
    have h1 : List.replicate (258 - 257) zeroCmd = [zeroCmd] := rfl
    rw [h, h1]
    rfl
  have hsort : qsort bigTable = bigTable := List.Sorted.insertionSort_eq bigTable_sorted
  have htake : (bigTable ++ [zeroCmd]).take 257 = bigTable :=
    List.take_left' bigTable_length
  have hdrop : (bigTable ++ [zeroCmd]).drop 257 = [zeroCmd] :=
    List.drop_left' bigTable_length
  unfold CLI_BuildTable
  rw [if_neg (by rw [hchain]; decide), if_neg (by rw [hchain]; decide), if_neg (by decide)]
  have htot : totalItems bigInjected.cmndsTableHead + 1 = 258 := by rw [hchain]; rfl
  have hcnt : bigInjected.cmndsCount = 0 := rfl
  rw [htot, hcnt, hchain, hmerge]
  simp only
  rw [htake, hdrop, hsort]
  rfl

/-! ## Claims C1 to C5: the command registry -/

/-- C1 (the code departs from the claim): after one successful injection of the
table `{h1, "help"}, {h2, " help"}` and a successful build, the registry holds
the name "help" twice: the duplicate scan compares the untrimmed injected name
with the trimmed stored names. -/
theorem C1_build_keeps_trimmed_duplicate :
    (CLI_InjectCommands true (some tableHelpSpace) 2 gCliData0).1 = 2 ∧
    (CLI_BuildTable 3 true (CLI_InjectCommands true (some tableHelpSpace) 2 gCliData0).2).map
        (fun r => (r.1, (registry r.2).map (fun e => e.Name), r.2.cmndsCount))
      = some (true, [bytes "help", bytes "help"], 2) := by
  decide

/-- C2 (the code departs from the claim): the injected names " help" and
" HELP" are equal for `__stricmp`, yet after the build both entries are in the
registry, the later one (handler 2) included. -/
theorem C2_build_keeps_later_entry :
    __stricmp (bytes " help") (bytes " HELP") = 0 ∧
    (CLI_BuildTable 3 true (CLI_InjectCommands true (some tableSpaceHelpTwice) 2 gCliData0).2).map
        (fun r => (r.1, registry r.2))
      = some (true, [⟨1, bytes "help"⟩, ⟨2, bytes "help"⟩]) := by
  decide

/-- C3: after a successful `CLI_BuildTable` the registry (the first `cmndsCount`
entries of the array) is sorted ascending by name under `strcmp`, name[i] <=
name[j] for all i < j < count, and it is a permutation of the entries the
merge left in the array. -/
theorem C3_build_sorted_perm (fuel : Nat) (ok : Bool) (s s1 : CLI_DataTypeDef)
    (h : CLI_BuildTable fuel ok s = some (true, s1)) :
    (∀ (i j : Nat) (hij : i < j) (hj : j < (registry s1).length),
        strcmp ((registry s1).get ⟨i, lt_trans hij hj⟩).Name
          ((registry s1).get ⟨j, hj⟩).Name ≤ 0) ∧
    ∃ arr cnt, mergeChain fuel s.cmndsTableHead
        (List.replicate (totalItems s.cmndsTableHead + 1) zeroCmd, s.cmndsCount) = some (arr, cnt)
      ∧ s1.cmndsCount = cnt ∧ (registry s1).Perm (arr.take cnt) := by
  obtain ⟨arr, cnt, hm, hs⟩ := build_true fuel ok s s1 h
  have hreg : registry s1 = qsort (arr.take cnt) := by
    subst hs
    simp only [registry]
    exact take_qsort_append arr cnt
  refine ⟨?_, arr, cnt, hm, by subst hs; rfl, by rw [hreg]; exact qsort_perm _⟩
  intro i j hij hj
  have hp : (registry s1).Pairwise (fun a b => CLI_Compare a b ≤ 0) := by
    rw [hreg]; exact qsort_sorted _
  exact List.pairwise_iff_get.mp hp ⟨i, lt_trans hij hj⟩ ⟨j, hj⟩ hij

/-- C3 at the demo: the build of the demo table succeeds and gives the five
names in ascending order. -/
theorem C3_build_sorted_perm_witness :
    ∃ s1, CLI_BuildTable 6 true demoInjected = some (true, s1) ∧
      (registry s1).map (fun e => e.Name)
        = [bytes "?", bytes "exit", bytes "help", bytes "reset", bytes "version"] ∧
      ∀ (i j : Nat) (hij : i < j) (hj : j < (registry s1).length),
        strcmp ((registry s1).get ⟨i, lt_trans hij hj⟩).Name
          ((registry s1).get ⟨j, hj⟩).Name ≤ 0 :=
  ⟨_, rfl, by decide, (C3_build_sorted_perm 6 true demoInjected _ rfl).1⟩

/-- C4: in every reachable state `CLI_BuildTable` returns false and leaves the
whole engine state unchanged when the registry is already sealed, when no source
was injected, or when the allocation fails; and after a successful build every
further call fails and leaves the state exactly as the first call produced it. -/
theorem C4_build_failure_unchanged (H : Nat → Nat → List (List Nat) → Int) (fuel : Nat)
    (ok : Bool) (s : CLI_DataTypeDef) (hr : Reachable H s) :
    (s.commandsSorted = true ∨ s.cmndsTableHead = [] ∨ ok = false →
      CLI_BuildTable fuel ok s = some (false, s)) ∧
    (∀ (s1 : CLI_DataTypeDef) (fuel2 : Nat) (ok2 : Bool),
      CLI_BuildTable fuel ok s = some (true, s1) →
      CLI_BuildTable fuel2 ok2 s1 = some (false, s1)) := by
  constructor
  · intro h
    unfold CLI_BuildTable
    by_cases h1 : s.commandsSorted = true ∨ s.cmndsTableHead = []
    · rw [if_pos h1]
    · rw [if_neg h1]
      have hok : ok = false := by
        rcases h with h | h | h
        · exact absurd (Or.inl h) h1
        · exact absurd (Or.inr h) h1
        · exact h
      by_cases h2 : totalItems s.cmndsTableHead = 0
      · rw [if_pos h2]
      · rw [if_neg h2, if_pos hok]
        have hns : s.commandsSorted = false := by
          cases hc : s.commandsSorted with
          | false => rfl
          | true => exact absurd (Or.inl hc) h1
        have hnone := reachable_unsealed H s hr hns
        have hs : ({ s with cmnds := none } : CLI_DataTypeDef) = s := by
          cases s
          simp only at hnone
          subst hnone
          rfl
        rw [hs]
  · intro s1 fuel2 ok2 hb
    obtain ⟨arr, cnt, _, hs⟩ := build_true fuel ok s s1 hb
    have hsealed : s1.commandsSorted = true := by subst hs; rfl
    unfold CLI_BuildTable
    rw [if_pos (Or.inl hsealed)]

/-- C4 at the demo: before the build a failed allocation leaves the injected
demo state as it was, and the demo can be built. -/
theorem C4_build_failure_unchanged_witness :
    CLI_BuildTable 6 false demoInjected = some (false, demoInjected) ∧
    (∃ s1, CLI_BuildTable 6 true demoInjected = some (true, s1)) :=
  ⟨(C4_build_failure_unchanged (fun _ _ _ => 0) 6 false demoInjected
      (Reachable.inject true (some gCliBaseCommands) 5 _
        (Reachable.init (some demoInit) _ Reachable.start))).1 (Or.inr (Or.inr rfl)),
    ⟨_, rfl⟩⟩

/-- C5: `CLI_InjectCommands` returns 0 and leaves the state, the source chain
included, unchanged when the table is absent, the item count is 0, the registry
is sealed or the node allocation fails; otherwise it returns the item count and
the chain is the old chain followed by the new source. -/
theorem C5_inject (ok : Bool) (table : Option (List CLI_CmdTypeDef)) (items : Int)
    (s : CLI_DataTypeDef) (hlo : -2147483648 ≤ items) (hhi : items < 2147483648) :
    (table = none ∨ items = 0 ∨ s.commandsSorted = true ∨ ok = false →
      CLI_InjectCommands ok table items s = (0, s)) ∧
    (∀ t, table = some t → items ≠ 0 → s.commandsSorted = false → ok = true →
      CLI_InjectCommands ok table items s =
        (items, { s with cmndsTableHead :=
          s.cmndsTableHead ++ [{ table := t, items := (items % 4294967296).toNat }] })) := by
  constructor
  · intro h
    unfold CLI_InjectCommands
    cases table with
    | none => rfl
    | some t =>
      simp only
      by_cases h1 : items = 0 ∨ s.commandsSorted = true
      · rw [if_pos h1]
      · rw [if_neg h1]
        have hok : ok = false := by
          rcases h with h | h | h | h
          · simp at h
          · exact absurd (Or.inl h) h1
          · exact absurd (Or.inr h) h1
          · exact h
        rw [if_pos hok]
  · intro t ht hi hs hok
    subst ht
    unfold CLI_InjectCommands
    simp only
    have h1 : ¬ (items = 0 ∨ s.commandsSorted = true) := by
      rintro (h | h)
      · exact hi h
      · rw [hs] at h; simp at h
    have h2 : ¬ (ok = false) := by rw [hok]; simp
    rw [if_neg h1, if_neg h2]
    have hret : (items % 4294967296 + 2147483648) % 4294967296 - 2147483648 = items := by
      omega
    rw [hret]
    rfl

/-- C5 at the demo: the second injection lands behind the first, and on a sealed
registry nothing is injected. -/
theorem C5_inject_witness :
    ((CLI_InjectCommands true (some tableHelpSpace) 2 demoInjected).1 = 2 ∧
      (CLI_InjectCommands true (some tableHelpSpace) 2 demoInjected).2.cmndsTableHead
        = [⟨gCliBaseCommands, 5⟩, ⟨tableHelpSpace, 2⟩]) ∧
    CLI_InjectCommands false (some tableHelpSpace) 2 demoInjected = (0, demoInjected) := by
  have h := C5_inject true (some tableHelpSpace) 2 demoInjected (by decide) (by decide)
  have h2 := C5_inject false (some tableHelpSpace) 2 demoInjected (by decide) (by decide)
  refine ⟨?_, h2.1 (Or.inr (Or.inr (Or.inr rfl)))⟩
  rw [h.2 tableHelpSpace rfl (by decide) rfl rfl]
  exact ⟨rfl, rfl⟩

/-! ## Claims C6 to C10: the dispatcher -/

set_option maxRecDepth 100000 in
theorem big_no_match_below_256 :
    ∀ j, j < 256 → ∃ e, (bigTable ++ [zeroCmd])[j]? = some e ∧ __stricmp (bigName 256) e.Name ≠ 0 := by
  decide

set_option maxRecDepth 100000 in
/-- C6 (the code departs from the claim): the registry built from the 257-entry
table holds the name of the line at index 256, yet `CLI_ParseEndExec` never
returns on that line, whatever the fuel: the scan index `i` is a `uint8_t` and
wraps to 0 after 255, so entry 256 is never compared and no handler is called. -/
theorem C6_scan_index_wraps (H : Nat → Nat → List (List Nat) → Int) :
    CLI_BuildTable 258 true bigInjected = some (true, bigBuilt) ∧
    (registry bigBuilt)[256]? = some ⟨257, bigName 256⟩ ∧
    tokens (bigName 256) = [bigName 256] ∧
    __stricmp (bigName 256) (bigName 256) = 0 ∧
    ∀ fuel, CLI_ParseEndExec H fuel bigBuilt.cmnds (bigName 256) bigBuilt = none := by
  refine ⟨big_build, by decide, by decide, by decide, ?_⟩
  intro fuel
  cases fuel with
  | zero => rfl
  | succ n =>
    have hs : cmdScan (bigTable ++ [zeroCmd]) 257 (bigName 256) (n + 1) 0 = none :=
      cmdScan_diverges _ 257 _ (by decide) big_no_match_below_256 (n + 1) 0 (by decide)
    have ht : tokenLoop (n + 1) [] [bigName 256] = some (some [bigName 256]) := rfl
    have hk : strtok (bigName 256) = some (bigName 256, []) := by decide
    show CLI_ParseEndExec H (n + 1) (some (bigTable ++ [zeroCmd])) (bigName 256) bigBuilt = none
    unfold CLI_ParseEndExec
    simp only
    rw [if_neg (by decide), hk]
    simp only
    rw [ht]
    simp only
    have hc : bigBuilt.cmndsCount = 257 := rfl
    rw [hc, hs]

/-- C7 (the code departs from the claim): the 15-token line `help 2 ... 15`,
whose first token is a registered command of the demo, ends in the "Too many
arguments" failure although it has no more than `CLI_MAX_NUM_PARAMS` tokens: -1
is returned and no handler is called. -/
theorem C7_fifteen_tokens_rejected :
    (tokens line15).length = 15 ∧
    CLI_ParseEndExec H0 20 demoBuilt.cmnds line15 demoBuilt = some (-1, tooManyArgs demoBuilt) ∧
    calls (tooManyArgs demoBuilt).trace = calls demoBuilt.trace := by
  refine ⟨by decide, by decide, calls_tooManyArgs demoBuilt⟩

/-- What the dispatcher does below the limit: every line with at least 1 and at
most 14 tokens is tokenized without the "Too many arguments" failure, `param`
holding its tokens; and when the line does not start with '#' and its first
token matches registry entry `i0 < 256` and no earlier entry, the handler of
that entry is called with the tokens and their count and its value is returned. -/
theorem parse_up_to_fourteen_tokens (H : Nat → Nat → List (List Nat) → Int) (fuel : Nat)
    (arr : List CLI_CmdTypeDef) (line : List Nat) (s : CLI_DataTypeDef)
    (t0 : List Nat) (ts : List (List Nat))
    (ht : tokens line = t0 :: ts) (hlen : (tokens line).length ≤ 14) (hf : 15 ≤ fuel) :
    (∃ rest, strtok line = some (t0, rest) ∧
      tokenLoop fuel rest [t0] = some (some (tokens line))) ∧
    (∀ (i0 : Nat) (e0 : CLI_CmdTypeDef), line.head? ≠ some 35 → i0 < s.cmndsCount → i0 < 256 →
      i0 < fuel → arr[i0]? = some e0 → __stricmp t0 e0.Name = 0 →
      (∀ j, j < i0 → ∃ e, arr[j]? = some e ∧ __stricmp t0 e.Name ≠ 0) →
      CLI_ParseEndExec H fuel (some arr) line s =
        some (H e0.pHandler (tokens line).length (tokens line),
          callHandler e0.pHandler (tokens line) s)) := by
  have hlen2 : (t0 :: ts).length ≤ 14 := by rw [← ht]; exact hlen
  constructor
  · obtain ⟨rest, h1, h2⟩ := tokenize fuel line t0 ts ht hf
    refine ⟨rest, h1, ?_⟩
    rw [h2, if_neg (by omega), ht]
  · intro i0 e0 hh h0 h256 hfi he hm hfirst
    rw [ht]
    exact parse_found H fuel arr line s t0 ts i0 e0 hh ht hlen2 hf hfi h0 h256 he hm hfirst

/-- At the demo the 14-token line `help 2 ... 14` reaches the handler of `help`
(handler 1, registry entry 2) with argc = 14. -/
theorem parse_fourteen_tokens_demo :
    (tokens line14).length = 14 ∧
    CLI_ParseEndExec H0 20 demoBuilt.cmnds line14 demoBuilt =
      some (H0 1 14 (tokens line14), callHandler 1 (tokens line14) demoBuilt) := by
  have h := (parse_up_to_fourteen_tokens H0 20 (registry demoBuilt ++ [zeroCmd]) line14 demoBuilt
    (bytes "help") (tokens line14).tail (by decide) (by decide) (by decide)).2
    2 ⟨1, bytes "help"⟩ (by decide) (by decide) (by decide) (by decide) (by decide) (by decide)
    (by decide)
  exact ⟨by decide, h⟩

/-- C8 (counterexample): the 16-token line `# 2 ... 16` returns -1 with the
state, the trace included, unchanged: nothing is reported. -/
theorem C8_comment_line_not_reported :
    (tokens hashLine16).length = 16 ∧
    CLI_ParseEndExec H0 20 demoBuilt.cmnds hashLine16 demoBuilt = some (-1, demoBuilt) := by
  decide

/-- C8 (amended): for every line with more than 15 tokens that does not start
with '#', `CLI_ParseEndExec` on the commands array returns -1, calls no handler
and writes "Too many arguments" to the terminal, whatever the first token is;
a line that starts with '#' returns -1 with the state unchanged. -/
theorem C8_too_many_tokens (H : Nat → Nat → List (List Nat) → Int) (fuel : Nat)
    (arr : List CLI_CmdTypeDef) (line : List Nat) (s : CLI_DataTypeDef)
    (ht : 15 < (tokens line).length) (hf : 15 ≤ fuel) :
    (line.head? ≠ some 35 →
      CLI_ParseEndExec H fuel (some arr) line s = some (-1, tooManyArgs s) ∧
      calls (tooManyArgs s).trace = calls s.trace ∧
      ∃ tail, (tooManyArgs s).trace
        = s.trace ++ (bytes "Too many arguments").map Event.out ++ tail) ∧
    (line.head? = some 35 → CLI_ParseEndExec H fuel (some arr) line s = some (-1, s)) := by
  constructor
  · intro hh
    refine ⟨parse_tooMany H fuel arr line s hh (by omega) hf, calls_tooManyArgs s, ?_⟩
    exact ⟨_, trace_crlfIfEcho (printf (bytes "Too many arguments") s)⟩
  · intro hh
    exact parse_hash H fuel arr line s hh

/-- C8 (amended) at the demo: the 16-token line `help 2 ... 16`. -/
theorem C8_too_many_tokens_witness :
    15 < (tokens line16).length ∧
    CLI_ParseEndExec H0 20 demoBuilt.cmnds line16 demoBuilt = some (-1, tooManyArgs demoBuilt) :=
  ⟨by decide,
    ((C8_too_many_tokens H0 20 (registry demoBuilt ++ [zeroCmd]) line16 demoBuilt
      (by decide) (by decide)).1 (by decide)).1⟩

/-- C9: for every line whose first character is '#', executing it invokes no
handler, whatever the rest of the line and whatever the registry: whenever
`CLI_SearchAndExecute`, or `CLI_ProcessState` with the execute action pending,
returns, the handler invocations recorded are those recorded before, and
`CLI_ParseEndExec` leaves the state untouched; on a sealed registry the call
does return once the fuel exceeds the number of commands by two. -/
theorem C9_comment_line_no_handler (H : Nat → Nat → List (List Nat) → Int) (fuel : Nat)
    (s : CLI_DataTypeDef) (hh : (lineAt s s.lineCurrent).head? = some 35) :
    (∀ b s1, CLI_SearchAndExecute H fuel s = some (b, s1) → calls s1.trace = calls s.trace) ∧
    (∀ b s1, s.execType = CLI_ExecTypeDef.CLI_Exec_SearchAndExec →
      CLI_ProcessState H fuel s = some (b, s1) → calls s1.trace = calls s.trace) ∧
    (∀ p r s1, CLI_ParseEndExec H fuel p (argvText s) s = some (r, s1) → s1 = s) ∧
    (∀ arr, s.cmnds = some arr → s.commandsSorted = true → s.cmndsCount < arr.length →
      s.cmndsCount + 2 ≤ fuel → ∃ b s1, CLI_SearchAndExecute H fuel s = some (b, s1)) := by
  refine ⟨fun b s1 h => search_hash_calls H fuel b s s1 hh h, ?_, ?_, ?_⟩
  · intro b s1 hx hp
    unfold CLI_ProcessState at hp
    split at hp
    · simp only [Option.some.injEq, Prod.mk.injEq] at hp
      rw [← hp.2]
    · unfold runPending at hp
      rw [hx] at hp
      simp only at hp
      split at hp
      · exact absurd hp (by simp)
      · rename_i r s2 hr
        simp only [Option.some.injEq, Prod.mk.injEq] at hp
        rw [← hp.2]
        exact search_hash_calls H fuel r s s2 hh hr
  · intro p r s1 hp
    exact parse_hash_calls H fuel p (argvText s) s s1 r (argvText_hash s hh) hp
  · intro arr hc hs hlen hf
    exact search_hash_returns H fuel s arr hh hc hs hlen hf

/-- C9 at the demo: with `#help` typed, the execute action returns and calls no
handler although `help` is a registered name. -/
theorem C9_comment_line_no_handler_witness :
    (lineAt demoHashTyped demoHashTyped.lineCurrent).head? = some 35 ∧
    (∃ b s1, CLI_SearchAndExecute H0 7 demoHashTyped = some (b, s1) ∧
      calls s1.trace = calls demoHashTyped.trace) := by
  have h := C9_comment_line_no_handler H0 7 demoHashTyped (by decide)
  obtain ⟨b, s1, hs⟩ := h.2.2.2 (registry demoBuilt ++ [zeroCmd]) (by decide) (by decide)
    (by decide) (by decide)
  exact ⟨by decide, b, s1, hs, h.1 b s1 hs⟩

/-- C10 (counterexample): the demo engine has a built non-empty registry, is
unlocked and has an empty current line; after the escape introducer a carriage
return followed by `CLI_ProcessState` writes nothing: the prompt is not redrawn. -/
theorem C10_return_in_escape_mode_is_dropped :
    registry demoInEscape ≠ [] ∧ demoInEscape.locked = false ∧
    cstr (lineAt demoInEscape demoInEscape.lineCurrent) = [] ∧
    (CLI_ProcessState H0 7 (CLI_ProcessChar 13 demoInEscape).2).map
        (fun r => (r.1, r.2.trace)) = some (false, demoInEscape.trace) := by
  decide

/-- C10 (amended): with a built registry, an initialised and unlocked engine that
is not in escape mode and has no action pending, and an empty current line, a
carriage return followed by `CLI_ProcessState` invokes no handler, leaves every
line slot, the line index and the history cursor (current slot, filled count)
unchanged, resets the pending action to none, and after the alert of the worker
writes one line break and the prompt. -/
theorem C10_return_on_empty_line (H : Nat → Nat → List (List Nat) → Int) (fuel : Nat)
    (s : CLI_DataTypeDef) (arr : List CLI_CmdTypeDef)
    (hinit : s.initialized = true) (hc : s.cmnds = some arr) (hlock : s.locked = false)
    (hexec : s.execType = CLI_ExecTypeDef.CLI_Exec_Nothing)
    (hesc : s.receivingEscapeSequence = false)
    (hempty : (lineAt s s.lineCurrent).headD 0 = 0) :
    ∃ s2, CLI_ProcessState H fuel (CLI_ProcessChar 13 s).2 = some (true, s2) ∧
      s2.line = s.line ∧ s2.lineIdx = s.lineIdx ∧ s2.lineCurrent = s.lineCurrent ∧
      s2.LineCount = s.LineCount ∧ s2.execType = CLI_ExecTypeDef.CLI_Exec_Nothing ∧
      calls s2.trace = calls s.trace ∧
      s2.trace = s.trace ++ [Event.alert] ++ outs s.putc [13, 10]
        ++ outs s.putc (printed s.prompt s.prmpSize) := by
  have hkey : (CLI_ProcessChar 13 s).2 = keyReturn s := by
    unfold CLI_ProcessChar
    rw [if_neg (by rw [hinit, hexec]; simp), if_neg (by rw [hc]; simp),
      if_neg (by rw [hesc]; simp)]
    rfl
  have hret : keyReturn s =
      { CLI_TaskAlert { s with execType := CLI_ExecTypeDef.CLI_Exec_SearchAndExec } with
        LineBack := 0 } := by
    unfold keyReturn
    rw [if_neg (by rw [hlock]; simp)]
  rw [hkey, hret]
  generalize hk : ({ CLI_TaskAlert { s with execType := CLI_ExecTypeDef.CLI_Exec_SearchAndExec }
    with LineBack := 0 } : CLI_DataTypeDef) = k
  have k_init : k.initialized = true := by rw [← hk]; exact hinit
  have k_exec : k.execType = CLI_ExecTypeDef.CLI_Exec_SearchAndExec := by rw [← hk]; rfl
  have k_cmnds : k.cmnds = some arr := by rw [← hk]; exact hc
  have k_line : k.line = s.line := by rw [← hk]; rfl
  have k_cur : k.lineCurrent = s.lineCurrent := by rw [← hk]; rfl
  have k_idx : k.lineIdx = s.lineIdx := by rw [← hk]; rfl
  have k_cnt : k.LineCount = s.LineCount := by rw [← hk]; rfl
  have k_lock : k.locked = false := by rw [← hk]; exact hlock
  have k_putc : k.putc = s.putc := by rw [← hk]; rfl
  have k_prompt : k.prompt = s.prompt := by rw [← hk]; rfl
  have k_size : k.prmpSize = s.prmpSize := by rw [← hk]; rfl
  have k_trace : k.trace = s.trace ++ [Event.alert] := by rw [← hk]; rfl
  have k_empty : (lineAt k k.lineCurrent).headD 0 = 0 := by
    unfold lineAt
    rw [k_line, k_cur]
    exact hempty
  have hfe := traceOnly_fields (traceOnly_crlfIfEcho k)
  have hfp := traceOnly_fields (traceOnly_promptUnlessReset 0 (crlfIfEcho k))
  have hworth : worthExecuting fuel k = some 0 := by
    unfold worthExecuting
    rw [if_neg (by rw [k_empty]; simp)]
  have hexe : CLI_ExecuteCommand H fuel k = some (promptUnlessReset 0 (crlfIfEcho k)) := by
    unfold CLI_ExecuteCommand
    rw [k_cmnds]
    simp only
    rw [if_neg]
    rw [lineAt_traceOnly (traceOnly_crlfIfEcho k), hfe.2.2.1, k_empty]
    simp
  have hsearch : CLI_SearchAndExecute H fuel k
      = some (true, promptUnlessReset 0 (crlfIfEcho k)) := by
    unfold CLI_SearchAndExecute
    rw [if_neg (by rw [k_init]; simp), hworth]
    simp only
    rw [if_pos (by decide), hexe]
  have hstate : CLI_ProcessState H fuel k
      = some (true, { promptUnlessReset 0 (crlfIfEcho k) with
          execType := CLI_ExecTypeDef.CLI_Exec_Nothing }) := by
    unfold CLI_ProcessState runPending
    rw [if_neg (by rw [k_init]; simp), k_exec]
    simp only
    rw [hsearch]
  refine ⟨_, hstate, ?_, ?_, ?_, ?_, rfl, ?_, ?_⟩
  · show (promptUnlessReset 0 (crlfIfEcho k)).line = s.line
    rw [hfp.1, hfe.1, k_line]
  · show (promptUnlessReset 0 (crlfIfEcho k)).lineIdx = s.lineIdx
    rw [hfp.2.1, hfe.2.1, k_idx]
  · show (promptUnlessReset 0 (crlfIfEcho k)).lineCurrent = s.lineCurrent
    rw [hfp.2.2.1, hfe.2.2.1, k_cur]
  · show (promptUnlessReset 0 (crlfIfEcho k)).LineCount = s.LineCount
    rw [hfp.2.2.2.1, hfe.2.2.2.1, k_cnt]
  · show calls (promptUnlessReset 0 (crlfIfEcho k)).trace = calls s.trace
    rw [calls_promptUnlessReset, calls_crlfIfEcho, k_trace, calls_append]
    simp [calls]
  · show (promptUnlessReset 0 (crlfIfEcho k)).trace = _
    rw [trace_prompt_after_crlf k k_lock, k_trace, k_putc, k_prompt, k_size]

/-- C10 (amended) at the demo: a carriage return on the empty line of the freshly
built demo redraws the prompt "Intel>" after one line break. -/
theorem C10_return_on_empty_line_witness :
    ∃ s2, CLI_ProcessState H0 0 (CLI_ProcessChar 13 demoBuilt).2 = some (true, s2) ∧
      s2.line = demoBuilt.line ∧
      s2.trace = demoBuilt.trace ++ [Event.alert] ++ outs true [13, 10]
        ++ outs true (bytes "Intel>") := by
  obtain ⟨s2, h1, h2, _, _, _, _, _, h3⟩ :=
    C10_return_on_empty_line H0 0 demoBuilt (registry demoBuilt ++ [zeroCmd])
      (by decide) (by decide) (by decide) (by decide) (by decide) (by decide)
  exact ⟨s2, h1, h2, h3⟩

/-! ## C strings in buffers -/

theorem cstr_nil : cstr [] = [] := rfl

theorem cstr_cons_zero (t : List Nat) : cstr (0 :: t) = [] := rfl

theorem cstr_cons_ne (x : Nat) (t : List Nat) (h : x ≠ 0) : cstr (x :: t) = x :: cstr t := by
  unfold cstr
  rw [List.takeWhile_cons_of_pos (by simpa using h)]

theorem cstr_nonzero (b : List Nat) : ∀ x ∈ cstr b, x ≠ 0 := by
  intro x hx
  have := List.mem_takeWhile_imp hx
  simpa using this

theorem cstr_length_le (b : List Nat) : (cstr b).length ≤ b.length := by
  unfold cstr
  exact (List.takeWhile_sublist _).length_le

theorem cstr_of_nonzero (l : List Nat) (h : ∀ x ∈ l, x ≠ 0) : cstr l = l := by
  unfold cstr
  rw [List.takeWhile_eq_self_iff]
  intro x hx
  simpa using h x hx

theorem cstr_append_zero (l r : List Nat) (h : ∀ x ∈ l, x ≠ 0) : cstr (l ++ 0 :: r) = l := by
  induction l with
  | nil => rfl
  | cons x t ih =>
    rw [List.cons_append, cstr_cons_ne x _ (h x (List.mem_cons_self x t)),
      ih (fun y hy => h y (List.mem_cons_of_mem x hy))]

theorem cstr_cstr (b : List Nat) : cstr (cstr b) = cstr b :=
  cstr_of_nonzero _ (cstr_nonzero b)

/-- The store `buf[i] = 0` at or before the terminator cuts the string at `i`. -/
theorem cstr_set_zero (b : List Nat) (i : Nat) (h : i ≤ (cstr b).length) (hi : i < b.length) :
    cstr (b.set i 0) = (cstr b).take i := by
  induction b generalizing i with
  | nil => simp at hi
  | cons x t ih =>
    cases i with
    | zero => simp [cstr]
    | succ j =>
      by_cases hx : x = 0
      · subst hx
        simp [cstr] at h
      · rw [List.set_cons_succ, cstr_cons_ne x _ hx, cstr_cons_ne x _ hx, List.take_succ_cons]
        rw [cstr_cons_ne x _ hx] at h
        simp only [List.length_cons] at h hi
        rw [ih j (by omega) (by omega)]

/-- The stores `buf[i] = c; buf[i + 1] = 0` at or before the terminator. -/
theorem cstr_set_char (b : List Nat) (i c : Nat) (hc : c ≠ 0) (h : i ≤ (cstr b).length)
    (hi : i + 1 < b.length) : cstr ((b.set i c).set (i + 1) 0) = (cstr b).take i ++ [c] := by
  induction b generalizing i with
  | nil => simp at hi
  | cons x t ih =>
    cases i with
    | zero =>
      cases t with
      | nil => simp at hi
      | cons y u =>
        simp only [List.set_cons_zero, List.set_cons_succ, List.take_zero, List.nil_append]
        rw [cstr_cons_ne c _ hc, cstr_cons_zero]
    | succ j =>
      by_cases hx : x = 0
      · subst hx
        simp [cstr] at h
      · rw [List.set_cons_succ, List.set_cons_succ, cstr_cons_ne x _ hx, cstr_cons_ne x _ hx,
          List.take_succ_cons, List.cons_append]
        rw [cstr_cons_ne x _ hx] at h
        simp only [List.length_cons] at h hi
        rw [ih j (by omega) (by omega)]

theorem strcmp_self (a : List Nat) : strcmp a a = 0 := by
  induction a with
  | nil => rfl
  | cons x t ih =>
    unfold strcmp
    split
    · exact ih
    · simp

/-- On texts without a NUL byte `strcmp` is 0 exactly for equal texts. -/
theorem strcmp_eq_zero (a b : List Nat) (ha : ∀ x ∈ a, x ≠ 0) (hb : ∀ x ∈ b, x ≠ 0) :
    strcmp a b = 0 ↔ a = b := by
  induction a generalizing b with
  | nil =>
    cases b with
    | nil => simp [strcmp]
    | cons y u =>
      have := hb y (List.mem_cons_self y u)
      simp [strcmp]
      omega
  | cons x t ih =>
    cases b with
    | nil =>
      have := ha x (List.mem_cons_self x t)
      simp [strcmp]
      omega
    | cons y u =>
      have hx := ha x (List.mem_cons_self x t)
      unfold strcmp
      split
      · rename_i h
        rw [ih u (fun z hz => ha z (List.mem_cons_of_mem x hz))
          (fun z hz => hb z (List.mem_cons_of_mem y hz))]
        simp [h.1]
      · rename_i h
        have hne : x ≠ y := fun e => h ⟨e, hx⟩
        constructor
        · intro h0
          exact absurd (by omega) hne
        · intro e
          exact absurd (List.cons.inj e).1 hne

/-! ## More functions that only write to the terminal -/

theorem traceOnly_listLoop (l : List (List Nat)) (d : Nat) (s : CLI_DataTypeDef) :
    TraceOnly s (listLoop l d s) := by
  induction l generalizing d s with
  | nil => exact traceOnly_refl s
  | cons c rest ih =>
    unfold listLoop
    split
    · exact traceOnly_trans (traceOnly_trans (traceOnly_Print _ _ s) (traceOnly_crlfIfEcho _))
        (ih _ _)
    · exact traceOnly_trans (traceOnly_trans (traceOnly_Print _ _ s) (traceOnly_printf _ _))
        (ih _ _)

theorem traceOnly_printLine (s : CLI_DataTypeDef) : TraceOnly s (printLine s) := by
  unfold printLine
  exact traceOnly_Print _ _ s

theorem traceOnly_showListing (l : List (List Nat)) (s : CLI_DataTypeDef) :
    TraceOnly s (showListing l s) := by
  unfold showListing
  exact traceOnly_trans (traceOnly_trans (traceOnly_trans (traceOnly_trans
    (traceOnly_crlfIfEcho s) (traceOnly_listLoop _ _ _)) (traceOnly_crlfIfEcho _))
    (traceOnly_PrintPrompt _ _)) (traceOnly_printLine _)

theorem traceOnly_completionOutput (p c : Nat) (l : List (List Nat)) (s : CLI_DataTypeDef) :
    TraceOnly s (completionOutput p c l s) := by
  unfold completionOutput
  split
  · exact traceOnly_Print _ _ s
  · exact traceOnly_showListing l s

theorem traceOnly_EraseLine (s : CLI_DataTypeDef) : TraceOnly s (CLI_EraseLine s) := by
  unfold CLI_EraseLine
  exact traceOnly_trans (traceOnly_trans (traceOnly_Print _ _ s) (traceOnly_Print _ _ _))
    (traceOnly_Print _ _ _)

theorem traceOnly_printLineLen (s : CLI_DataTypeDef) : TraceOnly s (printLineLen s) := by
  unfold printLineLen
  exact traceOnly_Print _ _ s

theorem traceOnly_echoChar (c : Nat) (s : CLI_DataTypeDef) : TraceOnly s (echoChar c s) := by
  unfold echoChar
  split
  · exact traceOnly_Print _ _ s
  · exact traceOnly_refl s

/-! ## The invariant of the engine state -/

/-- A state that agrees with a well-formed one on the line slots, the line
index, the current slot, the filled count and the commands array, and whose
step-back counter is at most the filled count, is well formed. -/
theorem inv_same {s s1 : CLI_DataTypeDef} (h : Inv s) (hl : s1.line = s.line)
    (hi : s1.lineIdx = s.lineIdx) (hc : s1.lineCurrent = s.lineCurrent)
    (hn : s1.LineCount = s.LineCount) (hb : s1.LineBack ≤ s.LineCount)
    (hm : s1.cmnds = s.cmnds) : Inv s1 := by
  obtain ⟨⟨h1, h2, h3⟩, h4, h5, h6, h7⟩ := h
  refine ⟨⟨?_, ?_, ?_⟩, ?_, ?_, ?_, ?_⟩
  · rw [hl]; exact h1
  · rw [hc]; exact h2
  · rw [hl]; exact h3
  · unfold IdxOk lineAt
    rw [hi, hl, hc]
    exact h4
  · unfold NamesOk
    rw [hm]
    exact h5
  · rw [hn]; exact hb
  · rw [hn]; exact h7

theorem inv_traceOnly {s s1 : CLI_DataTypeDef} (t : TraceOnly s s1) (h : Inv s) : Inv s1 := by
  have f := traceOnly_fields t
  exact inv_same h f.1 f.2.1 f.2.2.1 f.2.2.2.1 (by rw [f.2.2.2.2.1]; exact h.2.2.2.1)
    f.2.2.2.2.2.2.2.2.2.2.2.1

/-- The buffer of the current slot after a store into the slots. -/
theorem getD_set_self (l : List (List Nat)) (i : Nat) (b : List Nat) (h : i < l.length) :
    (l.set i b).getD i [] = b := by
  rw [List.getD_eq_getElem?_getD, List.getElem?_set_eq_of_lt _ h]
  rfl

theorem getD_set_other (l : List (List Nat)) (i j : Nat) (b : List Nat) (h : i ≠ j) :
    (l.set i b).getD j [] = l.getD j [] := by
  rw [List.getD_eq_getElem?_getD, List.getD_eq_getElem?_getD, List.getElem?_set_ne h]

theorem getD_mem (l : List (List Nat)) (i : Nat) (h : i < l.length) : l.getD i [] ∈ l := by
  rw [List.getD_eq_getElem?_getD, List.getElem?_eq_getElem h]
  exact List.getElem_mem h

/-- A rewrite of the current slot by a buffer of 96 bytes whose text has at
most 79 characters and whose bytes from 80 on are zero, with a line index
inside that text, keeps the state well formed. -/
theorem inv_edit {s s1 : CLI_DataTypeDef} (b : List Nat) (h : SlotsOk s ∧ NamesOk s ∧ HistOk s)
    (hl : s1.line = s.line.set s.lineCurrent b)
    (hc : s1.lineCurrent = s.lineCurrent)
    (hn : s1.LineCount = s.LineCount) (hb : s1.LineBack ≤ s.LineCount)
    (hm : s1.cmnds = s.cmnds)
    (hlen : b.length = CLI_MAX_LINE_LENGTH + 16) (htext : (cstr b).length ≤ CLI_MAX_LINE_LENGTH - 1)
    (htail : b.drop CLI_MAX_LINE_LENGTH = List.replicate 16 0)
    (hidx : s1.lineIdx ≤ (cstr b).length) : Inv s1 := by
  obtain ⟨⟨h1, h2, h3⟩, h5, h6, h7⟩ := h
  refine ⟨⟨?_, ?_, ?_⟩, ?_, ?_, ?_, ?_⟩
  · rw [hl, List.length_set]; exact h1
  · rw [hc]; exact h2
  · rw [hl]
    intro x hx
    rcases List.mem_or_eq_of_mem_set hx with hx | hx
    · exact h3 x hx
    · rw [hx]; exact ⟨hlen, htext, htail⟩
  · unfold IdxOk lineAt
    rw [hl, hc, getD_set_self _ _ _ (by rw [h1]; exact h2)]
    exact hidx
  · unfold NamesOk
    rw [hm]
    exact h5
  · rw [hn]; exact hb
  · rw [hn]; exact h7
theorem slot_mem {s : CLI_DataTypeDef} (h : SlotsOk s) (i : Nat) (hi : i < 10) :
    lineAt s i ∈ s.line :=
  getD_mem s.line i (by rw [h.1]; exact hi)

theorem slot_length {s : CLI_DataTypeDef} (h : SlotsOk s) (i : Nat) (hi : i < 10) :
    (lineAt s i).length = 96 :=
  (h.2.2 _ (slot_mem h i hi)).1

theorem slot_text {s : CLI_DataTypeDef} (h : SlotsOk s) (i : Nat) (hi : i < 10) :
    (cstr (lineAt s i)).length ≤ 79 :=
  (h.2.2 _ (slot_mem h i hi)).2.1

theorem slot_tail {s : CLI_DataTypeDef} (h : SlotsOk s) (i : Nat) (hi : i < 10) :
    (lineAt s i).drop 80 = List.replicate 16 0 :=
  (h.2.2 _ (slot_mem h i hi)).2.2

theorem inv_clearCurrent (s : CLI_DataTypeDef) (h : SlotsOk s ∧ NamesOk s ∧ HistOk s) :
    Inv (clearCurrent s) := by
  have hlen := slot_length h.1 s.lineCurrent h.1.2.1
  have ht : cstr ((lineAt s s.lineCurrent).set 0 0) = [] :=
    cstr_set_zero _ 0 (Nat.zero_le _) (by rw [hlen]; decide)
  refine inv_edit ((lineAt s s.lineCurrent).set 0 0) h rfl rfl rfl h.2.2.1 rfl ?_ ?_ ?_ ?_
  · rw [List.length_set]; exact hlen
  · rw [ht]; exact Nat.zero_le _
  · rw [List.drop_set_of_lt _ _ (show 0 < CLI_MAX_LINE_LENGTH by decide)]
    exact slot_tail h.1 s.lineCurrent h.1.2.1
  · rw [ht]; exact Nat.le_refl _

theorem slots_advanceHistory (s : CLI_DataTypeDef) (h : SlotsOk s ∧ NamesOk s ∧ HistOk s) :
    SlotsOk (advanceHistory s) ∧ NamesOk (advanceHistory s) ∧ HistOk (advanceHistory s) := by
  obtain ⟨⟨h1, h2, h3⟩, h5, h6, h7⟩ := h
  refine ⟨⟨h1, ?_, h3⟩, h5, ?_, ?_⟩
  · exact Nat.mod_lt _ (by decide)
  · show s.LineBack ≤ (if s.LineCount < CLI_MAX_HISTORY_LINES - 1 then (s.LineCount + 1) % 256
      else s.LineCount)
    have : CLI_MAX_HISTORY_LINES - 1 = 9 := rfl
    rw [this] at h7 ⊢
    split <;> omega
  · show (if s.LineCount < CLI_MAX_HISTORY_LINES - 1 then (s.LineCount + 1) % 256
      else s.LineCount) ≤ CLI_MAX_HISTORY_LINES - 1
    have : CLI_MAX_HISTORY_LINES - 1 = 9 := rfl
    rw [this] at h7 ⊢
    split <;> omega

theorem inv_commitLine (s : CLI_DataTypeDef) (h : Inv s) : Inv (commitLine s) := by
  unfold commitLine
  split
  · exact inv_clearCurrent _ (slots_advanceHistory s ⟨h.1, h.2.2⟩)
  · exact inv_clearCurrent _ ⟨h.1, h.2.2⟩

/-- The slots after `storeChar`. -/
theorem storeChar_line (c : Nat) (s : CLI_DataTypeDef) (h : s.lineCurrent < s.line.length) :
    (storeChar c s).line = s.line.set s.lineCurrent
      (((lineAt s s.lineCurrent).set s.lineIdx c).set ((s.lineIdx + 1) % 256) 0) := by
  show (s.line.set s.lineCurrent ((lineAt s s.lineCurrent).set s.lineIdx c)).set s.lineCurrent
    (((s.line.set s.lineCurrent ((lineAt s s.lineCurrent).set s.lineIdx c)).getD s.lineCurrent
      []).set ((s.lineIdx + 1) % 256) 0) = _
  rw [getD_set_self _ _ _ h, List.set_set]

theorem inv_storeChar (c : Nat) (s : CLI_DataTypeDef) (h : Inv s) (hc : c ≠ 0)
    (hi : s.lineIdx < CLI_MAX_LINE_LENGTH - 1) : Inv (storeChar c s) := by
  have hi2 : s.lineIdx < 79 := hi
  have hlen := slot_length h.1 s.lineCurrent h.1.2.1
  have hidx : s.lineIdx ≤ (cstr (lineAt s s.lineCurrent)).length := h.2.1
  have hm : (s.lineIdx + 1) % 256 = s.lineIdx + 1 := Nat.mod_eq_of_lt (by omega)
  have ht : cstr (((lineAt s s.lineCurrent).set s.lineIdx c).set ((s.lineIdx + 1) % 256) 0)
      = (cstr (lineAt s s.lineCurrent)).take s.lineIdx ++ [c] := by
    rw [hm]
    exact cstr_set_char _ _ _ hc hidx (by rw [hlen]; omega)
  refine inv_edit _ ⟨h.1, h.2.2⟩ (storeChar_line c s (by rw [h.1.1]; exact h.1.2.1)) rfl rfl
    h.2.2.2.1 rfl ?_ ?_ ?_ ?_
  · rw [List.length_set, List.length_set]; exact hlen
  · rw [ht, List.length_append, List.length_take]
    show min s.lineIdx _ + 1 ≤ 79
    omega
  · rw [List.drop_set_of_lt _ _ (show (s.lineIdx + 1) % 256 < CLI_MAX_LINE_LENGTH by
        rw [hm]; show _ < 80; omega),
      List.drop_set_of_lt _ _ (show s.lineIdx < CLI_MAX_LINE_LENGTH by show _ < 80; omega)]
    exact slot_tail h.1 s.lineCurrent h.1.2.1
  · rw [ht, List.length_append, List.length_take]
    show (s.lineIdx + 1) % 256 ≤ _
    rw [hm, Nat.min_eq_left hidx]
    exact Nat.le_refl _

theorem appendSpace_eq (s : CLI_DataTypeDef) : appendSpace s = storeChar 32 s := rfl

theorem inv_EraseChar (s : CLI_DataTypeDef) (h : Inv s) : Inv (CLI_EraseChar s) := by
  unfold CLI_EraseChar
  split
  · rename_i hne
    refine inv_traceOnly (traceOnly_Print _ _ _) ?_
    have hlen := slot_length h.1 s.lineCurrent h.1.2.1
    have hidx : s.lineIdx ≤ (cstr (lineAt s s.lineCurrent)).length := h.2.1
    have htext := slot_text h.1 s.lineCurrent h.1.2.1
    have ht : cstr ((lineAt s s.lineCurrent).set (s.lineIdx - 1) 0)
        = (cstr (lineAt s s.lineCurrent)).take (s.lineIdx - 1) :=
      cstr_set_zero _ _ (by omega) (by rw [hlen]; omega)
    refine inv_edit ((lineAt s s.lineCurrent).set (s.lineIdx - 1) 0) ⟨h.1, h.2.2⟩ rfl rfl rfl
      h.2.2.2.1 rfl ?_ ?_ ?_ ?_
    · rw [List.length_set]; exact hlen
    · rw [ht, List.length_take]
      show min _ _ ≤ 79
      omega
    · rw [List.drop_set_of_lt _ _ (show s.lineIdx - 1 < CLI_MAX_LINE_LENGTH by
        show _ < 80; omega)]
      exact slot_tail h.1 s.lineCurrent h.1.2.1
    · rw [ht, List.length_take]
      show s.lineIdx - 1 ≤ _
      omega
  · exact h
theorem cstr_append_nonzero (l r : List Nat) (h : ∀ x ∈ l, x ≠ 0) :
    cstr (l ++ r) = l ++ cstr r := by
  induction l with
  | nil => rfl
  | cons x t ih =>
    rw [List.cons_append, cstr_cons_ne x _ (h x (List.mem_cons_self x t)),
      ih (fun y hy => h y (List.mem_cons_of_mem x hy)), List.cons_append]

/-- The buffer after `memcpy(line, name, n); line[n] = 0` reads as the first
`n` characters of the name. -/
theorem cstr_memcpy (dst src : List Nat) (n : Nat) (hs : ∀ x ∈ src, x ≠ 0)
    (hn : n ≤ src.length) (hd : n < dst.length) :
    ((memcpyStr dst src n).set n 0).length = dst.length ∧
    cstr ((memcpyStr dst src n).set n 0) = src.take n ∧
    ∀ m, n < m → ((memcpyStr dst src n).set n 0).drop m = dst.drop m := by
  have h1 : (src ++ List.replicate n 0).take n = src.take n := by
    rw [List.take_append_eq_append_take, Nat.sub_eq_zero_of_le hn, List.take_zero,
      List.append_nil]
  have h2 : memcpyStr dst src n = src.take n ++ dst.drop n := by
    unfold memcpyStr
    rw [h1]
    apply List.take_of_length_le
    rw [List.length_append, List.length_take, List.length_drop]
    omega
  have h3 : (src.take n).length = n := by rw [List.length_take]; omega
  have h4 : ∀ x ∈ src.take n, x ≠ 0 := fun x hx => hs x (List.mem_of_mem_take hx)
  refine ⟨?_, ?_, ?_⟩
  · rw [List.length_set, h2, List.length_append, h3, List.length_drop]
    omega
  · rw [h2, cstr_set_zero _ n (by rw [cstr_append_nonzero _ _ h4, List.length_append]; omega)
      (by rw [List.length_append, h3, List.length_drop]; omega),
      cstr_append_nonzero _ _ h4, List.take_left' h3]
  · intro m hm
    rw [List.drop_set_of_lt _ _ hm, h2, List.drop_append_eq_append_drop, h3,
      List.drop_of_length_le (by rw [h3]; omega), List.nil_append, List.drop_drop]
    congr 1
    omega

/-- The buffer after the copy loop of `cliRetrieveHistory` reads as the text
copied. -/
theorem cstr_copy (dst src : List Nat) (hs : ∀ x ∈ src, x ≠ 0) (hd : src.length < dst.length) :
    ((src ++ 0 :: dst.drop (src.length + 1)).take dst.length).length = dst.length ∧
    cstr ((src ++ 0 :: dst.drop (src.length + 1)).take dst.length) = src ∧
    ∀ m, src.length < m →
      ((src ++ 0 :: dst.drop (src.length + 1)).take dst.length).drop m = dst.drop m := by
  have h1 : (src ++ 0 :: dst.drop (src.length + 1)).length = dst.length := by
    rw [List.length_append, List.length_cons, List.length_drop]
    omega
  rw [List.take_of_length_le (le_of_eq h1)]
  refine ⟨h1, cstr_append_zero _ _ hs, ?_⟩
  intro m hm
  have h2 : src ++ 0 :: dst.drop (src.length + 1) = (src ++ [0]) ++ dst.drop (src.length + 1) := by
    rw [List.append_assoc]; rfl
  rw [h2, List.drop_append_eq_append_drop,
    List.drop_of_length_le (by rw [List.length_append, List.length_singleton]; omega),
    List.nil_append, List.drop_drop, List.length_append, List.length_singleton]
  congr 1
  omega

theorem historyIdx_lt (s : CLI_DataTypeDef) : historyIdx s < 10 :=
  Nat.mod_lt _ (by decide)

theorem inv_copyHistoryLine (s : CLI_DataTypeDef) (h : Inv s) : Inv (copyHistoryLine s) := by
  have hlen := slot_length h.1 s.lineCurrent h.1.2.1
  have hsrc := slot_text h.1 (historyIdx s) (historyIdx_lt s)
  obtain ⟨c1, c2, c3⟩ := cstr_copy (lineAt s s.lineCurrent) (cstr (lineAt s (historyIdx s)))
    (cstr_nonzero _) (by rw [hlen]; omega)
  refine inv_edit _ ⟨h.1, h.2.2⟩ rfl rfl rfl h.2.2.2.1 rfl ?_ ?_ ?_ ?_
  · rw [c1]; exact hlen
  · rw [c2]; exact hsrc
  · rw [c3 CLI_MAX_LINE_LENGTH (by show _ < 80; omega)]
    exact slot_tail h.1 s.lineCurrent h.1.2.1
  · rw [c2]
    exact Nat.mod_le _ _

theorem cliRetrieveHistory_snd (s : CLI_DataTypeDef) :
    (cliRetrieveHistory s).2
      = printLineLen (CLI_PrintPrompt 0 (copyHistoryLine (CLI_EraseLine s))) := by
  unfold cliRetrieveHistory
  simp only

theorem inv_cliRetrieveHistory (s : CLI_DataTypeDef) (h : Inv s) : Inv (cliRetrieveHistory s).2 := by
  rw [cliRetrieveHistory_snd]
  have h1 : Inv (CLI_EraseLine s) := inv_traceOnly (traceOnly_EraseLine s) h
  have h2 : Inv (copyHistoryLine (CLI_EraseLine s)) := inv_copyHistoryLine _ h1
  have h3 : Inv (CLI_PrintPrompt 0 (copyHistoryLine (CLI_EraseLine s))) :=
    inv_traceOnly (traceOnly_PrintPrompt 0 _) h2
  exact inv_traceOnly (traceOnly_printLineLen _) h3

/-! ### The tab completer -/

theorem narrowPlen_le (lcd : List Nat) (cmpLen : Nat) (rest : List (List Nat)) (p : Nat) :
    narrowPlen lcd cmpLen rest p ≤ p := by
  induction rest generalizing p with
  | nil => exact Nat.le_refl _
  | cons c t ih =>
    unfold narrowPlen
    split
    · exact le_trans (ih _) (by omega)
    · exact ih _

theorem completionPlen_le (cmpLen : Nat) (c0 : List Nat) (rest : List (List Nat)) :
    completionPlen cmpLen c0 rest ≤ c0.length - cmpLen := by
  unfold completionPlen
  refine le_trans (narrowPlen_le _ _ _ _) ?_
  rw [List.length_drop]
  exact Nat.mod_le _ _

/-- Every candidate the collecting loop adds is the name of an entry of the
array that agrees with the line on its first `cmpLen` characters. -/
theorem completionLoop_mem (arr : List CLI_CmdTypeDef) (cnt : Nat) (line : List Nat) (cmpLen : Nat)
    (fuel i : Nat) (acc r : List (List Nat))
    (h : completionLoop arr cnt line cmpLen fuel i acc = some r) :
    ∀ c ∈ r, c ∈ acc ∨ ∃ e ∈ arr, e.Name = c ∧ strncmpEq e.Name line cmpLen = true := by
  induction fuel generalizing i acc with
  | zero => exact absurd h (by simp [completionLoop])
  | succ n ih =>
    unfold completionLoop at h
    split at h
    · split at h
      · exact absurd h (by simp)
      · rename_i e he
        intro c hc
        rcases ih _ _ h c hc with h1 | h1
        · split at h1
          · rename_i hm
            rcases List.mem_append.mp h1 with h2 | h2
            · exact Or.inl h2
            · rw [List.mem_singleton] at h2
              exact Or.inr ⟨e, List.getElem?_mem he, h2.symm, hm.2⟩
          · exact Or.inl h1
        · exact Or.inr h1
    · simp only [Option.some.injEq] at h
      intro c hc
      rw [← h] at hc
      exact Or.inl hc

/-- A name that agrees with the line on `n` characters, `n` not past the end
of the line, has at least `n` characters. -/
theorem strncmpEq_length (a b : List Nat) (n : Nat) (ha : ∀ x ∈ a, x ≠ 0) (hb : ∀ x ∈ b, x ≠ 0)
    (hn : n ≤ b.length) (h : strncmpEq a b n = true) : n ≤ a.length ∧ a.take n = b.take n := by
  unfold strncmpEq at h
  have h1 := of_decide_eq_true h
  rw [strcmp_eq_zero _ _ (fun x hx => ha x (List.mem_of_mem_take hx))
    (fun x hx => hb x (List.mem_of_mem_take hx))] at h1
  have h2 := congrArg List.length h1
  rw [List.length_take, List.length_take] at h2
  exact ⟨by omega, h1⟩

/-- The slots after `rewriteLine`. -/
theorem rewriteLine_line (c0 : List Nat) (idx : Nat) (s : CLI_DataTypeDef)
    (h : s.lineCurrent < s.line.length) :
    (rewriteLine c0 idx s).line = s.line.set s.lineCurrent
      ((memcpyStr (lineAt s s.lineCurrent) c0 idx).set idx 0) := by
  show (s.line.set s.lineCurrent (memcpyStr (lineAt s s.lineCurrent) c0 idx)).set s.lineCurrent
    (((s.line.set s.lineCurrent (memcpyStr (lineAt s s.lineCurrent) c0 idx)).getD s.lineCurrent
      []).set idx 0) = _
  rw [getD_set_self _ _ _ h, List.set_set]

theorem inv_rewriteLine (c0 : List Nat) (idx : Nat) (s : CLI_DataTypeDef) (h : Inv s)
    (h0 : ∀ x ∈ c0, x ≠ 0) (hi : idx ≤ c0.length) (hc : c0.length ≤ 11) :
    Inv (rewriteLine c0 idx s) ∧ (rewriteLine c0 idx s).lineIdx = idx := by
  have hlen := slot_length h.1 s.lineCurrent h.1.2.1
  obtain ⟨m1, m2, m3⟩ := cstr_memcpy (lineAt s s.lineCurrent) c0 idx h0 hi (by rw [hlen]; omega)
  refine ⟨inv_edit _ ⟨h.1, h.2.2⟩ (rewriteLine_line c0 idx s (by rw [h.1.1]; exact h.1.2.1))
    rfl rfl h.2.2.2.1 rfl ?_ ?_ ?_ ?_, rfl⟩
  · rw [m1]; exact hlen
  · rw [m2, List.length_take]
    show min _ _ ≤ 79
    omega
  · rw [m3 CLI_MAX_LINE_LENGTH (by show _ < 80; omega)]
    exact slot_tail h.1 s.lineCurrent h.1.2.1
  · rw [m2, List.length_take]
    show idx ≤ _
    omega

theorem inv_applyCompletion (c0 : List Nat) (rest : List (List Nat)) (s : CLI_DataTypeDef)
    (cmpLen : Nat) (h : Inv s) (h0 : ∀ x ∈ c0, x ≠ 0) (hi : cmpLen ≤ c0.length)
    (hc : c0.length ≤ 11) : Inv (applyCompletion cmpLen c0 rest s) := by
  have hp := completionPlen_le cmpLen c0 rest
  have hm : (cmpLen + completionPlen cmpLen c0 rest) % 256
      = cmpLen + completionPlen cmpLen c0 rest := Nat.mod_eq_of_lt (by omega)
  obtain ⟨r1, r2⟩ := inv_rewriteLine c0 ((cmpLen + completionPlen cmpLen c0 rest) % 256) s h h0
    (by rw [hm]; omega) hc
  unfold applyCompletion
  refine inv_traceOnly (traceOnly_completionOutput _ _ _ _) ?_
  split
  · rw [appendSpace_eq]
    refine inv_storeChar 32 _ r1 (by decide) ?_
    rw [r2, hm]
    show _ < 79
    omega
  · exact r1

theorem inv_TabCompleter (fuel cmpLen : Nat) (s s1 : CLI_DataTypeDef) (n : Nat) (h : Inv s)
    (hc : cmpLen ≤ (cstr (lineAt s s.lineCurrent)).length)
    (hr : CLI_TabCompleter fuel cmpLen s = some (n, s1)) : Inv s1 := by
  unfold CLI_TabCompleter at hr
  split at hr
  · simp only [Option.some.injEq, Prod.mk.injEq] at hr
    rw [← hr.2]; exact h
  · rename_i arr ha
    split at hr
    · exact absurd hr (by simp)
    · split at hr
      · simp only [Option.some.injEq, Prod.mk.injEq] at hr
        rw [← hr.2]; exact h
      · split at hr
        · exact absurd hr (by simp)
        · simp only [Option.some.injEq, Prod.mk.injEq] at hr
          rw [← hr.2]; exact h
        · rename_i c0 rest hl
          simp only [Option.some.injEq, Prod.mk.injEq] at hr
          rw [← hr.2]
          rcases completionLoop_mem _ _ _ _ _ _ _ _ hl c0 (List.mem_cons_self _ _) with hx | hx
          · exact absurd hx (List.not_mem_nil _)
          · obtain ⟨e, he, hname, hm⟩ := hx
            have hok := h.2.2.1 arr ha e he
            rw [hname] at hok hm
            have hlen := strncmpEq_length c0 _ cmpLen hok.2 (cstr_nonzero _) hc hm
            exact inv_applyCompletion c0 rest s cmpLen h hok.2 hlen.1 hok.1
/-! ### The byte processor -/

theorem inv_keyEscape (s : CLI_DataTypeDef) (h : Inv s) : Inv (keyEscape s) :=
  inv_same h rfl rfl rfl rfl h.2.2.2.1 rfl

theorem inv_escAccumulate (c : Nat) (s : CLI_DataTypeDef) (h : Inv s) : Inv (escAccumulate c s) :=
  inv_same h rfl rfl rfl rfl h.2.2.2.1 rfl

theorem inv_ProcessEscape (c : Nat) (s : CLI_DataTypeDef) (h : Inv s) :
    Inv (CLI_ProcessEscapeSequnceChar c s).2 := by
  have h1 := inv_escAccumulate c s h
  unfold CLI_ProcessEscapeSequnceChar
  split
  · exact inv_same h1 rfl rfl rfl rfl h1.2.2.2.1 rfl
  · exact inv_same h1 rfl rfl rfl rfl h1.2.2.2.1 rfl
  · exact h1

theorem inv_keyReturn (s : CLI_DataTypeDef) (h : Inv s) : Inv (keyReturn s) := by
  unfold keyReturn
  split
  · exact inv_same (inv_clearCurrent s ⟨h.1, h.2.2⟩) rfl rfl rfl rfl (Nat.zero_le _) rfl
  · exact inv_same h rfl rfl rfl rfl (Nat.zero_le _) rfl

theorem inv_keyTab (s : CLI_DataTypeDef) (h : Inv s) : Inv (keyTab s) := by
  unfold keyTab
  split
  · exact inv_same h rfl rfl rfl rfl (Nat.zero_le _) rfl
  · exact h

theorem inv_keyBackspace (s : CLI_DataTypeDef) (h : Inv s) : Inv (keyBackspace s) :=
  inv_same (inv_EraseChar s h) rfl rfl rfl rfl (Nat.zero_le _) rfl

theorem inv_keyDown (s : CLI_DataTypeDef) (h : Inv s) : Inv (keyDown s) := by
  unfold keyDown
  split
  · exact inv_same h rfl rfl rfl rfl (le_trans (Nat.sub_le _ _) h.2.2.2.1) rfl
  · exact h

theorem inv_keyUp (s : CLI_DataTypeDef) (h : Inv s) : Inv (keyUp s) := by
  unfold keyUp
  split
  · rename_i hlt
    refine inv_same h rfl rfl rfl rfl ?_ rfl
    show (s.LineBack + 1) % 256 ≤ s.LineCount
    have := h.2.2.2.2
    have h9 : CLI_MAX_HISTORY_LINES - 1 = 9 := rfl
    rw [h9] at this
    omega
  · exact h

theorem lowerIfAuto_ne_zero (c : Nat) (s : CLI_DataTypeDef) (hc : c ≠ 0) : lowerIfAuto c s ≠ 0 := by
  unfold lowerIfAuto tolower
  repeat' split
  all_goals omega

theorem inv_keyDefault (c : Nat) (s : CLI_DataTypeDef) (h : Inv s) (hc : c ≠ 0) :
    Inv (keyDefault c s) := by
  unfold keyDefault
  split
  · rename_i hlt
    have t := traceOnly_echoChar (lowerIfAuto c s) s
    have hi : (echoChar (lowerIfAuto c s) s).lineIdx < CLI_MAX_LINE_LENGTH - 1 := by
      rw [(traceOnly_fields t).2.1]; exact hlt
    exact inv_same (inv_storeChar (lowerIfAuto c s) _ (inv_traceOnly t h)
      (lowerIfAuto_ne_zero c s hc) hi) rfl rfl rfl rfl (Nat.zero_le _) rfl
  · exact ⟨h.1, Nat.zero_le _, h.2.2.1, Nat.zero_le _, h.2.2.2.2⟩

theorem inv_processKey (c : Nat) (s : CLI_DataTypeDef) (h : Inv s) (hc : c ≠ 0) :
    Inv (processKey c s) := by
  unfold processKey
  repeat' split
  · exact inv_keyEscape s h
  · exact inv_keyReturn s h
  · exact inv_keyTab s h
  · exact inv_keyBackspace s h
  · exact inv_keyDown s h
  · exact inv_keyUp s h
  · exact h
  · exact h
  · exact inv_keyTab s h
  · exact inv_keyDefault c s h hc

theorem inv_ProcessChar (c : Nat) (s : CLI_DataTypeDef) (h : Inv s) :
    Inv (CLI_ProcessChar c s).2 := by
  unfold CLI_ProcessChar
  split
  · exact h
  · rename_i hg
    split
    · exact h
    · split
      · split
        · exact inv_ProcessEscape c s h
        · rename_i hne
          exact inv_processKey _ _ (inv_ProcessEscape c s h) hne
      · exact inv_processKey c s h (fun e => hg (Or.inr (Or.inl e)))

/-! ### The worker -/

theorem inv_ExecuteCommand (H : Nat → Nat → List (List Nat) → Int) (fuel : Nat)
    (s s1 : CLI_DataTypeDef) (h : Inv s) (hr : CLI_ExecuteCommand H fuel s = some s1) :
    Inv s1 := by
  unfold CLI_ExecuteCommand at hr
  split at hr
  · simp only [Option.some.injEq] at hr
    rw [← hr]; exact h
  · split at hr
    · split at hr
      · exact absurd hr (by simp)
      · rename_i cmdRet s2 hp
        simp only [Option.some.injEq] at hr
        rw [← hr]
        have t2 := traceOnly_ParseEndExec H fuel _ _ cmdRet _ s2 hp
        exact inv_traceOnly (traceOnly_promptUnlessReset _ _)
          (inv_commitLine _ (inv_traceOnly t2 (inv_traceOnly (traceOnly_crlfIfEcho s) h)))
    · simp only [Option.some.injEq] at hr
      rw [← hr]
      exact inv_traceOnly (traceOnly_promptUnlessReset _ _)
        (inv_traceOnly (traceOnly_crlfIfEcho s) h)

theorem inv_rejectLine (s : CLI_DataTypeDef) (h : Inv s) : Inv (rejectLine s) := by
  unfold rejectLine
  refine inv_traceOnly (traceOnly_PrintPrompt _ _) ?_
  split
  · have h1 := inv_traceOnly (traceOnly_printf (bytes "\r\n'" ++ cstr (lineAt s s.lineCurrent)
      ++ bytes "' is not recognized as an internal command.\r\n") s) h
    exact inv_clearCurrent _ ⟨h1.1, h1.2.2⟩
  · exact h

theorem inv_SearchAndExecute (H : Nat → Nat → List (List Nat) → Int) (fuel : Nat)
    (s s1 : CLI_DataTypeDef) (b : Bool) (h : Inv s)
    (hr : CLI_SearchAndExecute H fuel s = some (b, s1)) : Inv s1 := by
  unfold CLI_SearchAndExecute at hr
  split at hr
  · simp only [Option.some.injEq, Prod.mk.injEq] at hr
    rw [← hr.2]; exact h
  · split at hr
    · exact absurd hr (by simp)
    · split at hr
      · split at hr
        · exact absurd hr (by simp)
        · rename_i s2 he
          simp only [Option.some.injEq, Prod.mk.injEq] at hr
          rw [← hr.2]
          exact inv_ExecuteCommand H fuel s s2 h he
      · simp only [Option.some.injEq, Prod.mk.injEq] at hr
        rw [← hr.2]
        exact inv_rejectLine s h

theorem inv_runPending (H : Nat → Nat → List (List Nat) → Int) (fuel : Nat)
    (s s1 : CLI_DataTypeDef) (b : Bool) (h : Inv s)
    (hr : runPending H fuel s = some (b, s1)) : Inv s1 := by
  unfold runPending at hr
  split at hr
  · exact inv_SearchAndExecute H fuel s s1 b h hr
  · split at hr
    · exact absurd hr (by simp)
    · rename_i n s2 ht
      simp only [Option.some.injEq, Prod.mk.injEq] at hr
      rw [← hr.2]
      exact inv_TabCompleter fuel s.lineIdx s s2 n h h.2.1 ht
  · simp only [Option.some.injEq] at hr
    have h1 : s1 = (cliRetrieveHistory s).2 := by rw [hr]
    rw [h1]
    exact inv_cliRetrieveHistory s h
  · simp only [Option.some.injEq, Prod.mk.injEq] at hr
    rw [← hr.2]; exact h

theorem inv_ProcessState (H : Nat → Nat → List (List Nat) → Int) (fuel : Nat)
    (s s1 : CLI_DataTypeDef) (b : Bool) (h : Inv s)
    (hr : CLI_ProcessState H fuel s = some (b, s1)) : Inv s1 := by
  unfold CLI_ProcessState at hr
  split at hr
  · simp only [Option.some.injEq, Prod.mk.injEq] at hr
    rw [← hr.2]; exact h
  · split at hr
    · exact absurd hr (by simp)
    · rename_i r s2 hp
      simp only [Option.some.injEq, Prod.mk.injEq] at hr
      rw [← hr.2]
      have h2 := inv_runPending H fuel s s2 r h hp
      exact inv_same h2 rfl rfl rfl rfl h2.2.2.2.1 rfl

/-! ### Initialisation, reset and the registry -/

theorem inv_start : Inv gCliData0 := by
  refine ⟨⟨rfl, by decide, ?_⟩, Nat.zero_le _, ?_, Nat.zero_le _, Nat.zero_le _⟩
  · intro b hb
    rw [List.eq_of_mem_replicate hb]
    exact ⟨by rfl, by decide, by decide⟩
  · intro arr ha
    exact absurd ha (by simp [gCliData0])

theorem inv_ResetState (s : CLI_DataTypeDef) (h : Inv s) : Inv (CLI_ResetState s) := by
  unfold CLI_ResetState
  split
  · exact h
  · refine ⟨⟨rfl, (show 0 < 10 by decide), ?_⟩, Nat.zero_le _, h.2.2.1, Nat.zero_le _,
      Nat.zero_le _⟩
    intro b hb
    rw [List.eq_of_mem_replicate hb]
    exact ⟨by rfl, by decide, by decide⟩

theorem inv_storeConfig (cfg : CLI_InitTypeDef) (s : CLI_DataTypeDef) (h : Inv s) :
    Inv (storeConfig cfg s) :=
  inv_same h rfl rfl rfl rfl h.2.2.2.1 rfl

theorem inv_Init (cliInit : Option CLI_InitTypeDef) (s : CLI_DataTypeDef) (h : Inv s) :
    Inv (CLI_Init cliInit s).2 := by
  unfold CLI_Init
  split
  · exact h
  · split
    · exact h
    · rename_i cfg hi
      have h1 := inv_storeConfig cfg s h
      split
      · have h2 := inv_traceOnly (traceOnly_PrintPrompt 1 (storeConfig cfg s)) h1
        exact inv_same h2 rfl rfl rfl rfl h2.2.2.2.1 rfl
      · exact inv_same h1 rfl rfl rfl rfl h1.2.2.2.1 rfl

theorem inv_Inject (m : Bool) (t : Option (List CLI_CmdTypeDef)) (n : Int) (s : CLI_DataTypeDef)
    (h : Inv s) : Inv (CLI_InjectCommands m t n s).2 := by
  unfold CLI_InjectCommands
  repeat' split
  all_goals exact h

/-- The name of a normalised entry: at most 11 characters, none of them NUL. -/
theorem normalizeCmd_name (e : CLI_CmdTypeDef) :
    (normalizeCmd e).Name.length ≤ CLI_MAX_COMMAND_NAME_LEN - 1 ∧
    ∀ x ∈ (normalizeCmd e).Name, x ≠ 0 := by
  have htrim : (__strtrim (e.Name.take (CLI_MAX_COMMAND_NAME_LEN - 1))).length ≤ 11 := by
    unfold __strtrim
    split
    · exact Nat.zero_le _
    · refine le_trans (List.take_sublist _ _).length_le ?_
      refine le_trans (List.dropWhile_sublist _).length_le ?_
      refine le_trans (cstr_length_le _) ?_
      exact List.length_take_le _ _
  constructor
  · show ((cstr _).map __tolower).length ≤ 11
    rw [List.length_map]
    exact le_trans (cstr_length_le _) htrim
  · intro x hx
    have hx2 : x ∈ (cstr (__strtrim (e.Name.take (CLI_MAX_COMMAND_NAME_LEN - 1)))).map __tolower := hx
    rw [List.mem_map] at hx2
    obtain ⟨y, hy, rfl⟩ := hx2
    have := cstr_nonzero _ y hy
    unfold __tolower
    split <;> omega

theorem names_mergeEntry (st : List CLI_CmdTypeDef × Nat) (e : CLI_CmdTypeDef)
    (h : ∀ c ∈ st.1, c.Name.length ≤ CLI_MAX_COMMAND_NAME_LEN - 1 ∧ ∀ x ∈ c.Name, x ≠ 0) :
    ∀ c ∈ (mergeEntry st e).1,
      c.Name.length ≤ CLI_MAX_COMMAND_NAME_LEN - 1 ∧ ∀ x ∈ c.Name, x ≠ 0 := by
  unfold mergeEntry
  split
  · exact h
  · intro c hc
    rcases List.mem_or_eq_of_mem_set hc with hc | hc
    · exact h c hc
    · rw [hc]; exact normalizeCmd_name e

theorem names_mergeTable (fuel : Nat) (node : CLI_TableNode_TypeDef) (p : Nat)
    (st r : List CLI_CmdTypeDef × Nat)
    (h : ∀ c ∈ st.1, c.Name.length ≤ CLI_MAX_COMMAND_NAME_LEN - 1 ∧ ∀ x ∈ c.Name, x ≠ 0)
    (hr : mergeTable fuel node p st = some r) :
    ∀ c ∈ r.1, c.Name.length ≤ CLI_MAX_COMMAND_NAME_LEN - 1 ∧ ∀ x ∈ c.Name, x ≠ 0 := by
  induction fuel generalizing p st with
  | zero => exact absurd hr (by simp [mergeTable])
  | succ n ih =>
    unfold mergeTable at hr
    split at hr
    · split at hr
      · exact absurd hr (by simp)
      · exact ih _ _ (names_mergeEntry st _ h) hr
    · simp only [Option.some.injEq] at hr
      rw [← hr]; exact h

theorem names_mergeChain (fuel : Nat) (chain : List CLI_TableNode_TypeDef)
    (st r : List CLI_CmdTypeDef × Nat)
    (h : ∀ c ∈ st.1, c.Name.length ≤ CLI_MAX_COMMAND_NAME_LEN - 1 ∧ ∀ x ∈ c.Name, x ≠ 0)
    (hr : mergeChain fuel chain st = some r) :
    ∀ c ∈ r.1, c.Name.length ≤ CLI_MAX_COMMAND_NAME_LEN - 1 ∧ ∀ x ∈ c.Name, x ≠ 0 := by
  induction chain generalizing st with
  | nil =>
    unfold mergeChain at hr
    simp only [Option.some.injEq] at hr
    rw [← hr]; exact h
  | cons node rest ih =>
    unfold mergeChain at hr
    split at hr
    · exact absurd hr (by simp)
    · rename_i st1 h1
      exact ih st1 (names_mergeTable fuel node 0 st st1 h h1) hr

theorem inv_Build (fuel : Nat) (m b : Bool) (s s1 : CLI_DataTypeDef) (h : Inv s)
    (hr : CLI_BuildTable fuel m s = some (b, s1)) : Inv s1 := by
  unfold CLI_BuildTable at hr
  split at hr
  · simp only [Option.some.injEq, Prod.mk.injEq] at hr
    rw [← hr.2]; exact h
  · split at hr
    · simp only [Option.some.injEq, Prod.mk.injEq] at hr
      rw [← hr.2]; exact h
    · split at hr
      · simp only [Option.some.injEq, Prod.mk.injEq] at hr
        rw [← hr.2]
        refine ⟨h.1, h.2.1, ?_, h.2.2.2⟩
        intro arr ha
        exact absurd ha (by simp)
      · split at hr
        · exact absurd hr (by simp)
        · rename_i arr cnt hm
          simp only [Option.some.injEq, Prod.mk.injEq] at hr
          rw [← hr.2]
          refine ⟨h.1, h.2.1, ?_, h.2.2.2⟩
          intro arr1 ha
          have ha1 : qsort (arr.take cnt) ++ arr.drop cnt = arr1 := by
            simpa using ha
          have hall := names_mergeChain fuel _ _ (arr, cnt) (by
            intro c hc
            rw [List.eq_of_mem_replicate hc]
            exact ⟨Nat.zero_le _, fun x hx => absurd hx (List.not_mem_nil _)⟩) hm
          intro e he
          rw [← ha1, List.mem_append] at he
          rcases he with he | he
          · exact hall e (List.mem_of_mem_take ((qsort_perm _).mem_iff.mp he))
          · exact hall e (List.mem_of_mem_drop he)

/-- Every reachable state is well formed. -/
theorem reachable_inv (H : Nat → Nat → List (List Nat) → Int) (s : CLI_DataTypeDef)
    (h : Reachable H s) : Inv s := by
  induction h with
  | start => exact inv_start
  | init cliInit s _ ih => exact inv_Init cliInit s ih
  | inject m t n s _ ih => exact inv_Inject m t n s ih
  | build fuel m b s s1 _ hb ih => exact inv_Build fuel m b s s1 ih hb
  | char c s _ ih => exact inv_ProcessChar c s ih
  | state fuel b s s1 _ hp ih => exact inv_ProcessState H fuel s s1 b ih hp
  | reset s _ ih => exact inv_ResetState s ih
/-! ## Claims C18 to C20: ignored bytes and the bounds of the state -/

/-- The byte after the text in a buffer is the terminator. -/
theorem cstr_terminated (b : List Nat) (h : (cstr b).length < b.length) :
    b[(cstr b).length]? = some 0 := by
  induction b with
  | nil => simp at h
  | cons x t ih =>
    by_cases hx : x = 0
    · subst hx
      rw [cstr_cons_zero, List.length_nil, List.getElem?_cons_zero]
    · rw [cstr_cons_ne x t hx] at h ⊢
      simp only [List.length_cons, Nat.add_lt_add_iff_right] at h
      rw [List.length_cons, List.getElem?_cons_succ]
      exact ih h

theorem reachable_typeBytes (H : Nat → Nat → List (List Nat) → Int) (l : List Nat)
    (s : CLI_DataTypeDef) (h : Reachable H s) : Reachable H (typeBytes l s) := by
  induction l generalizing s with
  | nil => exact h
  | cons c t ih => exact ih _ (Reachable.char c s h)

theorem reachable_demoBuilt (H : Nat → Nat → List (List Nat) → Int) : Reachable H demoBuilt :=
  Reachable.build 6 true true demoInjected demoBuilt
    (Reachable.inject _ _ _ _ (Reachable.init _ _ Reachable.start)) (by decide)

/-- C18: `CLI_ProcessChar` returns false and leaves the whole engine state as it
was, the line slots, the line index, the history cursor, the pending action,
the escape mode, the escape accumulator and the trace of output included,
whenever the byte is 0 or at least 128, or an action is pending, or the commands
array has not been built, or the engine is not initialised. -/
theorem C18_ignored_byte_changes_nothing (c : Nat) (s : CLI_DataTypeDef)
    (h : c = 0 ∨ c ≥ 128 ∨ s.execType ≠ CLI_ExecTypeDef.CLI_Exec_Nothing ∨ s.cmnds = none
      ∨ s.initialized = false) :
    CLI_ProcessChar c s = (false, s) := by
  unfold CLI_ProcessChar
  by_cases h1 : s.initialized = false ∨ c = 0 ∨ c ≥ 128
      ∨ s.execType ≠ CLI_ExecTypeDef.CLI_Exec_Nothing
  · rw [if_pos h1]
  · rw [if_neg h1]
    have h2 : s.cmnds = none := by
      rcases h with h | h | h | h | h
      · exact absurd (Or.inr (Or.inl h)) h1
      · exact absurd (Or.inr (Or.inr (Or.inl h))) h1
      · exact absurd (Or.inr (Or.inr (Or.inr h))) h1
      · exact h
      · exact absurd (Or.inl h) h1
    rw [if_pos h2]

/-- C18 at the demo: the byte 200, the key code of the up arrow sent raw, is
ignored. -/
theorem C18_ignored_byte_changes_nothing_witness :
    (200 = 0 ∨ 200 ≥ 128 ∨ demoBuilt.execType ≠ CLI_ExecTypeDef.CLI_Exec_Nothing
      ∨ demoBuilt.cmnds = none ∨ demoBuilt.initialized = false) ∧
    CLI_ProcessChar 200 demoBuilt = (false, demoBuilt) :=
  ⟨Or.inr (Or.inl (by decide)),
    C18_ignored_byte_changes_nothing 200 demoBuilt (Or.inr (Or.inl (by decide)))⟩

/-- C19: in every state reachable from the zeroed engine by calls of `CLI_Init`,
`CLI_InjectCommands`, `CLI_BuildTable`, `CLI_ProcessChar`, `CLI_ProcessState`
and `CLI_ResetState`, the history step-back counter is at most the filled
count, and the filled count is at most `CLI_MAX_HISTORY_LINES - 1`, that is 9. -/
theorem C19_history_counters_bounded (H : Nat → Nat → List (List Nat) → Int)
    (s : CLI_DataTypeDef) (h : Reachable H s) :
    s.LineBack ≤ s.LineCount ∧ s.LineCount ≤ CLI_MAX_HISTORY_LINES - 1 ∧ s.LineCount ≤ 9 :=
  ⟨(reachable_inv H s h).2.2.2.1, (reachable_inv H s h).2.2.2.2, (reachable_inv H s h).2.2.2.2⟩

/-- C20: in every state reachable from the zeroed engine by calls of `CLI_Init`,
`CLI_InjectCommands`, `CLI_BuildTable`, `CLI_ProcessChar`, `CLI_ProcessState`
and `CLI_ResetState`, each of the 10 line slots holds a text of at most
`CLI_MAX_LINE_LENGTH - 1` = 79 characters followed by its NUL terminator, the
bytes 80 to 95 of every slot are still the zeros they started as (no store went
past the maximum line length), and the line index is at most 79 and not past
the terminator of the current line. -/
theorem C20_lines_within_maximum (H : Nat → Nat → List (List Nat) → Int)
    (s : CLI_DataTypeDef) (h : Reachable H s) :
    s.line.length = CLI_MAX_HISTORY_LINES ∧
    (∀ b ∈ s.line, (cstr b).length ≤ CLI_MAX_LINE_LENGTH - 1 ∧ b[(cstr b).length]? = some 0
      ∧ ∀ j, CLI_MAX_LINE_LENGTH ≤ j → j < CLI_MAX_LINE_LENGTH + 16 → b[j]? = some 0) ∧
    s.lineIdx ≤ CLI_MAX_LINE_LENGTH - 1 ∧
    s.lineIdx ≤ (cstr (lineAt s s.lineCurrent)).length := by
  have hinv := reachable_inv H s h
  refine ⟨hinv.1.1, ?_, ?_, hinv.2.1⟩
  · intro b hb
    obtain ⟨h1, h2, h3⟩ := hinv.1.2.2 b hb
    have h1n : b.length = 96 := h1
    have h2n : (cstr b).length ≤ 79 := h2
    refine ⟨h2, cstr_terminated b (by omega), ?_⟩
    intro j hj1 hj2
    have hj1n : 80 ≤ j := hj1
    have hj2n : j < 96 := hj2
    have h4 : (b.drop CLI_MAX_LINE_LENGTH)[j - 80]? = some 0 := by
      rw [h3, List.getElem?_replicate, if_pos (by omega)]
    rw [List.getElem?_drop] at h4
    have h5 : CLI_MAX_LINE_LENGTH + (j - 80) = j := by
      show 80 + (j - 80) = j
      omega
    rw [h5] at h4
    exact h4
  · have := slot_text hinv.1 s.lineCurrent hinv.1.2.1
    have h2 : s.lineIdx ≤ (cstr (lineAt s s.lineCurrent)).length := hinv.2.1
    show s.lineIdx ≤ 79
    omega

/-! ## The escape matcher -/

/-- A byte from 1 to 127 in normal mode goes to the `switch`. -/
theorem char_normal (c : Nat) (s : CLI_DataTypeDef) (hi : s.initialized = true)
    (hm : s.cmnds ≠ none) (he : s.execType = CLI_ExecTypeDef.CLI_Exec_Nothing)
    (hr : s.receivingEscapeSequence = false) (h0 : c ≠ 0) (h1 : c < 128) :
    (CLI_ProcessChar c s).2 = processKey c s := by
  unfold CLI_ProcessChar
  rw [if_neg (by rw [hi, he]; simp; omega), if_neg hm, if_neg (by rw [hr]; simp)]

/-- A byte from 1 to 127 in escape mode goes to the matcher. -/
theorem char_escape (c : Nat) (s : CLI_DataTypeDef) (hi : s.initialized = true)
    (hm : s.cmnds ≠ none) (he : s.execType = CLI_ExecTypeDef.CLI_Exec_Nothing)
    (hr : s.receivingEscapeSequence = true) (h0 : c ≠ 0) (h1 : c < 128) :
    (CLI_ProcessChar c s).2 =
      if (CLI_ProcessEscapeSequnceChar c s).1 = 0 then (CLI_ProcessEscapeSequnceChar c s).2
      else processKey (CLI_ProcessEscapeSequnceChar c s).1 (CLI_ProcessEscapeSequnceChar c s).2 := by
  unfold CLI_ProcessChar
  rw [if_neg (by rw [hi, he]; simp; omega), if_neg hm, if_pos hr]
  split <;> rfl

theorem strncmpEq_take (a b : List Nat) (n : Nat) : strncmpEq (a.take n) b n = strncmpEq a b n := by
  unfold strncmpEq
  rw [List.take_take, Nat.min_self]

/-- The matcher sees the accumulated bytes only. -/
theorem escMatches_eq (s : CLI_DataTypeDef) (acc : List Nat)
    (hn : s.CurrentEscapeSequenceCount = acc.length)
    (ha : (cstr s.CurrentEscapeSequence).take acc.length = acc) :
    escMatches s = rulesFor s.escapeSequence acc := by
  unfold escMatches rulesFor
  congr 1
  funext r
  rw [hn, ← strncmpEq_take, ha]
theorem escFeed_snoc (acc : List Nat) (c : Nat) (s : CLI_DataTypeDef) :
    escFeed (acc ++ [c]) s = escAccumulate c (escFeed acc s) := by
  unfold escFeed
  rw [List.foldl_append]
  rfl

/-- The state in escape mode after `acc` was accumulated: the accumulator holds
`acc`, the count is its length, everything else is as before the introducer. -/
theorem escFeed_fields (acc : List Nat) (s : CLI_DataTypeDef)
    (h : acc.length ≤ s.CurrentEscapeSequence.length) (h2 : acc.length < 256) :
    (escFeed acc s).initialized = s.initialized ∧ (escFeed acc s).cmnds = s.cmnds ∧
    (escFeed acc s).execType = s.execType ∧ (escFeed acc s).receivingEscapeSequence = true ∧
    (escFeed acc s).escapeSequence = s.escapeSequence ∧
    (escFeed acc s).CurrentEscapeSequenceCount = acc.length ∧
    (escFeed acc s).CurrentEscapeSequence = acc ++ s.CurrentEscapeSequence.drop acc.length := by
  induction acc using List.reverseRecOn with
  | nil => exact ⟨rfl, rfl, rfl, rfl, rfl, rfl, rfl⟩
  | append_singleton t c ih =>
    rw [List.length_append, List.length_singleton] at h h2
    obtain ⟨i1, i2, i3, i4, i5, i6, i7⟩ := ih (by omega) (by omega)
    rw [escFeed_snoc]
    refine ⟨i1, i2, i3, i4, i5, ?_, ?_⟩
    · show ((escFeed t s).CurrentEscapeSequenceCount + 1) % 256 = (t ++ [c]).length
      rw [i6, List.length_append, List.length_singleton]
      exact Nat.mod_eq_of_lt h2
    · show (escFeed t s).CurrentEscapeSequence.set (escFeed t s).CurrentEscapeSequenceCount c = _
      rw [i6, i7, List.set_append_right _ _ (Nat.le_refl _), Nat.sub_self,
        List.length_append, List.length_singleton, List.append_assoc]
      congr 1
      rw [List.drop_eq_getElem_cons (show t.length < s.CurrentEscapeSequence.length by omega),
        List.set_cons_zero]
      rfl

/-- The fields a discarded or completed escape sequence leaves alone. -/
theorem escExit_fields (acc : List Nat) (s : CLI_DataTypeDef) :
    (escExit acc s).line = s.line ∧ (escExit acc s).lineIdx = s.lineIdx ∧
    (escExit acc s).lineCurrent = s.lineCurrent ∧ (escExit acc s).LineCount = s.LineCount ∧
    (escExit acc s).LineBack = s.LineBack ∧ (escExit acc s).execType = s.execType ∧
    (escExit acc s).trace = s.trace ∧ (escExit acc s).receivingEscapeSequence = false := by
  have key : ∀ (l : List Nat) (x : CLI_DataTypeDef),
      (l.foldl (fun st c => escAccumulate c st) x).line = x.line ∧
      (l.foldl (fun st c => escAccumulate c st) x).lineIdx = x.lineIdx ∧
      (l.foldl (fun st c => escAccumulate c st) x).lineCurrent = x.lineCurrent ∧
      (l.foldl (fun st c => escAccumulate c st) x).LineCount = x.LineCount ∧
      (l.foldl (fun st c => escAccumulate c st) x).LineBack = x.LineBack ∧
      (l.foldl (fun st c => escAccumulate c st) x).execType = x.execType ∧
      (l.foldl (fun st c => escAccumulate c st) x).trace = x.trace := by
    intro l
    induction l with
    | nil => intro x; exact ⟨rfl, rfl, rfl, rfl, rfl, rfl, rfl⟩
    | cons c t ih => intro x; exact ih (escAccumulate c x)
  obtain ⟨k1, k2, k3, k4, k5, k6, k7⟩ := key acc (keyEscape s)
  exact ⟨k1, k2, k3, k4, k5, k6, k7, rfl⟩

/-- One byte of an escape sequence: with `acc` accumulated, the byte `c` ends
escape mode when no rule or one rule starts with `acc ++ [c]`, the one rule
giving the key code that goes to the `switch`; with several such rules the
engine keeps reading. -/
theorem esc_step (acc : List Nat) (c : Nat) (s : CLI_DataTypeDef)
    (hi : s.initialized = true) (hm : s.cmnds ≠ none)
    (he : s.execType = CLI_ExecTypeDef.CLI_Exec_Nothing)
    (hl : acc.length < s.CurrentEscapeSequence.length) (h2 : acc.length < 255)
    (ha : ∀ x ∈ acc, x ≠ 0) (h0 : c ≠ 0) (h1 : c < 128) :
    (CLI_ProcessChar c (escFeed acc s)).2 =
      match rulesFor s.escapeSequence (acc ++ [c]) with
      | [] => escExit (acc ++ [c]) s
      | [r] => if r.value = 0 then escExit (acc ++ [c]) s
               else processKey r.value (escExit (acc ++ [c]) s)
      | _ => escFeed (acc ++ [c]) s := by
  obtain ⟨f1, f2, f3, f4, _, _, _⟩ := escFeed_fields acc s (by omega) (by omega)
  obtain ⟨_, _, _, _, g5, g6, g7⟩ := escFeed_fields (acc ++ [c]) s
    (by rw [List.length_append, List.length_singleton]; omega)
    (by rw [List.length_append, List.length_singleton]; omega)
  have hacc : ∀ x ∈ acc ++ [c], x ≠ 0 := by
    intro x hx
    rcases List.mem_append.mp hx with hx | hx
    · exact ha x hx
    · rw [List.mem_singleton] at hx
      rw [hx]; exact h0
  have hmatch : escMatches (escAccumulate c (escFeed acc s))
      = rulesFor s.escapeSequence (acc ++ [c]) := by
    rw [← escFeed_snoc, ← g5]
    refine escMatches_eq _ _ g6 ?_
    rw [g7, cstr_append_nonzero _ _ hacc, List.take_left' rfl]
  rw [char_escape c _ (by rw [f1]; exact hi) (by rw [f2]; exact hm) (by rw [f3]; exact he) f4
    h0 h1]
  unfold CLI_ProcessEscapeSequnceChar
  rw [hmatch]
  unfold escExit
  rw [escFeed_snoc]
  generalize rulesFor s.escapeSequence (acc ++ [c]) = rs
  rcases rs with _ | ⟨r, _ | ⟨r2, t⟩⟩
  · simp only [if_true]
  · simp only
  · simp only [if_true]
theorem typeBytes_snoc (l : List Nat) (c : Nat) (s : CLI_DataTypeDef) :
    typeBytes (l ++ [c]) s = (CLI_ProcessChar c (typeBytes l s)).2 := by
  unfold typeBytes
  rw [List.foldl_append]
  rfl

theorem typeBytes_cons (c : Nat) (l : List Nat) (s : CLI_DataTypeDef) :
    typeBytes (c :: l) s = typeBytes l (CLI_ProcessChar c s).2 := rfl

/-- The introducer in normal mode starts escape mode with an empty accumulator. -/
theorem esc_intro (s : CLI_DataTypeDef) (h : Listening s) :
    (CLI_ProcessChar 27 s).2 = escFeed [] s := by
  rw [char_normal 27 s h.1 h.2.1 h.2.2.1 h.2.2.2.1 (by decide) (by decide)]
  rfl

/-- For texts without NUL, `strncmp` over the length of the accumulated bytes
is the prefix test. -/
theorem strncmpEq_prefix (acc r : List Nat) (ha : ∀ x ∈ acc, x ≠ 0) (hr : ∀ x ∈ r, x ≠ 0) :
    strncmpEq acc r acc.length = true ↔ acc <+: r := by
  unfold strncmpEq
  rw [decide_eq_true_iff, List.take_length,
    strcmp_eq_zero _ _ ha (fun x hx => hr x (List.mem_of_mem_take hx)), List.prefix_iff_eq_take]

theorem rulesFor_prefix (rules : List CLI_EscTypeDef) (acc : List Nat) (ha : ∀ x ∈ acc, x ≠ 0)
    (hr : ∀ r ∈ rules, ∀ x ∈ r.string, x ≠ 0) :
    rulesFor rules acc = rules.filter (fun r => decide (acc <+: r.string)) := by
  unfold rulesFor
  apply List.filter_congr
  intro r hmem
  rw [Bool.eq_iff_iff, strncmpEq_prefix acc r.string ha (hr r hmem), decide_eq_true_iff]

theorem escapeRules_nonzero (echo : Bool) : ∀ r ∈ escapeRules echo, ∀ x ∈ r.string, x ≠ 0 := by
  cases echo <;> decide

/-- While every prefix accumulated so far starts two rules or more, the engine
stays in escape mode and only the accumulator changes. -/
theorem esc_feed (acc : List Nat) (s : CLI_DataTypeDef) (h : Listening s)
    (hz : ∀ r ∈ s.escapeSequence, ∀ x ∈ r.string, x ≠ 0)
    (hb : ∀ x ∈ acc, x ≠ 0 ∧ x < 128) (hl : acc.length ≤ CLI_MAX_ESCAPE)
    (hmulti : ∀ k, 0 < k → k ≤ acc.length →
      2 ≤ (s.escapeSequence.filter (fun r => decide (acc.take k <+: r.string))).length) :
    typeBytes (27 :: acc) s = escFeed acc s := by
  induction acc using List.reverseRecOn with
  | nil => exact esc_intro s h
  | append_singleton t c ih =>
    have hlen : CLI_MAX_ESCAPE = 10 := rfl
    rw [List.length_append, List.length_singleton, hlen] at hl
    have hc := hb c (List.mem_append_right _ (List.mem_singleton_self c))
    have ht : ∀ x ∈ t, x ≠ 0 ∧ x < 128 := fun x hx => hb x (List.mem_append_left _ hx)
    have hall : ∀ x ∈ t ++ [c], x ≠ 0 := fun x hx => (hb x hx).1
    have ih2 := ih ht (by rw [hlen]; omega) (by
      intro k hk1 hk2
      have := hmulti k hk1 (by rw [List.length_append, List.length_singleton]; omega)
      rw [List.take_append_of_le_length hk2] at this
      exact this)
    have key : typeBytes (27 :: (t ++ [c])) s = (CLI_ProcessChar c (typeBytes (27 :: t) s)).2 := by
      rw [← List.cons_append, typeBytes_snoc]
    rw [key, ih2, esc_step t c s h.1 h.2.1 h.2.2.1 (by rw [h.2.2.2.2, hlen]; omega) (by omega)
      (fun x hx => (ht x hx).1) hc.1 hc.2, rulesFor_prefix _ _ hall hz]
    have hm := hmulti (t ++ [c]).length (by rw [List.length_append, List.length_singleton]; omega)
      (Nat.le_refl _)
    rw [List.take_length] at hm
    generalize s.escapeSequence.filter (fun r => decide (t ++ [c] <+: r.string)) = rs at hm
    rcases rs with _ | ⟨r, _ | ⟨r2, u⟩⟩
    · simp at hm
    · simp at hm
    · rfl

/-- A sequence whose proper prefixes each start two rules or more and which
starts no rule itself is discarded at its last byte. -/
theorem esc_discard (acc : List Nat) (b : Nat) (s : CLI_DataTypeDef) (h : Listening s)
    (hz : ∀ r ∈ s.escapeSequence, ∀ x ∈ r.string, x ≠ 0)
    (hb : ∀ x ∈ acc ++ [b], x ≠ 0 ∧ x < 128) (hl : acc.length < CLI_MAX_ESCAPE)
    (hmulti : ∀ k, 0 < k → k ≤ acc.length →
      2 ≤ (s.escapeSequence.filter (fun r => decide (acc.take k <+: r.string))).length)
    (hnone : ∀ r ∈ s.escapeSequence, ¬ (acc ++ [b]) <+: r.string) :
    typeBytes (27 :: (acc ++ [b])) s = escExit (acc ++ [b]) s := by
  have hlen : CLI_MAX_ESCAPE = 10 := rfl
  rw [hlen] at hl
  have hc := hb b (List.mem_append_right _ (List.mem_singleton_self b))
  have ht : ∀ x ∈ acc, x ≠ 0 ∧ x < 128 := fun x hx => hb x (List.mem_append_left _ hx)
  have key : typeBytes (27 :: (acc ++ [b])) s
      = (CLI_ProcessChar b (typeBytes (27 :: acc) s)).2 := by
    rw [← List.cons_append, typeBytes_snoc]
  rw [key, esc_feed acc s h hz ht (by rw [hlen]; omega) hmulti,
    esc_step acc b s h.1 h.2.1 h.2.2.1 (by rw [h.2.2.2.2, hlen]; omega) (by omega)
    (fun x hx => (ht x hx).1) hc.1 hc.2, rulesFor_prefix _ _ (fun x hx => (hb x hx).1) hz]
  have : s.escapeSequence.filter (fun r => decide (acc ++ [b] <+: r.string)) = [] := by
    rw [List.filter_eq_nil_iff]
    intro r hr
    rw [decide_eq_true_iff]
    exact hnone r hr
  rw [this]

/-- A sequence whose proper prefixes each start two rules or more and which
starts exactly one rule sends the key code of that rule to the `switch`. -/
theorem esc_fire (acc : List Nat) (b : Nat) (r : CLI_EscTypeDef) (s : CLI_DataTypeDef)
    (h : Listening s) (hz : ∀ r ∈ s.escapeSequence, ∀ x ∈ r.string, x ≠ 0)
    (hb : ∀ x ∈ acc ++ [b], x ≠ 0 ∧ x < 128) (hl : acc.length < CLI_MAX_ESCAPE)
    (hmulti : ∀ k, 0 < k → k ≤ acc.length →
      2 ≤ (s.escapeSequence.filter (fun r => decide (acc.take k <+: r.string))).length)
    (hone : s.escapeSequence.filter (fun r => decide (acc ++ [b] <+: r.string)) = [r])
    (hv : r.value ≠ 0) :
    typeBytes (27 :: (acc ++ [b])) s = processKey r.value (escExit (acc ++ [b]) s) := by
  have hlen : CLI_MAX_ESCAPE = 10 := rfl
  rw [hlen] at hl
  have hc := hb b (List.mem_append_right _ (List.mem_singleton_self b))
  have ht : ∀ x ∈ acc, x ≠ 0 ∧ x < 128 := fun x hx => hb x (List.mem_append_left _ hx)
  have key : typeBytes (27 :: (acc ++ [b])) s
      = (CLI_ProcessChar b (typeBytes (27 :: acc) s)).2 := by
    rw [← List.cons_append, typeBytes_snoc]
  rw [key, esc_feed acc s h hz ht (by rw [hlen]; omega) hmulti,
    esc_step acc b s h.1 h.2.1 h.2.2.1 (by rw [h.2.2.2.2, hlen]; omega) (by omega)
    (fun x hx => (ht x hx).1) hc.1 hc.2, rulesFor_prefix _ _ (fun x hx => (hb x hx).1) hz, hone]
  simp only
  rw [if_neg hv]
/-! ## Claims C16 and C17: escape sequences -/

theorem processKey_up (x : CLI_DataTypeDef) : processKey CLI_ARROW_UP x = keyUp x := by
  unfold processKey
  rw [if_neg (by decide), if_neg (by decide), if_neg (by decide), if_neg (by decide),
    if_neg (by decide), if_pos rfl]

theorem processKey_down (x : CLI_DataTypeDef) : processKey CLI_ARROW_DOWN x = keyDown x := by
  unfold processKey
  rw [if_neg (by decide), if_neg (by decide), if_neg (by decide), if_neg (by decide),
    if_pos rfl]

theorem processKey_tab (x : CLI_DataTypeDef) : processKey CLI_TAB x = keyTab x := by
  unfold processKey
  rw [if_neg (by decide), if_neg (by decide), if_neg (by decide), if_neg (by decide),
    if_neg (by decide), if_neg (by decide), if_neg (by decide), if_neg (by decide), if_pos rfl]

theorem processKey_right (x : CLI_DataTypeDef) : processKey CLI_ARROW_RIGHT x = x := by
  unfold processKey
  rw [if_neg (by decide), if_neg (by decide), if_neg (by decide), if_neg (by decide),
    if_neg (by decide), if_neg (by decide), if_pos rfl]

theorem processKey_left (x : CLI_DataTypeDef) : processKey CLI_ARROW_LEFT x = x := by
  unfold processKey
  rw [if_neg (by decide), if_neg (by decide), if_neg (by decide), if_neg (by decide),
    if_neg (by decide), if_neg (by decide), if_neg (by decide), if_pos rfl]

theorem keyUp_mode (x : CLI_DataTypeDef) :
    (keyUp x).receivingEscapeSequence = x.receivingEscapeSequence := by
  unfold keyUp
  split <;> rfl

theorem keyDown_mode (x : CLI_DataTypeDef) :
    (keyDown x).receivingEscapeSequence = x.receivingEscapeSequence := by
  unfold keyDown
  split <;> rfl

theorem keyTab_mode (x : CLI_DataTypeDef) :
    (keyTab x).receivingEscapeSequence = x.receivingEscapeSequence := by
  unfold keyTab
  split <;> rfl

/-- The key codes of the escape rules leave the engine in the mode it is in. -/
theorem ruleKey_mode (echo : Bool) (r : CLI_EscTypeDef) (hr : r ∈ escapeRules echo)
    (x : CLI_DataTypeDef) :
    (processKey r.value x).receivingEscapeSequence = x.receivingEscapeSequence := by
  have hv : r.value = CLI_ARROW_UP ∨ r.value = CLI_ARROW_DOWN ∨ r.value = CLI_TAB
      ∨ r.value = CLI_ARROW_RIGHT ∨ r.value = CLI_ARROW_LEFT := by
    revert r
    cases echo <;> decide
  rcases hv with hv | hv | hv | hv | hv
  · rw [hv, processKey_up, keyUp_mode]
  · rw [hv, processKey_down, keyDown_mode]
  · rw [hv, processKey_tab, keyTab_mode]
  · rw [hv, processKey_right]
  · rw [hv, processKey_left]

/-- Each configured rule is the only rule its string starts, its proper
prefixes start two rules or more, and its key code is not 0. -/
theorem escapeRules_shape (echo : Bool) :
    ∀ r ∈ escapeRules echo, ∃ acc b, r.string = acc ++ [b] ∧ acc.length < CLI_MAX_ESCAPE ∧
      (∀ x ∈ acc ++ [b], x ≠ 0 ∧ x < 128) ∧ r.value ≠ 0 ∧
      (escapeRules echo).filter (fun q => decide (acc ++ [b] <+: q.string)) = [r] ∧
      ∀ k, 0 < k → k ≤ acc.length →
        2 ≤ ((escapeRules echo).filter (fun q => decide (acc.take k <+: q.string))).length := by
  cases echo
  · intro r hr
    refine ⟨[], r.string.headD 0, ?_, by decide, ?_, ?_, ?_, ?_⟩
    · revert r; decide
    · revert r; decide
    · revert r; decide
    · revert r; decide
    · intro k h1 h2
      exact absurd h2 (by simp; omega)
  · intro r hr
    refine ⟨[91], r.string.getD 1 0, ?_, by decide, ?_, ?_, ?_, ?_⟩
    · revert r; decide
    · revert r; decide
    · revert r; decide
    · revert r; decide
    · intro k h1 h2
      have hk : k = 1 := by
        simp only [List.length_singleton] at h2
        omega
      subst hk
      decide

/-- C16: for either echo setting, with the rule set `CLI_Init` installs for it,
an engine that is initialised, has its commands array, has no action pending
and is not in escape mode, fed the introducer 0x1B and then the bytes of one
configured rule (echo on: "[A", "[B", "[C", "[D" for up, down, right, left; echo
off: "T", "A", "B", "C", "D" for tab, up, down, right, left), ends in normal mode
in the state the `switch` of `CLI_ProcessChar` gives for the key code of that
rule (`keyUp`, `keyDown`, `keyTab`, or no change for right and left), applied
to the state before the introducer with the bytes left in the accumulator. -/
theorem C16_configured_sequence_gives_its_key (echo : Bool) (s : CLI_DataTypeDef)
    (h : Listening s) (hr : s.escapeSequence = escapeRules echo) :
    (∀ r ∈ escapeRules echo,
      typeBytes (27 :: r.string) s = processKey r.value (escExit r.string s) ∧
      (typeBytes (27 :: r.string) s).receivingEscapeSequence = false) ∧
    (escapeRules true = [⟨bytes "[A", CLI_ARROW_UP⟩, ⟨bytes "[B", CLI_ARROW_DOWN⟩,
      ⟨bytes "[C", CLI_ARROW_RIGHT⟩, ⟨bytes "[D", CLI_ARROW_LEFT⟩]) ∧
    (escapeRules false = [⟨bytes "T", CLI_TAB⟩, ⟨bytes "A", CLI_ARROW_UP⟩,
      ⟨bytes "B", CLI_ARROW_DOWN⟩, ⟨bytes "C", CLI_ARROW_RIGHT⟩, ⟨bytes "D", CLI_ARROW_LEFT⟩]) ∧
    (∀ x, processKey CLI_ARROW_UP x = keyUp x) ∧ (∀ x, processKey CLI_ARROW_DOWN x = keyDown x) ∧
    (∀ x, processKey CLI_TAB x = keyTab x) ∧ (∀ x, processKey CLI_ARROW_RIGHT x = x) ∧
    (∀ x, processKey CLI_ARROW_LEFT x = x) := by
  refine ⟨?_, by decide, by decide, processKey_up, processKey_down, processKey_tab,
    processKey_right, processKey_left⟩
  intro r hmem
  obtain ⟨acc, b, hs, hl, hb, hv, hone, hmulti⟩ := escapeRules_shape echo r hmem
  have hfire : typeBytes (27 :: r.string) s = processKey r.value (escExit r.string s) := by
    rw [hs]
    exact esc_fire acc b r s h (by rw [hr]; exact escapeRules_nonzero echo) hb hl
      (by rw [hr]; exact hmulti) (by rw [hr]; exact hone) hv
  refine ⟨hfire, ?_⟩
  rw [hfire, ruleKey_mode echo r hmem]
  rfl

/-- C16 at the demo (echo on): the sequence ESC "[A" is the up arrow. -/
theorem C16_configured_sequence_gives_its_key_witness :
    Listening demoBuilt ∧ demoBuilt.escapeSequence = escapeRules true ∧
    typeBytes [27, 91, 65] demoBuilt = processKey CLI_ARROW_UP (escExit [91, 65] demoBuilt) :=
  ⟨⟨by decide, by decide, by decide, by decide, by decide⟩, by decide,
    ((C16_configured_sequence_gives_its_key true demoBuilt
      ⟨by decide, by decide, by decide, by decide, by decide⟩ (by decide)).1
      ⟨[91, 65], CLI_ARROW_UP⟩ (by decide)).1⟩

/-- C17 (counterexample): at the demo (echo on) the bytes "xy" after the
introducer are not a prefix of any rule, yet `y` is appended to the line: the
sequence is discarded at `x`, and `y` is ordinary input.  And the byte 200 after
the introducer, not a prefix of any rule either, leaves the engine in escape
mode. -/
theorem C17_bytes_after_the_mismatch_are_typed :
    (∀ r ∈ escapeRules true, ¬ [120, 121] <+: r.string) ∧
    demoBuilt.escapeSequence = escapeRules true ∧
    cstr (lineAt demoBuilt demoBuilt.lineCurrent) = [] ∧ demoBuilt.lineIdx = 0 ∧
    cstr (lineAt (typeBytes [27, 120, 121] demoBuilt) demoBuilt.lineCurrent) = [121] ∧
    (typeBytes [27, 120, 121] demoBuilt).lineIdx = 1 ∧
    (∀ r ∈ escapeRules true, ¬ [200] <+: r.string) ∧
    (typeBytes [27, 200] demoBuilt).receivingEscapeSequence = true := by
  decide

/-- C17 (amended): for either configured rule set, on an engine that is
initialised, has its commands array, has no action pending and is not in escape
mode, the introducer followed by bytes from 1 to 127 that stop being a prefix of
any rule at their last byte `b` (every shorter prefix starts two rules or more)
brings the engine back to normal mode with no key code sent to the `switch`:
the line slots, the line index, the current slot, the history counters, the
pending action and the output are those before the introducer; only the
accumulator and its count changed.  The bytes that follow are ordinary input. -/
theorem C17_sequence_discarded_at_first_mismatch (echo : Bool) (s : CLI_DataTypeDef)
    (h : Listening s) (hr : s.escapeSequence = escapeRules echo) (acc : List Nat) (b : Nat)
    (hb : ∀ x ∈ acc ++ [b], x ≠ 0 ∧ x < 128) (hl : acc.length < CLI_MAX_ESCAPE)
    (hmulti : ∀ k, 0 < k → k ≤ acc.length →
      2 ≤ ((escapeRules echo).filter (fun r => decide (acc.take k <+: r.string))).length)
    (hnone : ∀ r ∈ escapeRules echo, ¬ (acc ++ [b]) <+: r.string) :
    typeBytes (27 :: (acc ++ [b])) s = escExit (acc ++ [b]) s ∧
    (escExit (acc ++ [b]) s).line = s.line ∧ (escExit (acc ++ [b]) s).lineIdx = s.lineIdx ∧
    (escExit (acc ++ [b]) s).lineCurrent = s.lineCurrent ∧
    (escExit (acc ++ [b]) s).LineCount = s.LineCount ∧
    (escExit (acc ++ [b]) s).LineBack = s.LineBack ∧
    (escExit (acc ++ [b]) s).execType = s.execType ∧
    (escExit (acc ++ [b]) s).trace = s.trace ∧
    (escExit (acc ++ [b]) s).receivingEscapeSequence = false :=
  ⟨esc_discard acc b s h (by rw [hr]; exact escapeRules_nonzero echo) hb hl
    (by rw [hr]; exact hmulti) (by rw [hr]; exact hnone), escExit_fields (acc ++ [b]) s⟩

/-- C17 (amended) at the demo (echo on): the sequence ESC "[1" is discarded at
the byte `1`. -/
theorem C17_sequence_discarded_at_first_mismatch_witness :
    (∀ r ∈ escapeRules true, ¬ [91, 49] <+: r.string) ∧
    typeBytes [27, 91, 49] demoBuilt = escExit [91, 49] demoBuilt ∧
    (escExit [91, 49] demoBuilt).line = demoBuilt.line :=
  have hw := C17_sequence_discarded_at_first_mismatch true demoBuilt
    ⟨by decide, by decide, by decide, by decide, by decide⟩ (by decide) [91] 49
    (by decide) (by decide)
    (by
      intro k h1 h2
      have hk : k = 1 := by
        simp only [List.length_singleton] at h2
        omega
      subst hk
      decide)
    (by decide)
  ⟨by decide, hw.1, hw.2.1⟩

/-! ## The configuration and the escape matcher are left alone by the editor and the worker -/

theorem cfg_PutByte (c : Nat) (s : CLI_DataTypeDef) :
    (CLI_PutByte c s).initialized = s.initialized ∧ (CLI_PutByte c s).locked = s.locked
    ∧ (CLI_PutByte c s).echo = s.echo ∧ (CLI_PutByte c s).autoLowerCase = s.autoLowerCase
    ∧ (CLI_PutByte c s).escapeSequence = s.escapeSequence
    ∧ (CLI_PutByte c s).receivingEscapeSequence = s.receivingEscapeSequence
    ∧ (CLI_PutByte c s).CurrentEscapeSequence = s.CurrentEscapeSequence
    ∧ (CLI_PutByte c s).CurrentEscapeSequenceCount = s.CurrentEscapeSequenceCount := by
  unfold CLI_PutByte
  repeat' split
  all_goals exact ⟨rfl, rfl, rfl, rfl, rfl, rfl, rfl, rfl⟩

theorem cfg_putBytes (l : List Nat) (s : CLI_DataTypeDef) :
    (putBytes l s).initialized = s.initialized ∧ (putBytes l s).locked = s.locked
    ∧ (putBytes l s).echo = s.echo ∧ (putBytes l s).autoLowerCase = s.autoLowerCase
    ∧ (putBytes l s).escapeSequence = s.escapeSequence
    ∧ (putBytes l s).receivingEscapeSequence = s.receivingEscapeSequence
    ∧ (putBytes l s).CurrentEscapeSequence = s.CurrentEscapeSequence
    ∧ (putBytes l s).CurrentEscapeSequenceCount = s.CurrentEscapeSequenceCount := by
  unfold putBytes
  repeat' split
  all_goals exact ⟨rfl, rfl, rfl, rfl, rfl, rfl, rfl, rfl⟩

theorem cfg_Print (buf : List Nat) (n : Nat) (s : CLI_DataTypeDef) :
    (CLI_Print buf n s).initialized = s.initialized ∧ (CLI_Print buf n s).locked = s.locked
    ∧ (CLI_Print buf n s).echo = s.echo ∧ (CLI_Print buf n s).autoLowerCase = s.autoLowerCase
    ∧ (CLI_Print buf n s).escapeSequence = s.escapeSequence
    ∧ (CLI_Print buf n s).receivingEscapeSequence = s.receivingEscapeSequence
    ∧ (CLI_Print buf n s).CurrentEscapeSequence = s.CurrentEscapeSequence
    ∧ (CLI_Print buf n s).CurrentEscapeSequenceCount = s.CurrentEscapeSequenceCount := by
  unfold CLI_Print
  repeat' split
  all_goals simp only [cfg_PutByte, cfg_putBytes, and_self]

theorem cfg_CRLF (s : CLI_DataTypeDef) :
    (CLI_SEND_CRLF s).initialized = s.initialized ∧ (CLI_SEND_CRLF s).locked = s.locked
    ∧ (CLI_SEND_CRLF s).echo = s.echo ∧ (CLI_SEND_CRLF s).autoLowerCase = s.autoLowerCase
    ∧ (CLI_SEND_CRLF s).escapeSequence = s.escapeSequence
    ∧ (CLI_SEND_CRLF s).receivingEscapeSequence = s.receivingEscapeSequence
    ∧ (CLI_SEND_CRLF s).CurrentEscapeSequence = s.CurrentEscapeSequence
    ∧ (CLI_SEND_CRLF s).CurrentEscapeSequenceCount = s.CurrentEscapeSequenceCount := by
  exact cfg_Print _ _ s

theorem cfg_printf (l : List Nat) (s : CLI_DataTypeDef) :
    (printf l s).initialized = s.initialized ∧ (printf l s).locked = s.locked
    ∧ (printf l s).echo = s.echo ∧ (printf l s).autoLowerCase = s.autoLowerCase
    ∧ (printf l s).escapeSequence = s.escapeSequence
    ∧ (printf l s).receivingEscapeSequence = s.receivingEscapeSequence
    ∧ (printf l s).CurrentEscapeSequence = s.CurrentEscapeSequence
    ∧ (printf l s).CurrentEscapeSequenceCount = s.CurrentEscapeSequenceCount := by
  exact ⟨rfl, rfl, rfl, rfl, rfl, rfl, rfl, rfl⟩

theorem cfg_crlfTimes (n : Nat) (s : CLI_DataTypeDef) :
    (crlfTimes n s).initialized = s.initialized ∧ (crlfTimes n s).locked = s.locked
    ∧ (crlfTimes n s).echo = s.echo ∧ (crlfTimes n s).autoLowerCase = s.autoLowerCase
    ∧ (crlfTimes n s).escapeSequence = s.escapeSequence
    ∧ (crlfTimes n s).receivingEscapeSequence = s.receivingEscapeSequence
    ∧ (crlfTimes n s).CurrentEscapeSequence = s.CurrentEscapeSequence
    ∧ (crlfTimes n s).CurrentEscapeSequenceCount = s.CurrentEscapeSequenceCount := by
  induction n generalizing s with
  | zero => exact ⟨rfl, rfl, rfl, rfl, rfl, rfl, rfl, rfl⟩
  | succ n ih => simp only [crlfTimes, ih, cfg_CRLF, and_self]

theorem cfg_PrintPrompt (n : Nat) (s : CLI_DataTypeDef) :
    (CLI_PrintPrompt n s).initialized = s.initialized ∧ (CLI_PrintPrompt n s).locked = s.locked
    ∧ (CLI_PrintPrompt n s).echo = s.echo ∧ (CLI_PrintPrompt n s).autoLowerCase = s.autoLowerCase
    ∧ (CLI_PrintPrompt n s).escapeSequence = s.escapeSequence
    ∧ (CLI_PrintPrompt n s).receivingEscapeSequence = s.receivingEscapeSequence
    ∧ (CLI_PrintPrompt n s).CurrentEscapeSequence = s.CurrentEscapeSequence
    ∧ (CLI_PrintPrompt n s).CurrentEscapeSequenceCount = s.CurrentEscapeSequenceCount := by
  unfold CLI_PrintPrompt
  repeat' split
  all_goals simp only [cfg_Print, cfg_crlfTimes, and_self]

theorem cfg_pokeLine (a b c : Nat) (s : CLI_DataTypeDef) :
    (pokeLine a b c s).initialized = s.initialized ∧ (pokeLine a b c s).locked = s.locked
    ∧ (pokeLine a b c s).echo = s.echo ∧ (pokeLine a b c s).autoLowerCase = s.autoLowerCase
    ∧ (pokeLine a b c s).escapeSequence = s.escapeSequence
    ∧ (pokeLine a b c s).receivingEscapeSequence = s.receivingEscapeSequence
    ∧ (pokeLine a b c s).CurrentEscapeSequence = s.CurrentEscapeSequence
    ∧ (pokeLine a b c s).CurrentEscapeSequenceCount = s.CurrentEscapeSequenceCount := by
  exact ⟨rfl, rfl, rfl, rfl, rfl, rfl, rfl, rfl⟩

theorem cfg_crlfIfEcho (s : CLI_DataTypeDef) :
    (crlfIfEcho s).initialized = s.initialized ∧ (crlfIfEcho s).locked = s.locked
    ∧ (crlfIfEcho s).echo = s.echo ∧ (crlfIfEcho s).autoLowerCase = s.autoLowerCase
    ∧ (crlfIfEcho s).escapeSequence = s.escapeSequence
    ∧ (crlfIfEcho s).receivingEscapeSequence = s.receivingEscapeSequence
    ∧ (crlfIfEcho s).CurrentEscapeSequence = s.CurrentEscapeSequence
    ∧ (crlfIfEcho s).CurrentEscapeSequenceCount = s.CurrentEscapeSequenceCount := by
  unfold crlfIfEcho
  repeat' split
  all_goals simp only [cfg_CRLF, and_self]

theorem cfg_crlfIfNoEcho (s : CLI_DataTypeDef) :
    (crlfIfNoEcho s).initialized = s.initialized ∧ (crlfIfNoEcho s).locked = s.locked
    ∧ (crlfIfNoEcho s).echo = s.echo ∧ (crlfIfNoEcho s).autoLowerCase = s.autoLowerCase
    ∧ (crlfIfNoEcho s).escapeSequence = s.escapeSequence
    ∧ (crlfIfNoEcho s).receivingEscapeSequence = s.receivingEscapeSequence
    ∧ (crlfIfNoEcho s).CurrentEscapeSequence = s.CurrentEscapeSequence
    ∧ (crlfIfNoEcho s).CurrentEscapeSequenceCount = s.CurrentEscapeSequenceCount := by
  unfold crlfIfNoEcho
  repeat' split
  all_goals simp only [cfg_CRLF, and_self]

theorem cfg_tooManyArgs (s : CLI_DataTypeDef) :
    (tooManyArgs s).initialized = s.initialized ∧ (tooManyArgs s).locked = s.locked
    ∧ (tooManyArgs s).echo = s.echo ∧ (tooManyArgs s).autoLowerCase = s.autoLowerCase
    ∧ (tooManyArgs s).escapeSequence = s.escapeSequence
    ∧ (tooManyArgs s).receivingEscapeSequence = s.receivingEscapeSequence
    ∧ (tooManyArgs s).CurrentEscapeSequence = s.CurrentEscapeSequence
    ∧ (tooManyArgs s).CurrentEscapeSequenceCount = s.CurrentEscapeSequenceCount := by
  unfold tooManyArgs
  simp only [cfg_crlfIfEcho, cfg_printf, and_self]

theorem cfg_callHandler (h : Nat) (param : List (List Nat)) (s : CLI_DataTypeDef) :
    (callHandler h param s).initialized = s.initialized
    ∧ (callHandler h param s).locked = s.locked ∧ (callHandler h param s).echo = s.echo
    ∧ (callHandler h param s).autoLowerCase = s.autoLowerCase
    ∧ (callHandler h param s).escapeSequence = s.escapeSequence
    ∧ (callHandler h param s).receivingEscapeSequence = s.receivingEscapeSequence
    ∧ (callHandler h param s).CurrentEscapeSequence = s.CurrentEscapeSequence
    ∧ (callHandler h param s).CurrentEscapeSequenceCount = s.CurrentEscapeSequenceCount := by
  unfold callHandler
  simp only [cfg_crlfIfEcho, cfg_crlfIfNoEcho, and_self]

theorem cfg_notRecognized (l t : List Nat) (s : CLI_DataTypeDef) :
    (notRecognized l t s).initialized = s.initialized ∧ (notRecognized l t s).locked = s.locked
    ∧ (notRecognized l t s).echo = s.echo ∧ (notRecognized l t s).autoLowerCase = s.autoLowerCase
    ∧ (notRecognized l t s).escapeSequence = s.escapeSequence
    ∧ (notRecognized l t s).receivingEscapeSequence = s.receivingEscapeSequence
    ∧ (notRecognized l t s).CurrentEscapeSequence = s.CurrentEscapeSequence
    ∧ (notRecognized l t s).CurrentEscapeSequenceCount = s.CurrentEscapeSequenceCount := by
  unfold notRecognized
  simp only [cfg_crlfIfEcho, cfg_printf, and_self]

theorem cfg_advanceHistory (s : CLI_DataTypeDef) :
    (advanceHistory s).initialized = s.initialized ∧ (advanceHistory s).locked = s.locked
    ∧ (advanceHistory s).echo = s.echo ∧ (advanceHistory s).autoLowerCase = s.autoLowerCase
    ∧ (advanceHistory s).escapeSequence = s.escapeSequence
    ∧ (advanceHistory s).receivingEscapeSequence = s.receivingEscapeSequence
    ∧ (advanceHistory s).CurrentEscapeSequence = s.CurrentEscapeSequence
    ∧ (advanceHistory s).CurrentEscapeSequenceCount = s.CurrentEscapeSequenceCount := by
  exact ⟨rfl, rfl, rfl, rfl, rfl, rfl, rfl, rfl⟩

theorem cfg_clearCurrent (s : CLI_DataTypeDef) :
    (clearCurrent s).initialized = s.initialized ∧ (clearCurrent s).locked = s.locked
    ∧ (clearCurrent s).echo = s.echo ∧ (clearCurrent s).autoLowerCase = s.autoLowerCase
    ∧ (clearCurrent s).escapeSequence = s.escapeSequence
    ∧ (clearCurrent s).receivingEscapeSequence = s.receivingEscapeSequence
    ∧ (clearCurrent s).CurrentEscapeSequence = s.CurrentEscapeSequence
    ∧ (clearCurrent s).CurrentEscapeSequenceCount = s.CurrentEscapeSequenceCount := by
  exact ⟨rfl, rfl, rfl, rfl, rfl, rfl, rfl, rfl⟩

theorem cfg_commitLine (s : CLI_DataTypeDef) :
    (commitLine s).initialized = s.initialized ∧ (commitLine s).locked = s.locked
    ∧ (commitLine s).echo = s.echo ∧ (commitLine s).autoLowerCase = s.autoLowerCase
    ∧ (commitLine s).escapeSequence = s.escapeSequence
    ∧ (commitLine s).receivingEscapeSequence = s.receivingEscapeSequence
    ∧ (commitLine s).CurrentEscapeSequence = s.CurrentEscapeSequence
    ∧ (commitLine s).CurrentEscapeSequenceCount = s.CurrentEscapeSequenceCount := by
  unfold commitLine
  repeat' split
  all_goals simp only [cfg_clearCurrent, cfg_advanceHistory, and_self]

theorem cfg_promptUnlessReset (r : Int) (s : CLI_DataTypeDef) :
    (promptUnlessReset r s).initialized = s.initialized
    ∧ (promptUnlessReset r s).locked = s.locked ∧ (promptUnlessReset r s).echo = s.echo
    ∧ (promptUnlessReset r s).autoLowerCase = s.autoLowerCase
    ∧ (promptUnlessReset r s).escapeSequence = s.escapeSequence
    ∧ (promptUnlessReset r s).receivingEscapeSequence = s.receivingEscapeSequence
    ∧ (promptUnlessReset r s).CurrentEscapeSequence = s.CurrentEscapeSequence
    ∧ (promptUnlessReset r s).CurrentEscapeSequenceCount = s.CurrentEscapeSequenceCount := by
  unfold promptUnlessReset
  repeat' split
  all_goals simp only [cfg_PrintPrompt, and_self]

theorem cfg_rejectLine (s : CLI_DataTypeDef) :
    (rejectLine s).initialized = s.initialized ∧ (rejectLine s).locked = s.locked
    ∧ (rejectLine s).echo = s.echo ∧ (rejectLine s).autoLowerCase = s.autoLowerCase
    ∧ (rejectLine s).escapeSequence = s.escapeSequence
    ∧ (rejectLine s).receivingEscapeSequence = s.receivingEscapeSequence
    ∧ (rejectLine s).CurrentEscapeSequence = s.CurrentEscapeSequence
    ∧ (rejectLine s).CurrentEscapeSequenceCount = s.CurrentEscapeSequenceCount := by
  unfold rejectLine
  repeat' split
  all_goals simp only [cfg_PrintPrompt, cfg_clearCurrent, cfg_printf, and_self]

theorem cfg_rewriteLine (c0 : List Nat) (idx : Nat) (s : CLI_DataTypeDef) :
    (rewriteLine c0 idx s).initialized = s.initialized ∧ (rewriteLine c0 idx s).locked = s.locked
    ∧ (rewriteLine c0 idx s).echo = s.echo
    ∧ (rewriteLine c0 idx s).autoLowerCase = s.autoLowerCase
    ∧ (rewriteLine c0 idx s).escapeSequence = s.escapeSequence
    ∧ (rewriteLine c0 idx s).receivingEscapeSequence = s.receivingEscapeSequence
    ∧ (rewriteLine c0 idx s).CurrentEscapeSequence = s.CurrentEscapeSequence
    ∧ (rewriteLine c0 idx s).CurrentEscapeSequenceCount = s.CurrentEscapeSequenceCount := by
  exact ⟨rfl, rfl, rfl, rfl, rfl, rfl, rfl, rfl⟩

theorem cfg_appendSpace (s : CLI_DataTypeDef) :
    (appendSpace s).initialized = s.initialized ∧ (appendSpace s).locked = s.locked
    ∧ (appendSpace s).echo = s.echo ∧ (appendSpace s).autoLowerCase = s.autoLowerCase
    ∧ (appendSpace s).escapeSequence = s.escapeSequence
    ∧ (appendSpace s).receivingEscapeSequence = s.receivingEscapeSequence
    ∧ (appendSpace s).CurrentEscapeSequence = s.CurrentEscapeSequence
    ∧ (appendSpace s).CurrentEscapeSequenceCount = s.CurrentEscapeSequenceCount := by
  exact ⟨rfl, rfl, rfl, rfl, rfl, rfl, rfl, rfl⟩

theorem cfg_listLoop (l : List (List Nat)) (d : Nat) (s : CLI_DataTypeDef) :
    (listLoop l d s).initialized = s.initialized ∧ (listLoop l d s).locked = s.locked
    ∧ (listLoop l d s).echo = s.echo ∧ (listLoop l d s).autoLowerCase = s.autoLowerCase
    ∧ (listLoop l d s).escapeSequence = s.escapeSequence
    ∧ (listLoop l d s).receivingEscapeSequence = s.receivingEscapeSequence
    ∧ (listLoop l d s).CurrentEscapeSequence = s.CurrentEscapeSequence
    ∧ (listLoop l d s).CurrentEscapeSequenceCount = s.CurrentEscapeSequenceCount := by
  induction l generalizing d s with
  | nil => exact ⟨rfl, rfl, rfl, rfl, rfl, rfl, rfl, rfl⟩
  | cons c rest ih =>
    unfold listLoop
    split
    · simp only [ih, cfg_crlfIfEcho, cfg_Print, and_self]
    · simp only [ih, cfg_printf, cfg_Print, and_self]

theorem cfg_printLine (s : CLI_DataTypeDef) :
    (printLine s).initialized = s.initialized ∧ (printLine s).locked = s.locked
    ∧ (printLine s).echo = s.echo ∧ (printLine s).autoLowerCase = s.autoLowerCase
    ∧ (printLine s).escapeSequence = s.escapeSequence
    ∧ (printLine s).receivingEscapeSequence = s.receivingEscapeSequence
    ∧ (printLine s).CurrentEscapeSequence = s.CurrentEscapeSequence
    ∧ (printLine s).CurrentEscapeSequenceCount = s.CurrentEscapeSequenceCount := by
  unfold printLine
  simp only [cfg_Print, and_self]

theorem cfg_showListing (l : List (List Nat)) (s : CLI_DataTypeDef) :
    (showListing l s).initialized = s.initialized ∧ (showListing l s).locked = s.locked
    ∧ (showListing l s).echo = s.echo ∧ (showListing l s).autoLowerCase = s.autoLowerCase
    ∧ (showListing l s).escapeSequence = s.escapeSequence
    ∧ (showListing l s).receivingEscapeSequence = s.receivingEscapeSequence
    ∧ (showListing l s).CurrentEscapeSequence = s.CurrentEscapeSequence
    ∧ (showListing l s).CurrentEscapeSequenceCount = s.CurrentEscapeSequenceCount := by
  unfold showListing
  simp only [cfg_printLine, cfg_PrintPrompt, cfg_crlfIfEcho, cfg_listLoop, and_self]

theorem cfg_completionOutput (p c : Nat) (l : List (List Nat)) (s : CLI_DataTypeDef) :
    (completionOutput p c l s).initialized = s.initialized
    ∧ (completionOutput p c l s).locked = s.locked ∧ (completionOutput p c l s).echo = s.echo
    ∧ (completionOutput p c l s).autoLowerCase = s.autoLowerCase
    ∧ (completionOutput p c l s).escapeSequence = s.escapeSequence
    ∧ (completionOutput p c l s).receivingEscapeSequence = s.receivingEscapeSequence
    ∧ (completionOutput p c l s).CurrentEscapeSequence = s.CurrentEscapeSequence
    ∧ (completionOutput p c l s).CurrentEscapeSequenceCount = s.CurrentEscapeSequenceCount := by
  unfold completionOutput
  repeat' split
  all_goals simp only [cfg_Print, cfg_showListing, and_self]

theorem cfg_applyCompletion (n : Nat) (c0 : List Nat) (rest : List (List Nat)) (s : CLI_DataTypeDef) :
    (applyCompletion n c0 rest s).initialized = s.initialized
    ∧ (applyCompletion n c0 rest s).locked = s.locked
    ∧ (applyCompletion n c0 rest s).echo = s.echo
    ∧ (applyCompletion n c0 rest s).autoLowerCase = s.autoLowerCase
    ∧ (applyCompletion n c0 rest s).escapeSequence = s.escapeSequence
    ∧ (applyCompletion n c0 rest s).receivingEscapeSequence = s.receivingEscapeSequence
    ∧ (applyCompletion n c0 rest s).CurrentEscapeSequence = s.CurrentEscapeSequence
    ∧ (applyCompletion n c0 rest s).CurrentEscapeSequenceCount = s.CurrentEscapeSequenceCount := by
  unfold applyCompletion
  repeat' split
  all_goals simp only [cfg_completionOutput, cfg_appendSpace, cfg_rewriteLine, and_self]

theorem cfg_EraseChar (s : CLI_DataTypeDef) :
    (CLI_EraseChar s).initialized = s.initialized ∧ (CLI_EraseChar s).locked = s.locked
    ∧ (CLI_EraseChar s).echo = s.echo ∧ (CLI_EraseChar s).autoLowerCase = s.autoLowerCase
    ∧ (CLI_EraseChar s).escapeSequence = s.escapeSequence
    ∧ (CLI_EraseChar s).receivingEscapeSequence = s.receivingEscapeSequence
    ∧ (CLI_EraseChar s).CurrentEscapeSequence = s.CurrentEscapeSequence
    ∧ (CLI_EraseChar s).CurrentEscapeSequenceCount = s.CurrentEscapeSequenceCount := by
  unfold CLI_EraseChar
  repeat' split
  all_goals simp only [cfg_Print, cfg_pokeLine, and_self]

theorem cfg_EraseLine (s : CLI_DataTypeDef) :
    (CLI_EraseLine s).initialized = s.initialized ∧ (CLI_EraseLine s).locked = s.locked
    ∧ (CLI_EraseLine s).echo = s.echo ∧ (CLI_EraseLine s).autoLowerCase = s.autoLowerCase
    ∧ (CLI_EraseLine s).escapeSequence = s.escapeSequence
    ∧ (CLI_EraseLine s).receivingEscapeSequence = s.receivingEscapeSequence
    ∧ (CLI_EraseLine s).CurrentEscapeSequence = s.CurrentEscapeSequence
    ∧ (CLI_EraseLine s).CurrentEscapeSequenceCount = s.CurrentEscapeSequenceCount := by
  unfold CLI_EraseLine
  simp only [cfg_Print, and_self]

theorem cfg_copyHistoryLine (s : CLI_DataTypeDef) :
    (copyHistoryLine s).initialized = s.initialized ∧ (copyHistoryLine s).locked = s.locked
    ∧ (copyHistoryLine s).echo = s.echo ∧ (copyHistoryLine s).autoLowerCase = s.autoLowerCase
    ∧ (copyHistoryLine s).escapeSequence = s.escapeSequence
    ∧ (copyHistoryLine s).receivingEscapeSequence = s.receivingEscapeSequence
    ∧ (copyHistoryLine s).CurrentEscapeSequence = s.CurrentEscapeSequence
    ∧ (copyHistoryLine s).CurrentEscapeSequenceCount = s.CurrentEscapeSequenceCount := by
  exact ⟨rfl, rfl, rfl, rfl, rfl, rfl, rfl, rfl⟩

theorem cfg_printLineLen (s : CLI_DataTypeDef) :
    (printLineLen s).initialized = s.initialized ∧ (printLineLen s).locked = s.locked
    ∧ (printLineLen s).echo = s.echo ∧ (printLineLen s).autoLowerCase = s.autoLowerCase
    ∧ (printLineLen s).escapeSequence = s.escapeSequence
    ∧ (printLineLen s).receivingEscapeSequence = s.receivingEscapeSequence
    ∧ (printLineLen s).CurrentEscapeSequence = s.CurrentEscapeSequence
    ∧ (printLineLen s).CurrentEscapeSequenceCount = s.CurrentEscapeSequenceCount := by
  unfold printLineLen
  simp only [cfg_Print, and_self]

theorem cfg_cliRetrieveHistory (s : CLI_DataTypeDef) :
    ((cliRetrieveHistory s).2).initialized = s.initialized
    ∧ ((cliRetrieveHistory s).2).locked = s.locked ∧ ((cliRetrieveHistory s).2).echo = s.echo
    ∧ ((cliRetrieveHistory s).2).autoLowerCase = s.autoLowerCase
    ∧ ((cliRetrieveHistory s).2).escapeSequence = s.escapeSequence
    ∧ ((cliRetrieveHistory s).2).receivingEscapeSequence = s.receivingEscapeSequence
    ∧ ((cliRetrieveHistory s).2).CurrentEscapeSequence = s.CurrentEscapeSequence
    ∧ ((cliRetrieveHistory s).2).CurrentEscapeSequenceCount = s.CurrentEscapeSequenceCount := by
  unfold cliRetrieveHistory
  simp only [cfg_printLineLen, cfg_PrintPrompt, cfg_copyHistoryLine, cfg_EraseLine, and_self]

theorem cfg_TaskAlert (s : CLI_DataTypeDef) :
    (CLI_TaskAlert s).initialized = s.initialized ∧ (CLI_TaskAlert s).locked = s.locked
    ∧ (CLI_TaskAlert s).echo = s.echo ∧ (CLI_TaskAlert s).autoLowerCase = s.autoLowerCase
    ∧ (CLI_TaskAlert s).escapeSequence = s.escapeSequence
    ∧ (CLI_TaskAlert s).receivingEscapeSequence = s.receivingEscapeSequence
    ∧ (CLI_TaskAlert s).CurrentEscapeSequence = s.CurrentEscapeSequence
    ∧ (CLI_TaskAlert s).CurrentEscapeSequenceCount = s.CurrentEscapeSequenceCount := by
  exact ⟨rfl, rfl, rfl, rfl, rfl, rfl, rfl, rfl⟩

theorem cfg_keyReturn (s : CLI_DataTypeDef) :
    (keyReturn s).initialized = s.initialized ∧ (keyReturn s).locked = s.locked
    ∧ (keyReturn s).echo = s.echo ∧ (keyReturn s).autoLowerCase = s.autoLowerCase
    ∧ (keyReturn s).escapeSequence = s.escapeSequence
    ∧ (keyReturn s).receivingEscapeSequence = s.receivingEscapeSequence
    ∧ (keyReturn s).CurrentEscapeSequence = s.CurrentEscapeSequence
    ∧ (keyReturn s).CurrentEscapeSequenceCount = s.CurrentEscapeSequenceCount := by
  unfold keyReturn
  repeat' split
  all_goals simp only [cfg_clearCurrent, cfg_TaskAlert, and_self]

theorem cfg_keyTab (s : CLI_DataTypeDef) :
    (keyTab s).initialized = s.initialized ∧ (keyTab s).locked = s.locked
    ∧ (keyTab s).echo = s.echo ∧ (keyTab s).autoLowerCase = s.autoLowerCase
    ∧ (keyTab s).escapeSequence = s.escapeSequence
    ∧ (keyTab s).receivingEscapeSequence = s.receivingEscapeSequence
    ∧ (keyTab s).CurrentEscapeSequence = s.CurrentEscapeSequence
    ∧ (keyTab s).CurrentEscapeSequenceCount = s.CurrentEscapeSequenceCount := by
  unfold keyTab
  repeat' split
  all_goals simp only [cfg_TaskAlert, and_self]

theorem cfg_keyBackspace (s : CLI_DataTypeDef) :
    (keyBackspace s).initialized = s.initialized ∧ (keyBackspace s).locked = s.locked
    ∧ (keyBackspace s).echo = s.echo ∧ (keyBackspace s).autoLowerCase = s.autoLowerCase
    ∧ (keyBackspace s).escapeSequence = s.escapeSequence
    ∧ (keyBackspace s).receivingEscapeSequence = s.receivingEscapeSequence
    ∧ (keyBackspace s).CurrentEscapeSequence = s.CurrentEscapeSequence
    ∧ (keyBackspace s).CurrentEscapeSequenceCount = s.CurrentEscapeSequenceCount := by
  unfold keyBackspace
  simp only [cfg_EraseChar, and_self]

theorem cfg_keyDown (s : CLI_DataTypeDef) :
    (keyDown s).initialized = s.initialized ∧ (keyDown s).locked = s.locked
    ∧ (keyDown s).echo = s.echo ∧ (keyDown s).autoLowerCase = s.autoLowerCase
    ∧ (keyDown s).escapeSequence = s.escapeSequence
    ∧ (keyDown s).receivingEscapeSequence = s.receivingEscapeSequence
    ∧ (keyDown s).CurrentEscapeSequence = s.CurrentEscapeSequence
    ∧ (keyDown s).CurrentEscapeSequenceCount = s.CurrentEscapeSequenceCount := by
  unfold keyDown
  repeat' split
  all_goals simp only [cfg_TaskAlert, and_self]

theorem cfg_keyUp (s : CLI_DataTypeDef) :
    (keyUp s).initialized = s.initialized ∧ (keyUp s).locked = s.locked ∧ (keyUp s).echo = s.echo
    ∧ (keyUp s).autoLowerCase = s.autoLowerCase ∧ (keyUp s).escapeSequence = s.escapeSequence
    ∧ (keyUp s).receivingEscapeSequence = s.receivingEscapeSequence
    ∧ (keyUp s).CurrentEscapeSequence = s.CurrentEscapeSequence
    ∧ (keyUp s).CurrentEscapeSequenceCount = s.CurrentEscapeSequenceCount := by
  unfold keyUp
  repeat' split
  all_goals simp only [cfg_TaskAlert, and_self]

theorem cfg_echoChar (c : Nat) (s : CLI_DataTypeDef) :
    (echoChar c s).initialized = s.initialized ∧ (echoChar c s).locked = s.locked
    ∧ (echoChar c s).echo = s.echo ∧ (echoChar c s).autoLowerCase = s.autoLowerCase
    ∧ (echoChar c s).escapeSequence = s.escapeSequence
    ∧ (echoChar c s).receivingEscapeSequence = s.receivingEscapeSequence
    ∧ (echoChar c s).CurrentEscapeSequence = s.CurrentEscapeSequence
    ∧ (echoChar c s).CurrentEscapeSequenceCount = s.CurrentEscapeSequenceCount := by
  unfold echoChar
  repeat' split
  all_goals simp only [cfg_Print, and_self]

theorem cfg_storeChar (c : Nat) (s : CLI_DataTypeDef) :
    (storeChar c s).initialized = s.initialized ∧ (storeChar c s).locked = s.locked
    ∧ (storeChar c s).echo = s.echo ∧ (storeChar c s).autoLowerCase = s.autoLowerCase
    ∧ (storeChar c s).escapeSequence = s.escapeSequence
    ∧ (storeChar c s).receivingEscapeSequence = s.receivingEscapeSequence
    ∧ (storeChar c s).CurrentEscapeSequence = s.CurrentEscapeSequence
    ∧ (storeChar c s).CurrentEscapeSequenceCount = s.CurrentEscapeSequenceCount := by
  exact ⟨rfl, rfl, rfl, rfl, rfl, rfl, rfl, rfl⟩

theorem cfg_keyDefault (c : Nat) (s : CLI_DataTypeDef) :
    (keyDefault c s).initialized = s.initialized ∧ (keyDefault c s).locked = s.locked
    ∧ (keyDefault c s).echo = s.echo ∧ (keyDefault c s).autoLowerCase = s.autoLowerCase
    ∧ (keyDefault c s).escapeSequence = s.escapeSequence
    ∧ (keyDefault c s).receivingEscapeSequence = s.receivingEscapeSequence
    ∧ (keyDefault c s).CurrentEscapeSequence = s.CurrentEscapeSequence
    ∧ (keyDefault c s).CurrentEscapeSequenceCount = s.CurrentEscapeSequenceCount := by
  unfold keyDefault
  repeat' split
  all_goals simp only [cfg_storeChar, cfg_echoChar, and_self]

theorem cfg_ResetState (s : CLI_DataTypeDef) :
    (CLI_ResetState s).initialized = s.initialized ∧ (CLI_ResetState s).locked = s.locked
    ∧ (CLI_ResetState s).echo = s.echo ∧ (CLI_ResetState s).autoLowerCase = s.autoLowerCase
    ∧ (CLI_ResetState s).escapeSequence = s.escapeSequence
    ∧ (CLI_ResetState s).receivingEscapeSequence = s.receivingEscapeSequence
    ∧ (CLI_ResetState s).CurrentEscapeSequence = s.CurrentEscapeSequence
    ∧ (CLI_ResetState s).CurrentEscapeSequenceCount = s.CurrentEscapeSequenceCount := by
  unfold CLI_ResetState
  repeat' split
  all_goals exact ⟨rfl, rfl, rfl, rfl, rfl, rfl, rfl, rfl⟩

theorem cfg_ParseEndExec (H : Nat → Nat → List (List Nat) → Int) (fuel : Nat)
    (p : Option (List CLI_CmdTypeDef)) (line : List Nat) (r : Int) (s s1 : CLI_DataTypeDef)
    (h : CLI_ParseEndExec H fuel p line s = some (r, s1)) :
    s1.initialized = s.initialized ∧ s1.locked = s.locked ∧ s1.echo = s.echo
    ∧ s1.autoLowerCase = s.autoLowerCase ∧ s1.escapeSequence = s.escapeSequence
    ∧ s1.receivingEscapeSequence = s.receivingEscapeSequence
    ∧ s1.CurrentEscapeSequence = s.CurrentEscapeSequence
    ∧ s1.CurrentEscapeSequenceCount = s.CurrentEscapeSequenceCount := by
  unfold CLI_ParseEndExec at h
  repeat' split at h
  all_goals first
    | (simp only [Option.some.injEq, Prod.mk.injEq] at h
       obtain ⟨_, rfl⟩ := h
       simp only [cfg_tooManyArgs, cfg_callHandler, cfg_notRecognized, and_self])
    | exact absurd h (by simp)

theorem cfg_ExecuteCommand (H : Nat → Nat → List (List Nat) → Int) (fuel : Nat)
    (s s1 : CLI_DataTypeDef) (h : CLI_ExecuteCommand H fuel s = some s1) :
    s1.initialized = s.initialized ∧ s1.locked = s.locked ∧ s1.echo = s.echo
    ∧ s1.autoLowerCase = s.autoLowerCase ∧ s1.escapeSequence = s.escapeSequence
    ∧ s1.receivingEscapeSequence = s.receivingEscapeSequence
    ∧ s1.CurrentEscapeSequence = s.CurrentEscapeSequence
    ∧ s1.CurrentEscapeSequenceCount = s.CurrentEscapeSequenceCount := by
  unfold CLI_ExecuteCommand at h
  split at h
  · simp only [Option.some.injEq] at h
    subst h
    exact ⟨rfl, rfl, rfl, rfl, rfl, rfl, rfl, rfl⟩
  · split at h
    · split at h
      · exact absurd h (by simp)
      · rename_i cmdRet s2 hp
        simp only [Option.some.injEq] at h
        subst h
        have h2 := cfg_ParseEndExec _ _ _ _ _ _ _ hp
        simp only [cfg_promptUnlessReset, cfg_commitLine, h2, cfg_crlfIfEcho, and_self]
    · simp only [Option.some.injEq] at h
      subst h
      simp only [cfg_promptUnlessReset, cfg_crlfIfEcho, and_self]

theorem cfg_SearchAndExecute (H : Nat → Nat → List (List Nat) → Int) (fuel : Nat) (b : Bool)
    (s s1 : CLI_DataTypeDef) (h : CLI_SearchAndExecute H fuel s = some (b, s1)) :
    s1.initialized = s.initialized ∧ s1.locked = s.locked ∧ s1.echo = s.echo
    ∧ s1.autoLowerCase = s.autoLowerCase ∧ s1.escapeSequence = s.escapeSequence
    ∧ s1.receivingEscapeSequence = s.receivingEscapeSequence
    ∧ s1.CurrentEscapeSequence = s.CurrentEscapeSequence
    ∧ s1.CurrentEscapeSequenceCount = s.CurrentEscapeSequenceCount := by
  unfold CLI_SearchAndExecute at h
  split at h
  · simp only [Option.some.injEq, Prod.mk.injEq] at h
    obtain ⟨_, rfl⟩ := h
    exact ⟨rfl, rfl, rfl, rfl, rfl, rfl, rfl, rfl⟩
  · split at h
    · exact absurd h (by simp)
    · split at h
      · split at h
        · exact absurd h (by simp)
        · rename_i s2 he
          simp only [Option.some.injEq, Prod.mk.injEq] at h
          obtain ⟨_, rfl⟩ := h
          exact cfg_ExecuteCommand _ _ _ _ he
      · simp only [Option.some.injEq, Prod.mk.injEq] at h
        obtain ⟨_, rfl⟩ := h
        simp only [cfg_rejectLine, and_self]

theorem cfg_TabCompleter (fuel cmpLen n : Nat) (s s1 : CLI_DataTypeDef)
    (h : CLI_TabCompleter fuel cmpLen s = some (n, s1)) :
    s1.initialized = s.initialized ∧ s1.locked = s.locked ∧ s1.echo = s.echo
    ∧ s1.autoLowerCase = s.autoLowerCase ∧ s1.escapeSequence = s.escapeSequence
    ∧ s1.receivingEscapeSequence = s.receivingEscapeSequence
    ∧ s1.CurrentEscapeSequence = s.CurrentEscapeSequence
    ∧ s1.CurrentEscapeSequenceCount = s.CurrentEscapeSequenceCount := by
  unfold CLI_TabCompleter at h
  repeat' split at h
  all_goals first
    | (simp only [Option.some.injEq, Prod.mk.injEq] at h
       obtain ⟨_, rfl⟩ := h
       simp only [cfg_applyCompletion, and_self])
    | exact absurd h (by simp)

theorem cfg_runPending (H : Nat → Nat → List (List Nat) → Int) (fuel : Nat) (b : Bool)
    (s s1 : CLI_DataTypeDef) (h : runPending H fuel s = some (b, s1)) :
    s1.initialized = s.initialized ∧ s1.locked = s.locked ∧ s1.echo = s.echo
    ∧ s1.autoLowerCase = s.autoLowerCase ∧ s1.escapeSequence = s.escapeSequence
    ∧ s1.receivingEscapeSequence = s.receivingEscapeSequence
    ∧ s1.CurrentEscapeSequence = s.CurrentEscapeSequence
    ∧ s1.CurrentEscapeSequenceCount = s.CurrentEscapeSequenceCount := by
  unfold runPending at h
  split at h
  · exact cfg_SearchAndExecute _ _ _ _ _ h
  · split at h
    · exact absurd h (by simp)
    · rename_i n s2 ht
      simp only [Option.some.injEq, Prod.mk.injEq] at h
      obtain ⟨_, rfl⟩ := h
      exact cfg_TabCompleter _ _ _ _ _ ht
  · simp only [Option.some.injEq] at h
    have h2 := cfg_cliRetrieveHistory s
    rw [h] at h2
    exact h2
  · simp only [Option.some.injEq, Prod.mk.injEq] at h
    obtain ⟨_, rfl⟩ := h
    exact ⟨rfl, rfl, rfl, rfl, rfl, rfl, rfl, rfl⟩

theorem cfg_ProcessState (H : Nat → Nat → List (List Nat) → Int) (fuel : Nat) (b : Bool)
    (s s1 : CLI_DataTypeDef) (h : CLI_ProcessState H fuel s = some (b, s1)) :
    s1.initialized = s.initialized ∧ s1.locked = s.locked ∧ s1.echo = s.echo
    ∧ s1.autoLowerCase = s.autoLowerCase ∧ s1.escapeSequence = s.escapeSequence
    ∧ s1.receivingEscapeSequence = s.receivingEscapeSequence
    ∧ s1.CurrentEscapeSequence = s.CurrentEscapeSequence
    ∧ s1.CurrentEscapeSequenceCount = s.CurrentEscapeSequenceCount := by
  unfold CLI_ProcessState at h
  split at h
  · simp only [Option.some.injEq, Prod.mk.injEq] at h
    obtain ⟨_, rfl⟩ := h
    exact ⟨rfl, rfl, rfl, rfl, rfl, rfl, rfl, rfl⟩
  · split at h
    · exact absurd h (by simp)
    · rename_i r s2 hr
      simp only [Option.some.injEq, Prod.mk.injEq] at h
      obtain ⟨_, rfl⟩ := h
      exact cfg_runPending H fuel r s s2 hr

/-! ## Operations up to the trace -/

theorem traceOnly_eq {s s1 : CLI_DataTypeDef} (h : TraceOnly s s1) :
    s1 = { s with trace := s1.trace } := by
  cases s; cases s1
  simp only [TraceOnly, CLI_DataTypeDef.mk.injEq] at h
  obtain ⟨a1, a2, a3, a4, a5, a6, a7, a8, a9, a10, a11, a12, a13, a14, a15, a16, a17, a18, a19,
    a20, a21, _⟩ := h
  simp only [CLI_DataTypeDef.mk.injEq]
  exact ⟨a1, a2, a3, a4, a5, a6, a7, a8, a9, a10, a11, a12, a13, a14, a15, a16, a17, a18, a19,
    a20, a21, trivial⟩

/-- The fields `traceOnly_fields` does not list. -/
theorem traceOnly_fields2 {s s1 : CLI_DataTypeDef} (h : TraceOnly s s1) :
    s1.autoLowerCase = s.autoLowerCase ∧ s1.escapeSequence = s.escapeSequence
    ∧ s1.receivingEscapeSequence = s.receivingEscapeSequence
    ∧ s1.CurrentEscapeSequence = s.CurrentEscapeSequence
    ∧ s1.CurrentEscapeSequenceCount = s.CurrentEscapeSequenceCount
    ∧ s1.cmndsTableHead = s.cmndsTableHead := by
  rw [traceOnly_eq h]
  exact ⟨rfl, rfl, rfl, rfl, rfl, rfl⟩

/-! ## Typing a line -/

/-- A plain byte goes to the `default` case of the `switch`. -/
theorem processKey_plain (c : Nat) (s : CLI_DataTypeDef) (h : plainByte c) :
    processKey c s = keyDefault c s := by
  obtain ⟨_, h1, h2, h3, h4, h5⟩ := h
  unfold processKey
  rw [if_neg h2, if_neg h3, if_neg h4, if_neg h5,
    if_neg (show c ≠ CLI_ARROW_DOWN by unfold CLI_ARROW_DOWN; omega),
    if_neg (show c ≠ CLI_ARROW_UP by unfold CLI_ARROW_UP; omega),
    if_neg (show c ≠ CLI_ARROW_RIGHT by unfold CLI_ARROW_RIGHT; omega),
    if_neg (show c ≠ CLI_ARROW_LEFT by unfold CLI_ARROW_LEFT; omega),
    if_neg (show c ≠ CLI_TAB by unfold CLI_TAB; omega)]

/-- The `default` case below the maximum line length, up to the trace. -/
theorem keyDefault_store (c : Nat) (s : CLI_DataTypeDef)
    (h : s.lineIdx < CLI_MAX_LINE_LENGTH - 1) :
    TraceOnly { storeChar (lowerIfAuto c s) s with LineBack := 0 } (keyDefault c s) := by
  unfold keyDefault
  rw [if_pos h, traceOnly_eq (traceOnly_echoChar (lowerIfAuto c s) s)]
  cases s
  rfl

/-- The text of the current line after `storeChar`. -/
theorem storeChar_text (c : Nat) (s : CLI_DataTypeDef) (h : Inv s) (hc : c ≠ 0)
    (hi : s.lineIdx < CLI_MAX_LINE_LENGTH - 1) :
    currentText (storeChar c s) = (currentText s).take s.lineIdx ++ [c] ∧
    (storeChar c s).lineIdx = s.lineIdx + 1 := by
  have hi2 : s.lineIdx < 79 := hi
  have hlen := slot_length h.1 s.lineCurrent h.1.2.1
  have hm : (s.lineIdx + 1) % 256 = s.lineIdx + 1 := Nat.mod_eq_of_lt (by omega)
  constructor
  · unfold currentText lineAt
    rw [storeChar_line c s (by rw [h.1.1]; exact h.1.2.1)]
    show cstr ((s.line.set s.lineCurrent _).getD s.lineCurrent []) = _
    rw [getD_set_self _ _ _ (by rw [h.1.1]; exact h.1.2.1), hm]
    exact cstr_set_char _ _ _ hc h.2.1 (by rw [hlen]; omega)
  · exact hm

/-- The slots other than the current one after `storeChar`. -/
theorem storeChar_other (c : Nat) (s : CLI_DataTypeDef) (h : Inv s) (j : Nat)
    (hj : j ≠ s.lineCurrent) : lineAt (storeChar c s) j = lineAt s j := by
  unfold lineAt
  rw [storeChar_line c s (by rw [h.1.1]; exact h.1.2.1)]
  exact getD_set_other _ _ _ _ (Ne.symm hj)

/-- One plain byte typed below the maximum line length. -/
theorem typed_char (c : Nat) (s : CLI_DataTypeDef) (hl : Listening s)
    (hp : plainByte c) (hi : s.lineIdx < CLI_MAX_LINE_LENGTH - 1) :
    TraceOnly { storeChar (lowerIfAuto c s) s with LineBack := 0 } (CLI_ProcessChar c s).2 := by
  rw [char_normal c s hl.1 hl.2.1 hl.2.2.1 hl.2.2.2.1 hp.1 hp.2.1, processKey_plain c s hp]
  exact keyDefault_store c s hi

/-- A run of plain bytes typed at the end of the current line, within the
maximum line length: the bytes, lower-cased when configured, are appended to
the current line; the other slots, the current slot index, the filled count,
the commands array and the configuration stay as they are and the engine keeps
listening. -/
theorem typed_line (t : List Nat) (s : CLI_DataTypeDef) (h : Inv s) (hl : Listening s)
    (hp : ∀ c ∈ t, plainByte c) (hend : s.lineIdx = (currentText s).length)
    (hlen : s.lineIdx + t.length ≤ 79) :
    Inv (typeBytes t s) ∧ Listening (typeBytes t s) ∧
    currentText (typeBytes t s) = currentText s ++ t.map (fun c => lowerIfAuto c s) ∧
    (typeBytes t s).lineIdx = s.lineIdx + t.length ∧
    (typeBytes t s).lineCurrent = s.lineCurrent ∧ (typeBytes t s).LineCount = s.LineCount ∧
    (∀ j, j ≠ s.lineCurrent → lineAt (typeBytes t s) j = lineAt s j) ∧
    (typeBytes t s).cmnds = s.cmnds ∧ (typeBytes t s).locked = s.locked ∧
    (typeBytes t s).echo = s.echo ∧ (typeBytes t s).autoLowerCase = s.autoLowerCase ∧
    (typeBytes t s).escapeSequence = s.escapeSequence := by
  induction t generalizing s with
  | nil =>
    refine ⟨h, hl, ?_, rfl, rfl, rfl, fun _ _ => rfl, rfl, rfl, rfl, rfl, rfl⟩
    show currentText s = currentText s ++ []
    rw [List.append_nil]
  | cons c t ih =>
    rw [List.length_cons] at hlen
    have hpc := hp c (List.mem_cons_self c t)
    have hi : s.lineIdx < CLI_MAX_LINE_LENGTH - 1 := by
      show s.lineIdx < 79
      omega
    have ht := typed_char c s hl hpc hi
    have f := traceOnly_fields ht
    have f2 := traceOnly_fields2 ht
    have hc0 := lowerIfAuto_ne_zero c s hpc.1
    obtain ⟨x1, x2⟩ := storeChar_text (lowerIfAuto c s) s h hc0 hi
    have hinv := inv_ProcessChar c s h
    have hlis : Listening (CLI_ProcessChar c s).2 := by
      refine ⟨?_, ?_, ?_, ?_, ?_⟩
      · rw [f.2.2.2.2.2.2.2.2.2.2.2.2.2.2]; exact hl.1
      · rw [f.2.2.2.2.2.2.2.2.2.2.2.1]; exact hl.2.1
      · rw [f.2.2.2.2.2.1]; exact hl.2.2.1
      · rw [f2.2.2.1]; exact hl.2.2.2.1
      · rw [f2.2.2.2.1]; exact hl.2.2.2.2
    have hcur : (CLI_ProcessChar c s).2.lineCurrent = s.lineCurrent := f.2.2.1
    have htext : currentText (CLI_ProcessChar c s).2 = currentText s ++ [lowerIfAuto c s] := by
      have e : currentText (CLI_ProcessChar c s).2 = currentText (storeChar (lowerIfAuto c s) s) := by
        unfold currentText
        rw [hcur, lineAt_traceOnly ht]
        rfl
      rw [e, x1, hend, List.take_length]
    have hidx : (CLI_ProcessChar c s).2.lineIdx = s.lineIdx + 1 := by
      rw [f.2.1]; exact x2
    have hauto : (CLI_ProcessChar c s).2.autoLowerCase = s.autoLowerCase := f2.1
    have hcnt : (CLI_ProcessChar c s).2.LineCount = s.LineCount := f.2.2.2.1
    have hcm : (CLI_ProcessChar c s).2.cmnds = s.cmnds := f.2.2.2.2.2.2.2.2.2.2.2.1
    have hlk : (CLI_ProcessChar c s).2.locked = s.locked := f.2.2.2.2.2.2.2.1
    have hec : (CLI_ProcessChar c s).2.echo = s.echo := f.2.2.2.2.2.2.1
    have hes : (CLI_ProcessChar c s).2.escapeSequence = s.escapeSequence := f2.2.1
    obtain ⟨i1, i2, i3, i4, i5, i6, i7, i8, i9, i10, i11, i12⟩ := ih (CLI_ProcessChar c s).2 hinv hlis
      (fun x hx => hp x (List.mem_cons_of_mem c hx))
      (by rw [hidx, htext, List.length_append, List.length_singleton, hend])
      (by rw [hidx]; omega)
    rw [typeBytes_cons]
    refine ⟨i1, i2, ?_, ?_, ?_, ?_, ?_, ?_, ?_, ?_, ?_, ?_⟩
    · rw [i3, htext, List.map_cons, List.append_assoc]
      have : (fun c1 => lowerIfAuto c1 (CLI_ProcessChar c s).2) = fun c1 => lowerIfAuto c1 s := by
        funext c1
        unfold lowerIfAuto
        rw [hauto]
      rw [this]
      rfl
    · rw [i4, hidx, List.length_cons]; omega
    · rw [i5, hcur]
    · rw [i6, hcnt]
    · intro j hj
      rw [i7 j (by rw [hcur]; exact hj), lineAt_traceOnly ht]
      exact storeChar_other _ s h j hj
    · rw [i8, hcm]
    · rw [i9, hlk]
    · rw [i10, hec]
    · rw [i11, hauto]
    · rw [i12, hes]

/-! ## Committing a line -/

/-- A carriage return on an unlocked, listening engine asks the worker to
execute the line. -/
theorem char_return (s : CLI_DataTypeDef) (hl : Listening s) (hk : s.locked = false) :
    (CLI_ProcessChar 13 s).2 =
      { CLI_TaskAlert { s with execType := CLI_ExecTypeDef.CLI_Exec_SearchAndExec } with
        LineBack := 0 } := by
  rw [char_normal 13 s hl.1 hl.2.1 hl.2.2.1 hl.2.2.2.1 (by decide) (by decide)]
  have h1 : processKey 13 s = keyReturn s := by
    unfold processKey
    rw [if_neg (by decide), if_pos rfl]
  rw [h1]
  unfold keyReturn
  rw [if_neg (by rw [hk]; simp)]

/-- With the execute action pending, `CLI_ProcessState` returns true exactly
through `CLI_ExecuteCommand`. -/
theorem state_exec (H : Nat → Nat → List (List Nat) → Int) (fuel : Nat)
    (s s1 : CLI_DataTypeDef) (hi : s.initialized = true)
    (he : s.execType = CLI_ExecTypeDef.CLI_Exec_SearchAndExec)
    (hr : CLI_ProcessState H fuel s = some (true, s1)) :
    ∃ s2, CLI_ExecuteCommand H fuel s = some s2 ∧
      s1 = { s2 with execType := CLI_ExecTypeDef.CLI_Exec_Nothing } := by
  unfold CLI_ProcessState at hr
  rw [if_neg (by rw [hi]; simp)] at hr
  unfold runPending at hr
  rw [he] at hr
  simp only at hr
  unfold CLI_SearchAndExecute at hr
  rw [if_neg (by rw [hi]; simp)] at hr
  split at hr
  · exact absurd hr (by simp)
  · rename_i r s2 hs
    simp only [Option.some.injEq, Prod.mk.injEq] at hr
    obtain ⟨hr1, hr2⟩ := hr
    subst hr1
    split at hs
    · exact absurd hs (by simp)
    · split at hs
      · split at hs
        · exact absurd hs (by simp)
        · rename_i s3 he3
          simp only [Option.some.injEq, Prod.mk.injEq] at hs
          refine ⟨s3, he3, ?_⟩
          rw [← hr2, ← hs.2]
      · simp only [Option.some.injEq, Prod.mk.injEq] at hs
        exact absurd hs.1 (by simp)

theorem commitLine_trace (s : CLI_DataTypeDef) (t : List Event) :
    commitLine { s with trace := t } = { commitLine s with trace := t } := by
  have e1 : commitLine { s with trace := t } = clearCurrent
      (if strcmp (cstr (lineAt s s.lineCurrent)) (cstr (lineAt s (prevLineIdx s))) ≠ 0
       then advanceHistory { s with trace := t } else { s with trace := t }) := rfl
  rw [e1]
  unfold commitLine
  split <;> rfl

/-- `CLI_ExecuteCommand` on a line that is not empty is `commitLine` up to the
trace. -/
theorem exec_commit (H : Nat → Nat → List (List Nat) → Int) (fuel : Nat)
    (s s2 : CLI_DataTypeDef) (hm : s.cmnds ≠ none)
    (hne : (lineAt s s.lineCurrent).headD 0 ≠ 0)
    (hr : CLI_ExecuteCommand H fuel s = some s2) : TraceOnly (commitLine s) s2 := by
  unfold CLI_ExecuteCommand at hr
  split at hr
  · rename_i hn
    exact absurd hn hm
  · have te := traceOnly_crlfIfEcho s
    split at hr
    · split at hr
      · exact absurd hr (by simp)
      · rename_i cmdRet p hp
        simp only [Option.some.injEq] at hr
        rw [← hr]
        have tp := traceOnly_trans te (traceOnly_ParseEndExec H fuel _ _ cmdRet _ p hp)
        refine traceOnly_trans ?_ (traceOnly_promptUnlessReset cmdRet (commitLine p))
        rw [traceOnly_eq tp, commitLine_trace s p.trace]
        exact traceOnly_upd (commitLine s) p.trace
    · rename_i hz
      rw [lineAt_traceOnly te, (traceOnly_fields te).2.2.1] at hz
      exact absurd hne hz

theorem cstr_ne_nil (b : List Nat) : cstr b ≠ [] ↔ b.headD 0 ≠ 0 := by
  cases b with
  | nil => simp [cstr]
  | cons x t =>
    by_cases hx : x = 0
    · subst hx
      simp [cstr]
    · rw [cstr_cons_ne x t hx]
      simp [hx]

theorem prevLineIdx_eq (s : CLI_DataTypeDef) (h : s.lineCurrent < 10) :
    prevLineIdx s = (s.lineCurrent + CLI_MAX_HISTORY_LINES - 1) % CLI_MAX_HISTORY_LINES := by
  unfold prevLineIdx
  have : CLI_MAX_HISTORY_LINES = 10 := rfl
  rw [this]
  omega

/-- The history step when the line differs from the one before it: the ring
moves on by one slot, the filled count grows up to 9, the new current slot is
emptied. -/
theorem commitLine_differs (s : CLI_DataTypeDef) (h : Inv s)
    (hd : currentText s ≠ textBack s 1) :
    (commitLine s).line = s.line.set ((s.lineCurrent + 1) % 10)
      ((lineAt s ((s.lineCurrent + 1) % 10)).set 0 0) ∧
    (commitLine s).lineCurrent = (s.lineCurrent + 1) % 10 ∧
    (commitLine s).LineCount = (if s.LineCount < 9 then s.LineCount + 1 else s.LineCount) ∧
    (commitLine s).lineIdx = 0 ∧ (commitLine s).LineBack = s.LineBack := by
  have hcur : s.lineCurrent < 10 := h.1.2.1
  have hcnt : s.LineCount ≤ 9 := h.2.2.2.2
  have hne : strcmp (cstr (lineAt s s.lineCurrent)) (cstr (lineAt s (prevLineIdx s))) ≠ 0 := by
    rw [Ne, strcmp_eq_zero _ _ (cstr_nonzero _) (cstr_nonzero _), prevLineIdx_eq s hcur]
    exact hd
  have hadv : ((s.lineCurrent + CLI_MAX_HISTORY_LINES + 1) % 256) % CLI_MAX_HISTORY_LINES
      = (s.lineCurrent + 1) % 10 := by
    have : CLI_MAX_HISTORY_LINES = 10 := rfl
    rw [this]
    omega
  have e : commitLine s = clearCurrent (advanceHistory s) := by
    unfold commitLine
    rw [if_pos hne]
  rw [e]
  refine ⟨?_, hadv, ?_, rfl, rfl⟩
  · show s.line.set (((s.lineCurrent + CLI_MAX_HISTORY_LINES + 1) % 256) % CLI_MAX_HISTORY_LINES)
      ((s.line.getD (((s.lineCurrent + CLI_MAX_HISTORY_LINES + 1) % 256) % CLI_MAX_HISTORY_LINES)
        []).set 0 0) = _
    rw [hadv]
    rfl
  · show (if s.LineCount < CLI_MAX_HISTORY_LINES - 1 then (s.LineCount + 1) % 256
      else s.LineCount) = _
    have : CLI_MAX_HISTORY_LINES - 1 = 9 := rfl
    rw [this]
    split
    · exact Nat.mod_eq_of_lt (by omega)
    · rfl

/-- The history step when the line repeats the one before it: the ring stays
where it is and the current slot is emptied. -/
theorem commitLine_same (s : CLI_DataTypeDef) (h : Inv s)
    (hd : currentText s = textBack s 1) :
    (commitLine s).line = s.line.set s.lineCurrent ((lineAt s s.lineCurrent).set 0 0) ∧
    (commitLine s).lineCurrent = s.lineCurrent ∧ (commitLine s).LineCount = s.LineCount ∧
    (commitLine s).lineIdx = 0 ∧ (commitLine s).LineBack = s.LineBack := by
  have hcur : s.lineCurrent < 10 := h.1.2.1
  have heq : ¬ strcmp (cstr (lineAt s s.lineCurrent)) (cstr (lineAt s (prevLineIdx s))) ≠ 0 := by
    rw [Ne, not_not, strcmp_eq_zero _ _ (cstr_nonzero _) (cstr_nonzero _), prevLineIdx_eq s hcur]
    exact hd
  have e : commitLine s = clearCurrent s := by
    unfold commitLine
    rw [if_neg heq]
  rw [e]
  exact ⟨rfl, rfl, rfl, rfl, rfl⟩

/-! ## The dispatcher returns -/

/-- The token loop ends: it stops at the fifteenth token at the latest. -/
theorem tokenLoop_returns (fuel : Nat) (rest : List Nat) (param : List (List Nat))
    (h1 : 1 ≤ fuel) (hf : 15 ≤ fuel + param.length) : ∃ r, tokenLoop fuel rest param = some r := by
  induction fuel generalizing rest param with
  | zero => omega
  | succ n ih =>
    unfold tokenLoop
    split
    · exact ⟨_, rfl⟩
    · split
      · exact ⟨_, rfl⟩
      · rename_i hle
        have h14 : CLI_MAX_NUM_PARAMS - 1 = 14 := rfl
        rw [h14] at hle
        exact ih _ _ (by omega) (by rw [List.length_append, List.length_singleton]; omega)

/-- With at most 255 commands the scan of `CLI_ParseEndExec` ends. -/
theorem cmdScan_returns (arr : List CLI_CmdTypeDef) (cnt : Nat) (p : List Nat) (fuel i : Nat)
    (hc : cnt ≤ 255) (hl : cnt ≤ arr.length) (hi : i ≤ cnt) (hf : cnt - i < fuel) :
    ∃ r, cmdScan arr cnt p fuel i = some r := by
  induction fuel generalizing i with
  | zero => omega
  | succ n ih =>
    unfold cmdScan
    split
    · rename_i hlt
      rw [List.getElem?_eq_getElem (by omega)]
      simp only
      split
      · exact ⟨_, rfl⟩
      · have hm : (i + 1) % 256 = i + 1 := Nat.mod_eq_of_lt (by omega)
        rw [hm]
        exact ih (i + 1) (by omega) (by omega)
    · exact ⟨_, rfl⟩

/-- With at most 255 commands `CLI_ParseEndExec` returns. -/
theorem parse_returns (H : Nat → Nat → List (List Nat) → Int) (fuel : Nat)
    (p : Option (List CLI_CmdTypeDef)) (line : List Nat) (s : CLI_DataTypeDef)
    (hc : s.cmndsCount ≤ 255) (hl : ∀ arr, p = some arr → s.cmndsCount ≤ arr.length)
    (hf : s.cmndsCount + 16 ≤ fuel) : ∃ r, CLI_ParseEndExec H fuel p line s = some r := by
  unfold CLI_ParseEndExec
  split
  · exact ⟨_, rfl⟩
  · rename_i arr
    split
    · exact ⟨_, rfl⟩
    · split
      · exact ⟨_, rfl⟩
      · rename_i tok0 rest _
        obtain ⟨r1, h1⟩ := tokenLoop_returns fuel rest [tok0] (by omega)
          (by rw [List.length_singleton]; omega)
        rw [h1]
        rcases r1 with _ | param
        · exact ⟨_, rfl⟩
        · simp only
          obtain ⟨r2, h2⟩ := cmdScan_returns arr s.cmndsCount tok0 fuel 0 hc (hl arr rfl)
            (Nat.zero_le _) (by omega)
          rw [h2]
          rcases r2 with _ | i
          · exact ⟨_, rfl⟩
          · exact ⟨_, rfl⟩

/-- With at most 255 commands `CLI_ExecuteCommand` returns. -/
theorem exec_returns (H : Nat → Nat → List (List Nat) → Int) (fuel : Nat) (s : CLI_DataTypeDef)
    (hc : s.cmndsCount ≤ 255) (hl : ∀ arr, s.cmnds = some arr → s.cmndsCount ≤ arr.length)
    (hf : s.cmndsCount + 16 ≤ fuel) : ∃ s1, CLI_ExecuteCommand H fuel s = some s1 := by
  unfold CLI_ExecuteCommand
  split
  · exact ⟨_, rfl⟩
  · rename_i arr ha
    split
    · have hcnt : (crlfIfEcho s).cmndsCount = s.cmndsCount := (reg_crlfIfEcho s).2.2.1
      obtain ⟨r, hr⟩ := parse_returns H fuel (some arr) (argvText (crlfIfEcho s)) (crlfIfEcho s)
        (by rw [hcnt]; exact hc)
        (by
          intro a ha2
          rw [hcnt]
          simp only [Option.some.injEq] at ha2
          rw [← ha2]
          exact hl arr ha)
        (by rw [hcnt]; exact hf)
      rw [hr]
      exact ⟨_, rfl⟩
    · exact ⟨_, rfl⟩

/-- C13: for every line that is not empty, on a reachable engine with its
commands array: `CLI_ExecuteCommand` returns when the registry has at most 255
commands and the fuel exceeds their number by 16; and whenever the line is
executed (by `CLI_ExecuteCommand` directly, or through `CLI_ProcessState` with
the execute action pending), when its text equals the text in the ring slot just
before the current one, the current slot index and the filled count stay as they
are; when it differs, the current slot index moves on by exactly one modulo
`CLI_MAX_HISTORY_LINES` = 10 and the filled count grows by one unless it is 9
already. -/
theorem C13_history_commit (H : Nat → Nat → List (List Nat) → Int) (fuel : Nat)
    (s : CLI_DataTypeDef) (hr : Reachable H s) (hm : s.cmnds ≠ none)
    (hne : currentText s ≠ []) :
    (s.cmndsCount ≤ 255 → (∀ arr, s.cmnds = some arr → s.cmndsCount ≤ arr.length) →
      s.cmndsCount + 16 ≤ fuel → ∃ s1, CLI_ExecuteCommand H fuel s = some s1) ∧
    ∀ s1, (CLI_ExecuteCommand H fuel s = some s1 ∨
        (s.initialized = true ∧ s.execType = CLI_ExecTypeDef.CLI_Exec_SearchAndExec ∧
          CLI_ProcessState H fuel s = some (true, s1))) →
      (currentText s = textBack s 1 →
        s1.lineCurrent = s.lineCurrent ∧ s1.LineCount = s.LineCount) ∧
      (currentText s ≠ textBack s 1 →
        s1.lineCurrent = (s.lineCurrent + 1) % CLI_MAX_HISTORY_LINES ∧
        s1.LineCount = (if s.LineCount = CLI_MAX_HISTORY_LINES - 1 then s.LineCount
          else s.LineCount + 1)) := by
  refine ⟨fun hc hl hf => exec_returns H fuel s hc hl hf, ?_⟩
  intro s1 he
  have hinv := reachable_inv H s hr
  have hhead : (lineAt s s.lineCurrent).headD 0 ≠ 0 := (cstr_ne_nil _).mp hne
  have key : ∃ s2, TraceOnly (commitLine s) s2 ∧ s1.lineCurrent = s2.lineCurrent
      ∧ s1.LineCount = s2.LineCount := by
    rcases he with he | ⟨hi, hx, hp⟩
    · exact ⟨s1, exec_commit H fuel s s1 hm hhead he, rfl, rfl⟩
    · obtain ⟨s2, h2, h3⟩ := state_exec H fuel s s1 hi hx hp
      refine ⟨s2, exec_commit H fuel s s2 hm hhead h2, ?_, ?_⟩
      · rw [h3]
      · rw [h3]
  obtain ⟨s2, ht, k1, k2⟩ := key
  have f := traceOnly_fields ht
  constructor
  · intro hd
    obtain ⟨_, c2, c3, _, _⟩ := commitLine_same s hinv hd
    exact ⟨by rw [k1, f.2.2.1, c2], by rw [k2, f.2.2.2.1, c3]⟩
  · intro hd
    obtain ⟨_, c2, c3, _, _⟩ := commitLine_differs s hinv hd
    refine ⟨by rw [k1, f.2.2.1, c2]; rfl, ?_⟩
    rw [k2, f.2.2.2.1, c3]
    have hcnt : s.LineCount ≤ 9 := hinv.2.2.2.2
    have h9 : CLI_MAX_HISTORY_LINES - 1 = 9 := rfl
    rw [h9]
    split <;> split <;> omega

/-! ## The ring after committed lines -/

theorem textBack_slot (s : CLI_DataTypeDef) (k : Nat) :
    textBack s k = cstr (lineAt s ((s.lineCurrent + 10 - k) % 10)) := rfl

/-- Committing a line that differs from the one before it puts it in front of
the lines the ring holds. -/
theorem commit_history (L : List (List Nat)) (s : CLI_DataTypeDef) (h : Inv s)
    (hh : HistoryOf L s) (hprev : L = [] → textBack s 1 = []) (hne : currentText s ≠ [])
    (hd : L.head? ≠ some (currentText s)) :
    HistoryOf (currentText s :: L) (commitLine s) ∧ currentText (commitLine s) = [] ∧
    (commitLine s).lineIdx = 0 ∧ (commitLine s).LineBack = s.LineBack := by
  have hcur : s.lineCurrent < 10 := h.1.2.1
  have hlen : s.line.length = 10 := h.1.1
  have h9 : CLI_MAX_HISTORY_LINES - 1 = 9 := rfl
  obtain ⟨hh1, hh2⟩ := hh
  rw [h9] at hh1 hh2
  have hdiff : currentText s ≠ textBack s 1 := by
    cases L with
    | nil =>
      rw [hprev rfl]
      exact hne
    | cons x t =>
      have := hh2 0 (by simp only [List.length_cons]; omega)
      rw [this]
      intro e
      apply hd
      rw [e]
      rfl
  obtain ⟨c1, c2, c3, c4, c5⟩ := commitLine_differs s h hdiff
  have hset : ∀ j, j ≠ (s.lineCurrent + 1) % 10 → lineAt (commitLine s) j = lineAt s j := by
    intro j hj
    unfold lineAt
    rw [c1]
    exact getD_set_other _ _ _ _ (Ne.symm hj)
  refine ⟨⟨?_, ?_⟩, ?_, c4, c5⟩
  · rw [c3, hh1, h9, List.length_cons]
    split <;> omega
  · intro k hk
    rw [h9, List.length_cons] at hk
    rw [textBack_slot, c2]
    have hslot : ((s.lineCurrent + 1) % 10 + 10 - (k + 1)) % 10 = (s.lineCurrent + 10 - k) % 10 := by
      omega
    rw [hslot, hset _ (by omega)]
    cases k with
    | zero =>
      have : (s.lineCurrent + 10 - 0) % 10 = s.lineCurrent := by omega
      rw [this]
      rfl
    | succ j =>
      have := hh2 j (by omega)
      rw [textBack_slot] at this
      rw [this]
      rfl
  · unfold currentText lineAt
    rw [c1, c2, getD_set_self _ _ _ (by rw [hlen]; omega)]
    exact cstr_set_zero _ 0 (Nat.zero_le _) (by
      rw [slot_length h.1 _ (by omega)]; decide)

/-- A state that agrees with another on the slots, the current slot and the
filled count holds the same history. -/
theorem historyOf_same {L : List (List Nat)} {s s1 : CLI_DataTypeDef} (h : HistoryOf L s)
    (hl : s1.line = s.line) (hc : s1.lineCurrent = s.lineCurrent)
    (hn : s1.LineCount = s.LineCount) : HistoryOf L s1 := by
  refine ⟨by rw [hn]; exact h.1, ?_⟩
  intro k hk
  unfold textBack lineAt
  rw [hl, hc]
  exact h.2 k hk

/-- A state that differs from another in the current slot only holds the same
history. -/
theorem historyOf_edit {L : List (List Nat)} {s s1 : CLI_DataTypeDef} (h : HistoryOf L s)
    (hcur : s.lineCurrent < 10)
    (hl : ∀ j, j ≠ s.lineCurrent → lineAt s1 j = lineAt s j)
    (hc : s1.lineCurrent = s.lineCurrent) (hn : s1.LineCount = s.LineCount) :
    HistoryOf L s1 := by
  have h9 : CLI_MAX_HISTORY_LINES - 1 = 9 := rfl
  refine ⟨by rw [hn]; exact h.1, ?_⟩
  intro k hk
  rw [h9] at hk
  have := h.2 k (by rw [h9]; exact hk)
  rw [textBack_slot] at this ⊢
  rw [hc, hl _ (by omega)]
  exact this

/-- The state after a carriage return on an unlocked, listening engine. -/
theorem return_fields (s : CLI_DataTypeDef) (hl : Listening s) (hk : s.locked = false) :
    (CLI_ProcessChar 13 s).2.line = s.line ∧ (CLI_ProcessChar 13 s).2.lineIdx = s.lineIdx ∧
    (CLI_ProcessChar 13 s).2.lineCurrent = s.lineCurrent ∧
    (CLI_ProcessChar 13 s).2.LineCount = s.LineCount ∧ (CLI_ProcessChar 13 s).2.LineBack = 0 ∧
    (CLI_ProcessChar 13 s).2.execType = CLI_ExecTypeDef.CLI_Exec_SearchAndExec ∧
    (CLI_ProcessChar 13 s).2.cmnds = s.cmnds ∧
    (CLI_ProcessChar 13 s).2.initialized = s.initialized ∧
    (CLI_ProcessChar 13 s).2.locked = s.locked ∧ (CLI_ProcessChar 13 s).2.echo = s.echo ∧
    (CLI_ProcessChar 13 s).2.escapeSequence = s.escapeSequence ∧
    (CLI_ProcessChar 13 s).2.receivingEscapeSequence = s.receivingEscapeSequence ∧
    (CLI_ProcessChar 13 s).2.CurrentEscapeSequence = s.CurrentEscapeSequence := by
  rw [char_return s hl hk]
  exact ⟨rfl, rfl, rfl, rfl, rfl, rfl, rfl, rfl, rfl, rfl, rfl, rfl, rfl⟩

/-- One committed line: typed on a ready engine, sent with a carriage return and
executed by the worker, it goes in front of the lines the ring holds, and the
engine is ready again. -/
theorem commit_step (H : Nat → Nat → List (List Nat) → Int) (fuel : Nat)
    (L : List (List Nat)) (s s1 : CLI_DataTypeDef) (t : List Nat) (hr : Ready s)
    (hh : HistoryOf L s) (hempty : L = [] → ∀ b ∈ s.line, cstr b = []) (ht : t ≠ [])
    (hlen : t.length ≤ CLI_MAX_LINE_LENGTH - 1) (hp : ∀ c ∈ t, plainByte c)
    (hd : L.head? ≠ some (t.map (fun c => lowerIfAuto c s)))
    (hps : CLI_ProcessState H fuel (typeBytes (t ++ [13]) s) = some (true, s1)) :
    Ready s1 ∧ HistoryOf (t.map (fun c => lowerIfAuto c s) :: L) s1 := by
  obtain ⟨hinv, hlis, hlock, hrules, hback, hidx, htext⟩ := hr
  have hlen2 : t.length ≤ 79 := hlen
  obtain ⟨t1, t2, t3, t4, t5, t6, t7, t8, t9, t10, _, t12⟩ :=
    typed_line t s hinv hlis hp (by rw [hidx, htext]; rfl) (by rw [hidx]; omega)
  rw [htext, List.nil_append] at t3
  rw [typeBytes_snoc] at hps
  have hlock2 : (typeBytes t s).locked = false := by rw [t9]; exact hlock
  obtain ⟨k1, k2, k3, k4, k5, k6, k7, k8, k9, k10, k11, k12, k13⟩ :=
    return_fields (typeBytes t s) t2 hlock2
  generalize (CLI_ProcessChar 13 (typeBytes t s)).2 = K at hps k1 k2 k3 k4 k5 k6 k7 k8 k9 k10 k11 k12 k13
  generalize typeBytes t s = st at t1 t2 t3 t4 t5 t6 t7 t8 t9 t10 t12 hlock2 k1 k2 k3 k4 k5 k6 k7 k8 k9 k10 k11 k12 k13
  have hcur : s.lineCurrent < 10 := hinv.1.2.1
  have hKinv : Inv K := inv_same t1 k1 k2 k3 k4 (by rw [k5]; exact Nat.zero_le _) k7
  have hKtext : currentText K = t.map (fun c => lowerIfAuto c s) := by
    rw [← t3]
    unfold currentText lineAt
    rw [k1, k3]
  have hKhist : HistoryOf L K :=
    historyOf_same (historyOf_edit hh hcur t7 t5 t6) k1 k3 k4
  have hKne : currentText K ≠ [] := by
    rw [hKtext]
    intro e
    exact ht (List.map_eq_nil_iff.mp e)
  have hKprev : L = [] → textBack K 1 = [] := by
    intro hL
    rw [textBack_slot]
    unfold lineAt
    rw [k1, k3, t5]
    have h1 := t7 ((s.lineCurrent + 10 - 1) % 10) (by omega)
    unfold lineAt at h1
    rw [h1]
    exact hempty hL _ (getD_mem _ _ (by rw [hinv.1.1]; exact Nat.mod_lt _ (by decide)))
  have hKm : K.cmnds ≠ none := by rw [k7, t8]; exact hlis.2.1
  have hKi : K.initialized = true := by rw [k8]; exact t2.1
  obtain ⟨s2, e1, e2⟩ := state_exec H fuel K s1 hKi k6 hps
  have tc := exec_commit H fuel K s2 hKm ((cstr_ne_nil _).mp hKne) e1
  obtain ⟨c1, c2, c3, c4⟩ := commit_history L K hKinv hKhist hKprev hKne (by rw [hKtext]; exact hd)
  have f := traceOnly_fields tc
  have g := cfg_ProcessState H fuel true K s1 hps
  have r := reg_ProcessState H fuel true K s1 hps
  have hline : s1.line = (commitLine K).line := by rw [e2]; exact f.1
  have hcurr : s1.lineCurrent = (commitLine K).lineCurrent := by rw [e2]; exact f.2.2.1
  have hecho : s1.echo = s.echo := by rw [g.2.2.1, k10, t10]
  refine ⟨⟨inv_ProcessState H fuel K s1 true hKinv hps, ⟨?_, ?_, ?_, ?_, ?_⟩, ?_, ?_, ?_, ?_, ?_⟩, ?_⟩
  · rw [g.1]; exact hKi
  · rw [r.1]; exact hKm
  · rw [e2]
  · rw [g.2.2.2.2.2.1, k12]; exact t2.2.2.2.1
  · rw [g.2.2.2.2.2.2.1, k13]; exact t2.2.2.2.2
  · rw [g.2.1, k9]; exact hlock2
  · rw [g.2.2.2.2.1, k11, t12, hrules, hecho]
  · rw [e2]
    show s2.LineBack = 0
    rw [f.2.2.2.2.1, c4, k5]
  · rw [e2]
    show s2.lineIdx = 0
    rw [f.2.1, c3]
  · unfold currentText lineAt
    rw [hline, hcurr]
    exact c2
  · rw [← hKtext]
    refine historyOf_same c1 hline hcurr ?_
    rw [e2]
    exact f.2.2.2.1

/-- After the lines of `L` were committed the engine is ready and its ring
holds `L`. -/
theorem committed_ready (H : Nat → Nat → List (List Nat) → Int) (L : List (List Nat))
    (s : CLI_DataTypeDef) (h : Committed H L s) :
    Ready s ∧ HistoryOf L s ∧ (L = [] → ∀ b ∈ s.line, cstr b = []) := by
  induction h with
  | fresh s hr hn he =>
    refine ⟨hr, ⟨hn, ?_⟩, fun _ => he⟩
    intro k hk
    exact absurd hk (by simp)
  | line L s s1 t fuel _ ht hlen hp hd hps ih =>
    obtain ⟨i1, i2, i3⟩ := ih
    obtain ⟨r1, r2⟩ := commit_step H fuel L s s1 t i1 i2 i3 ht hlen hp hd hps
    exact ⟨r1, r2, fun e => absurd e (List.cons_ne_nil _ _)⟩

/-! ## Recalling lines -/

/-- The configuration a discarded or completed escape sequence leaves alone. -/
theorem escExit_cfg (acc : List Nat) (s : CLI_DataTypeDef) :
    (escExit acc s).initialized = s.initialized ∧ (escExit acc s).cmnds = s.cmnds ∧
    (escExit acc s).locked = s.locked ∧ (escExit acc s).echo = s.echo ∧
    (escExit acc s).escapeSequence = s.escapeSequence ∧
    (escExit acc s).CurrentEscapeSequence.length = s.CurrentEscapeSequence.length := by
  have key : ∀ (l : List Nat) (x : CLI_DataTypeDef),
      (l.foldl (fun st c => escAccumulate c st) x).initialized = x.initialized ∧
      (l.foldl (fun st c => escAccumulate c st) x).cmnds = x.cmnds ∧
      (l.foldl (fun st c => escAccumulate c st) x).locked = x.locked ∧
      (l.foldl (fun st c => escAccumulate c st) x).echo = x.echo ∧
      (l.foldl (fun st c => escAccumulate c st) x).escapeSequence = x.escapeSequence ∧
      (l.foldl (fun st c => escAccumulate c st) x).CurrentEscapeSequence.length
        = x.CurrentEscapeSequence.length := by
    intro l
    induction l with
    | nil => intro x; exact ⟨rfl, rfl, rfl, rfl, rfl, rfl⟩
    | cons c t ih =>
      intro x
      obtain ⟨i1, i2, i3, i4, i5, i6⟩ := ih (escAccumulate c x)
      refine ⟨i1, i2, i3, i4, i5, ?_⟩
      rw [List.foldl_cons, i6]
      exact List.length_set _ _ _
  exact key acc (keyEscape s)

/-- The bytes of the up arrow reach the `switch` as `CLI_ARROW_UP`. -/
theorem keysUp_fire (s : CLI_DataTypeDef) (hl : Listening s)
    (hr : s.escapeSequence = escapeRules s.echo) :
    typeBytes (keysUp s.echo) s = keyUp (escExit (keysUp s.echo).tail s) := by
  rw [← processKey_up]
  cases he : s.echo
  · rw [he] at hr
    exact esc_fire [] 65 ⟨[65], CLI_ARROW_UP⟩ s hl (by rw [hr]; exact escapeRules_nonzero false)
      (by decide) (by decide) (fun k h1 h2 => absurd h2 (by simp; omega))
      (by rw [hr]; decide) (by decide)
  · rw [he] at hr
    exact esc_fire [91] 65 ⟨[91, 65], CLI_ARROW_UP⟩ s hl
      (by rw [hr]; exact escapeRules_nonzero true) (by decide) (by decide)
      (by
        intro k h1 h2
        have hk : k = 1 := by
          simp only [List.length_singleton] at h2
          omega
        subst hk
        rw [hr]
        decide)
      (by rw [hr]; decide) (by decide)

/-- The bytes of the down arrow reach the `switch` as `CLI_ARROW_DOWN`. -/
theorem keysDown_fire (s : CLI_DataTypeDef) (hl : Listening s)
    (hr : s.escapeSequence = escapeRules s.echo) :
    typeBytes (keysDown s.echo) s = keyDown (escExit (keysDown s.echo).tail s) := by
  rw [← processKey_down]
  cases he : s.echo
  · rw [he] at hr
    exact esc_fire [] 66 ⟨[66], CLI_ARROW_DOWN⟩ s hl (by rw [hr]; exact escapeRules_nonzero false)
      (by decide) (by decide) (fun k h1 h2 => absurd h2 (by simp; omega))
      (by rw [hr]; decide) (by decide)
  · rw [he] at hr
    exact esc_fire [91] 66 ⟨[91, 66], CLI_ARROW_DOWN⟩ s hl
      (by rw [hr]; exact escapeRules_nonzero true) (by decide) (by decide)
      (by
        intro k h1 h2
        have hk : k = 1 := by
          simp only [List.length_singleton] at h2
          omega
        subst hk
        rw [hr]
        decide)
      (by rw [hr]; decide) (by decide)

/-- With a history retrieval pending, `CLI_ProcessState` runs
`cliRetrieveHistory` and returns true. -/
theorem state_retrieve (H : Nat → Nat → List (List Nat) → Int) (fuel : Nat)
    (x : CLI_DataTypeDef) (hi : x.initialized = true)
    (he : x.execType = CLI_ExecTypeDef.CLI_Exec_RetrieveHistory) :
    CLI_ProcessState H fuel x = some (true,
      { (cliRetrieveHistory x).2 with execType := CLI_ExecTypeDef.CLI_Exec_Nothing }) := by
  unfold CLI_ProcessState
  rw [if_neg (by rw [hi]; simp)]
  unfold runPending
  rw [he]
  simp only
  rfl

/-- With no action pending, `CLI_ProcessState` returns false and changes
nothing. -/
theorem state_idle (H : Nat → Nat → List (List Nat) → Int) (fuel : Nat)
    (x : CLI_DataTypeDef) (he : x.execType = CLI_ExecTypeDef.CLI_Exec_Nothing) :
    CLI_ProcessState H fuel x = some (false, x) := by
  unfold CLI_ProcessState
  split
  · rfl
  · unfold runPending
    rw [he]
    simp only
    congr 2
    cases x
    simp only at he
    rw [← he]

/-- `cliRetrieveHistory` is the copy into the current slot, up to the trace. -/
theorem retrieve_copy (x : CLI_DataTypeDef) :
    TraceOnly (copyHistoryLine x) (cliRetrieveHistory x).2 := by
  rw [cliRetrieveHistory_snd]
  refine traceOnly_trans ?_ (traceOnly_printLineLen _)
  refine traceOnly_trans ?_ (traceOnly_PrintPrompt 0 _)
  rw [traceOnly_eq (traceOnly_EraseLine x)]
  have e : copyHistoryLine { x with trace := (CLI_EraseLine x).trace }
      = { copyHistoryLine x with trace := (CLI_EraseLine x).trace } := rfl
  rw [e]
  exact traceOnly_upd (copyHistoryLine x) _

/-- The copy of `cliRetrieveHistory`: the current slot takes the text of the
slot `LineBack` places before it. -/
theorem copy_fields (x : CLI_DataTypeDef) (h : Inv x) :
    currentText (copyHistoryLine x) = textBack x x.LineBack ∧
    (∀ j, j ≠ x.lineCurrent → lineAt (copyHistoryLine x) j = lineAt x j) ∧
    (copyHistoryLine x).lineCurrent = x.lineCurrent ∧
    (copyHistoryLine x).LineCount = x.LineCount ∧ (copyHistoryLine x).LineBack = x.LineBack := by
  have hcur : x.lineCurrent < 10 := h.1.2.1
  have hlen := slot_length h.1 x.lineCurrent hcur
  have hsrc := slot_text h.1 (historyIdx x) (historyIdx_lt x)
  have hb : x.LineBack ≤ 9 := le_trans h.2.2.2.1 h.2.2.2.2
  have hidx : historyIdx x = (x.lineCurrent + 10 - x.LineBack) % 10 := by
    unfold historyIdx
    have : CLI_MAX_HISTORY_LINES = 10 := rfl
    rw [this]
    omega
  obtain ⟨_, c2, _⟩ := cstr_copy (lineAt x x.lineCurrent) (cstr (lineAt x (historyIdx x)))
    (cstr_nonzero _) (by rw [hlen]; omega)
  refine ⟨?_, ?_, rfl, rfl, rfl⟩
  · rw [textBack_slot, ← hidx]
    unfold currentText lineAt
    show cstr ((x.line.set x.lineCurrent _).getD x.lineCurrent []) = _
    rw [getD_set_self _ _ _ (by rw [h.1.1]; exact hcur)]
    exact c2
  · intro j hj
    exact getD_set_other _ _ _ _ (Ne.symm hj)

/-- A discarded or completed escape sequence does not disturb the browsing. -/
theorem browsing_escExit (L : List (List Nat)) (j : Nat) (acc : List Nat) (s : CLI_DataTypeDef)
    (h : Browsing L j s) : Browsing L j (escExit acc s) ∧ (escExit acc s).echo = s.echo := by
  obtain ⟨hinv, hlis, hrules, hh, hback, htext⟩ := h
  obtain ⟨f1, f2, f3, f4, f5, f6, _, f8⟩ := escExit_fields acc s
  obtain ⟨g1, g2, _, g4, g5, g6⟩ := escExit_cfg acc s
  refine ⟨⟨?_, ⟨?_, ?_, ?_, f8, ?_⟩, ?_, ?_, ?_, ?_⟩, g4⟩
  · exact inv_same hinv f1 f2 f3 f4 (by rw [f5]; exact hinv.2.2.2.1) g2
  · rw [g1]; exact hlis.1
  · rw [g2]; exact hlis.2.1
  · rw [f6]; exact hlis.2.2.1
  · rw [g6]; exact hlis.2.2.2.2
  · rw [g5, g4]; exact hrules
  · exact historyOf_same hh f1 f3 f4
  · rw [f5]; exact hback
  · intro hj
    unfold currentText lineAt
    rw [f1, f3]
    exact htext hj

/-- The worker on a pending retrieval, `m` steps back: the current line shows
entry `m` of the history. -/
theorem browse_retrieve (H : Nat → Nat → List (List Nat) → Int) (fuel : Nat)
    (L : List (List Nat)) (m : Nat) (x : CLI_DataTypeDef) (hinv : Inv x)
    (hi : x.initialized = true) (hm : x.cmnds ≠ none) (hr : x.receivingEscapeSequence = false)
    (hb : x.CurrentEscapeSequence.length = CLI_MAX_ESCAPE)
    (hrules : x.escapeSequence = escapeRules x.echo) (hh : HistoryOf L x)
    (he : x.execType = CLI_ExecTypeDef.CLI_Exec_RetrieveHistory) (hback : x.LineBack = m)
    (hle : m ≤ min L.length (CLI_MAX_HISTORY_LINES - 1)) :
    ∃ y, CLI_ProcessState H fuel x = some (true, y) ∧ Browsing L m y ∧ y.echo = x.echo := by
  refine ⟨_, state_retrieve H fuel x hi he, ?_⟩
  have tc := retrieve_copy x
  have f := traceOnly_fields tc
  have g := cfg_cliRetrieveHistory x
  have r := reg_cliRetrieveHistory x
  obtain ⟨c1, c2, c3, c4, c5⟩ := copy_fields x hinv
  have hrinv := inv_cliRetrieveHistory x hinv
  generalize (cliRetrieveHistory x).2 = y at tc f g r hrinv
  have hcur : y.lineCurrent = x.lineCurrent := by rw [f.2.2.1, c3]
  refine ⟨⟨?_, ⟨?_, ?_, rfl, ?_, ?_⟩, ?_, ?_, ?_, ?_⟩, g.2.2.1⟩
  · exact inv_same hrinv rfl rfl rfl rfl hrinv.2.2.2.1 rfl
  · show y.initialized = true
    rw [g.1]; exact hi
  · show y.cmnds ≠ none
    rw [r.1]; exact hm
  · show y.receivingEscapeSequence = false
    rw [g.2.2.2.2.2.1]; exact hr
  · show y.CurrentEscapeSequence.length = CLI_MAX_ESCAPE
    rw [g.2.2.2.2.2.2.1]; exact hb
  · show y.escapeSequence = escapeRules y.echo
    rw [g.2.2.2.2.1, g.2.2.1]; exact hrules
  · refine historyOf_same (s := y) ?_ rfl rfl rfl
    refine historyOf_edit hh hinv.1.2.1 ?_ hcur (by rw [f.2.2.2.1, c4])
    intro j hj
    rw [lineAt_traceOnly tc, c2 j hj]
  · show y.LineBack = m
    rw [f.2.2.2.2.1, c5]; exact hback
  · intro h1
    show cstr (lineAt y y.lineCurrent) = _
    rw [hcur, lineAt_traceOnly tc]
    have e : cstr (lineAt (copyHistoryLine x) x.lineCurrent) = textBack x x.LineBack := c1
    rw [e, hback]
    have := hh.2 (m - 1) (by omega)
    rw [Nat.sub_add_cancel h1] at this
    exact this

/-- One press of the up arrow below the filled count, the worker after it. -/
theorem browse_up (H : Nat → Nat → List (List Nat) → Int) (fuel : Nat)
    (L : List (List Nat)) (j : Nat) (s : CLI_DataTypeDef) (h : Browsing L j s)
    (hj : j < min L.length (CLI_MAX_HISTORY_LINES - 1)) :
    ∃ s1, feed H fuel (keysUp s.echo) s = some s1 ∧ Browsing L (j + 1) s1 ∧ s1.echo = s.echo := by
  obtain ⟨⟨einv, elis, erules, ehh, eback, _⟩, eecho⟩ :=
    browsing_escExit L j (keysUp s.echo).tail s h
  have hfire := keysUp_fire s h.2.1 h.2.2.1
  generalize escExit (keysUp s.echo).tail s = e at einv elis erules ehh eback eecho hfire
  have hlt : e.LineBack < e.LineCount := by rw [eback, ehh.1]; exact hj
  have hx : keyUp e = CLI_TaskAlert { e with
      LineBack := (e.LineBack + 1) % 256
      execType := CLI_ExecTypeDef.CLI_Exec_RetrieveHistory } := by
    unfold keyUp
    rw [if_pos hlt]
  have h9 : CLI_MAX_HISTORY_LINES - 1 = 9 := rfl
  have hnew : (e.LineBack + 1) % 256 = j + 1 := by
    rw [eback]
    rw [h9] at hj
    exact Nat.mod_eq_of_lt (by omega)
  obtain ⟨y, hy, hb, hecho⟩ := browse_retrieve H fuel L (j + 1) (keyUp e) (inv_keyUp e einv)
    (by rw [hx]; exact elis.1) (by rw [hx]; exact elis.2.1) (by rw [hx]; exact elis.2.2.2.1)
    (by rw [hx]; exact elis.2.2.2.2) (by rw [hx]; exact erules)
    (by rw [hx]; exact historyOf_same ehh rfl rfl rfl) (by rw [hx]; rfl)
    (by rw [hx]; exact hnew) (by omega)
  refine ⟨y, ?_, hb, ?_⟩
  · unfold feed
    rw [hfire, hy]
  · rw [hecho, hx]
    exact eecho

/-- One press of the down arrow when at least one step back, the worker after
it. -/
theorem browse_down (H : Nat → Nat → List (List Nat) → Int) (fuel : Nat)
    (L : List (List Nat)) (j : Nat) (s : CLI_DataTypeDef) (h : Browsing L j s)
    (hj : 1 ≤ j) (hle : j ≤ min L.length (CLI_MAX_HISTORY_LINES - 1)) :
    ∃ s1, feed H fuel (keysDown s.echo) s = some s1 ∧ Browsing L (j - 1) s1
      ∧ s1.echo = s.echo := by
  obtain ⟨⟨einv, elis, erules, ehh, eback, _⟩, eecho⟩ :=
    browsing_escExit L j (keysDown s.echo).tail s h
  have hfire := keysDown_fire s h.2.1 h.2.2.1
  generalize escExit (keysDown s.echo).tail s = e at einv elis erules ehh eback eecho hfire
  have hne : e.LineBack ≠ 0 := by rw [eback]; omega
  have hx : keyDown e = CLI_TaskAlert { e with
      LineBack := e.LineBack - 1
      execType := CLI_ExecTypeDef.CLI_Exec_RetrieveHistory } := by
    unfold keyDown
    rw [if_pos hne]
  obtain ⟨y, hy, hb, hecho⟩ := browse_retrieve H fuel L (j - 1) (keyDown e) (inv_keyDown e einv)
    (by rw [hx]; exact elis.1) (by rw [hx]; exact elis.2.1) (by rw [hx]; exact elis.2.2.2.1)
    (by rw [hx]; exact elis.2.2.2.2) (by rw [hx]; exact erules)
    (by rw [hx]; exact historyOf_same ehh rfl rfl rfl) (by rw [hx]; rfl)
    (by rw [hx]; show e.LineBack - 1 = j - 1; rw [eback]) (by omega)
  refine ⟨y, ?_, hb, ?_⟩
  · unfold feed
    rw [hfire, hy]
  · rw [hecho, hx]
    exact eecho

/-- One press of the up arrow at the filled count: nothing is retrieved. -/
theorem browse_top (H : Nat → Nat → List (List Nat) → Int) (fuel : Nat)
    (L : List (List Nat)) (j : Nat) (s : CLI_DataTypeDef) (h : Browsing L j s)
    (hj : j = min L.length (CLI_MAX_HISTORY_LINES - 1)) :
    ∃ s1, feed H fuel (keysUp s.echo) s = some s1 ∧ Browsing L j s1 ∧ s1.echo = s.echo := by
  obtain ⟨hb, eecho⟩ := browsing_escExit L j (keysUp s.echo).tail s h
  have hfire := keysUp_fire s h.2.1 h.2.2.1
  generalize escExit (keysUp s.echo).tail s = e at hb eecho hfire
  have hx : keyUp e = e := by
    unfold keyUp
    rw [if_neg (by rw [hb.2.2.2.2.1, hb.2.2.2.1.1, hj]; exact Nat.lt_irrefl _)]
  refine ⟨e, ?_, hb, eecho⟩
  unfold feed
  rw [hfire, hx, state_idle H fuel e hb.2.1.2.2.1]

theorem pressUp_succ (H : Nat → Nat → List (List Nat) → Int) (fuel k : Nat)
    (s : CLI_DataTypeDef) :
    pressUp H fuel (k + 1) s =
      match feed H fuel (keysUp s.echo) s with
      | none => none
      | some s1 => pressUp H fuel k s1 := rfl

/-- `k` presses of the up arrow from `j` steps back, within the filled count. -/
theorem browse_many (H : Nat → Nat → List (List Nat) → Int) (fuel : Nat)
    (L : List (List Nat)) (k j : Nat) (s : CLI_DataTypeDef) (h : Browsing L j s)
    (hle : j + k ≤ min L.length (CLI_MAX_HISTORY_LINES - 1)) :
    ∃ s1, pressUp H fuel k s = some s1 ∧ Browsing L (j + k) s1 ∧ s1.echo = s.echo := by
  induction k generalizing j s with
  | zero => exact ⟨s, rfl, h, rfl⟩
  | succ n ih =>
    obtain ⟨s1, h1, h2, h3⟩ := browse_up H fuel L j s h (by omega)
    obtain ⟨s2, k1, k2, k3⟩ := ih (j + 1) s1 h2 (by omega)
    refine ⟨s2, ?_, ?_, ?_⟩
    · rw [pressUp_succ, h1]
      exact k1
    · have : j + (n + 1) = j + 1 + n := by omega
      rw [this]
      exact k2
    · rw [k3, h3]

/-- Presses of the up arrow past the filled count change nothing more. -/
theorem browse_past (H : Nat → Nat → List (List Nat) → Int) (fuel : Nat)
    (L : List (List Nat)) (k j : Nat) (s : CLI_DataTypeDef) (h : Browsing L j s)
    (hj : j = min L.length (CLI_MAX_HISTORY_LINES - 1)) :
    ∃ s1, pressUp H fuel k s = some s1 ∧ Browsing L j s1 ∧ s1.echo = s.echo := by
  induction k generalizing s with
  | zero => exact ⟨s, rfl, h, rfl⟩
  | succ n ih =>
    obtain ⟨s1, h1, h2, h3⟩ := browse_top H fuel L j s h hj
    obtain ⟨s2, k1, k2, k3⟩ := ih s1 h2
    refine ⟨s2, ?_, k2, ?_⟩
    · rw [pressUp_succ, h1]
      exact k1
    · rw [k3, h3]

theorem pressUp_add (H : Nat → Nat → List (List Nat) → Int) (fuel : Nat) (a b : Nat)
    (s s1 : CLI_DataTypeDef) (h : pressUp H fuel a s = some s1) :
    pressUp H fuel (a + b) s = pressUp H fuel b s1 := by
  induction a generalizing s with
  | zero =>
    have e : s = s1 := by
      unfold pressUp at h
      simpa using h
    rw [e, Nat.zero_add]
  | succ n ih =>
    have e : n + 1 + b = (n + b) + 1 := by omega
    rw [e, pressUp_succ]
    rw [pressUp_succ] at h
    cases hf : feed H fuel (keysUp s.echo) s with
    | none =>
      rw [hf] at h
      exact absurd h (by simp)
    | some s2 =>
      rw [hf] at h
      exact ih s2 h

/-- A ready engine whose ring holds `L` is browsing `L`, no step back. -/
theorem ready_browsing (L : List (List Nat)) (s : CLI_DataTypeDef) (hr : Ready s)
    (hh : HistoryOf L s) : Browsing L 0 s :=
  ⟨hr.1, hr.2.1, hr.2.2.2.1, hh, hr.2.2.2.2.1, fun h => absurd h (by decide)⟩

/-! ## Claims C13 to C15: the history ring -/

/-- C13 at the demo: `help` typed on the fresh engine differs from the (empty)
slot before it; executing it returns and moves the ring from slot 0 to slot 1
and the filled count from 0 to 1. -/
theorem C13_history_commit_witness :
    currentText demoHelpTyped = bytes "help" ∧ textBack demoHelpTyped 1 = [] ∧
    ∃ s1, CLI_ExecuteCommand H0 21 demoHelpTyped = some s1 ∧ s1.lineCurrent = 1
      ∧ s1.LineCount = 1 := by
  have hw := C13_history_commit H0 21 demoHelpTyped
    (reachable_typeBytes H0 _ _ (reachable_demoBuilt H0)) (by decide) (by decide)
  obtain ⟨s1, h1⟩ := hw.1 (by decide)
    (by
      intro arr ha
      have e : arr = registry demoBuilt ++ [zeroCmd] := by
        have h2 : demoHelpTyped.cmnds = some (registry demoBuilt ++ [zeroCmd]) := by decide
        rw [h2] at ha
        exact (Option.some.inj ha).symm
      rw [e]
      decide)
    (by decide)
  have h := (hw.2 s1 (Or.inl h1)).2 (by decide)
  exact ⟨by decide, by decide, s1, h1, h.1.trans (by decide), h.2.trans (by decide)⟩

/-- Entering a line on an engine with committed lines commits it. -/
theorem committed_enter (H : Nat → Nat → List (List Nat) → Int) (fuel : Nat)
    (L : List (List Nat)) (s : CLI_DataTypeDef) (t : List Nat) (hc : Committed H L s)
    (ht : t ≠ []) (hlen : t.length ≤ CLI_MAX_LINE_LENGTH - 1) (hp : ∀ c ∈ t, plainByte c)
    (hd : L.head? ≠ some (t.map (fun c => lowerIfAuto c s)))
    (hps : (CLI_ProcessState H fuel (typeBytes (t ++ [13]) s)).map Prod.fst = some true) :
    Committed H (t.map (fun c => lowerIfAuto c s) :: L) (enterLine H fuel t s) := by
  cases hr : CLI_ProcessState H fuel (typeBytes (t ++ [13]) s) with
  | none =>
    rw [hr] at hps
    exact absurd hps (by simp)
  | some r =>
    obtain ⟨b, s1⟩ := r
    rw [hr] at hps
    have hb : b = true := by simpa using hps
    subst hb
    have e : enterLine H fuel t s = s1 := by
      unfold enterLine feed
      rw [hr]
    rw [e]
    exact Committed.line L s s1 t fuel hc ht hlen hp hd hr

theorem ready_demoBuilt : Ready demoBuilt :=
  ⟨reachable_inv H0 demoBuilt (reachable_demoBuilt H0),
    ⟨by decide, by decide, by decide, by decide, by decide⟩, by decide, by decide, by decide,
    by decide, by decide⟩

theorem committed_demoBuilt : Committed H0 [] demoBuilt :=
  Committed.fresh demoBuilt ready_demoBuilt (by decide) (by decide)

theorem committed_demoTwoLines :
    Committed H0 [bytes "version", bytes "help"] demoTwoLines := by
  have c1 := committed_enter H0 16 [] demoBuilt (bytes "help") committed_demoBuilt
    (by decide) (by decide) (by decide) (by decide) (by decide)
  have c2 := committed_enter H0 16 _ _ (bytes "version") c1
    (by decide) (by decide) (by decide) (by decide) (by decide)
  have e : (bytes "version").map (fun c => lowerIfAuto c (enterLine H0 16 (bytes "help") demoBuilt))
      :: [(bytes "help").map (fun c => lowerIfAuto c demoBuilt)]
      = [bytes "version", bytes "help"] := by decide
  rw [e] at c2
  exact c2

/-- C14: after the lines of `L` (most recent first, each different from the one
before it) were committed, for every `k` from 1 to `min n 9`, `n` the number of
lines, `k` presses of the up arrow, the worker running after each, leave the
`k`-th most recent line on the current line, and for `k` at least 2 a press of
the down arrow after them leaves the `(k-1)`-th most recent one; so up, up, down
shows the second most recent line and then the most recent one. -/
theorem C14_history_recall (H : Nat → Nat → List (List Nat) → Int) (fuel : Nat)
    (L : List (List Nat)) (s : CLI_DataTypeDef) (h : Committed H L s) (k : Nat)
    (h1 : 1 ≤ k) (hk : k ≤ min L.length (CLI_MAX_HISTORY_LINES - 1)) :
    ∃ s1, pressUp H fuel k s = some s1 ∧ currentText s1 = L.getD (k - 1) [] ∧
      (2 ≤ k → ∃ s2, feed H fuel (keysDown s1.echo) s1 = some s2 ∧
        currentText s2 = L.getD (k - 2) []) := by
  obtain ⟨hr, hh, _⟩ := committed_ready H L s h
  obtain ⟨s1, p1, p2, _⟩ := browse_many H fuel L k 0 s (ready_browsing L s hr hh)
    (by rw [Nat.zero_add]; exact hk)
  rw [Nat.zero_add] at p2
  refine ⟨s1, p1, p2.2.2.2.2.2 h1, ?_⟩
  intro h2
  obtain ⟨s2, d1, d2, _⟩ := browse_down H fuel L k s1 p2 h1 hk
  refine ⟨s2, d1, ?_⟩
  have := d2.2.2.2.2.2 (by omega)
  rw [this]
  congr 1

/-- C14 at the demo: after `help` and `version` were entered, up, up shows
`help` and a following down shows `version`. -/
theorem C14_history_recall_witness :
    ∃ s1, pressUp H0 16 2 demoTwoLines = some s1 ∧ currentText s1 = bytes "help" ∧
      ∃ s2, feed H0 16 (keysDown s1.echo) s1 = some s2 ∧ currentText s2 = bytes "version" := by
  obtain ⟨s1, p1, p2, p3⟩ := C14_history_recall H0 16 [bytes "version", bytes "help"]
    demoTwoLines committed_demoTwoLines 2 (by decide) (by decide)
  obtain ⟨s2, d1, d2⟩ := p3 (by decide)
  exact ⟨s1, p1, p2, s2, d1, d2⟩

set_option maxRecDepth 100000 in
/-- C15 (the code departs from the claim): at the demo the ten lines `a` to
`j`, pairwise distinct and not empty, were entered and executed; the filled
count is 9, not 10; ten presses of the up arrow leave `b` on the line, and no
number of presses up to twelve shows `a`, the first of the ten: only
`CLI_MAX_HISTORY_LINES - 1` lines are remembered. -/
theorem C15_tenth_line_not_recalled :
    tenLines.Pairwise (fun a b => a ≠ b) ∧ (∀ t ∈ tenLines, t ≠ []) ∧
    tenEntered.LineCount = 9 ∧
    (pressUp H0 16 10 tenEntered).map currentText = some (bytes "b") ∧
    (∀ k, k ≤ 12 → (pressUp H0 16 k tenEntered).map currentText ≠ some (bytes "a")) := by
  decide

/-- What the ring remembers: `CLI_MAX_HISTORY_LINES - 1` = 9 lines.  After ten
or more lines were committed (most recent first in `L`), the filled count is 9;
for every `k` from 1 to 9, `k` presses of the up arrow leave the `k`-th most
recent line on the current line; and nine or more presses leave the ninth most
recent one there, the step-back counter staying at 9: the tenth most recent
line cannot be recalled. -/
theorem nine_lines_remembered (H : Nat → Nat → List (List Nat) → Int) (fuel : Nat)
    (L : List (List Nat)) (s : CLI_DataTypeDef) (h : Committed H L s)
    (hlen : CLI_MAX_HISTORY_LINES ≤ L.length) :
    s.LineCount = CLI_MAX_HISTORY_LINES - 1 ∧
    (∀ k, 1 ≤ k → k ≤ CLI_MAX_HISTORY_LINES - 1 →
      ∃ s1, pressUp H fuel k s = some s1 ∧ currentText s1 = L.getD (k - 1) []) ∧
    (∀ k, CLI_MAX_HISTORY_LINES - 1 ≤ k →
      ∃ s1, pressUp H fuel k s = some s1 ∧ currentText s1 = L.getD 8 [] ∧ s1.LineBack = 9) := by
  have h10 : CLI_MAX_HISTORY_LINES = 10 := rfl
  rw [h10] at hlen
  have h9 : CLI_MAX_HISTORY_LINES - 1 = 9 := rfl
  have hmin : min L.length (CLI_MAX_HISTORY_LINES - 1) = 9 := by rw [h9]; omega
  obtain ⟨hr, hh, _⟩ := committed_ready H L s h
  have hb := ready_browsing L s hr hh
  refine ⟨by rw [hh.1, hmin, h9], ?_, ?_⟩
  · intro k k1 k9
    obtain ⟨s1, p1, p2, _⟩ := browse_many H fuel L k 0 s hb (by rw [Nat.zero_add, hmin]; exact k9)
    rw [Nat.zero_add] at p2
    exact ⟨s1, p1, p2.2.2.2.2.2 k1⟩
  · intro k k9
    rw [h9] at k9
    obtain ⟨s9, p1, p2, _⟩ := browse_many H fuel L 9 0 s hb (by rw [Nat.zero_add, hmin])
    rw [Nat.zero_add] at p2
    obtain ⟨s1, q1, q2, _⟩ := browse_past H fuel L (k - 9) 9 s9 p2 hmin.symm
    refine ⟨s1, ?_, q2.2.2.2.2.2 (by decide), q2.2.2.2.2.1⟩
    have e : k = 9 + (k - 9) := by omega
    rw [e, pressUp_add H fuel 9 (k - 9) s s9 p1]
    exact q1

set_option maxRecDepth 100000 in
theorem committed_tenEntered : Committed H0 tenLines.reverse tenEntered := by
  have c1 := committed_enter H0 16 _ _ [97] committed_demoBuilt
    (by decide) (by decide) (by decide) (by decide) (by decide)
  have c2 := committed_enter H0 16 _ _ [98] c1
    (by decide) (by decide) (by decide) (by decide) (by decide)
  have c3 := committed_enter H0 16 _ _ [99] c2
    (by decide) (by decide) (by decide) (by decide) (by decide)
  have c4 := committed_enter H0 16 _ _ [100] c3
    (by decide) (by decide) (by decide) (by decide) (by decide)
  have c5 := committed_enter H0 16 _ _ [101] c4
    (by decide) (by decide) (by decide) (by decide) (by decide)
  have c6 := committed_enter H0 16 _ _ [102] c5
    (by decide) (by decide) (by decide) (by decide) (by decide)
  have c7 := committed_enter H0 16 _ _ [103] c6
    (by decide) (by decide) (by decide) (by decide) (by decide)
  have c8 := committed_enter H0 16 _ _ [104] c7
    (by decide) (by decide) (by decide) (by decide) (by decide)
  have c9 := committed_enter H0 16 _ _ [105] c8
    (by decide) (by decide) (by decide) (by decide) (by decide)
  have c10 := committed_enter H0 16 _ _ [106] c9
    (by decide) (by decide) (by decide) (by decide) (by decide)
  convert c10 using 1

set_option maxRecDepth 100000 in
/-- At the demo: after the ten lines `a` to `j` the filled count is 9 and ten
presses of the up arrow leave `b`, the ninth most recent line, on the current
line. -/
theorem nine_lines_remembered_demo :
    CLI_MAX_HISTORY_LINES ≤ tenLines.reverse.length ∧
    tenEntered.LineCount = CLI_MAX_HISTORY_LINES - 1 ∧
    ∃ s1, pressUp H0 16 10 tenEntered = some s1 ∧ currentText s1 = bytes "b"
      ∧ s1.LineBack = 9 := by
  have h := nine_lines_remembered H0 16 tenLines.reverse tenEntered committed_tenEntered
    (by decide)
  obtain ⟨s1, p1, p2, p3⟩ := h.2.2 10 (by decide)
  exact ⟨by decide, h.1, s1, p1, p2.trans (by decide), p3⟩

theorem reachable_enterLine (H : Nat → Nat → List (List Nat) → Int) (fuel : Nat) (t : List Nat)
    (s : CLI_DataTypeDef) (h : Reachable H s) : Reachable H (enterLine H fuel t s) := by
  unfold enterLine feed
  cases hr : CLI_ProcessState H fuel (typeBytes (t ++ [13]) s) with
  | none => exact h
  | some r =>
    obtain ⟨b, s1⟩ := r
    exact Reachable.state fuel b _ s1 (reachable_typeBytes H _ s h) hr

theorem reachable_tenEntered : Reachable H0 tenEntered := by
  have key : ∀ (ts : List (List Nat)) (s : CLI_DataTypeDef), Reachable H0 s →
      Reachable H0 (ts.foldl (fun s t => enterLine H0 16 t s) s) := by
    intro ts
    induction ts with
    | nil => intro s h; exact h
    | cons t rest ih => intro s h; exact ih _ (reachable_enterLine H0 16 t s h)
  exact key tenLines demoBuilt (reachable_demoBuilt H0)

set_option maxRecDepth 100000 in
/-- C19 at the demo: after ten lines were entered the filled count is 9, the
bound. -/
theorem C19_history_counters_bounded_witness :
    Reachable H0 tenEntered ∧ tenEntered.LineCount = 9 ∧
    tenEntered.LineBack ≤ tenEntered.LineCount ∧
    tenEntered.LineCount ≤ CLI_MAX_HISTORY_LINES - 1 :=
  ⟨reachable_tenEntered, by decide,
    (C19_history_counters_bounded H0 tenEntered reachable_tenEntered).1,
    (C19_history_counters_bounded H0 tenEntered reachable_tenEntered).2.1⟩

/-- C20 at the demo: with `help` typed the line index is 4, within the text of
the current line and below the maximum. -/
theorem C20_lines_within_maximum_witness :
    Reachable H0 demoHelpTyped ∧ demoHelpTyped.lineIdx = 4 ∧
    demoHelpTyped.lineIdx ≤ CLI_MAX_LINE_LENGTH - 1 ∧
    demoHelpTyped.line.length = CLI_MAX_HISTORY_LINES :=
  have hr : Reachable H0 demoHelpTyped := reachable_typeBytes H0 _ _ (reachable_demoBuilt H0)
  ⟨hr, by decide, (C20_lines_within_maximum H0 demoHelpTyped hr).2.2.1,
    (C20_lines_within_maximum H0 demoHelpTyped hr).1⟩

/-! ## Claims C11 and C12: the tab completer -/

/-- C11 (the code departs from the claim): the registry holds `help` and
`helper` and `he` is typed; both names start with `he` and their longest common
prefix is `help`, yet `CLI_TabCompleter` returns 2 with the line still `he`:
`CLI_MatchChars` gives 0, not 2, for the remainders `lp` and `lper`, one of
which is a prefix of the other, and the names are listed instead. -/
theorem C11_common_prefix_that_is_a_name :
    (registry helpHelperTyped).map (fun e => e.Name) = [bytes "help", bytes "helper"] ∧
    currentText helpHelperTyped = bytes "he" ∧ helpHelperTyped.lineIdx = 2 ∧
    CLI_MatchChars (bytes "lp") (bytes "lper") = 0 ∧
    (CLI_TabCompleter 8 2 helpHelperTyped).map (fun r => (r.1, currentText r.2, r.2.lineIdx))
      = some (2, bytes "he", 2) := by
  decide

/-- The first-letter search returns no negative index once it entered its
loop. -/
theorem searchSorted_nonneg (arr : List CLI_CmdTypeDef) (c : Nat) (fuel : Nat)
    (startIndex count middle r : Int) (hs : 0 ≤ startIndex)
    (hm : startIndex ≤ count ∨ 0 ≤ middle)
    (h : searchSorted arr c fuel startIndex count middle = some r) : 0 ≤ r := by
  induction fuel generalizing startIndex count middle with
  | zero => exact absurd h (by simp [searchSorted])
  | succ n ih =>
    unfold searchSorted at h
    split at h
    · rename_i hle
      have hmid : 0 ≤ startIndex + (count - startIndex) / 2 := by omega
      split at h
      · exact absurd h (by simp)
      · split at h
        · simp only [Option.some.injEq] at h
          rw [← h]; exact hmid
        · split at h
          · exact ih _ _ _ (by omega) (Or.inr hmid) h
          · exact ih _ _ _ hs (Or.inr hmid) h
    · rename_i hgt
      simp only [Option.some.injEq] at h
      rw [← h]
      rcases hm with hm | hm
      · exact absurd hm hgt
      · exact hm

/-- With 256 commands or more and no candidate among the first 256 entries the
collecting loop of `CLI_TabCompleter` never ends: its index wraps to 0. -/
theorem completionLoop_diverges (arr : List CLI_CmdTypeDef) (cnt : Nat) (line : List Nat)
    (cmpLen : Nat) (hc : 256 ≤ cnt)
    (hno : ∀ j, j < 256 → ∃ e, arr[j]? = some e ∧
      ¬ (cmpLen > 0 ∧ strncmpEq e.Name line cmpLen = true)) :
    ∀ fuel i, i < 256 → completionLoop arr cnt line cmpLen fuel i [] = none := by
  intro fuel
  induction fuel with
  | zero => intro i _; rfl
  | succ n ih =>
    intro i hi
    obtain ⟨e, he, hne⟩ := hno i hi
    unfold completionLoop
    rw [if_pos ⟨by omega, by decide⟩, he]
    simp only
    rw [if_neg hne]
    exact ih _ (Nat.mod_lt _ (by decide))

set_option maxRecDepth 100000 in
theorem big_no_candidate_below_256 :
    ∀ j, j < 256 → ∃ e, (bigTable ++ [zeroCmd])[j]? = some e ∧
      ¬ (2 > 0 ∧ strncmpEq e.Name (bigName 256) 2 = true) := by
  decide

set_option maxRecDepth 100000 in
/-- C12 (the code departs from the claim): the registry built from the
257-entry table has exactly one name that starts with the typed `jw`, entry 256,
yet `CLI_TabCompleter` never returns, whatever the fuel: the index `i` of the
collecting loop is a `uint8_t` and wraps to 0 after 255, so entry 256 is never
reached and the line is never completed. -/
theorem C12_collecting_index_wraps :
    ((registry bigJwTyped).filter (fun e => strncmpEq e.Name (bigName 256) 2)).map
      (fun e => e.Name) = [bigName 256] ∧
    currentText bigJwTyped = bigName 256 ∧ bigJwTyped.lineIdx = 2 ∧
    ∀ fuel, CLI_TabCompleter fuel 2 bigJwTyped = none := by
  refine ⟨by decide, by decide, by decide, ?_⟩
  intro fuel
  have hm : bigJwTyped.cmnds = some (bigTable ++ [zeroCmd]) := by decide
  have hcnt : bigJwTyped.cmndsCount = 257 := by decide
  have hsorted : bigJwTyped.commandsSorted = true := by decide
  have htext : cstr (lineAt bigJwTyped bigJwTyped.lineCurrent) = bigName 256 := by decide
  unfold CLI_TabCompleter
  rw [hm]
  simp only
  unfold tabPreSearch
  rw [if_pos hsorted, hcnt, htext, hsorted]
  have hloop := completionLoop_diverges (bigTable ++ [zeroCmd]) 257 (bigName 256) 2 (by decide)
    big_no_candidate_below_256 fuel 0 (by decide)
  cases hsearch : CLI_SearchChar fuel 257 (some (bigTable ++ [zeroCmd])) 0 (257 : Nat)
      (bigName 256) false true with
  | none => rfl
  | some r =>
    simp only
    have hr : 0 ≤ r := by
      unfold CLI_SearchChar at hsearch
      simp only at hsearch
      rw [if_neg (by decide), if_pos trivial] at hsearch
      exact searchSorted_nonneg _ _ _ _ _ _ _ (by decide) (Or.inl (by decide)) hsearch
    rw [if_neg (by omega), hloop]

/-! ## The tab completer on a single candidate -/

/-- With at most 255 commands and fewer than 32 candidates the collecting loop
returns the names of the entries that agree with the line, in registry order. -/
theorem completionLoop_eq (arr : List CLI_CmdTypeDef) (cnt : Nat) (line : List Nat)
    (cmpLen : Nat) (hp : 0 < cmpLen) (hc : cnt ≤ 255) (hl : cnt ≤ arr.length) (fuel i : Nat)
    (acc : List (List Nat)) (hi : i ≤ cnt) (hf : cnt - i < fuel)
    (h32 : acc.length + (((arr.take cnt).drop i).filter
      (fun e => strncmpEq e.Name line cmpLen)).length < CLI_MAX_COMPLETIONS) :
    completionLoop arr cnt line cmpLen fuel i acc = some (acc ++
      (((arr.take cnt).drop i).filter (fun e => strncmpEq e.Name line cmpLen)).map
        (fun e => e.Name)) := by
  induction fuel generalizing i acc with
  | zero => omega
  | succ n ih =>
    unfold completionLoop
    by_cases hlt : i < cnt
    · have hia : i < arr.length := by omega
      have hit : i < (arr.take cnt).length := by rw [List.length_take]; omega
      have hd : (arr.take cnt).drop i = arr[i] :: (arr.take cnt).drop (i + 1) := by
        rw [List.drop_eq_getElem_cons hit, List.getElem_take]
      rw [hd] at h32 ⊢
      rw [if_pos ⟨hlt, by omega⟩, List.getElem?_eq_getElem hia]
      simp only
      have hm : (i + 1) % 256 = i + 1 := Nat.mod_eq_of_lt (by omega)
      rw [hm]
      by_cases hmatch : strncmpEq arr[i].Name line cmpLen = true
      · have hfc := @List.filter_cons_of_pos CLI_CmdTypeDef
          (fun e => strncmpEq e.Name line cmpLen) arr[i] ((arr.take cnt).drop (i + 1)) hmatch
        rw [if_pos ⟨hp, hmatch⟩, hfc]
        rw [hfc] at h32
        rw [ih (i + 1) _ (by omega) (by omega) (by
          rw [List.length_append, List.length_singleton]
          simp only [List.length_cons] at h32
          omega)]
        simp only [List.map_cons, List.append_assoc, List.singleton_append]
      · have hfc := @List.filter_cons_of_neg CLI_CmdTypeDef
          (fun e => strncmpEq e.Name line cmpLen) arr[i] ((arr.take cnt).drop (i + 1)) hmatch
        rw [if_neg (fun h => hmatch h.2), hfc]
        rw [hfc] at h32
        exact ih (i + 1) _ (by omega) (by omega) h32
    · have hi2 : i = cnt := by omega
      rw [if_neg (fun h => hlt h.1), hi2]
      have : (arr.take cnt).drop cnt = [] := by
        apply List.drop_of_length_le
        rw [List.length_take]
        omega
      rw [this]
      simp

/-- The text and the line index after `rewriteLine` with a prefix of a name. -/
theorem rewriteLine_text (c0 : List Nat) (idx : Nat) (s : CLI_DataTypeDef) (h : Inv s)
    (h0 : ∀ x ∈ c0, x ≠ 0) (hi : idx ≤ c0.length) (hc : c0.length ≤ 11) :
    currentText (rewriteLine c0 idx s) = c0.take idx := by
  have hlen := slot_length h.1 s.lineCurrent h.1.2.1
  obtain ⟨_, m2, _⟩ := cstr_memcpy (lineAt s s.lineCurrent) c0 idx h0 hi (by rw [hlen]; omega)
  unfold currentText lineAt
  rw [rewriteLine_line c0 idx s (by rw [h.1.1]; exact h.1.2.1)]
  show cstr ((s.line.set s.lineCurrent _).getD s.lineCurrent []) = _
  rw [getD_set_self _ _ _ (by rw [h.1.1]; exact h.1.2.1)]
  exact m2

/-- A single candidate: with at most 255 commands on a sorted array, a line that
is not empty with the index at its end, and exactly one registry entry, named
`n`, that agrees with the line, `CLI_TabCompleter` returns 1 and leaves `n`
followed by one space on the line, the line index after the space. -/
theorem tab_single_candidate (fuel : Nat) (s : CLI_DataTypeDef) (arr : List CLI_CmdTypeDef)
    (n : List Nat) (h : Inv s) (hm : s.cmnds = some arr) (hs : s.commandsSorted = true)
    (hc : s.cmndsCount ≤ 255) (hl : s.cmndsCount < arr.length) (hp : 0 < s.lineIdx)
    (hend : s.lineIdx = (currentText s).length)
    (hone : ((arr.take s.cmndsCount).filter
      (fun e => strncmpEq e.Name (currentText s) s.lineIdx)).map (fun e => e.Name) = [n])
    (hf : s.cmndsCount + 2 ≤ fuel) :
    ∃ s1, CLI_TabCompleter fuel s.lineIdx s = some (1, s1) ∧ currentText s1 = n ++ [32] ∧
      s1.lineIdx = n.length + 1 := by
  have hfl : ((arr.take s.cmndsCount).filter
      (fun e => strncmpEq e.Name (currentText s) s.lineIdx)).length = 1 := by
    have := congrArg List.length hone
    rw [List.length_map] at this
    exact this
  have hcnt0 : s.cmndsCount ≠ 0 := by
    intro e0
    rw [e0] at hfl
    simp at hfl
  have htext : currentText s ≠ [] := by
    intro e0
    rw [e0] at hend
    simp at hend
    omega
  -- the candidate is a name of the array that agrees with the line
  have hmem : n ∈ ((arr.take s.cmndsCount).filter
      (fun e => strncmpEq e.Name (currentText s) s.lineIdx)).map (fun e => e.Name) := by
    rw [hone]; exact List.mem_singleton_self n
  obtain ⟨e, he, hname⟩ := List.mem_map.mp hmem
  obtain ⟨he1, he2⟩ := List.mem_filter.mp he
  have hok := h.2.2.1 arr hm e (List.mem_of_mem_take he1)
  rw [hname] at hok he2
  have hlen := strncmpEq_length n (currentText s) s.lineIdx hok.2 (cstr_nonzero _)
    (by rw [hend]) he2
  have hn11 : n.length ≤ 11 := hok.1
  -- the first-letter search
  have hpre : ∃ r, tabPreSearch fuel arr s = some r ∧ r ≠ -1 := by
    unfold tabPreSearch
    rw [if_pos hs]
    unfold CLI_SearchChar
    simp only
    rw [if_neg (by
      intro hx
      rcases hx with hx | hx | hx
      · exact hcnt0 (by exact_mod_cast hx)
      · omega
      · exact htext hx), if_pos hs]
    obtain ⟨r, hr⟩ := searchSorted_returns arr ((cstr (lineAt s s.lineCurrent)).headD 0) fuel 0
      (s.cmndsCount : Int) (-1) (le_refl 0) (by omega) (by omega)
    refine ⟨r, hr, ?_⟩
    have := searchSorted_nonneg _ _ _ _ _ _ _ (le_refl 0) (Or.inl (by omega)) hr
    omega
  obtain ⟨r, hr1, hr2⟩ := hpre
  have hloop := completionLoop_eq arr s.cmndsCount (currentText s) s.lineIdx hp hc
    (by omega) fuel 0 [] (Nat.zero_le _) (by omega)
    (by
      rw [List.drop_zero, hfl]
      decide)
  rw [List.drop_zero, hone, List.nil_append] at hloop
  have hplen : completionPlen s.lineIdx n [] = n.length - s.lineIdx := by
    unfold completionPlen narrowPlen
    rw [List.length_drop]
    exact Nat.mod_eq_of_lt (by omega)
  have hidx : (s.lineIdx + completionPlen s.lineIdx n []) % 256 = n.length := by
    rw [hplen]
    have : s.lineIdx + (n.length - s.lineIdx) = n.length := by omega
    rw [this]
    exact Nat.mod_eq_of_lt (by omega)
  obtain ⟨r1, r2⟩ := inv_rewriteLine n n.length s h hok.2 (Nat.le_refl _) hn11
  have r3 := rewriteLine_text n n.length s h hok.2 (Nat.le_refl _) hn11
  rw [List.take_length] at r3
  obtain ⟨x1, x2⟩ := storeChar_text 32 (rewriteLine n n.length s) r1 (by decide)
    (by rw [r2]; show n.length < 79; omega)
  rw [r3, r2, List.take_length] at x1
  rw [r2] at x2
  have hres : CLI_TabCompleter fuel s.lineIdx s
      = some (1, applyCompletion s.lineIdx n [] s) := by
    unfold CLI_TabCompleter
    rw [hm]
    simp only
    rw [hr1]
    simp only
    rw [if_neg (fun hx => hr2 hx.2)]
    have e1 : cstr (lineAt s s.lineCurrent) = currentText s := rfl
    rw [e1, hloop]
    rfl
  refine ⟨_, hres, ?_, ?_⟩
  · unfold applyCompletion
    rw [if_pos rfl, hidx, appendSpace_eq]
    have t := traceOnly_completionOutput (completionPlen s.lineIdx n []) s.lineIdx [n]
      (storeChar 32 (rewriteLine n n.length s))
    unfold currentText
    rw [(traceOnly_fields t).2.2.1, lineAt_traceOnly t]
    exact x1
  · unfold applyCompletion
    rw [if_pos rfl, hidx, appendSpace_eq]
    have t := traceOnly_completionOutput (completionPlen s.lineIdx n []) s.lineIdx [n]
      (storeChar 32 (rewriteLine n n.length s))
    rw [(traceOnly_fields t).2.1]
    exact x2

/-- At the demo: `ver` completes to `version` and one space. -/
theorem tab_single_candidate_demo :
    ∃ s1, CLI_TabCompleter 7 3 (typeBytes (bytes "ver") demoBuilt) = some (1, s1) ∧
      currentText s1 = bytes "version " ∧ s1.lineIdx = 8 :=
  tab_single_candidate 7 (typeBytes (bytes "ver") demoBuilt) (registry demoBuilt ++ [zeroCmd])
    (bytes "version")
    (reachable_inv H0 _ (reachable_typeBytes H0 _ _ (reachable_demoBuilt H0)))
    (by decide) (by decide) (by decide) (by decide) (by decide) (by decide) (by decide)
    (by decide)

/-! ## Claims C23, C24 and C26: the return value, the initialisation, the carriage return -/

/-- C23 (the code departs from the claim): `CLI_ProcessChar` returns false for
every byte in every state: `commandTriggered` is never set.  At the demo, the
carriage return that completes the line `help` sets the pending action to
execute, and the function still returns false. -/
theorem C23_return_value_always_false :
    (∀ (c : Nat) (s : CLI_DataTypeDef), (CLI_ProcessChar c s).1 = false) ∧
    currentText demoHelpTyped = bytes "help" ∧
    (CLI_ProcessChar 13 demoHelpTyped).2.execType = CLI_ExecTypeDef.CLI_Exec_SearchAndExec ∧
    (CLI_ProcessChar 13 demoHelpTyped).1 = false := by
  refine ⟨?_, by decide, by decide, by decide⟩
  intro c s
  unfold CLI_ProcessChar
  repeat' split
  all_goals rfl

/-- C24: `CLI_Init` returns false and leaves the engine state as it was when the
configuration is absent or the engine is initialised already; otherwise it
returns true, marks the engine initialised, stores the echo and auto-lowercase
flags of the configuration and installs the escape rules of the echo flag: with
echo the four arrow keys as `[A`, `[B`, `[C`, `[D`, without echo the tab key as
`T` and the four arrow keys as `A`, `B`, `C`, `D`. -/
theorem C24_init (cliInit : Option CLI_InitTypeDef) (s : CLI_DataTypeDef) :
    (cliInit = none ∨ s.initialized = true → CLI_Init cliInit s = (false, s)) ∧
    (∀ cfg, cliInit = some cfg → s.initialized = false →
      (CLI_Init cliInit s).1 = true ∧ (CLI_Init cliInit s).2.initialized = true ∧
      (CLI_Init cliInit s).2.echo = cfg.echo ∧
      (CLI_Init cliInit s).2.autoLowerCase = cfg.autoLowerCase ∧
      (CLI_Init cliInit s).2.escapeSequence = escapeRules cfg.echo) ∧
    escapeRules true = [⟨bytes "[A", CLI_ARROW_UP⟩, ⟨bytes "[B", CLI_ARROW_DOWN⟩,
      ⟨bytes "[C", CLI_ARROW_RIGHT⟩, ⟨bytes "[D", CLI_ARROW_LEFT⟩] ∧
    escapeRules false = [⟨bytes "T", CLI_TAB⟩, ⟨bytes "A", CLI_ARROW_UP⟩,
      ⟨bytes "B", CLI_ARROW_DOWN⟩, ⟨bytes "C", CLI_ARROW_RIGHT⟩, ⟨bytes "D", CLI_ARROW_LEFT⟩] := by
  refine ⟨?_, ?_, by decide, by decide⟩
  · intro h
    unfold CLI_Init
    cases cliInit with
    | none => rfl
    | some cfg =>
      rcases h with h | h
      · exact absurd h (by simp)
      · simp only
        rw [if_pos h]
  · intro cfg hc hi
    subst hc
    unfold CLI_Init
    simp only
    rw [if_neg (by rw [hi]; simp)]
    refine ⟨rfl, rfl, ?_, ?_, ?_⟩
    · show (if cfg.printPrompt = true then CLI_PrintPrompt 1 (storeConfig cfg s)
        else storeConfig cfg s).echo = cfg.echo
      split
      · exact (traceOnly_fields (traceOnly_PrintPrompt 1 (storeConfig cfg s))).2.2.2.2.2.2.1
      · rfl
    · show (if cfg.printPrompt = true then CLI_PrintPrompt 1 (storeConfig cfg s)
        else storeConfig cfg s).autoLowerCase = cfg.autoLowerCase
      split
      · exact (traceOnly_fields2 (traceOnly_PrintPrompt 1 (storeConfig cfg s))).1
      · rfl
    · show (if cfg.printPrompt = true then CLI_PrintPrompt 1 (storeConfig cfg s)
        else storeConfig cfg s).escapeSequence = escapeRules cfg.echo
      split
      · exact (traceOnly_fields2 (traceOnly_PrintPrompt 1 (storeConfig cfg s))).2.1
      · rfl

/-- C24 at the demo: the first call with the configuration of main.c succeeds
and installs the rules of the echo mode; a second call, and a call without a
configuration, fail and leave the state as it was. -/
theorem C24_init_witness :
    ((CLI_Init (some demoInit) gCliData0).1 = true ∧
      (CLI_Init (some demoInit) gCliData0).2.initialized = true ∧
      (CLI_Init (some demoInit) gCliData0).2.echo = true ∧
      (CLI_Init (some demoInit) gCliData0).2.autoLowerCase = false ∧
      (CLI_Init (some demoInit) gCliData0).2.escapeSequence = escapeRules true) ∧
    CLI_Init (some demoInit) demoBuilt = (false, demoBuilt) ∧
    CLI_Init none gCliData0 = (false, gCliData0) :=
  ⟨(C24_init (some demoInit) gCliData0).2.1 demoInit rfl rfl,
    (C24_init (some demoInit) demoBuilt).1 (Or.inr (by decide)),
    (C24_init none gCliData0).1 (Or.inl rfl)⟩

/-- The text of the current line after `clearCurrent`. -/
theorem clearCurrent_text (s : CLI_DataTypeDef) (h : SlotsOk s) :
    currentText (clearCurrent s) = [] ∧ (clearCurrent s).lineIdx = 0 ∧
    (clearCurrent s).lineCurrent = s.lineCurrent ∧
    ∀ j, j ≠ s.lineCurrent → lineAt (clearCurrent s) j = lineAt s j := by
  have hlen := slot_length h s.lineCurrent h.2.1
  refine ⟨?_, rfl, rfl, ?_⟩
  · show cstr ((s.line.set s.lineCurrent ((lineAt s s.lineCurrent).set 0 0)).getD
      s.lineCurrent []) = []
    rw [getD_set_self _ _ _ (by rw [h.1]; exact h.2.1)]
    exact cstr_set_zero _ 0 (Nat.zero_le _) (by rw [hlen]; decide)
  · intro j hj
    show (s.line.set s.lineCurrent ((lineAt s s.lineCurrent).set 0 0)).getD j [] = _
    rw [getD_set_other _ _ _ _ (Ne.symm hj)]
    rfl

/-- A carriage return on a listening engine runs `case '\r'`. -/
theorem char_keyReturn (s : CLI_DataTypeDef) (hl : Listening s) :
    (CLI_ProcessChar 13 s).2 = keyReturn s := by
  rw [char_normal 13 s hl.1 hl.2.1 hl.2.2.1 hl.2.2.2.1 (by decide) (by decide)]
  unfold processKey
  rw [if_neg (by decide), if_pos rfl]

/-- C26: on a carriage return that reaches the `switch` of `CLI_ProcessChar`
(engine initialised, commands array built, no action pending, not in escape
mode), in a well-formed state: when the engine is locked the current line is
discarded (line index 0, empty text), the current slot index and the other
slots are kept and no action becomes pending; when it is unlocked the pending
action becomes execute, the worker is alerted and the slots, the line index and
the current slot index are left as they are; in both cases the history step-back
counter is reset to 0. -/
theorem C26_carriage_return (s : CLI_DataTypeDef) (h : Inv s) (hl : Listening s) :
    (s.locked = true →
      (CLI_ProcessChar 13 s).2.lineIdx = 0 ∧ currentText (CLI_ProcessChar 13 s).2 = [] ∧
      (CLI_ProcessChar 13 s).2.lineCurrent = s.lineCurrent ∧
      (∀ j, j ≠ s.lineCurrent → lineAt (CLI_ProcessChar 13 s).2 j = lineAt s j) ∧
      (CLI_ProcessChar 13 s).2.execType = CLI_ExecTypeDef.CLI_Exec_Nothing ∧
      (CLI_ProcessChar 13 s).2.trace = s.trace) ∧
    (s.locked = false →
      (CLI_ProcessChar 13 s).2.execType = CLI_ExecTypeDef.CLI_Exec_SearchAndExec ∧
      (CLI_ProcessChar 13 s).2.line = s.line ∧ (CLI_ProcessChar 13 s).2.lineIdx = s.lineIdx ∧
      (CLI_ProcessChar 13 s).2.lineCurrent = s.lineCurrent ∧
      (CLI_ProcessChar 13 s).2.trace = s.trace ++ [Event.alert]) ∧
    (CLI_ProcessChar 13 s).2.LineBack = 0 := by
  rw [char_keyReturn s hl]
  refine ⟨?_, ?_, rfl⟩
  · intro hk
    have e : keyReturn s = { clearCurrent s with LineBack := 0 } := by
      unfold keyReturn
      rw [if_pos hk]
    rw [e]
    obtain ⟨c1, c2, c3, c4⟩ := clearCurrent_text s h.1
    exact ⟨c2, c1, c3, c4, hl.2.2.1, rfl⟩
  · intro hk
    have e : keyReturn s = { CLI_TaskAlert { s with
        execType := CLI_ExecTypeDef.CLI_Exec_SearchAndExec } with LineBack := 0 } := by
      unfold keyReturn
      rw [if_neg (by rw [hk]; simp)]
    rw [e]
    exact ⟨rfl, rfl, rfl, rfl, rfl⟩

theorem inv_demoHelpTyped : Inv demoHelpTyped :=
  reachable_inv H0 _ (reachable_typeBytes H0 _ _ (reachable_demoBuilt H0))

theorem inv_demoLocked : Inv demoLocked :=
  inv_same inv_demoHelpTyped rfl rfl rfl rfl (by decide) rfl

theorem listening_demoHelpTyped : Listening demoHelpTyped :=
  ⟨by decide, by decide, by decide, by decide, by decide⟩

theorem listening_demoLocked : Listening demoLocked :=
  ⟨by decide, by decide, by decide, by decide, by decide⟩

/-- C26 at the demo with `help` typed in: locked, the carriage return empties
the line; unlocked, it leaves `help` on the line and asks for its execution. -/
theorem C26_carriage_return_witness :
    (currentText demoLocked = bytes "help" ∧
      (CLI_ProcessChar 13 demoLocked).2.lineIdx = 0 ∧
      currentText (CLI_ProcessChar 13 demoLocked).2 = [] ∧
      (CLI_ProcessChar 13 demoLocked).2.execType = CLI_ExecTypeDef.CLI_Exec_Nothing) ∧
    ((CLI_ProcessChar 13 demoHelpTyped).2.execType = CLI_ExecTypeDef.CLI_Exec_SearchAndExec ∧
      currentText (CLI_ProcessChar 13 demoHelpTyped).2 = bytes "help") ∧
    (CLI_ProcessChar 13 demoLocked).2.LineBack = 0 := by
  have a := C26_carriage_return demoLocked inv_demoLocked listening_demoLocked
  have b := C26_carriage_return demoHelpTyped inv_demoHelpTyped listening_demoHelpTyped
  refine ⟨⟨by decide, (a.1 rfl).1, (a.1 rfl).2.1, (a.1 rfl).2.2.2.2.1⟩, ⟨(b.2.1 rfl).1, ?_⟩, a.2.2⟩
  unfold currentText lineAt
  rw [(b.2.1 rfl).2.1, (b.2.1 rfl).2.2.2.1]
  decide

/-! ## Claims C27 to C29 and C21: typing, erasing and the full line -/

/-- C27: for every byte `c` from 1 to 127 other than ESC, CR, TAB and BS that
reaches the `switch` of `CLI_ProcessChar` outside escape mode (engine
initialised, commands array built, no action pending) in a well-formed state
whose line index is below 79: the current line becomes its first `lineIdx`
characters followed by the stored byte, which is `c` lower-cased when
auto-lowercase is configured and `c` itself otherwise; the line index grows by
one; the byte after the text is the NUL terminator; the history step-back
counter becomes 0; the other slots, the current slot index and the pending
action are as they were. -/
theorem C27_plain_byte_appended (c : Nat) (s : CLI_DataTypeDef) (h : Inv s) (hl : Listening s)
    (hp : plainByte c) (hi : s.lineIdx < CLI_MAX_LINE_LENGTH - 1) :
    currentText (CLI_ProcessChar c s).2 = (currentText s).take s.lineIdx ++ [lowerIfAuto c s] ∧
    lowerIfAuto c s = (if s.autoLowerCase = true ∧ 65 ≤ c ∧ c ≤ 90 then c + 32 else c) ∧
    (CLI_ProcessChar c s).2.lineIdx = s.lineIdx + 1 ∧
    (currentText (CLI_ProcessChar c s).2).length = s.lineIdx + 1 ∧
    (lineAt (CLI_ProcessChar c s).2 s.lineCurrent)[s.lineIdx + 1]? = some 0 ∧
    (CLI_ProcessChar c s).2.LineBack = 0 ∧
    (∀ j, j ≠ s.lineCurrent → lineAt (CLI_ProcessChar c s).2 j = lineAt s j) ∧
    (CLI_ProcessChar c s).2.lineCurrent = s.lineCurrent ∧
    (CLI_ProcessChar c s).2.execType = s.execType := by
  have ht := typed_char c s hl hp hi
  have f := traceOnly_fields ht
  have hc0 := lowerIfAuto_ne_zero c s hp.1
  obtain ⟨x1, x2⟩ := storeChar_text (lowerIfAuto c s) s h hc0 hi
  have hcur : (CLI_ProcessChar c s).2.lineCurrent = s.lineCurrent := f.2.2.1
  have hidx : s.lineIdx ≤ (currentText s).length := h.2.1
  have hinv := inv_ProcessChar c s h
  have htext : currentText (CLI_ProcessChar c s).2
      = (currentText s).take s.lineIdx ++ [lowerIfAuto c s] := by
    have e : currentText (CLI_ProcessChar c s).2 = currentText (storeChar (lowerIfAuto c s) s) := by
      unfold currentText
      rw [hcur, lineAt_traceOnly ht]
      rfl
    rw [e, x1]
  have hlen : (currentText (CLI_ProcessChar c s).2).length = s.lineIdx + 1 := by
    rw [htext, List.length_append, List.length_take, List.length_singleton]
    omega
  refine ⟨htext, ?_, ?_, hlen, ?_, f.2.2.2.2.1, ?_, hcur, f.2.2.2.2.2.1⟩
  · unfold lowerIfAuto tolower
    by_cases ha : s.autoLowerCase = true
    · rw [if_pos ha]
      by_cases hu : 65 ≤ c ∧ c ≤ 90
      · rw [if_pos hu, if_pos ⟨ha, hu⟩]
      · rw [if_neg hu, if_neg (fun x => hu x.2)]
    · rw [if_neg ha, if_neg (fun x => ha x.1)]
  · rw [f.2.1]; exact x2
  · have hl96 := slot_length hinv.1 s.lineCurrent h.1.2.1
    have hterm := cstr_terminated (lineAt (CLI_ProcessChar c s).2 s.lineCurrent) (by
      have h79 := slot_text hinv.1 s.lineCurrent h.1.2.1
      rw [hl96]
      omega)
    have e2 : (cstr (lineAt (CLI_ProcessChar c s).2 s.lineCurrent)).length = s.lineIdx + 1 := by
      rw [← hcur]
      exact hlen
    rw [e2] at hterm
    exact hterm
  · intro j hj
    rw [lineAt_traceOnly ht]
    exact storeChar_other _ s h j hj

/-- C27 at the demo with `help` typed in: the letter `X` is stored as it is,
after the four characters of the line. -/
theorem C27_plain_byte_appended_witness :
    currentText (CLI_ProcessChar 88 demoHelpTyped).2 = bytes "helpX" ∧
    (CLI_ProcessChar 88 demoHelpTyped).2.lineIdx = 5 ∧
    (CLI_ProcessChar 88 demoHelpTyped).2.LineBack = 0 := by
  have a := C27_plain_byte_appended 88 demoHelpTyped inv_demoHelpTyped listening_demoHelpTyped
    (by decide) (by decide)
  refine ⟨?_, a.2.2.1, a.2.2.2.2.2.1⟩
  rw [a.1]
  decide

/-- A backspace on a listening engine runs `case '\b'`. -/
theorem char_keyBackspace (s : CLI_DataTypeDef) (hl : Listening s) :
    (CLI_ProcessChar 8 s).2 = keyBackspace s := by
  rw [char_normal 8 s hl.1 hl.2.1 hl.2.2.1 hl.2.2.2.1 (by decide) (by decide)]
  unfold processKey
  rw [if_neg (by decide), if_neg (by decide), if_neg (by decide), if_pos rfl]

/-- `CLI_EraseChar` with a line index that is not 0, up to the trace. -/
theorem eraseChar_store (s : CLI_DataTypeDef) (h : s.lineIdx ≠ 0) :
    TraceOnly (pokeLine s.lineCurrent (s.lineIdx - 1) 0 { s with lineIdx := s.lineIdx - 1 })
      (CLI_EraseChar s) := by
  unfold CLI_EraseChar
  rw [if_pos h]
  exact traceOnly_Print _ _ _

/-- A backspace goes by the line index: with the line index at `k > 0` in a
well-formed state the current line becomes its first `k - 1` characters and the
line index `k - 1`; with the line index at 0 the slots and the line index stay
as they are and nothing is written; in both cases the other slots, the current
slot index and the pending action are as they were and the history step-back
counter is 0. -/
theorem backspace_by_index (s : CLI_DataTypeDef) (h : Inv s) (hl : Listening s) :
    (s.lineIdx ≠ 0 →
      currentText (CLI_ProcessChar 8 s).2 = (currentText s).take (s.lineIdx - 1) ∧
      (CLI_ProcessChar 8 s).2.lineIdx = s.lineIdx - 1) ∧
    (s.lineIdx = 0 →
      (CLI_ProcessChar 8 s).2.line = s.line ∧ (CLI_ProcessChar 8 s).2.lineIdx = 0 ∧
      (CLI_ProcessChar 8 s).2.trace = s.trace) ∧
    (∀ j, j ≠ s.lineCurrent → lineAt (CLI_ProcessChar 8 s).2 j = lineAt s j) ∧
    (CLI_ProcessChar 8 s).2.lineCurrent = s.lineCurrent ∧
    (CLI_ProcessChar 8 s).2.execType = s.execType ∧
    (CLI_ProcessChar 8 s).2.LineBack = 0 := by
  rw [char_keyBackspace s hl]
  have hcurlt : s.lineCurrent < s.line.length := by rw [h.1.1]; exact h.1.2.1
  by_cases hz : s.lineIdx = 0
  · have e : keyBackspace s = { s with LineBack := 0 } := by
      unfold keyBackspace CLI_EraseChar
      rw [if_neg (by rw [hz]; simp)]
    rw [e]
    exact ⟨fun hne => absurd hz hne, fun _ => ⟨rfl, hz, rfl⟩, fun _ _ => rfl, rfl, rfl, rfl⟩
  · have ht := eraseChar_store s hz
    have f := traceOnly_fields ht
    have hlen := slot_length h.1 s.lineCurrent h.1.2.1
    have hidx : s.lineIdx ≤ (cstr (lineAt s s.lineCurrent)).length := h.2.1
    have htext := slot_text h.1 s.lineCurrent h.1.2.1
    have hline : (CLI_EraseChar s).line
        = s.line.set s.lineCurrent ((lineAt s s.lineCurrent).set (s.lineIdx - 1) 0) := f.1
    have hcur : (CLI_EraseChar s).lineCurrent = s.lineCurrent := f.2.2.1
    refine ⟨fun _ => ⟨?_, ?_⟩, fun hq => absurd hq hz, ?_, ?_, ?_, rfl⟩
    · show cstr ((CLI_EraseChar s).line.getD (CLI_EraseChar s).lineCurrent []) = _
      rw [hline, hcur, getD_set_self _ _ _ hcurlt]
      exact cstr_set_zero _ _ (by omega) (by rw [hlen]; omega)
    · show (CLI_EraseChar s).lineIdx = s.lineIdx - 1
      exact f.2.1
    · intro j hj
      show (CLI_EraseChar s).line.getD j [] = _
      rw [hline, getD_set_other _ _ _ _ (Ne.symm hj)]
      rfl
    · show (CLI_EraseChar s).lineCurrent = s.lineCurrent
      exact hcur
    · show (CLI_EraseChar s).execType = s.execType
      exact f.2.2.2.2.2.1

/-- A backspace at the end of the line: when the line index is the length `n`
of the current line, as it is after typing, recalling or completing a line,
the line loses its last character for `n > 0` and stays empty for `n = 0`. -/
theorem backspace_at_line_end (s : CLI_DataTypeDef) (h : Inv s) (hl : Listening s)
    (hend : s.lineIdx = (currentText s).length) :
    currentText (CLI_ProcessChar 8 s).2 = (currentText s).take ((currentText s).length - 1) ∧
    (CLI_ProcessChar 8 s).2.lineIdx = (currentText s).length - 1 := by
  have a := backspace_by_index s h hl
  by_cases hz : s.lineIdx = 0
  · obtain ⟨a1, a2, _⟩ := a.2.1 hz
    have hnil : currentText s = [] := List.length_eq_zero.mp (by rw [← hend]; exact hz)
    have hcur : (CLI_ProcessChar 8 s).2.lineCurrent = s.lineCurrent := a.2.2.2.1
    constructor
    · show cstr ((CLI_ProcessChar 8 s).2.line.getD (CLI_ProcessChar 8 s).2.lineCurrent []) = _
      rw [a1, hcur, hnil]
      exact hnil
    · rw [a2, hnil]
      rfl
  · obtain ⟨a1, a2⟩ := a.1 hz
    rw [a1, a2, hend]
    exact ⟨rfl, rfl⟩

/-- A plain byte on a line whose index is at 79: only the line index and the
history step-back counter are reset, the slots keep their bytes. -/
theorem overflow_char (c : Nat) (s : CLI_DataTypeDef) (hl : Listening s) (hp : plainByte c)
    (hi : ¬ s.lineIdx < CLI_MAX_LINE_LENGTH - 1) :
    (CLI_ProcessChar c s).2 = { s with lineIdx := 0, LineBack := 0 } := by
  rw [char_normal c s hl.1 hl.2.1 hl.2.2.1 hl.2.2.2.1 hp.1 hp.2.1, processKey_plain c s hp]
  unfold keyDefault
  rw [if_neg hi]

set_option maxRecDepth 100000 in
/-- C21 (the code departs from the claim): in the demo the 79 characters of
`line79` are typed on the empty line and one more letter follows.  The line
index goes back to 0 but the current line still holds the 79 characters; the
carriage return that follows executes them (the handler of `help` is called once
with two arguments) and they are added to the history, whereas a carriage return
on an empty line calls no handler and adds nothing. -/
theorem C21_overflow_keeps_the_text :
    (currentText (typeBytes line79 demoBuilt) = line79 ∧
      (typeBytes line79 demoBuilt).lineIdx = 79) ∧
    (demoOverflow.lineIdx = 0 ∧ currentText demoOverflow = line79) ∧
    (feed H0 16 [13] demoOverflow).map (fun s => (calls s.trace, s.LineCount, textBack s 1))
      = some ([Event.call 1 2 [bytes "help", List.replicate 74 120]], 1, line79) ∧
    (feed H0 16 [13] demoBuilt).map (fun s => (calls s.trace, s.LineCount)) = some ([], 0) := by
  decide

set_option maxRecDepth 100000 in
/-- C28 (the code departs from the claim): after the overflow of `demoOverflow`
the current line holds 79 characters and the line index is 0; the backspace
tests the line index, so the line keeps its 79 characters and the line index
stays 0. -/
theorem C28_backspace_after_overflow :
    (currentText demoOverflow).length = 79 ∧ demoOverflow.lineIdx = 0 ∧
    currentText (CLI_ProcessChar 8 demoOverflow).2 = currentText demoOverflow ∧
    (CLI_ProcessChar 8 demoOverflow).2.lineIdx = 0 := by
  decide

/-- C29 (the claim fails): with local echo off, the backspace after `he` still
sends backspace, space, backspace to the terminal. -/
theorem C29_erase_sequence_without_echo :
    quietBuilt.echo = false ∧
    currentText (typeBytes (bytes "he") quietBuilt) = bytes "he" ∧
    (CLI_ProcessChar 8 (typeBytes (bytes "he") quietBuilt)).2.trace
      = (typeBytes (bytes "he") quietBuilt).trace
        ++ [Event.out 8, Event.out 32, Event.out 8] := by
  decide

/-- C29 (amended): a backspace that reaches the `switch` of `CLI_ProcessChar`
writes the erase sequence backspace, space, backspace through `CLI_PutByte`
whenever the line index is not 0, with local echo on or off (the bytes go out
when a `putc` handler is installed); when the line index is 0 nothing is
written. -/
theorem C29_erase_sequence_whatever_echo (s : CLI_DataTypeDef) (hl : Listening s) :
    (s.lineIdx ≠ 0 →
      (CLI_ProcessChar 8 s).2.trace = s.trace ++ outs s.putc [8, 32, 8]) ∧
    (s.lineIdx = 0 → (CLI_ProcessChar 8 s).2.trace = s.trace) := by
  rw [char_keyBackspace s hl]
  constructor
  · intro hz
    show (CLI_EraseChar s).trace = _
    unfold CLI_EraseChar
    rw [if_pos hz, trace_Print]
    rfl
  · intro hz
    show (CLI_EraseChar s).trace = _
    unfold CLI_EraseChar
    rw [if_neg (by rw [hz]; simp)]

/-- C29 (amended) at the demo: with local echo on and with local echo off the
backspace after typed text writes the three bytes; on the empty line it writes
nothing. -/
theorem C29_erase_sequence_whatever_echo_witness :
    (demoHelpTyped.echo = true ∧ (CLI_ProcessChar 8 demoHelpTyped).2.trace
      = demoHelpTyped.trace ++ [Event.out 8, Event.out 32, Event.out 8]) ∧
    (CLI_ProcessChar 8 demoBuilt).2.trace = demoBuilt.trace :=
  ⟨⟨by decide,
    (C29_erase_sequence_whatever_echo demoHelpTyped listening_demoHelpTyped).1 (by decide)⟩,
   (C29_erase_sequence_whatever_echo demoBuilt
      ⟨by decide, by decide, by decide, by decide, by decide⟩).2 (by decide)⟩

/-! ## Claim C30: the retrieval of a history line -/

/-- C30: in a well-formed state, as every reachable state is,
`cliRetrieveHistory` with the step-back counter at `LineBack` returns true and
sets the text of the current slot to the text stored in slot
`(lineCurrent + 10 - LineBack) mod 10` and the line index to the length of that
text; every other slot, the current slot index, the filled count and the
step-back counter are as they were; and for every step-back from 1 to the filled
count the source slot is not the current slot. -/
theorem C30_retrieve_history (s : CLI_DataTypeDef) (h : Inv s) :
    (cliRetrieveHistory s).1 = true ∧
    currentText (cliRetrieveHistory s).2
      = cstr (lineAt s ((s.lineCurrent + CLI_MAX_HISTORY_LINES - s.LineBack)
          % CLI_MAX_HISTORY_LINES)) ∧
    (cliRetrieveHistory s).2.lineIdx
      = (cstr (lineAt s ((s.lineCurrent + CLI_MAX_HISTORY_LINES - s.LineBack)
          % CLI_MAX_HISTORY_LINES))).length ∧
    (∀ j, j ≠ s.lineCurrent → lineAt (cliRetrieveHistory s).2 j = lineAt s j) ∧
    (cliRetrieveHistory s).2.lineCurrent = s.lineCurrent ∧
    (cliRetrieveHistory s).2.LineCount = s.LineCount ∧
    (cliRetrieveHistory s).2.LineBack = s.LineBack ∧
    (∀ k, 1 ≤ k → k ≤ s.LineCount →
      (s.lineCurrent + CLI_MAX_HISTORY_LINES - k) % CLI_MAX_HISTORY_LINES ≠ s.lineCurrent) := by
  have ht := retrieve_copy s
  have f := traceOnly_fields ht
  obtain ⟨c1, c2, c3, c4, c5⟩ := copy_fields s h
  have hcur : s.lineCurrent < 10 := h.1.2.1
  have hb : s.LineBack ≤ 9 := le_trans h.2.2.2.1 h.2.2.2.2
  have hcnt : s.LineCount ≤ 9 := h.2.2.2.2
  have h10 : CLI_MAX_HISTORY_LINES = 10 := rfl
  have hidx : historyIdx s = (s.lineCurrent + 10 - s.LineBack) % 10 := by
    unfold historyIdx
    rw [h10]
    omega
  have hsrc := slot_text h.1 (historyIdx s) (historyIdx_lt s)
  have hcur2 : (cliRetrieveHistory s).2.lineCurrent = s.lineCurrent := by
    rw [f.2.2.1]; exact c3
  rw [h10]
  refine ⟨rfl, ?_, ?_, ?_, hcur2, ?_, ?_, ?_⟩
  · have e : currentText (cliRetrieveHistory s).2 = currentText (copyHistoryLine s) := by
      unfold currentText
      rw [hcur2, lineAt_traceOnly ht, c3]
    rw [e, c1]
    rfl
  · rw [f.2.1, ← hidx]
    show (cstr (lineAt s (historyIdx s))).length % 256 = _
    exact Nat.mod_eq_of_lt (by omega)
  · intro j hj
    rw [lineAt_traceOnly ht]
    exact c2 j hj
  · rw [f.2.2.2.1]; exact c4
  · rw [f.2.2.2.2.1]; exact c5
  · intro k h1 hk
    omega

theorem reachable_demoUpPressed : Reachable H0 demoUpPressed :=
  reachable_typeBytes H0 _ _
    (reachable_enterLine H0 16 _ _ (reachable_enterLine H0 16 _ _ (reachable_demoBuilt H0)))

set_option maxRecDepth 100000 in
/-- C30 at the demo: after `help` and `version` were entered and the up arrow
was pressed once, the retrieval copies `version` from slot 1 into the current
slot 2 and sets the line index to 7. -/
theorem C30_retrieve_history_witness :
    (demoUpPressed.lineCurrent = 2 ∧ demoUpPressed.LineBack = 1 ∧
      cstr (lineAt demoUpPressed 1) = bytes "version") ∧
    currentText (cliRetrieveHistory demoUpPressed).2 = bytes "version" ∧
    (cliRetrieveHistory demoUpPressed).2.lineIdx = 7 ∧
    lineAt (cliRetrieveHistory demoUpPressed).2 1 = lineAt demoUpPressed 1 := by
  have a := C30_retrieve_history demoUpPressed (reachable_inv H0 _ reachable_demoUpPressed)
  refine ⟨by decide, ?_, ?_, a.2.2.2.1 1 (by decide)⟩
  · rw [a.2.1]
    decide
  · rw [a.2.2.1]
    decide

/-! ## Claim C25: the line after the execute action -/

/-- The history step on a well-formed state: the new current slot is empty, the
line index is 0, and the slot before the new current slot holds the text of the
line the step was taken for. -/
theorem commitLine_text (s : CLI_DataTypeDef) (h : Inv s) :
    currentText (commitLine s) = [] ∧ (commitLine s).lineIdx = 0 ∧
    textBack (commitLine s) 1 = currentText s := by
  have hcur : s.lineCurrent < 10 := h.1.2.1
  have hlen10 : s.line.length = 10 := h.1.1
  by_cases hd : currentText s = textBack s 1
  · obtain ⟨c1, c2, _, c4, _⟩ := commitLine_same s h hd
    have hlen := slot_length h.1 s.lineCurrent hcur
    refine ⟨?_, c4, ?_⟩
    · show cstr ((commitLine s).line.getD (commitLine s).lineCurrent []) = []
      rw [c1, c2, getD_set_self _ _ _ (by rw [hlen10]; exact hcur)]
      exact cstr_set_zero _ 0 (Nat.zero_le _) (by rw [hlen]; decide)
    · rw [textBack_slot, c2]
      show cstr ((commitLine s).line.getD ((s.lineCurrent + 10 - 1) % 10) []) = _
      rw [c1, getD_set_other _ _ _ _ (by omega), hd, textBack_slot]
      rfl
  · obtain ⟨c1, c2, _, c4, _⟩ := commitLine_differs s h hd
    have hlen := slot_length h.1 ((s.lineCurrent + 1) % 10) (Nat.mod_lt _ (by decide))
    refine ⟨?_, c4, ?_⟩
    · show cstr ((commitLine s).line.getD (commitLine s).lineCurrent []) = []
      rw [c1, c2, getD_set_self _ _ _ (by rw [hlen10]; exact Nat.mod_lt _ (by decide))]
      exact cstr_set_zero _ 0 (Nat.zero_le _) (by rw [hlen]; decide)
    · rw [textBack_slot, c2]
      show cstr ((commitLine s).line.getD (((s.lineCurrent + 1) % 10 + 10 - 1) % 10) []) = _
      have e : ((s.lineCurrent + 1) % 10 + 10 - 1) % 10 = s.lineCurrent := by omega
      rw [c1, e, getD_set_other _ _ _ _ (by omega)]
      rfl

/-- On a line that is not empty, with a sealed registry of 1 to 255 commands,
the "fast verification" finds something to execute: the worker's execute action
goes through `CLI_ExecuteCommand` and returns true. -/
theorem state_exec_returns (H : Nat → Nat → List (List Nat) → Int) (fuel : Nat)
    (s : CLI_DataTypeDef) (arr : List CLI_CmdTypeDef) (hi : s.initialized = true)
    (he : s.execType = CLI_ExecTypeDef.CLI_Exec_SearchAndExec) (hne : currentText s ≠ [])
    (hc : s.cmnds = some arr) (hs : s.commandsSorted = true) (h1 : 1 ≤ s.cmndsCount)
    (h255 : s.cmndsCount ≤ 255) (hlen : s.cmndsCount < arr.length)
    (hf : s.cmndsCount + 16 ≤ fuel) : ∃ s1, CLI_ProcessState H fuel s = some (true, s1) := by
  have hhead : (lineAt s s.lineCurrent).headD 0 ≠ 0 := (cstr_ne_nil _).mp hne
  obtain ⟨r, hr⟩ := worthExecuting_returns fuel s arr hc hs hlen (by omega)
  have hr0 : 0 ≤ r := by
    unfold worthExecuting at hr
    rw [if_pos hhead] at hr
    unfold CLI_SearchChar at hr
    rw [hc] at hr
    simp only at hr
    rw [if_neg (by
      intro h
      rcases h with h | h | h
      · omega
      · omega
      · exact hne h), if_pos hs] at hr
    exact searchSorted_nonneg arr _ fuel 0 _ (-1) r (le_refl 0) (Or.inl (by omega)) hr
  obtain ⟨s2, h2⟩ := exec_returns H fuel s h255
    (fun a ha => by
      rw [hc] at ha
      rw [← Option.some.inj ha]
      omega) hf
  refine ⟨{ s2 with execType := CLI_ExecTypeDef.CLI_Exec_Nothing }, ?_⟩
  unfold CLI_ProcessState
  rw [if_neg (by rw [hi]; simp)]
  unfold runPending
  rw [he]
  simp only
  unfold CLI_SearchAndExecute
  rw [if_neg (by rw [hi]; simp), hr]
  simp only
  rw [if_pos (by omega), h2]

/-- C25: for every line that is not empty, on a reachable engine with its
commands array: the execute action returns (`CLI_ExecuteCommand` when the
registry has at most 255 commands and the fuel exceeds their number by 16;
`CLI_ProcessState` with the execute action pending, returning true, when moreover
the registry is sealed and has at least one command); and whenever the line is
executed (by `CLI_ExecuteCommand` directly, or through `CLI_ProcessState` with
the execute action pending), whatever `CLI_ParseEndExec` made of it (handler
called, command not recognised, comment line, too many arguments), the new
current slot is empty, the line index is 0 and the slot just before the new
current slot holds exactly the text that was executed. -/
theorem C25_line_committed_and_cleared (H : Nat → Nat → List (List Nat) → Int) (fuel : Nat)
    (s : CLI_DataTypeDef) (hr : Reachable H s) (hm : s.cmnds ≠ none)
    (hne : currentText s ≠ []) :
    (s.cmndsCount ≤ 255 → (∀ arr, s.cmnds = some arr → s.cmndsCount ≤ arr.length) →
      s.cmndsCount + 16 ≤ fuel → ∃ s1, CLI_ExecuteCommand H fuel s = some s1) ∧
    (∀ arr, s.initialized = true → s.execType = CLI_ExecTypeDef.CLI_Exec_SearchAndExec →
      s.cmnds = some arr → s.commandsSorted = true → 1 ≤ s.cmndsCount → s.cmndsCount ≤ 255 →
      s.cmndsCount < arr.length → s.cmndsCount + 16 ≤ fuel →
      ∃ s1, CLI_ProcessState H fuel s = some (true, s1)) ∧
    ∀ s1, (CLI_ExecuteCommand H fuel s = some s1 ∨
        (s.initialized = true ∧ s.execType = CLI_ExecTypeDef.CLI_Exec_SearchAndExec ∧
          CLI_ProcessState H fuel s = some (true, s1))) →
      currentText s1 = [] ∧ s1.lineIdx = 0 ∧ textBack s1 1 = currentText s := by
  refine ⟨fun hc hl hf => exec_returns H fuel s hc hl hf,
    fun arr hi he hc hs h1 h255 hlen hf =>
      state_exec_returns H fuel s arr hi he hne hc hs h1 h255 hlen hf, ?_⟩
  intro s1 he
  have hinv := reachable_inv H s hr
  have hhead : (lineAt s s.lineCurrent).headD 0 ≠ 0 := (cstr_ne_nil _).mp hne
  have key : ∃ s2, TraceOnly (commitLine s) s2 ∧ s1.line = s2.line ∧
      s1.lineCurrent = s2.lineCurrent ∧ s1.lineIdx = s2.lineIdx := by
    rcases he with he | ⟨hi, hx, hp⟩
    · exact ⟨s1, exec_commit H fuel s s1 hm hhead he, rfl, rfl, rfl⟩
    · obtain ⟨s2, h2, h3⟩ := state_exec H fuel s s1 hi hx hp
      refine ⟨s2, exec_commit H fuel s s2 hm hhead h2, ?_, ?_, ?_⟩
      · rw [h3]
      · rw [h3]
      · rw [h3]
  obtain ⟨s2, ht, k1, k2, k3⟩ := key
  have f := traceOnly_fields ht
  obtain ⟨c1, c2, c3⟩ := commitLine_text s hinv
  have hl : s1.line = (commitLine s).line := by rw [k1, f.1]
  have hc : s1.lineCurrent = (commitLine s).lineCurrent := by rw [k2, f.2.2.1]
  refine ⟨?_, by rw [k3, f.2.1]; exact c2, ?_⟩
  · rw [← c1]
    unfold currentText lineAt
    rw [hl, hc]
  · rw [← c3]
    unfold textBack lineAt
    rw [hl, hc]

set_option maxRecDepth 100000 in
/-- C25 at the demo: the lines `help` (handler called), `foo` (not recognised),
`#help` (comment) and a line of 16 tokens (too many arguments) are typed and
sent with a carriage return; each time the worker's `CLI_ProcessState` returns
true, the new current slot is empty with line index 0 and the slot before it
holds the executed text. -/
theorem C25_line_committed_and_cleared_witness :
    (∃ s1, CLI_ProcessState H0 21 (typeBytes (bytes "help" ++ [13]) demoBuilt) = some (true, s1) ∧
      currentText s1 = [] ∧ s1.lineIdx = 0 ∧ textBack s1 1 = bytes "help") ∧
    (∃ s1, CLI_ProcessState H0 21 (typeBytes (bytes "foo" ++ [13]) demoBuilt) = some (true, s1) ∧
      currentText s1 = [] ∧ s1.lineIdx = 0 ∧ textBack s1 1 = bytes "foo") ∧
    (∃ s1, CLI_ProcessState H0 21 (typeBytes (bytes "#help" ++ [13]) demoBuilt) = some (true, s1) ∧
      currentText s1 = [] ∧ s1.lineIdx = 0 ∧ textBack s1 1 = bytes "#help") ∧
    (∃ s1, CLI_ProcessState H0 21 (typeBytes (line16 ++ [13]) demoBuilt) = some (true, s1) ∧
      currentText s1 = [] ∧ s1.lineIdx = 0 ∧ textBack s1 1 = line16) := by
  have facts : ∀ t ∈ [bytes "help", bytes "foo", bytes "#help", line16],
      currentText (typeBytes (t ++ [13]) demoBuilt) = t ∧
      (typeBytes (t ++ [13]) demoBuilt).cmnds ≠ none ∧
      currentText (typeBytes (t ++ [13]) demoBuilt) ≠ [] ∧
      (typeBytes (t ++ [13]) demoBuilt).initialized = true ∧
      (typeBytes (t ++ [13]) demoBuilt).execType = CLI_ExecTypeDef.CLI_Exec_SearchAndExec ∧
      (typeBytes (t ++ [13]) demoBuilt).cmnds = some (registry demoBuilt ++ [zeroCmd]) ∧
      (typeBytes (t ++ [13]) demoBuilt).commandsSorted = true ∧
      (typeBytes (t ++ [13]) demoBuilt).cmndsCount = 5 := by
    decide
  have key : ∀ t ∈ [bytes "help", bytes "foo", bytes "#help", line16],
      ∃ s1, CLI_ProcessState H0 21 (typeBytes (t ++ [13]) demoBuilt) = some (true, s1) ∧
        currentText s1 = [] ∧ s1.lineIdx = 0 ∧ textBack s1 1 = t := by
    intro t ht
    obtain ⟨htext, hm, hne, hi, he, harr, hsorted, hcnt⟩ := facts t ht
    have hw := C25_line_committed_and_cleared H0 21 (typeBytes (t ++ [13]) demoBuilt)
      (reachable_typeBytes H0 _ _ (reachable_demoBuilt H0)) hm hne
    obtain ⟨s1, h1⟩ := hw.2.1 (registry demoBuilt ++ [zeroCmd]) hi he harr hsorted
      (by rw [hcnt]; decide) (by rw [hcnt]; decide) (by rw [hcnt]; decide) (by rw [hcnt])
    obtain ⟨a, b, c⟩ := hw.2.2 s1 (Or.inr ⟨hi, he, h1⟩)
    exact ⟨s1, h1, a, b, c.trans htext⟩
  exact ⟨key _ (by decide), key _ (by decide), key _ (by decide), key _ (by decide)⟩

/-! ## Trimming and case folding -/

theorem isspace_isBlank : __isspace = isBlank := by
  funext c
  unfold __isspace isBlank
  rw [Bool.or_assoc, Bool.or_assoc, Bool.or_comm (c == 10)]

theorem trimmedText_eq (l : List Nat) :
    trimmedText l = (l.dropWhile isBlank).rdropWhile isBlank := rfl

/-- The inner loop of `__strtrim` finds the end of the text without its
trailing blanks: `pre` is the part already copied, `e` the offset of its last
character that is not a blank. -/
theorem strtrimScan_rdrop (t pre : List Nat) (e : Nat) (he : e < pre.length)
    (h : pre.rdropWhile __isspace = pre.take (e + 1)) :
    (pre ++ t).rdropWhile __isspace = (pre ++ t).take (strtrimScan t pre.length e + 1) := by
  induction t generalizing pre e with
  | nil =>
    rw [List.append_nil]
    exact h
  | cons c t ih =>
    have e1 : pre ++ c :: t = (pre ++ [c]) ++ t := by
      rw [List.append_assoc]
      rfl
    have e2 : strtrimScan (c :: t) pre.length e
        = strtrimScan t (pre ++ [c]).length (if __isspace c then e else pre.length) := by
      rw [List.length_append, List.length_singleton]
      rfl
    rw [e1, e2]
    by_cases hc : __isspace c = true
    · rw [if_pos hc]
      refine ih (pre ++ [c]) e (by rw [List.length_append]; omega) ?_
      rw [List.rdropWhile_concat_pos _ _ _ hc, h, List.take_append_of_le_length (by omega)]
    · rw [if_neg hc]
      refine ih (pre ++ [c]) pre.length (by rw [List.length_append, List.length_singleton]; omega) ?_
      rw [List.rdropWhile_concat_neg _ _ _ hc, List.take_of_length_le]
      rw [List.length_append, List.length_singleton]

/-- `__strtrim` leaves the text of the buffer without its leading and trailing
blanks. -/
theorem strtrim_trimmed (s : List Nat) : __strtrim s = trimmedText (cstr s) := by
  rw [trimmedText_eq, ← isspace_isBlank]
  unfold __strtrim
  cases hr : (cstr s).dropWhile __isspace with
  | nil => rfl
  | cons c t =>
    have hc : __isspace c = false := by
      have := List.head_dropWhile_not __isspace (cstr s) (by rw [hr]; simp)
      simp only [hr, List.head_cons] at this
      exact this
    show (c :: t).take (strtrimScan (c :: t) 0 0 + 1) = _
    have e2 : strtrimScan (c :: t) 0 0 = strtrimScan t [c].length 0 := by
      show strtrimScan t (0 + 1) (if __isspace c then 0 else 0) = _
      rw [ite_self]
      rfl
    rw [e2]
    have := strtrimScan_rdrop t [c] 0 (by simp) (by
      rw [List.rdropWhile_singleton, hc]
      rfl)
    exact this.symm

theorem cstr_take (l : List Nat) (n : Nat) : cstr (l.take n) = (cstr l).take n := by
  unfold cstr
  exact (List.take_takeWhile _ n).symm

theorem trimmedText_nonzero (l : List Nat) (h : ∀ x ∈ l, x ≠ 0) : ∀ x ∈ trimmedText l, x ≠ 0 := by
  intro x hx
  rw [trimmedText_eq] at hx
  exact h x ((List.dropWhile_sublist _).subset ((List.rdropWhile_prefix _ _).subset hx))

theorem tolower_lowered (c : Nat) : __tolower c = (if 65 ≤ c ∧ c ≤ 90 then c + 32 else c) := by
  unfold __tolower
  split <;> omega

/-- The name `CLI_BuildTable` stores is the lower-cased, trimmed form of the
first 11 characters of the injected name. -/
theorem normalizeCmd_normalName (e : CLI_CmdTypeDef) :
    (normalizeCmd e).pHandler = e.pHandler ∧ (normalizeCmd e).Name = normalName e.Name := by
  refine ⟨rfl, ?_⟩
  show __strlwr (__strtrim (e.Name.take (CLI_MAX_COMMAND_NAME_LEN - 1))) = _
  unfold __strlwr normalName loweredText
  rw [strtrim_trimmed, cstr_take,
    cstr_of_nonzero _ (trimmedText_nonzero _ (fun x hx => cstr_nonzero _ x (List.mem_of_mem_take hx)))]
  apply List.map_congr_left
  intro c _
  exact tolower_lowered c

/-- A normalised name: at most 11 characters, no upper-case letter, no blank
at either end. -/
theorem normalName_shape (n : List Nat) :
    (normalName n).length ≤ CLI_MAX_COMMAND_NAME_LEN - 1 ∧
    (∀ c ∈ normalName n, ¬ (65 ≤ c ∧ c ≤ 90)) ∧
    (∀ c, (normalName n).head? = some c → c ≠ 32 ∧ c ≠ 9 ∧ c ≠ 10) ∧
    (∀ c, (normalName n).getLast? = some c → c ≠ 32 ∧ c ≠ 9 ∧ c ≠ 10) := by
  have hblank : ∀ y, isBlank y = false →
      ∀ c, (if 65 ≤ y ∧ y ≤ 90 then y + 32 else y) = c → c ≠ 32 ∧ c ≠ 9 ∧ c ≠ 10 := by
    intro y hy c hc
    unfold isBlank at hy
    simp only [Bool.or_eq_false_iff, beq_eq_false_iff_ne, ne_eq] at hy
    obtain ⟨⟨h1, h2⟩, h3⟩ := hy
    subst hc
    split <;> omega
  unfold normalName loweredText
  refine ⟨?_, ?_, ?_, ?_⟩
  · rw [List.length_map, trimmedText_eq]
    refine le_trans (List.rdropWhile_prefix _ _).sublist.length_le ?_
    refine le_trans (List.dropWhile_sublist _).length_le ?_
    exact List.length_take_le _ _
  · intro c hc
    rw [List.mem_map] at hc
    obtain ⟨y, _, rfl⟩ := hc
    split <;> omega
  · intro c hc
    rw [List.head?_map, Option.map_eq_some'] at hc
    obtain ⟨y, hy, hyc⟩ := hc
    refine hblank y ?_ c hyc
    rw [trimmedText_eq] at hy
    generalize hX : (cstr n).take (CLI_MAX_COMMAND_NAME_LEN - 1) = X at hy
    have hne : List.rdropWhile isBlank (X.dropWhile isBlank) ≠ [] := by
      intro h0
      rw [h0] at hy
      simp at hy
    have hpre := List.rdropWhile_prefix isBlank (X.dropWhile isBlank)
    have hne2 : X.dropWhile isBlank ≠ [] := by
      intro h0
      rw [h0] at hne
      exact hne rfl
    have hh := hpre.head hne
    have h3 := List.head_dropWhile_not isBlank X hne2
    rw [List.head?_eq_head hne] at hy
    have h4 := Option.some.inj hy
    rw [← h4, hh]
    exact h3
  · intro c hc
    rw [List.getLast?_map, Option.map_eq_some'] at hc
    obtain ⟨y, hy, hyc⟩ := hc
    refine hblank y ?_ c hyc
    rw [trimmedText_eq] at hy
    generalize hX : (cstr n).take (CLI_MAX_COMMAND_NAME_LEN - 1) = X at hy
    have hne : List.rdropWhile isBlank (X.dropWhile isBlank) ≠ [] := by
      intro h0
      rw [h0] at hy
      simp at hy
    have h3 := List.rdropWhile_last_not isBlank (X.dropWhile isBlank) hne
    rw [List.getLast?_eq_getLast _ hne] at hy
    have h4 := Option.some.inj hy
    rw [← h4]
    simpa using h3

/-! ## The entries the merge writes -/

theorem take_set_self (l : List CLI_CmdTypeDef) (n : Nat) (a : CLI_CmdTypeDef) :
    (l.set n a).take n = l.take n := by
  induction l generalizing n with
  | nil => rfl
  | cons x t ih =>
    cases n with
    | zero => rfl
    | succ m => rw [List.set_cons_succ, List.take_succ_cons, List.take_succ_cons, ih m]

/-- The entries below the count after one pass of the merge: the ones that
were there and the normalised copy of the new entry. -/
theorem written_mergeEntry (P : CLI_CmdTypeDef → Prop) (st : List CLI_CmdTypeDef × Nat)
    (e : CLI_CmdTypeDef) (h : ∀ x ∈ st.1.take st.2, P x) (he : P (normalizeCmd e)) :
    ∀ x ∈ (mergeEntry st e).1.take (mergeEntry st e).2, P x := by
  unfold mergeEntry
  split
  · exact h
  · intro x hx
    have hm : (st.2 + 1) % 65536 ≤ st.2 + 1 := Nat.mod_le _ _
    have hx1 : x ∈ ((st.1.set st.2 (normalizeCmd e)).take (st.2 + 1)).take ((st.2 + 1) % 65536) := by
      rw [List.take_take, Nat.min_eq_left hm]
      exact hx
    have hx2 := List.mem_of_mem_take hx1
    rw [List.take_succ, take_set_self, List.mem_append] at hx2
    rcases hx2 with hx2 | hx2
    · exact h x hx2
    · by_cases hlt : st.2 < st.1.length
      · rw [List.getElem?_set_eq_of_lt _ hlt] at hx2
        simp only [Option.toList, List.mem_singleton] at hx2
        rw [hx2]
        exact he
      · rw [List.getElem?_eq_none (by rw [List.length_set]; omega)] at hx2
        simp at hx2

theorem written_mergeTable (P : CLI_CmdTypeDef → Prop) (fuel : Nat) (node : CLI_TableNode_TypeDef)
    (p : Nat) (st r : List CLI_CmdTypeDef × Nat) (hn : ∀ e ∈ node.table, P (normalizeCmd e))
    (h : ∀ x ∈ st.1.take st.2, P x) (hr : mergeTable fuel node p st = some r) :
    ∀ x ∈ r.1.take r.2, P x := by
  induction fuel generalizing p st with
  | zero => exact absurd hr (by simp [mergeTable])
  | succ n ih =>
    unfold mergeTable at hr
    split at hr
    · split at hr
      · exact absurd hr (by simp)
      · rename_i e he
        exact ih _ _ (written_mergeEntry P st e h (hn e (List.getElem?_mem he))) hr
    · simp only [Option.some.injEq] at hr
      rw [← hr]; exact h

theorem written_mergeChain (P : CLI_CmdTypeDef → Prop) (fuel : Nat)
    (chain : List CLI_TableNode_TypeDef) (st r : List CLI_CmdTypeDef × Nat)
    (hn : ∀ node ∈ chain, ∀ e ∈ node.table, P (normalizeCmd e))
    (h : ∀ x ∈ st.1.take st.2, P x) (hr : mergeChain fuel chain st = some r) :
    ∀ x ∈ r.1.take r.2, P x := by
  induction chain generalizing st with
  | nil =>
    unfold mergeChain at hr
    simp only [Option.some.injEq] at hr
    rw [← hr]; exact h
  | cons node rest ih =>
    unfold mergeChain at hr
    split at hr
    · exact absurd hr (by simp)
    · rename_i st1 h1
      exact ih st1 (fun nd hnd => hn nd (List.mem_cons_of_mem node hnd))
        (written_mergeTable P fuel node 0 st st1 (hn node (List.mem_cons_self node rest)) h h1) hr

/-- A build succeeds on an unsealed registry only. -/
theorem build_true_unsealed (fuel : Nat) (ok : Bool) (s s1 : CLI_DataTypeDef)
    (h : CLI_BuildTable fuel ok s = some (true, s1)) : s.commandsSorted = false := by
  unfold CLI_BuildTable at h
  split at h
  · simp at h
  · rename_i hns
    cases hc : s.commandsSorted with
    | false => rfl
    | true => exact absurd (Or.inl hc) hns

theorem registry_congr {s s1 : CLI_DataTypeDef} (h1 : s1.cmnds = s.cmnds)
    (h2 : s1.cmndsCount = s.cmndsCount) : registry s1 = registry s := by
  unfold registry
  rw [h1, h2]

theorem registry_none {s : CLI_DataTypeDef} (h : s.cmnds = none) : registry s = [] := by
  unfold registry
  rw [h]

/-- An injection into a sealed registry leaves the state as it was. -/
theorem inject_sealed (ok : Bool) (table : Option (List CLI_CmdTypeDef)) (items : Int)
    (s : CLI_DataTypeDef) (h : s.commandsSorted = true) :
    (CLI_InjectCommands ok table items s).2 = s := by
  unfold CLI_InjectCommands
  cases table with
  | none => rfl
  | some t =>
    simp only
    rw [if_pos (Or.inr h)]

/-- In every reachable state the count is 0 until the registry is sealed, and
every entry of the registry is the normalised copy of an entry of an injected
table. -/
theorem reachable_registry (H : Nat → Nat → List (List Nat) → Int) (s : CLI_DataTypeDef)
    (hr : Reachable H s) :
    (s.commandsSorted = false → s.cmndsCount = 0) ∧
    ∀ x ∈ registry s, ∃ node ∈ s.cmndsTableHead, ∃ e0 ∈ node.table, x = normalizeCmd e0 := by
  induction hr with
  | start => exact ⟨fun _ => rfl, fun x hx => absurd hx (by simp [registry, gCliData0])⟩
  | init cliInit s _ ih =>
    have f := reg_Init cliInit s
    refine ⟨fun h => by rw [f.2.2.1]; exact ih.1 (by rw [← f.2.1]; exact h), ?_⟩
    rw [registry_congr f.1 f.2.2.1, f.2.2.2]
    exact ih.2
  | inject ok table items s hs ih =>
    have f := reg_Inject ok table items s
    refine ⟨fun h => by rw [f.2.2]; exact ih.1 (by rw [← f.2.1]; exact h), ?_⟩
    cases hc : s.commandsSorted with
    | true =>
      rw [inject_sealed ok table items s hc]
      exact ih.2
    | false =>
      have hnone := reachable_unsealed H s hs hc
      rw [registry_none (f.1.trans hnone)]
      intro x hx
      exact absurd hx (by simp)
  | build fuel ok b s s1 hs hb ih =>
    cases b with
    | true =>
      obtain ⟨arr, cnt, hm, hs1⟩ := build_true fuel ok s s1 hb
      have hun := build_true_unsealed fuel ok s s1 hb
      have hz := ih.1 hun
      rw [hz] at hm
      have hw := written_mergeChain
        (fun x => ∃ node ∈ s.cmndsTableHead, ∃ e0 ∈ node.table, x = normalizeCmd e0)
        fuel s.cmndsTableHead _ (arr, cnt)
        (fun node hnode e he => ⟨node, hnode, e, he, rfl⟩)
        (fun x hx => absurd hx (by simp)) hm
      have hreg : registry s1 = qsort (arr.take cnt) := by
        subst hs1
        simp only [registry]
        exact take_qsort_append arr cnt
      have hhead : s1.cmndsTableHead = s.cmndsTableHead := by subst hs1; rfl
      refine ⟨fun h => ?_, ?_⟩
      · subst hs1
        simp at h
      · intro x hx
        rw [hreg] at hx
        rw [hhead]
        exact hw x ((qsort_perm _).subset hx)
    | false =>
      rcases build_false fuel ok s s1 hb with hs1 | ⟨_, hs1⟩
      · subst hs1; exact ih
      · subst hs1
        exact ⟨ih.1, fun x hx => absurd hx (by simp [registry])⟩
  | char c s _ ih =>
    have f := reg_ProcessChar c s
    refine ⟨fun h => by rw [f.2.2.1]; exact ih.1 (by rw [← f.2.1]; exact h), ?_⟩
    rw [registry_congr f.1 f.2.2.1, f.2.2.2]
    exact ih.2
  | state fuel b s s1 _ hp ih =>
    have f := reg_ProcessState H fuel b s s1 hp
    refine ⟨fun h => by rw [f.2.2.1]; exact ih.1 (by rw [← f.2.1]; exact h), ?_⟩
    rw [registry_congr f.1 f.2.2.1, f.2.2.2]
    exact ih.2
  | reset s _ ih =>
    have f := reg_ResetState s
    refine ⟨fun h => by rw [f.2.2.1]; exact ih.1 (by rw [← f.2.1]; exact h), ?_⟩
    rw [registry_congr f.1 f.2.2.1, f.2.2.2]
    exact ih.2

/-! ## Claim C22: the names of the registry -/

/-- C22: in every state reachable from the zeroed engine, every name in the
registry (the first `cmndsCount` entries of the built array) is stored
normalised: it has at most 11 characters, no ASCII upper-case letter, neither a
space, a tab nor a newline at its start or at its end, and it is the lower-cased,
trimmed form of the first 11 characters of the name of an entry of an injected
table, whose handler it keeps. -/
theorem C22_names_stored_normalised (H : Nat → Nat → List (List Nat) → Int)
    (s : CLI_DataTypeDef) (hr : Reachable H s) :
    ∀ e ∈ registry s,
      e.Name.length ≤ CLI_MAX_COMMAND_NAME_LEN - 1 ∧
      (∀ c ∈ e.Name, ¬ (65 ≤ c ∧ c ≤ 90)) ∧
      (∀ c, e.Name.head? = some c → c ≠ 32 ∧ c ≠ 9 ∧ c ≠ 10) ∧
      (∀ c, e.Name.getLast? = some c → c ≠ 32 ∧ c ≠ 9 ∧ c ≠ 10) ∧
      ∃ node ∈ s.cmndsTableHead, ∃ e0 ∈ node.table,
        e.pHandler = e0.pHandler ∧ e.Name = normalName e0.Name := by
  intro e he
  obtain ⟨node, hnode, e0, he0, hx⟩ := (reachable_registry H s hr).2 e he
  have hn := normalizeCmd_normalName e0
  have hname : e.Name = normalName e0.Name := by rw [hx]; exact hn.2
  obtain ⟨s1, s2, s3, s4⟩ := normalName_shape e0.Name
  rw [hname]
  exact ⟨s1, s2, s3, s4, node, hnode, e0, he0, by rw [hx]; exact hn.1, rfl⟩

theorem reachable_mixedBuilt (H : Nat → Nat → List (List Nat) → Int) : Reachable H mixedBuilt :=
  Reachable.build 4 true true mixedInjected mixedBuilt
    (Reachable.inject _ _ _ _ (Reachable.init _ _ Reachable.start)) (by decide)

/-- C22 at a table of names in mixed case with blanks around them: the build
stores `exit`, `help` and `version-lon`, and the stored `help` is the normal form
of an injected name. -/
theorem C22_names_stored_normalised_witness :
    (registry mixedBuilt).map (fun e => e.Name)
      = [bytes "exit", bytes "help", bytes "version-lon"] ∧
    normalName (bytes "  HeLp \t") = bytes "help" ∧
    ∃ node ∈ mixedBuilt.cmndsTableHead, ∃ e0 ∈ node.table,
      (1 : Nat) = e0.pHandler ∧ bytes "help" = normalName e0.Name :=
  ⟨by decide, by decide,
    (C22_names_stored_normalised H0 mixedBuilt (reachable_mixedBuilt H0)
      ⟨1, bytes "help"⟩ (by decide)).2.2.2.2⟩

/-! ## Claims C32, C33 and C40: the first-letter search, the common length, the decimal text -/

/-- C32 (the code departs from the claim): on the sorted array of the demo
(`?`, `exit`, `help`, `reset`, `version` and the zero-filled entry after them)
`CLI_SearchChar` in sorted mode returns the last `middle` it looked at when no
name begins with the searched character: index 1 (`exit`) for `foo`, and index
5, the count itself, for `zzz`; it returns -1 for neither. -/
theorem C32_search_returns_last_middle :
    (registry demoBuilt).map (fun e => e.Name)
      = [bytes "?", bytes "exit", bytes "help", bytes "reset", bytes "version"] ∧
    demoBuilt.cmndsCount = 5 ∧ demoBuilt.commandsSorted = true ∧
    (∀ e ∈ registry demoBuilt, e.Name.head? ≠ some 102 ∧ e.Name.head? ≠ some 122) ∧
    CLI_SearchChar 16 5 demoBuilt.cmnds 0 5 (bytes "foo") false true = some 1 ∧
    CLI_SearchChar 16 5 demoBuilt.cmnds 0 5 (bytes "zzz") false true = some 5 := by
  decide

theorem matchLoop_self (l : List Nat) (i : Nat) : matchLoop l l i = 0 := by
  induction l generalizing i with
  | nil => rfl
  | cons x t ih =>
    unfold matchLoop
    rw [if_neg (by simp)]
    exact ih (i + 1)

/-- `CLI_MatchChars` gives 0 whenever one string is a prefix of the other (two
equal strings included): the loop ends without a mismatch and the function
returns 0. -/
theorem matchChars_of_prefix (a b : List Nat) (h : a <+: b) (hb : b.length < 256) :
    CLI_MatchChars a b = 0 ∧ CLI_MatchChars b a = 0 := by
  have hle : a.length ≤ b.length := h.length_le
  have ha : a.length % 256 = a.length := Nat.mod_eq_of_lt (by omega)
  have hb2 : b.length % 256 = b.length := Nat.mod_eq_of_lt hb
  have ht : b.take a.length = a := by
    obtain ⟨t, rfl⟩ := h
    exact List.take_left' rfl
  unfold CLI_MatchChars
  rw [ha, hb2, Nat.min_eq_left hle, Nat.min_eq_right hle, List.take_length, ht]
  exact ⟨matchLoop_self a 0, matchLoop_self a 0⟩

/-- C33 (the code departs from the claim): `CLI_MatchChars` returns the number
of common leading characters only when it meets a mismatch (`help`, `hexx`
gives 2); when one string is a prefix of the other or the two are equal the loop
ends and the function returns 0: `help`, `helper` gives 0, not 4, and `help`,
`help` gives 0, not 4. -/
theorem C33_match_of_prefix_is_zero :
    CLI_MatchChars (bytes "help") (bytes "hexx") = 2 ∧
    CLI_MatchChars (bytes "help") (bytes "helper") = 0 ∧
    CLI_MatchChars (bytes "helper") (bytes "help") = 0 ∧
    CLI_MatchChars (bytes "help") (bytes "help") = 0 := by
  decide

/-- `__itoa` in base 10 on a zeroed buffer of 8 bytes: `strlen` of the buffer
is 0, the loop runs once, and the buffer holds the last decimal digit alone. -/
theorem itoa_zero_buffer (n : Nat) :
    __itoa (n : Int) (List.replicate 8 0) 10 = (0, (48 + n % 10) :: List.replicate 7 0) := by
  have hc : cstr (List.replicate 8 0) = [] := rfl
  have hd : Int.tmod (n : Int) 10 = ((n % 10 : Nat) : Int) := by
    rw [Int.tmod_eq_emod (Int.natCast_nonneg n) (by decide)]
    rfl
  have hdig : ((if Int.tmod (n : Int) 10 < 10 then 48 + Int.tmod (n : Int) 10
      else 65 + Int.tmod (n : Int) 10 - 10).toNat) = 48 + n % 10 := by
    rw [hd, if_pos (by omega)]
    omega
  have hloop : itoaLoop 10 ((cstr (List.replicate 8 0)).length : Int)
      ((cstr (List.replicate 8 0)).length + 1) (n : Int) 0 (List.replicate 8 0)
      = (Int.tdiv (n : Int) 10, 1, (48 + n % 10) :: List.replicate 7 0) := by
    rw [hc]
    show itoaLoop 10 0 1 (n : Int) 0 (List.replicate 8 0) = _
    unfold itoaLoop
    rw [if_neg (by
      intro h
      have := h.2
      omega), hdig]
    rfl
  unfold __itoa
  rw [hloop]
  simp only
  rw [if_neg (by
    intro h
    have := h.1
    rw [hc] at this
    simp at this)]
  have hne : 48 + n % 10 ≠ 0 := by omega
  show (0, __strrev (((48 + n % 10) :: List.replicate 7 0).set 1 0)) = _
  have hs : ((48 + n % 10) :: List.replicate 7 0).set 1 0 = (48 + n % 10) :: List.replicate 7 0 := rfl
  rw [hs]
  unfold __strrev
  rw [cstr_cons_ne _ _ hne]
  rfl

set_option maxRecDepth 100000 in
/-- C40 (the code departs from the claim): on the zeroed buffer `__itoa` takes
the buffer length from `strlen`, which is 0, and stops after one digit: for 15
it returns 0 and leaves `5`.  In the demo with `help` typed the prompt has 6
characters and the line 4; `CLI_EraseLine` sends ESC `[0D` ESC `[K`, a move of 0
columns, not of 10. -/
theorem C40_itoa_keeps_last_digit_only :
    __itoa 15 (List.replicate 8 0) 10 = (0, 53 :: List.replicate 7 0) ∧
    cstr (__itoa 15 (List.replicate 8 0) 10).2 = bytes "5" ∧
    (demoHelpTyped.prmpSize = 6 ∧ demoHelpTyped.lineIdx = 4) ∧
    (CLI_EraseLine demoHelpTyped).trace
      = demoHelpTyped.trace ++ (27 :: bytes "[0D" ++ 27 :: bytes "[K").map Event.out := by
  decide

/-! ## Claim C35: the case-insensitive comparison -/

theorem stricmp_nil_nil : __stricmp [] [] = 0 := by
  unfold __stricmp
  rfl

theorem stricmp_nil_cons (c : Nat) (t : List Nat) :
    __stricmp [] (c :: t) = (0 : Int) - (__tolower c : Int) := by
  unfold __stricmp
  rfl

theorem stricmp_cons_nil (c : Nat) (t : List Nat) :
    __stricmp (c :: t) [] = (__tolower c : Int) := by
  unfold __stricmp
  rfl

theorem stricmp_cons_cons (c1 c2 : Nat) (s1 s2 : List Nat) :
    __stricmp (c1 :: s1) (c2 :: s2)
      = if (__tolower c1 : Int) - (__tolower c2 : Int) = 0 ∧ c1 ≠ 0 ∧ c2 ≠ 0 then __stricmp s1 s2
        else (__tolower c1 : Int) - (__tolower c2 : Int) := by
  conv => lhs; unfold __stricmp

theorem tolower_ne_zero (c : Nat) (h : c ≠ 0) : __tolower c ≠ 0 := by
  unfold __tolower
  split <;> omega

theorem loweredText_cons (c : Nat) (t : List Nat) :
    loweredText (c :: t) = __tolower c :: loweredText t := by
  unfold loweredText
  rw [List.map_cons, tolower_lowered]

/-- `__stricmp` is 0 exactly for strings that are equal after case folding. -/
theorem stricmp_eq_zero (a b : List Nat) (ha : ∀ x ∈ a, x ≠ 0) (hb : ∀ x ∈ b, x ≠ 0) :
    __stricmp a b = 0 ↔ loweredText a = loweredText b := by
  induction a generalizing b with
  | nil =>
    cases b with
    | nil => simp [stricmp_nil_nil]
    | cons c t =>
      have := tolower_ne_zero c (hb c (List.mem_cons_self c t))
      rw [stricmp_nil_cons, loweredText_cons]
      constructor
      · intro h; omega
      · intro h; exact absurd h (by simp [loweredText])
  | cons c1 s1 ih =>
    have h1 := ha c1 (List.mem_cons_self c1 s1)
    cases b with
    | nil =>
      have := tolower_ne_zero c1 h1
      rw [stricmp_cons_nil, loweredText_cons]
      constructor
      · intro h; omega
      · intro h; exact absurd h (by simp [loweredText])
    | cons c2 s2 =>
      have h2 := hb c2 (List.mem_cons_self c2 s2)
      rw [stricmp_cons_cons, loweredText_cons, loweredText_cons]
      by_cases he : __tolower c1 = __tolower c2
      · rw [if_pos ⟨by rw [he]; omega, h1, h2⟩,
          ih s2 (fun x hx => ha x (List.mem_cons_of_mem c1 hx))
            (fun x hx => hb x (List.mem_cons_of_mem c2 hx)), he]
        simp
      · rw [if_neg (fun h => he (by omega))]
        constructor
        · intro h; exact absurd (by omega) he
        · intro h; exact absurd (List.cons.inj h).1 he

/-- When the strings differ after case folding, `__stricmp` is the difference
of the folded bytes at the first position where they differ. -/
theorem stricmp_first_diff (a b : List Nat) (ha : ∀ x ∈ a, x ≠ 0) (hb : ∀ x ∈ b, x ≠ 0)
    (hne : loweredText a ≠ loweredText b) :
    ∃ k, (∀ i, i < k → byteAt (loweredText a) i = byteAt (loweredText b) i) ∧
      byteAt (loweredText a) k ≠ byteAt (loweredText b) k ∧
      __stricmp a b = (byteAt (loweredText a) k : Int) - (byteAt (loweredText b) k : Int) := by
  induction a generalizing b with
  | nil =>
    cases b with
    | nil => exact absurd rfl hne
    | cons c t =>
      have := tolower_ne_zero c (hb c (List.mem_cons_self c t))
      refine ⟨0, fun i hi => absurd hi (Nat.not_lt_zero i), ?_, ?_⟩
      · rw [loweredText_cons]
        show (0 : Nat) ≠ __tolower c
        omega
      · rw [stricmp_nil_cons, loweredText_cons]
        rfl
  | cons c1 s1 ih =>
    have h1 := ha c1 (List.mem_cons_self c1 s1)
    cases b with
    | nil =>
      have := tolower_ne_zero c1 h1
      refine ⟨0, fun i hi => absurd hi (Nat.not_lt_zero i), ?_, ?_⟩
      · rw [loweredText_cons]
        show __tolower c1 ≠ (0 : Nat)
        omega
      · rw [stricmp_cons_nil, loweredText_cons]
        show (__tolower c1 : Int) = (__tolower c1 : Int) - ((0 : Nat) : Int)
        simp
    | cons c2 s2 =>
      have h2 := hb c2 (List.mem_cons_self c2 s2)
      rw [loweredText_cons, loweredText_cons] at hne ⊢
      rw [stricmp_cons_cons]
      by_cases he : __tolower c1 = __tolower c2
      · have hne2 : loweredText s1 ≠ loweredText s2 := by
          intro h
          exact hne (by rw [he, h])
        obtain ⟨k, k1, k2, k3⟩ := ih s2 (fun x hx => ha x (List.mem_cons_of_mem c1 hx))
          (fun x hx => hb x (List.mem_cons_of_mem c2 hx)) hne2
        rw [if_pos ⟨by rw [he]; omega, h1, h2⟩]
        refine ⟨k + 1, ?_, k2, k3⟩
        intro i hi
        cases i with
        | zero => exact he
        | succ j => exact k1 j (by omega)
      · rw [if_neg (fun h => he (by omega))]
        exact ⟨0, fun i hi => absurd hi (Nat.not_lt_zero i), he, rfl⟩

theorem stricmp_antisymm (a b : List Nat) (ha : ∀ x ∈ a, x ≠ 0) (hb : ∀ x ∈ b, x ≠ 0) :
    __stricmp b a = - __stricmp a b := by
  induction a generalizing b with
  | nil =>
    cases b with
    | nil => simp [stricmp_nil_nil]
    | cons c t =>
      rw [stricmp_nil_cons, stricmp_cons_nil]
      omega
  | cons c1 s1 ih =>
    have h1 := ha c1 (List.mem_cons_self c1 s1)
    cases b with
    | nil =>
      rw [stricmp_nil_cons, stricmp_cons_nil]
      omega
    | cons c2 s2 =>
      have h2 := hb c2 (List.mem_cons_self c2 s2)
      rw [stricmp_cons_cons, stricmp_cons_cons]
      by_cases he : __tolower c1 = __tolower c2
      · rw [if_pos ⟨by rw [he]; omega, h2, h1⟩, if_pos ⟨by rw [he]; omega, h1, h2⟩]
        exact ih s2 (fun x hx => ha x (List.mem_cons_of_mem c1 hx))
          (fun x hx => hb x (List.mem_cons_of_mem c2 hx))
      · rw [if_neg (fun h => he (by omega)), if_neg (fun h => he (by omega))]
        omega

/-- C35: for all NUL-terminated strings `a` and `b` (texts without a NUL byte),
`__stricmp a b` is 0 exactly when `a` and `b` have the same length and are equal
byte for byte after the letters `A` to `Z` are mapped to lower case; otherwise it
is the difference of the lower-cased bytes at the first position where the
strings differ (the terminator counting as byte 0), and it is not 0; and
`__stricmp b a` is the negation of `__stricmp a b`, so the two have opposite
signs. -/
theorem C35_stricmp (a b : List Nat) (ha : ∀ x ∈ a, x ≠ 0) (hb : ∀ x ∈ b, x ≠ 0) :
    (__stricmp a b = 0 ↔ a.length = b.length ∧ loweredText a = loweredText b) ∧
    (loweredText a ≠ loweredText b →
      __stricmp a b ≠ 0 ∧
      ∃ k, (∀ i, i < k → byteAt (loweredText a) i = byteAt (loweredText b) i) ∧
        byteAt (loweredText a) k ≠ byteAt (loweredText b) k ∧
        __stricmp a b = (byteAt (loweredText a) k : Int) - (byteAt (loweredText b) k : Int)) ∧
    __stricmp b a = - __stricmp a b ∧
    (0 < __stricmp a b ↔ __stricmp b a < 0) := by
  have hz := stricmp_eq_zero a b ha hb
  have hanti := stricmp_antisymm a b ha hb
  refine ⟨?_, ?_, hanti, by rw [hanti]; omega⟩
  · rw [hz]
    constructor
    · intro h
      refine ⟨?_, h⟩
      have := congrArg List.length h
      unfold loweredText at this
      rw [List.length_map, List.length_map] at this
      exact this
    · intro h
      exact h.2
  · intro hne
    exact ⟨fun h0 => hne (hz.mp h0), stricmp_first_diff a b ha hb hne⟩

/-- C35 at `Help` and `helper`: equal up to case in the first four bytes, then
the terminator against `e`. -/
theorem C35_stricmp_witness :
    __stricmp (bytes "Help") (bytes "helper") = -101 ∧
    __stricmp (bytes "helper") (bytes "Help") = 101 ∧
    (__stricmp (bytes "HELP") (bytes "help") = 0 ↔
      (bytes "HELP").length = (bytes "help").length ∧
        loweredText (bytes "HELP") = loweredText (bytes "help")) := by
  have h := C35_stricmp (bytes "HELP") (bytes "help") (by decide) (by decide)
  exact ⟨by decide, by decide, h.1⟩

/-! ## The first-letter search on a sorted array -/

theorem strcmp_head_le (a b : List Nat) (h : strcmp a b ≤ 0) : a.headD 0 ≤ b.headD 0 := by
  cases a with
  | nil => exact Nat.zero_le _
  | cons x s =>
    cases b with
    | nil =>
      unfold strcmp at h
      show x ≤ 0
      omega
    | cons y t =>
      unfold strcmp at h
      show x ≤ y
      split at h
      · rename_i hc
        exact le_of_eq hc.1
      · omega

theorem getElem?_firstChar (arr : List CLI_CmdTypeDef) (i : Nat) (e : CLI_CmdTypeDef)
    (h : arr[i]? = some e) : e.Name.headD 0 = firstChar arr i := by
  unfold firstChar
  rw [List.getD_eq_getElem?_getD, h]
  rfl

theorem scharVal_small (x : Nat) (h : x < 128) : scharVal x = (x : Int) := by
  unfold scharVal
  rw [if_pos h]

/-- On an array whose first `n` entries are in ascending order of their first
characters, all below 128: when an entry below `n` inside the search window
begins with `c`, the binary search returns such an entry. -/
theorem searchSorted_finds (arr : List CLI_CmdTypeDef) (n c : Nat) (hn : n ≤ arr.length)
    (hc7 : c < 128)
    (hsorted : ∀ i j, i ≤ j → j < n → firstChar arr i ≤ firstChar arr j)
    (h7 : ∀ i, i < n → firstChar arr i < 128)
    (fuel : Nat) (start cv middle : Int) (j : Nat) (h0 : 0 ≤ start) (hcv : cv ≤ (n : Int))
    (hj1 : start ≤ (j : Int)) (hj2 : (j : Int) ≤ cv) (hjn : j < n) (hjc : firstChar arr j = c)
    (hf : (cv + 1 - start).toNat < fuel) :
    ∃ r : Nat, searchSorted arr c fuel start cv middle = some (r : Int) ∧ r < n ∧
      firstChar arr r = c := by
  induction fuel generalizing start cv middle with
  | zero => omega
  | succ k ih =>
    unfold searchSorted
    rw [if_pos (by omega)]
    have hm0 : 0 ≤ start + (cv - start) / 2 := by omega
    have hmcv : start + (cv - start) / 2 ≤ cv := by omega
    have hmn : (start + (cv - start) / 2).toNat < n := by omega
    have hmlt : (start + (cv - start) / 2).toNat < arr.length := by omega
    have hget : arr[(start + (cv - start) / 2).toNat]? = some arr[(start + (cv - start) / 2).toNat] :=
      List.getElem?_eq_getElem hmlt
    have hkey := getElem?_firstChar arr _ _ hget
    rw [hget]
    simp only
    rw [hkey]
    have hk7 := h7 _ hmn
    by_cases h1 : firstChar arr (start + (cv - start) / 2).toNat = c
    · rw [if_pos h1]
      refine ⟨(start + (cv - start) / 2).toNat, ?_, hmn, h1⟩
      rw [Int.toNat_of_nonneg hm0]
    · rw [if_neg h1, scharVal_small _ hk7, scharVal_small _ hc7]
      by_cases h2 : (firstChar arr (start + (cv - start) / 2).toNat : Int) < (c : Int)
      · rw [if_pos h2]
        have hjm : (start + (cv - start) / 2).toNat < j := by
          by_contra hle
          have := hsorted j (start + (cv - start) / 2).toNat (by omega) hmn
          rw [hjc] at this
          omega
        exact ih _ _ _ (by omega) hcv (by omega) hj2 (by omega)
      · rw [if_neg h2]
        have hjm : j < (start + (cv - start) / 2).toNat := by
          by_contra hle
          have := hsorted (start + (cv - start) / 2).toNat j (by omega) hjn
          rw [hjc] at this
          omega
        exact ih _ _ _ h0 (by omega) hj1 (by omega) (by omega)

/-- The binary search reads no entry past the upper end of its window: the
result is the same on the array cut after that index. -/
theorem searchSorted_take (arr : List CLI_CmdTypeDef) (c K : Nat) (fuel : Nat)
    (start cv middle : Int) (h0 : 0 ≤ start) (hcv : cv < (K : Int)) :
    searchSorted (arr.take K) c fuel start cv middle = searchSorted arr c fuel start cv middle := by
  induction fuel generalizing start cv middle with
  | zero => rfl
  | succ k ih =>
    unfold searchSorted
    by_cases hle : start ≤ cv
    · rw [if_pos hle, if_pos hle,
        List.getElem?_take_of_lt (show (start + (cv - start) / 2).toNat < K by omega)]
      cases hget : arr[(start + (cv - start) / 2).toNat]? with
      | none => rfl
      | some e =>
        simp only
        rw [ih _ _ _ (by omega) hcv, ih _ _ _ h0 (by omega)]
    · rw [if_neg hle, if_neg hle]

/-! ## The zero-filled entries after the registry -/

/-- One pass of the merge keeps the entries from the count on zero-filled, as
long as the 16-bit count does not wrap. -/
theorem zeroTail_mergeEntry (st : List CLI_CmdTypeDef × Nat) (e : CLI_CmdTypeDef)
    (hk : st.2 + 1 < 65536)
    (hz : ∀ i, st.2 ≤ i → i < st.1.length → st.1[i]? = some zeroCmd) :
    (∀ i, (mergeEntry st e).2 ≤ i → i < (mergeEntry st e).1.length →
      (mergeEntry st e).1[i]? = some zeroCmd) ∧
    (mergeEntry st e).2 ≤ st.2 + 1 ∧ (mergeEntry st e).1.length = st.1.length := by
  unfold mergeEntry
  split
  · exact ⟨hz, Nat.le_succ _, rfl⟩
  · have hm : (st.2 + 1) % 65536 = st.2 + 1 := Nat.mod_eq_of_lt hk
    refine ⟨?_, ?_, ?_⟩
    · intro i hi hlen
      simp only at hi hlen ⊢
      rw [hm] at hi
      rw [List.length_set] at hlen
      rw [List.getElem?_set_ne (by omega)]
      exact hz i (by omega) hlen
    · simp only
      rw [hm]
    · simp only
      rw [List.length_set]

theorem zeroTail_mergeTable (fuel : Nat) (node : CLI_TableNode_TypeDef) (p : Nat)
    (st r : List CLI_CmdTypeDef × Nat) (hi : node.items < 65536)
    (hb : st.2 + (node.items - p) < 65536)
    (hz : ∀ i, st.2 ≤ i → i < st.1.length → st.1[i]? = some zeroCmd)
    (hr : mergeTable fuel node p st = some r) :
    (∀ i, r.2 ≤ i → i < r.1.length → r.1[i]? = some zeroCmd) ∧
    r.2 ≤ st.2 + (node.items - p) ∧ r.1.length = st.1.length := by
  induction fuel generalizing p st with
  | zero => exact absurd hr (by simp [mergeTable])
  | succ n ih =>
    unfold mergeTable at hr
    split at hr
    · rename_i hlt
      split at hr
      · exact absurd hr (by simp)
      · rename_i e _
        obtain ⟨z1, z2, z3⟩ := zeroTail_mergeEntry st e (by omega) hz
        have hp : (p + 1) % 65536 = p + 1 := Nat.mod_eq_of_lt (by omega)
        rw [hp] at hr
        obtain ⟨y1, y2, y3⟩ := ih (p + 1) (mergeEntry st e) (by omega) z1 hr
        exact ⟨y1, by omega, y3.trans z3⟩
    · simp only [Option.some.injEq] at hr
      rw [← hr]
      exact ⟨hz, Nat.le_add_right _ _, rfl⟩

theorem zeroTail_mergeChain (fuel : Nat) (chain : List CLI_TableNode_TypeDef)
    (st r : List CLI_CmdTypeDef × Nat)
    (hb : st.2 + (chain.map (fun n => n.items)).sum < 65536)
    (hz : ∀ i, st.2 ≤ i → i < st.1.length → st.1[i]? = some zeroCmd)
    (hr : mergeChain fuel chain st = some r) :
    (∀ i, r.2 ≤ i → i < r.1.length → r.1[i]? = some zeroCmd) ∧
    r.2 ≤ st.2 + (chain.map (fun n => n.items)).sum ∧ r.1.length = st.1.length := by
  induction chain generalizing st with
  | nil =>
    unfold mergeChain at hr
    simp only [Option.some.injEq] at hr
    rw [← hr]
    exact ⟨hz, Nat.le_add_right _ _, rfl⟩
  | cons node rest ih =>
    rw [List.map_cons, List.sum_cons] at hb ⊢
    unfold mergeChain at hr
    split at hr
    · exact absurd hr (by simp)
    · rename_i st1 h1
      obtain ⟨z1, z2, z3⟩ := zeroTail_mergeTable fuel node 0 st st1 (by omega) (by omega) hz h1
      obtain ⟨y1, y2, y3⟩ := ih st1 (by omega) z1 hr
      exact ⟨y1, by omega, y3.trans z3⟩

/-- In every reachable state with a commands array: the registry is in
ascending order of `CLI_Compare`; and when the injected tables hold fewer than
65536 items in all (the 16-bit count did not wrap), the array is longer than the
registry and the entry right after the registry is zero-filled. -/
theorem reachable_built (H : Nat → Nat → List (List Nat) → Int) (s : CLI_DataTypeDef)
    (hr : Reachable H s) :
    ∀ arr, s.cmnds = some arr →
      (arr.take s.cmndsCount).Pairwise (fun a b => CLI_Compare a b ≤ 0) ∧
      ((s.cmndsTableHead.map (fun n => n.items)).sum < 65536 →
        s.cmndsCount < arr.length ∧ arr[s.cmndsCount]? = some zeroCmd) := by
  induction hr with
  | start => intro arr h; exact absurd h (by simp [gCliData0])
  | init cliInit s _ ih =>
    have f := reg_Init cliInit s
    rw [f.1, f.2.2.1, f.2.2.2]
    exact ih
  | inject ok table items s hs ih =>
    cases hc : s.commandsSorted with
    | true =>
      rw [inject_sealed ok table items s hc]
      exact ih
    | false =>
      have hnone := reachable_unsealed H s hs hc
      intro arr h
      rw [(reg_Inject ok table items s).1, hnone] at h
      exact absurd h (by simp)
  | build fuel ok b s s1 hs hb ih =>
    cases b with
    | true =>
      obtain ⟨arr0, cnt, hm, hs1⟩ := build_true fuel ok s s1 hb
      have hun := build_true_unsealed fuel ok s s1 hb
      have hz := (reachable_registry H s hs).1 hun
      rw [hz] at hm
      subst hs1
      intro arr h
      simp only [Option.some.injEq] at h
      subst h
      refine ⟨?_, ?_⟩
      · show ((qsort (arr0.take cnt) ++ arr0.drop cnt).take cnt).Pairwise _
        rw [take_qsort_append]
        exact qsort_sorted _
      · intro hsum
        have hsum2 : (s.cmndsTableHead.map (fun n => n.items)).sum < 65536 := hsum
        have ht : totalItems s.cmndsTableHead = (s.cmndsTableHead.map (fun n => n.items)).sum := by
          unfold totalItems
          exact Nat.mod_eq_of_lt (by omega)
        obtain ⟨z1, z2, z3⟩ := zeroTail_mergeChain fuel s.cmndsTableHead _ (arr0, cnt)
          (by simp only; omega)
          (by
            intro i _ hi
            rw [List.length_replicate] at hi
            exact List.getElem?_replicate_of_lt hi) hm
        simp only at z1 z2 z3
        rw [List.length_replicate, ht] at z3
        have hcl : cnt < arr0.length := by omega
        have hql : (qsort (arr0.take cnt)).length = cnt := by
          rw [qsort_length, List.length_take]
          omega
        show cnt < (qsort (arr0.take cnt) ++ arr0.drop cnt).length ∧
          (qsort (arr0.take cnt) ++ arr0.drop cnt)[cnt]? = some zeroCmd
        constructor
        · rw [List.length_append, hql, List.length_drop]
          omega
        · rw [List.getElem?_append_right (by omega), hql, Nat.sub_self, List.getElem?_drop]
          exact z1 cnt (Nat.le_refl _) hcl
    | false =>
      rcases build_false fuel ok s s1 hb with hs1 | ⟨_, hs1⟩
      · subst hs1; exact ih
      · subst hs1
        intro arr h
        exact absurd h (by simp)
  | char c s _ ih =>
    have f := reg_ProcessChar c s
    rw [f.1, f.2.2.1, f.2.2.2]
    exact ih
  | state fuel b s s1 _ hp ih =>
    have f := reg_ProcessState H fuel b s s1 hp
    rw [f.1, f.2.2.1, f.2.2.2]
    exact ih
  | reset s _ ih =>
    have f := reg_ResetState s
    rw [f.1, f.2.2.1, f.2.2.2]
    exact ih

/-- The first characters of a sorted registry ascend. -/
theorem sorted_firstChar (arr : List CLI_CmdTypeDef) (n : Nat) (hn : n ≤ arr.length)
    (h : (arr.take n).Pairwise (fun a b => CLI_Compare a b ≤ 0)) :
    ∀ i j, i ≤ j → j < n → firstChar arr i ≤ firstChar arr j := by
  intro i j hij hj
  rcases Nat.eq_or_lt_of_le hij with he | hlt
  · rw [he]
  · have hlen : (arr.take n).length = n := by rw [List.length_take]; omega
    have hp := List.pairwise_iff_get.mp h ⟨i, by omega⟩ ⟨j, by omega⟩ hlt
    have gi : arr.getD i zeroCmd = (arr.take n).get ⟨i, by omega⟩ := by
      rw [List.getD_eq_getElem?_getD, List.getElem?_eq_getElem (by omega)]
      simp
    have gj : arr.getD j zeroCmd = (arr.take n).get ⟨j, by omega⟩ := by
      rw [List.getD_eq_getElem?_getD, List.getElem?_eq_getElem (by omega)]
      simp
    unfold firstChar
    rw [gi, gj]
    exact strcmp_head_le _ _ hp

/-! ## Claim C36: the first-letter search on the built registry -/

/-- The first-letter search on the built registry finds an entry that begins
with the searched character whenever there is one, and reads nothing past the
zero-filled entry at index `cmndsCount`. -/
theorem search_finds_built (H : Nat → Nat → List (List Nat) → Int) (fuel : Nat)
    (s : CLI_DataTypeDef) (arr : List CLI_CmdTypeDef) (searched : List Nat) (matchAll : Bool)
    (hr : Reachable H s) (hm : s.cmnds = some arr)
    (hitems : (s.cmndsTableHead.map (fun n => n.items)).sum < 65536)
    (h7 : ∀ e ∈ registry s, ∀ x ∈ e.Name, x < 128)
    (hne : searched.headD 0 ≠ 0)
    (hex : ∃ e ∈ registry s, e.Name.headD 0 = searched.headD 0)
    (hf : s.cmndsCount + 2 ≤ fuel) :
    (∃ i : Nat, CLI_SearchChar fuel s.cmndsCount (some arr) 0 (s.cmndsCount : Int) searched
        matchAll true = some (i : Int) ∧ i < s.cmndsCount ∧
      ∃ e, arr[i]? = some e ∧ e ∈ registry s ∧ e.Name.headD 0 = searched.headD 0) ∧
    arr[s.cmndsCount]? = some zeroCmd ∧
    CLI_SearchChar fuel s.cmndsCount (some (arr.take (s.cmndsCount + 1))) 0 (s.cmndsCount : Int)
        searched matchAll true
      = CLI_SearchChar fuel s.cmndsCount (some arr) 0 (s.cmndsCount : Int) searched
        matchAll true := by
  obtain ⟨hsorted, hsz⟩ := reachable_built H s hr arr hm
  obtain ⟨hlen, hsent⟩ := hsz hitems
  have hreg : registry s = arr.take s.cmndsCount := by
    unfold registry
    rw [hm]
  rw [hreg] at h7 hex
  have htl : (arr.take s.cmndsCount).length = s.cmndsCount := by
    rw [List.length_take]
    omega
  have hgetD : ∀ i, i < s.cmndsCount → arr.getD i zeroCmd ∈ arr.take s.cmndsCount := by
    intro i hi
    have e1 : arr.getD i zeroCmd = (arr.take s.cmndsCount).get ⟨i, by omega⟩ := by
      rw [List.getD_eq_getElem?_getD, List.getElem?_eq_getElem (by omega)]
      simp
    rw [e1]
    exact List.get_mem _ _ _
  have hk7 : ∀ i, i < s.cmndsCount → firstChar arr i < 128 := by
    intro i hi
    have hmem := hgetD i hi
    unfold firstChar
    cases hN : (arr.getD i zeroCmd).Name with
    | nil => decide
    | cons x t => exact h7 _ hmem x (by rw [hN]; exact List.mem_cons_self x t)
  obtain ⟨e, he, hec⟩ := hex
  obtain ⟨j, hj, hje⟩ := List.mem_iff_getElem.mp he
  rw [htl] at hj
  have hjc : firstChar arr j = searched.headD 0 := by
    unfold firstChar
    have e1 : arr.getD j zeroCmd = (arr.take s.cmndsCount).get ⟨j, by omega⟩ := by
      rw [List.getD_eq_getElem?_getD, List.getElem?_eq_getElem (by omega)]
      simp
    have e2 : (arr.take s.cmndsCount).get ⟨j, by omega⟩ = e := hje
    rw [e1, e2]
    exact hec
  have hc7 : searched.headD 0 < 128 := by
    rw [← hjc]
    exact hk7 j hj
  have hguard : ¬ ((s.cmndsCount : Int) = 0 ∨ (0 : Int) > (s.cmndsCount : Int) ∨ searched = []) := by
    intro h
    rcases h with h | h | h
    · omega
    · omega
    · rw [h] at hne
      exact hne rfl
  obtain ⟨r, hr1, hr2, hr3⟩ := searchSorted_finds arr s.cmndsCount (searched.headD 0)
    (by omega) hc7 (sorted_firstChar arr s.cmndsCount (by omega) hsorted) hk7 fuel 0
    (s.cmndsCount : Int) (-1) j (le_refl 0) (le_refl _) (by omega) (by omega) hj hjc (by omega)
  refine ⟨⟨r, ?_, hr2, arr.getD r zeroCmd, ?_, ?_, hr3⟩, hsent, ?_⟩
  · unfold CLI_SearchChar
    simp only
    rw [if_neg hguard, if_pos trivial]
    exact hr1
  · rw [List.getD_eq_getElem?_getD, List.getElem?_eq_getElem (by omega)]
    rfl
  · rw [hreg]
    exact hgetD r hr2
  · unfold CLI_SearchChar
    simp only
    rw [if_neg hguard, if_pos trivial, if_neg hguard, if_pos trivial]
    have hlt : (s.cmndsCount : Int) < ((s.cmndsCount + 1 : Nat) : Int) :=
      Int.ofNat_lt.mpr (Nat.lt_succ_self _)
    exact searchSorted_take arr (searched.headD 0) (s.cmndsCount + 1) fuel 0 _ (-1) (le_refl 0) hlt

/-- C36: in every reachable state with a commands array, built from tables of
fewer than 65536 items in all (so that the 16-bit count did not wrap), whose
registry names are 7-bit ASCII: for every searched string that is not empty,
if some registry entry begins with the first character of the searched string,
`CLI_SearchChar` in sorted mode returns (with fuel for `cmndsCount + 2` passes)
an index below `cmndsCount` whose entry is in the registry and begins with that
character; the array has the zero-filled entry at index `cmndsCount`, and the
search reads nothing past it: it gives the same result on the array cut after
that entry. -/
theorem C36_sorted_search_finds (H : Nat → Nat → List (List Nat) → Int) (fuel : Nat)
    (s : CLI_DataTypeDef) (arr : List CLI_CmdTypeDef) (searched : List Nat) (matchAll : Bool)
    (hr : Reachable H s) (hm : s.cmnds = some arr)
    (hitems : (s.cmndsTableHead.map (fun n => n.items)).sum < 65536)
    (h7 : ∀ e ∈ registry s, ∀ x ∈ e.Name, x < 128)
    (hne : searched.headD 0 ≠ 0)
    (hex : ∃ e ∈ registry s, e.Name.headD 0 = searched.headD 0)
    (hf : s.cmndsCount + 2 ≤ fuel) :
    (∃ i : Nat, CLI_SearchChar fuel s.cmndsCount (some arr) 0 (s.cmndsCount : Int) searched
        matchAll true = some (i : Int) ∧ i < s.cmndsCount ∧
      ∃ e, arr[i]? = some e ∧ e ∈ registry s ∧ e.Name.headD 0 = searched.headD 0) ∧
    arr[s.cmndsCount]? = some zeroCmd ∧
    CLI_SearchChar fuel s.cmndsCount (some (arr.take (s.cmndsCount + 1))) 0 (s.cmndsCount : Int)
        searched matchAll true
      = CLI_SearchChar fuel s.cmndsCount (some arr) 0 (s.cmndsCount : Int) searched
        matchAll true :=
  search_finds_built H fuel s arr searched matchAll hr hm hitems h7 hne hex hf

/-- C36 at the demo: the search for `reset` returns index 3, the entry `reset`;
index 5 holds the zero-filled entry. -/
theorem C36_sorted_search_finds_witness :
    (∃ i : Nat, CLI_SearchChar 7 5 (some (registry demoBuilt ++ [zeroCmd])) 0 5 (bytes "reset")
        true true = some (i : Int) ∧ i < 5 ∧
      ∃ e, (registry demoBuilt ++ [zeroCmd])[i]? = some e ∧ e ∈ registry demoBuilt ∧
        e.Name.headD 0 = 114) ∧
    (registry demoBuilt ++ [zeroCmd])[5]? = some zeroCmd ∧
    CLI_SearchChar 7 5 (some (registry demoBuilt ++ [zeroCmd])) 0 5 (bytes "reset") true true
      = some 3 := by
  have h := C36_sorted_search_finds H0 7 demoBuilt (registry demoBuilt ++ [zeroCmd])
    (bytes "reset") true (reachable_demoBuilt H0) (by decide) (by decide) (by decide)
    (by decide) ⟨⟨3, bytes "reset"⟩, by decide, by decide⟩ (by decide)
  exact ⟨h.1, h.2.1, by decide⟩

/-! ## Claim C31: which lines the execute action takes -/

/-- The line after `CLI_ExecuteCommand` ran on a line that is not empty: the
new current slot is empty, the line index is 0 and the slot before the new
current slot holds the executed text. -/
theorem exec_text (H : Nat → Nat → List (List Nat) → Int) (fuel : Nat)
    (s s1 : CLI_DataTypeDef) (h : Inv s) (hm : s.cmnds ≠ none) (hne : currentText s ≠ [])
    (he : CLI_ExecuteCommand H fuel s = some s1) :
    currentText s1 = [] ∧ s1.lineIdx = 0 ∧ textBack s1 1 = currentText s := by
  have hhead : (lineAt s s.lineCurrent).headD 0 ≠ 0 := (cstr_ne_nil _).mp hne
  have ht := exec_commit H fuel s s1 hm hhead he
  have f := traceOnly_fields ht
  obtain ⟨c1, c2, c3⟩ := commitLine_text s h
  refine ⟨?_, by rw [f.2.1]; exact c2, ?_⟩
  · rw [← c1]
    unfold currentText lineAt
    rw [f.1, f.2.2.1]
  · rw [← c3]
    unfold textBack lineAt
    rw [f.1, f.2.2.1]

set_option maxRecDepth 100000 in
/-- C31 (the claim fails): on the sealed registry of the demo the line `hxyz`
contains no registered name as a case-insensitive substring, yet
`CLI_SearchAndExecute` returns true: the sorted search looks at the first
character only, finds `help`, `CLI_ExecuteCommand` is entered and the line is
committed to the history. -/
theorem C31_line_without_command_is_executed :
    demoBuilt.commandsSorted = true ∧
    currentText (typeBytes (bytes "hxyz") demoBuilt) = bytes "hxyz" ∧
    (∀ e ∈ registry demoBuilt, __stristr (bytes "hxyz") e.Name = some false) ∧
    worthExecuting 16 (typeBytes (bytes "hxyz") demoBuilt) = some 2 ∧
    (CLI_SearchAndExecute H0 16 (typeBytes (bytes "hxyz") demoBuilt)).map
        (fun r => (r.1, r.2.LineCount, textBack r.2 1, currentText r.2))
      = some (true, 1, bytes "hxyz", []) ∧
    CLI_SearchAndExecute H0 16 (typeBytes (bytes "hxyz") demoBuilt)
      = (CLI_ExecuteCommand H0 16 (typeBytes (bytes "hxyz") demoBuilt)).map
          (fun s1 => (true, s1)) := by
  decide

/-- C31 (amended): in every reachable, initialised state with a commands array
(tables of fewer than 65536 items in all, at most 255 commands, 7-bit ASCII
names) and a current line that is not empty and begins with the first character
of some registered name, the execute action takes the line as worth executing,
whether it contains a command name or not: the sorted search returns the index
of an entry that begins with that character, `CLI_SearchAndExecute` returns
true through `CLI_ExecuteCommand`, and the line is committed to the history and
cleared. -/
theorem C31_first_letter_decides (H : Nat → Nat → List (List Nat) → Int) (fuel : Nat)
    (s : CLI_DataTypeDef) (arr : List CLI_CmdTypeDef)
    (hr : Reachable H s) (hi : s.initialized = true) (hm : s.cmnds = some arr)
    (hitems : (s.cmndsTableHead.map (fun n => n.items)).sum < 65536)
    (h255 : s.cmndsCount ≤ 255)
    (h7 : ∀ e ∈ registry s, ∀ x ∈ e.Name, x < 128)
    (hne : currentText s ≠ [])
    (hex : ∃ e ∈ registry s, e.Name.headD 0 = (currentText s).headD 0)
    (hf : s.cmndsCount + 16 ≤ fuel) :
    (∃ i : Nat, worthExecuting fuel s = some (i : Int) ∧ i < s.cmndsCount ∧
      ∃ e, arr[i]? = some e ∧ e.Name.headD 0 = (currentText s).headD 0) ∧
    ∃ s1, CLI_SearchAndExecute H fuel s = some (true, s1) ∧
      CLI_ExecuteCommand H fuel s = some s1 ∧
      currentText s1 = [] ∧ s1.lineIdx = 0 ∧ textBack s1 1 = currentText s := by
  have hinv := reachable_inv H s hr
  have hsorted : s.commandsSorted = true := by
    cases hc : s.commandsSorted with
    | true => rfl
    | false =>
      have := reachable_unsealed H s hr hc
      rw [hm] at this
      exact absurd this (by simp)
  have hhead : (lineAt s s.lineCurrent).headD 0 ≠ 0 := (cstr_ne_nil _).mp hne
  have hc0 : (currentText s).headD 0 ≠ 0 := by
    cases hT : currentText s with
    | nil => exact absurd hT hne
    | cons x t =>
      show x ≠ 0
      exact cstr_nonzero (lineAt s s.lineCurrent) x (by
        have : x ∈ currentText s := by rw [hT]; exact List.mem_cons_self x t
        exact this)
  obtain ⟨⟨i, hi1, hi2, e, he1, _, he3⟩, hsent, _⟩ :=
    search_finds_built H fuel s arr (currentText s) true hr hm hitems h7 hc0 hex (by omega)
  have hlen : s.cmndsCount < arr.length := by
    by_contra hge
    rw [List.getElem?_eq_none (by omega)] at hsent
    exact absurd hsent (by simp)
  have hworth : worthExecuting fuel s = some (i : Int) := by
    unfold worthExecuting
    rw [if_pos hhead, hm, hsorted]
    exact hi1
  obtain ⟨s1, h1⟩ := exec_returns H fuel s h255
    (fun a ha => by
      rw [hm] at ha
      rw [← Option.some.inj ha]
      omega) hf
  refine ⟨⟨i, hworth, hi2, e, he1, he3⟩, s1, ?_, h1, ?_⟩
  · unfold CLI_SearchAndExecute
    rw [if_neg (by rw [hi]; simp), hworth]
    simp only
    rw [if_pos (by omega), h1]
  · exact exec_text H fuel s s1 hinv (by rw [hm]; simp) hne h1

/-- C31 (amended) at the demo: `hxyz` begins like `help`; the line is executed,
reported as not recognised by the dispatcher, and committed. -/
theorem C31_first_letter_decides_witness :
    ∃ s1, CLI_SearchAndExecute H0 21 (typeBytes (bytes "hxyz") demoBuilt) = some (true, s1) ∧
      CLI_ExecuteCommand H0 21 (typeBytes (bytes "hxyz") demoBuilt) = some s1 ∧
      currentText s1 = [] ∧ s1.lineIdx = 0 ∧ textBack s1 1 = bytes "hxyz" := by
  have facts : (typeBytes (bytes "hxyz") demoBuilt).initialized = true ∧
      (typeBytes (bytes "hxyz") demoBuilt).cmnds = some (registry demoBuilt ++ [zeroCmd]) ∧
      (typeBytes (bytes "hxyz") demoBuilt).cmndsTableHead = demoBuilt.cmndsTableHead ∧
      (typeBytes (bytes "hxyz") demoBuilt).cmndsCount = 5 ∧
      registry (typeBytes (bytes "hxyz") demoBuilt) = registry demoBuilt ∧
      currentText (typeBytes (bytes "hxyz") demoBuilt) = bytes "hxyz" := by
    decide
  obtain ⟨f1, f2, f3, f4, f5, f6⟩ := facts
  have h := C31_first_letter_decides H0 21 (typeBytes (bytes "hxyz") demoBuilt)
    (registry demoBuilt ++ [zeroCmd]) (reachable_typeBytes H0 _ _ (reachable_demoBuilt H0))
    f1 f2 (by rw [f3]; decide) (by rw [f4]; decide) (by rw [f5]; decide) (by rw [f6]; decide)
    ⟨⟨1, bytes "help"⟩, by rw [f5]; decide, by rw [f6]; decide⟩ (by rw [f4])
  obtain ⟨s1, a, b, c, d, e⟩ := h.2
  exact ⟨s1, a, b, c, d, e.trans f6⟩

/-! ## Claim C34: when the tab completer lists the candidates -/

theorem matchLoop_nil_left (l : List Nat) (i : Nat) : matchLoop [] l i = 0 := by
  unfold matchLoop
  rfl

theorem matchLoop_nil_right (l : List Nat) (i : Nat) : matchLoop l [] i = 0 := by
  cases l with
  | nil => exact matchLoop_nil_left [] i
  | cons x t =>
    unfold matchLoop
    rfl

/-- Strings that do not begin with the same character have no common leading
character for `CLI_MatchChars`. -/
theorem matchChars_head_ne (a b : List Nat) (h : a.head? ≠ b.head?) : CLI_MatchChars a b = 0 := by
  unfold CLI_MatchChars
  cases a with
  | nil =>
    rw [List.take_nil]
    exact matchLoop_nil_left _ 0
  | cons x s =>
    cases b with
    | nil =>
      rw [List.take_nil]
      exact matchLoop_nil_right _ 0
    | cons y t =>
      have hxy : x ≠ y := fun e => h (by rw [e]; rfl)
      cases hm : min ((x :: s).length % 256) ((y :: t).length % 256) with
      | zero => exact matchLoop_nil_left _ 0
      | succ m =>
        rw [List.take_succ_cons, List.take_succ_cons]
        unfold matchLoop
        rw [if_pos hxy]

theorem narrowPlen_zero (lcd : List Nat) (cmpLen : Nat) (rest : List (List Nat)) (p : Nat)
    (h : p = 0 ∨ ∃ c ∈ rest, CLI_MatchChars lcd (c.drop cmpLen) = 0) :
    narrowPlen lcd cmpLen rest p = 0 := by
  induction rest generalizing p with
  | nil =>
    rcases h with h | ⟨c, hc, _⟩
    · exact h
    · exact absurd hc (by simp)
  | cons c t ih =>
    unfold narrowPlen
    rcases h with h | ⟨d, hd, hd0⟩
    · subst h
      rw [if_neg (Nat.not_lt_zero _)]
      exact ih 0 (Or.inl rfl)
    · rcases List.mem_cons.mp hd with hd1 | hd1
      · subst hd1
        by_cases hlt : CLI_MatchChars lcd (d.drop cmpLen) < p
        · rw [if_pos hlt]
          exact ih _ (Or.inl hd0)
        · rw [if_neg hlt]
          exact ih p (Or.inl (by omega))
      · exact ih _ (Or.inr ⟨d, hd1, hd0⟩)

/-- The first-letter search `CLI_TabCompleter` runs returns, and it is -1 only
for an empty registry. -/
theorem tabPreSearch_returns (fuel : Nat) (s : CLI_DataTypeDef) (arr : List CLI_CmdTypeDef)
    (hs : s.commandsSorted = true) (hl : s.cmndsCount < arr.length) (hne : currentText s ≠ [])
    (hf : s.cmndsCount + 2 ≤ fuel) :
    ∃ r, tabPreSearch fuel arr s = some r ∧ (r = -1 → s.cmndsCount = 0) := by
  unfold tabPreSearch
  rw [if_pos hs]
  unfold CLI_SearchChar
  simp only
  by_cases h0 : s.cmndsCount = 0
  · rw [if_pos (Or.inl (by rw [h0]; rfl))]
    exact ⟨-1, rfl, fun _ => h0⟩
  · rw [if_neg (by
      intro hx
      rcases hx with hx | hx | hx
      · exact h0 (by exact_mod_cast hx)
      · omega
      · exact hne hx), if_pos hs]
    obtain ⟨r, hr⟩ := searchSorted_returns arr ((cstr (lineAt s s.lineCurrent)).headD 0) fuel 0
      (s.cmndsCount : Int) (-1) (le_refl 0) (by omega) (by omega)
    refine ⟨r, hr, ?_⟩
    intro hneg
    have := searchSorted_nonneg _ _ _ _ _ _ _ (le_refl 0) (Or.inl (by omega)) hr
    omega

set_option maxRecDepth 100000 in
/-- C34 (the claim fails): in the demo `help` is typed, the complete name of
the only candidate; `CLI_TabCompleter` returns 1, appends a space to the line and
prints the listing all the same: a line break, the name padded to 19 columns and
a space, a line break, the prompt on a new line and the line. -/
theorem C34_single_complete_candidate_is_listed :
    ((registry demoBuilt).filter
      (fun e => strncmpEq e.Name (currentText demoHelpTyped) demoHelpTyped.lineIdx)).map
        (fun e => e.Name) = [bytes "help"] ∧
    (CLI_TabCompleter 16 demoHelpTyped.lineIdx demoHelpTyped).map
        (fun r => (r.1, currentText r.2, r.2.trace.drop demoHelpTyped.trace.length))
      = some (1, bytes "help ",
          ([13, 10] ++ bytes "help" ++ List.replicate 16 32 ++ [13, 10, 13, 10]
            ++ bytes "Intel>help ").map Event.out) := by
  decide

/-- C34 (amended): on a well-formed state with a sorted commands array of at
most 255 commands, a line index that is not 0 and fewer than 32 candidates
(the registry entries that agree with the line on its first `lineIdx`
characters): with no candidate `CLI_TabCompleter` returns 0 and changes and
prints nothing; with the candidates `c0 :: rest` it returns their number and
prints the multi-column listing exactly when the common length `plen` it
computes is 0, and the rest of the rewritten line otherwise.  With one candidate
`plen` is 0 exactly when the typed text is the complete name; with any number
of candidates `plen` is 0 when the first candidate has nothing beyond the typed
text or some candidate continues with another character than the first. -/
theorem C34_listing_when_common_length_is_zero (fuel : Nat) (s : CLI_DataTypeDef)
    (arr : List CLI_CmdTypeDef) (h : Inv s) (hm : s.cmnds = some arr)
    (hs : s.commandsSorted = true) (hc : s.cmndsCount ≤ 255) (hl : s.cmndsCount < arr.length)
    (hp : 0 < s.lineIdx)
    (h32 : (((arr.take s.cmndsCount).filter
      (fun e => strncmpEq e.Name (currentText s) s.lineIdx)).map (fun e => e.Name)).length
        < CLI_MAX_COMPLETIONS)
    (hf : s.cmndsCount + 2 ≤ fuel) :
    (((arr.take s.cmndsCount).filter
        (fun e => strncmpEq e.Name (currentText s) s.lineIdx)).map (fun e => e.Name) = [] →
      CLI_TabCompleter fuel s.lineIdx s = some (0, s)) ∧
    ∀ c0 rest, ((arr.take s.cmndsCount).filter
        (fun e => strncmpEq e.Name (currentText s) s.lineIdx)).map (fun e => e.Name)
          = c0 :: rest →
      (∃ edited, edited = (if rest = [] then
            appendSpace (rewriteLine c0 ((s.lineIdx + completionPlen s.lineIdx c0 rest) % 256) s)
          else rewriteLine c0 ((s.lineIdx + completionPlen s.lineIdx c0 rest) % 256) s) ∧
        CLI_TabCompleter fuel s.lineIdx s = some (rest.length + 1,
          if completionPlen s.lineIdx c0 rest = 0 then showListing (c0 :: rest) edited
          else CLI_Print ((lineAt edited edited.lineCurrent).drop s.lineIdx) 0 edited)) ∧
      (rest = [] → (completionPlen s.lineIdx c0 rest = 0 ↔ c0.length = s.lineIdx)) ∧
      ((c0.drop s.lineIdx = [] ∨
          ∃ c ∈ rest, (c0.drop s.lineIdx).head? ≠ (c.drop s.lineIdx).head?) →
        completionPlen s.lineIdx c0 rest = 0) := by
  have hidx : s.lineIdx ≤ (currentText s).length := h.2.1
  have htext : currentText s ≠ [] := by
    intro e0
    rw [e0] at hidx
    simp at hidx
    omega
  obtain ⟨r, hr1, hr2⟩ := tabPreSearch_returns fuel s arr hs hl htext hf
  have hloop := completionLoop_eq arr s.cmndsCount (currentText s) s.lineIdx hp hc
    (by omega) fuel 0 [] (Nat.zero_le _) (by omega)
    (by
      rw [List.drop_zero, List.length_nil, Nat.zero_add]
      rw [List.length_map] at h32
      exact h32)
  rw [List.drop_zero, List.nil_append] at hloop
  have e1 : cstr (lineAt s s.lineCurrent) = currentText s := rfl
  constructor
  · intro hnil
    rw [hnil] at hloop
    unfold CLI_TabCompleter
    rw [hm]
    simp only
    rw [hr1]
    simp only
    by_cases hneg : s.commandsSorted = true ∧ r = -1
    · rw [if_pos hneg]
    · rw [if_neg hneg, e1, hloop]
  · intro c0 rest hcands
    rw [hcands] at hloop
    have hmem : c0 ∈ ((arr.take s.cmndsCount).filter
        (fun e => strncmpEq e.Name (currentText s) s.lineIdx)).map (fun e => e.Name) := by
      rw [hcands]; exact List.mem_cons_self c0 rest
    obtain ⟨e, he, hname⟩ := List.mem_map.mp hmem
    obtain ⟨he1, he2⟩ := List.mem_filter.mp he
    have hcnt0 : s.cmndsCount ≠ 0 := by
      intro e0
      rw [e0] at he1
      simp at he1
    have hok := h.2.2.1 arr hm e (List.mem_of_mem_take he1)
    rw [hname] at hok he2
    have hlen := (strncmpEq_length c0 (currentText s) s.lineIdx hok.2 (cstr_nonzero _) hidx he2).1
    have hn11 : c0.length ≤ 11 := hok.1
    refine ⟨⟨_, rfl, ?_⟩, ?_, ?_⟩
    · unfold CLI_TabCompleter
      rw [hm]
      simp only
      rw [hr1]
      simp only
      rw [if_neg (fun hx => hcnt0 (hr2 hx.2)), e1, hloop]
      simp only [List.length_cons]
      unfold applyCompletion completionOutput
      by_cases hz : completionPlen s.lineIdx c0 rest = 0
      · rw [if_pos hz, if_neg (by rw [hz]; simp)]
      · rw [if_neg hz, if_pos hz]
    · intro hrest
      subst hrest
      unfold completionPlen narrowPlen
      rw [List.length_drop, Nat.mod_eq_of_lt (by omega)]
      omega
    · intro hcase
      unfold completionPlen
      apply narrowPlen_zero
      rcases hcase with hcase | ⟨c, hc1, hc2⟩
      · left
        rw [hcase]
        rfl
      · right
        exact ⟨c, hc1, matchChars_head_ne _ _ hc2⟩

/-- C34 (amended) at the demo: with `he` typed `help` is the only candidate,
the common length is 2 and `lp` and a space are printed, no listing; with `z`
typed there is no candidate and nothing changes. -/
theorem C34_listing_when_common_length_is_zero_witness :
    CLI_TabCompleter 7 1 (typeBytes (bytes "z") demoBuilt)
      = some (0, typeBytes (bytes "z") demoBuilt) ∧
    completionPlen 2 (bytes "help") [] ≠ 0 ∧
    (CLI_TabCompleter 7 2 (typeBytes (bytes "he") demoBuilt)).map
        (fun r => (r.1, currentText r.2, r.2.trace.drop (typeBytes (bytes "he") demoBuilt).trace.length))
      = some (1, bytes "help ", (bytes "lp ").map Event.out) := by
  have hz := (C34_listing_when_common_length_is_zero 7 (typeBytes (bytes "z") demoBuilt)
    (registry demoBuilt ++ [zeroCmd])
    (reachable_inv H0 _ (reachable_typeBytes H0 _ _ (reachable_demoBuilt H0)))
    (by decide) (by decide) (by decide) (by decide) (by decide) (by decide) (by decide)).1
    (by decide)
  have hh := ((C34_listing_when_common_length_is_zero 7 (typeBytes (bytes "he") demoBuilt)
    (registry demoBuilt ++ [zeroCmd])
    (reachable_inv H0 _ (reachable_typeBytes H0 _ _ (reachable_demoBuilt H0)))
    (by decide) (by decide) (by decide) (by decide) (by decide) (by decide) (by decide)).2
    (bytes "help") [] (by decide)).2.1 rfl
  refine ⟨hz, ?_, by decide⟩
  intro h0
  have := hh.mp h0
  exact absurd this (by decide)

/-! ## Claim C37: history-previous followed by history-next -/

/-- The worker on a pending retrieval: the current line takes the text of the
slot `LineBack` places before it, and the engine listens again. -/
theorem retrieve_step (H : Nat → Nat → List (List Nat) → Int) (fuel : Nat)
    (x : CLI_DataTypeDef) (hinv : Inv x) (hi : x.initialized = true) (hm : x.cmnds ≠ none)
    (hr : x.receivingEscapeSequence = false)
    (hb : x.CurrentEscapeSequence.length = CLI_MAX_ESCAPE)
    (hrules : x.escapeSequence = escapeRules x.echo)
    (he : x.execType = CLI_ExecTypeDef.CLI_Exec_RetrieveHistory) :
    ∃ y, CLI_ProcessState H fuel x = some (true, y) ∧ Inv y ∧ Listening y ∧
      y.escapeSequence = escapeRules y.echo ∧ y.echo = x.echo ∧ y.LineBack = x.LineBack ∧
      y.LineCount = x.LineCount ∧ y.lineCurrent = x.lineCurrent ∧
      currentText y = textBack x x.LineBack := by
  refine ⟨_, state_retrieve H fuel x hi he, ?_⟩
  have tc := retrieve_copy x
  have f := traceOnly_fields tc
  have g := cfg_cliRetrieveHistory x
  have r := reg_cliRetrieveHistory x
  obtain ⟨c1, c2, c3, c4, c5⟩ := copy_fields x hinv
  have hrinv := inv_cliRetrieveHistory x hinv
  generalize (cliRetrieveHistory x).2 = y at tc f g r hrinv
  have hcur : y.lineCurrent = x.lineCurrent := by rw [f.2.2.1, c3]
  refine ⟨?_, ⟨?_, ?_, rfl, ?_, ?_⟩, ?_, g.2.2.1, ?_, ?_, hcur, ?_⟩
  · exact inv_same hrinv rfl rfl rfl rfl hrinv.2.2.2.1 rfl
  · show y.initialized = true
    rw [g.1]; exact hi
  · show y.cmnds ≠ none
    rw [r.1]; exact hm
  · show y.receivingEscapeSequence = false
    rw [g.2.2.2.2.2.1]; exact hr
  · show y.CurrentEscapeSequence.length = CLI_MAX_ESCAPE
    rw [g.2.2.2.2.2.2.1]; exact hb
  · show y.escapeSequence = escapeRules y.echo
    rw [g.2.2.2.2.1, g.2.2.1]; exact hrules
  · show y.LineBack = x.LineBack
    rw [f.2.2.2.2.1, c5]
  · show y.LineCount = x.LineCount
    rw [f.2.2.2.1, c4]
  · show cstr (lineAt y y.lineCurrent) = _
    rw [hcur, lineAt_traceOnly tc]
    exact c1

/-- The state after the escape sequence of an arrow key left escape mode. -/
theorem escExit_listening (acc : List Nat) (s : CLI_DataTypeDef) (h : Inv s) (hl : Listening s)
    (hr : s.escapeSequence = escapeRules s.echo) :
    Inv (escExit acc s) ∧ Listening (escExit acc s) ∧
    (escExit acc s).escapeSequence = escapeRules (escExit acc s).echo ∧
    (escExit acc s).echo = s.echo ∧ (escExit acc s).line = s.line ∧
    (escExit acc s).lineCurrent = s.lineCurrent ∧ (escExit acc s).LineCount = s.LineCount ∧
    (escExit acc s).LineBack = s.LineBack := by
  obtain ⟨f1, f2, f3, f4, f5, f6, _, f8⟩ := escExit_fields acc s
  obtain ⟨g1, g2, _, g4, g5, g6⟩ := escExit_cfg acc s
  refine ⟨?_, ⟨?_, ?_, ?_, f8, ?_⟩, ?_, g4, f1, f3, f4, f5⟩
  · exact inv_same h f1 f2 f3 f4 (by rw [f5]; exact h.2.2.2.1) g2
  · rw [g1]; exact hl.1
  · rw [g2]; exact hl.2.1
  · rw [f6]; exact hl.2.2.1
  · rw [g6]; exact hl.2.2.2.2
  · rw [g5, g4]; exact hr

theorem textBack_zero (s : CLI_DataTypeDef) (h : s.lineCurrent < 10) :
    textBack s 0 = currentText s := by
  rw [textBack_slot]
  have e : (s.lineCurrent + 10 - 0) % 10 = s.lineCurrent := by omega
  rw [e]
  rfl

theorem textBack_congr {s s1 : CLI_DataTypeDef} (hl : s1.line = s.line)
    (hc : s1.lineCurrent = s.lineCurrent) (k : Nat) : textBack s1 k = textBack s k := by
  unfold textBack lineAt
  rw [hl, hc]

/-- C37: in every well-formed listening state with the escape rules of its echo
setting, the step-back counter at 0 and at least one history entry, whatever
text the current line holds: after history-previous (the bytes of the up arrow,
then the worker) and history-next (the bytes of the down arrow, then the
worker) the step-back counter is 0 again and the current line holds the most
recent history entry, the text of the slot before the current one; the text the
line held before is not restored. -/
theorem C37_up_then_down_shows_last_entry (H : Nat → Nat → List (List Nat) → Int)
    (fuel : Nat) (s : CLI_DataTypeDef) (h : Inv s) (hl : Listening s)
    (hrules : s.escapeSequence = escapeRules s.echo) (hback : s.LineBack = 0)
    (hcnt : 1 ≤ s.LineCount) :
    ∃ s2, upThenDown H fuel s = some s2 ∧ currentText s2 = textBack s 1 ∧ s2.LineBack = 0 ∧
      s2.LineCount = s.LineCount ∧ s2.lineCurrent = s.lineCurrent := by
  -- history-previous
  obtain ⟨einv, elis, erules, eecho, eline, ecur, ecount, eback⟩ :=
    escExit_listening (keysUp s.echo).tail s h hl hrules
  have hfire := keysUp_fire s hl hrules
  generalize escExit (keysUp s.echo).tail s = e at einv elis erules eecho eline ecur ecount eback hfire
  have hlt : e.LineBack < e.LineCount := by rw [eback, ecount, hback]; exact hcnt
  have hx : keyUp e = CLI_TaskAlert { e with
      LineBack := (e.LineBack + 1) % 256
      execType := CLI_ExecTypeDef.CLI_Exec_RetrieveHistory } := by
    unfold keyUp
    rw [if_pos hlt]
  obtain ⟨s1, hs1, inv1, lis1, rules1, echo1, back1, count1, cur1, text1⟩ :=
    retrieve_step H fuel (keyUp e) (inv_keyUp e einv)
      (by rw [hx]; exact elis.1) (by rw [hx]; exact elis.2.1) (by rw [hx]; exact elis.2.2.2.1)
      (by rw [hx]; exact elis.2.2.2.2) (by rw [hx]; exact erules) (by rw [hx]; rfl)
  have hb1 : s1.LineBack = 1 := by
    rw [back1, hx]
    show (e.LineBack + 1) % 256 = 1
    rw [eback, hback]
  have ht1 : currentText s1 = textBack s 1 := by
    rw [text1]
    have e1 : (keyUp e).LineBack = 1 := by
      rw [hx]
      show (e.LineBack + 1) % 256 = 1
      rw [eback, hback]
    rw [e1]
    exact textBack_congr (by rw [hx]; exact eline) (by rw [hx]; exact ecur) 1
  have hc1 : s1.lineCurrent = s.lineCurrent := by
    rw [cur1, hx]; exact ecur
  have hn1 : s1.LineCount = s.LineCount := by
    rw [count1, hx]; exact ecount
  have hfeed1 : feed H fuel (keysUp s.echo) s = some s1 := by
    unfold feed
    rw [hfire, hs1]
  -- history-next
  obtain ⟨dinv, dlis, drules, decho, dline, dcur, dcount, dback⟩ :=
    escExit_listening (keysDown s1.echo).tail s1 inv1 lis1 rules1
  have hfire2 := keysDown_fire s1 lis1 rules1
  generalize escExit (keysDown s1.echo).tail s1 = d at dinv dlis drules decho dline dcur dcount dback hfire2
  have hne : d.LineBack ≠ 0 := by rw [dback, hb1]; decide
  have hy : keyDown d = CLI_TaskAlert { d with
      LineBack := d.LineBack - 1
      execType := CLI_ExecTypeDef.CLI_Exec_RetrieveHistory } := by
    unfold keyDown
    rw [if_pos hne]
  obtain ⟨s2, hs2, inv2, _, _, _, back2, count2, cur2, text2⟩ :=
    retrieve_step H fuel (keyDown d) (inv_keyDown d dinv)
      (by rw [hy]; exact dlis.1) (by rw [hy]; exact dlis.2.1) (by rw [hy]; exact dlis.2.2.2.1)
      (by rw [hy]; exact dlis.2.2.2.2) (by rw [hy]; exact drules) (by rw [hy]; rfl)
  have hb2 : (keyDown d).LineBack = 0 := by
    rw [hy]
    show d.LineBack - 1 = 0
    rw [dback, hb1]
  refine ⟨s2, ?_, ?_, by rw [back2]; exact hb2, ?_, ?_⟩
  · unfold upThenDown
    rw [hfeed1]
    simp only
    unfold feed
    rw [hfire2, hs2]
  · rw [text2, hb2, textBack_congr (show (keyDown d).line = s1.line by rw [hy]; exact dline)
      (show (keyDown d).lineCurrent = s1.lineCurrent by rw [hy]; exact dcur) 0,
      textBack_zero s1 inv1.1.2.1]
    exact ht1
  · rw [count2, hy]
    exact dcount.trans hn1
  · rw [cur2, hy]
    exact dcur.trans hc1

theorem reachable_demoTwoLines : Reachable H0 demoTwoLines :=
  reachable_enterLine H0 16 _ _ (reachable_enterLine H0 16 _ _ (reachable_demoBuilt H0))

set_option maxRecDepth 100000 in
/-- C37 at the demo: after `help` and `version` were entered, `abc` is typed;
up and down leave `version` on the line, not `abc`. -/
theorem C37_up_then_down_shows_last_entry_witness :
    currentText (typeBytes (bytes "abc") demoTwoLines) = bytes "abc" ∧
    ∃ s2, upThenDown H0 16 (typeBytes (bytes "abc") demoTwoLines) = some s2 ∧
      currentText s2 = bytes "version" ∧ s2.LineBack = 0 := by
  have facts : currentText (typeBytes (bytes "abc") demoTwoLines) = bytes "abc" ∧
      textBack (typeBytes (bytes "abc") demoTwoLines) 1 = bytes "version" ∧
      (typeBytes (bytes "abc") demoTwoLines).escapeSequence
        = escapeRules (typeBytes (bytes "abc") demoTwoLines).echo ∧
      (typeBytes (bytes "abc") demoTwoLines).LineBack = 0 ∧
      1 ≤ (typeBytes (bytes "abc") demoTwoLines).LineCount := by
    decide
  obtain ⟨f1, f2, f3, f4, f5⟩ := facts
  obtain ⟨s2, a, b, c, _⟩ := C37_up_then_down_shows_last_entry H0 16
    (typeBytes (bytes "abc") demoTwoLines)
    (reachable_inv H0 _ (reachable_typeBytes H0 _ _ reachable_demoTwoLines))
    ⟨by decide, by decide, by decide, by decide, by decide⟩ f3 f4 f5
  exact ⟨f1, s2, a, b.trans f2, c⟩

/-! ## Claim C39: the escape accumulator stays in bounds -/

theorem filter_length_le_one {α : Type} (l : List α) (p : α → Bool)
    (h : l.Pairwise (fun a b => ¬ (p a = true ∧ p b = true))) : (l.filter p).length ≤ 1 := by
  induction l with
  | nil => exact Nat.zero_le _
  | cons a t ih =>
    rw [List.pairwise_cons] at h
    by_cases ha : p a = true
    · rw [List.filter_cons_of_pos ha]
      have ht : t.filter p = [] := by
        rw [List.filter_eq_nil_iff]
        intro b hb hpb
        exact h.1 b hb ⟨ha, hpb⟩
      rw [ht]
      exact Nat.le_refl _
    · rw [List.filter_cons_of_neg ha]
      exact ih h.2

/-- With two bytes accumulated at most one rule of either rule set agrees with
them. -/
theorem two_bytes_one_rule (e : Bool) (a : List Nat) (ha : ∀ x ∈ a, x ≠ 0) :
    ((escapeRules e).filter (fun r => strncmpEq a r.string 2)).length ≤ 1 := by
  apply filter_length_le_one
  have hd : (escapeRules e).Pairwise (fun r1 r2 => r1.string.take 2 ≠ r2.string.take 2) := by
    cases e <;> decide
  have hz : (escapeRules e).Pairwise (fun r1 r2 =>
      (∀ x ∈ r1.string, x ≠ 0) ∧ (∀ x ∈ r2.string, x ≠ 0)) := by
    cases e <;> decide
  refine (hd.and hz).imp ?_
  intro r1 r2 hne hboth
  obtain ⟨h1, h2⟩ := hboth
  unfold strncmpEq at h1 h2
  have e1 := (strcmp_eq_zero _ _ (fun x hx => ha x (List.mem_of_mem_take hx))
    (fun x hx => hne.2.1 x (List.mem_of_mem_take hx))).mp (of_decide_eq_true h1)
  have e2 := (strcmp_eq_zero _ _ (fun x hx => ha x (List.mem_of_mem_take hx))
    (fun x hx => hne.2.2 x (List.mem_of_mem_take hx))).mp (of_decide_eq_true h2)
  exact hne.1 (e1.symm.trans e2)

/-- A state that agrees with a state in step on the configuration and the
matcher is in step. -/
theorem escOk_of_cfg {s s1 : CLI_DataTypeDef}
    (f : s1.initialized = s.initialized ∧ s1.locked = s.locked ∧ s1.echo = s.echo
      ∧ s1.autoLowerCase = s.autoLowerCase ∧ s1.escapeSequence = s.escapeSequence
      ∧ s1.receivingEscapeSequence = s.receivingEscapeSequence
      ∧ s1.CurrentEscapeSequence = s.CurrentEscapeSequence
      ∧ s1.CurrentEscapeSequenceCount = s.CurrentEscapeSequenceCount)
    (h : EscOk s) : EscOk s1 := by
  obtain ⟨f1, _, f3, _, f5, f6, f7, f8⟩ := f
  unfold EscOk
  rw [f1, f3, f5, f6, f7, f8]
  exact h

theorem escOk_processKey (c : Nat) (s : CLI_DataTypeDef) (h : EscOk s)
    (hi : s.initialized = true) : EscOk (processKey c s) := by
  unfold processKey
  repeat' split
  · exact ⟨h.1, Nat.zero_le _, fun _ => Nat.zero_le _, h.2.2.2.1, fun _ => hi⟩
  · exact escOk_of_cfg (cfg_keyReturn s) h
  · exact escOk_of_cfg (cfg_keyTab s) h
  · exact escOk_of_cfg (cfg_keyBackspace s) h
  · exact escOk_of_cfg (cfg_keyDown s) h
  · exact escOk_of_cfg (cfg_keyUp s) h
  · exact h
  · exact h
  · exact escOk_of_cfg (cfg_keyTab s) h
  · exact escOk_of_cfg (cfg_keyDefault c s) h

/-- Every key but the escape introducer leaves the escape mode as it is. -/
theorem processKey_mode (c : Nat) (s : CLI_DataTypeDef) (hc : c ≠ 27) :
    (processKey c s).receivingEscapeSequence = s.receivingEscapeSequence := by
  unfold processKey
  rw [if_neg hc]
  repeat' split
  · exact (cfg_keyReturn s).2.2.2.2.2.1
  · exact (cfg_keyTab s).2.2.2.2.2.1
  · exact (cfg_keyBackspace s).2.2.2.2.2.1
  · exact (cfg_keyDown s).2.2.2.2.2.1
  · exact (cfg_keyUp s).2.2.2.2.2.1
  · rfl
  · rfl
  · exact (cfg_keyTab s).2.2.2.2.2.1
  · exact (cfg_keyDefault c s).2.2.2.2.2.1

/-- One byte through the matcher of an initialised engine in escape mode: the
matcher stays in step, and with one byte accumulated before, escape mode
ends. -/
theorem escOk_ProcessEscape (c : Nat) (s : CLI_DataTypeDef) (h : EscOk s)
    (hi : s.initialized = true) (hr : s.receivingEscapeSequence = true) :
    EscOk (CLI_ProcessEscapeSequnceChar c s).2 ∧
    (s.CurrentEscapeSequenceCount = 1 →
      (CLI_ProcessEscapeSequnceChar c s).2.receivingEscapeSequence = false) ∧
    ((CLI_ProcessEscapeSequnceChar c s).1 ≠ 0 →
      (CLI_ProcessEscapeSequnceChar c s).2.receivingEscapeSequence = false ∧
      (CLI_ProcessEscapeSequnceChar c s).1 ≠ 27) := by
  obtain ⟨h1, h2, h3, h4, h5⟩ := h
  have hc1 := h3 hr
  have hcount : (escAccumulate c s).CurrentEscapeSequenceCount
      = s.CurrentEscapeSequenceCount + 1 := by
    show (s.CurrentEscapeSequenceCount + 1) % 256 = _
    exact Nat.mod_eq_of_lt (by omega)
  have hlen : (escAccumulate c s).CurrentEscapeSequence.length = CLI_MAX_ESCAPE := by
    show (s.CurrentEscapeSequence.set _ _).length = _
    rw [List.length_set]
    exact h1
  have hrules : (escAccumulate c s).escapeSequence = escapeRules s.echo := h4 hi
  have hall : ∀ e : Bool, ∀ r ∈ escapeRules e, r.value ≠ 27 := by
    intro e
    cases e <;> decide
  have hval : ∀ r ∈ escMatches (escAccumulate c s), r.value ≠ 27 := by
    intro r hr1
    unfold escMatches at hr1
    rw [hrules] at hr1
    exact hall _ r (List.mem_filter.mp hr1).1
  have hle : s.CurrentEscapeSequenceCount = 1 → (escMatches (escAccumulate c s)).length ≤ 1 := by
    intro h1c
    unfold escMatches
    rw [hrules, hcount, h1c]
    exact two_bytes_one_rule s.echo _ (cstr_nonzero _)
  unfold CLI_ProcessEscapeSequnceChar
  split
  · refine ⟨⟨hlen, by rw [hcount]; omega, fun hx => absurd hx (by simp), h4, fun _ => hi⟩,
      fun _ => rfl, fun hx => absurd rfl hx⟩
  · rename_i r hm
    refine ⟨⟨hlen, by rw [hcount]; omega, fun hx => absurd hx (by simp), h4, fun _ => hi⟩,
      fun _ => rfl, fun _ => ⟨rfl, ?_⟩⟩
    exact hval r (by rw [hm]; exact List.mem_singleton_self r)
  · rename_i hn0 hn1
    have hcz : s.CurrentEscapeSequenceCount ≠ 1 := by
      intro h1c
      have := hle h1c
      cases hm : escMatches (escAccumulate c s) with
      | nil => exact hn0 hm
      | cons r t =>
        cases t with
        | nil => exact hn1 r hm
        | cons r2 t2 =>
          rw [hm] at this
          simp at this
    refine ⟨⟨hlen, by rw [hcount]; omega, fun _ => by rw [hcount]; omega, h4, fun _ => hi⟩,
      fun h1c => absurd h1c hcz, fun hx => absurd rfl hx⟩

theorem escOk_ProcessChar (c : Nat) (s : CLI_DataTypeDef) (h : EscOk s) :
    EscOk (CLI_ProcessChar c s).2 := by
  unfold CLI_ProcessChar
  split
  · exact h
  · rename_i hg
    have hi : s.initialized = true := by
      cases hx : s.initialized with
      | true => rfl
      | false => exact absurd (Or.inl hx) hg
    split
    · exact h
    · split
      · rename_i hr
        obtain ⟨e1, _, _⟩ := escOk_ProcessEscape c s h hi hr
        have hi1 : (CLI_ProcessEscapeSequnceChar c s).2.initialized = true := by
          unfold CLI_ProcessEscapeSequnceChar
          split <;> exact hi
        split
        · exact e1
        · exact escOk_processKey _ _ e1 hi1
      · exact escOk_processKey c s h hi

theorem escOk_Init (cliInit : Option CLI_InitTypeDef) (s : CLI_DataTypeDef) (h : EscOk s) :
    EscOk (CLI_Init cliInit s).2 := by
  unfold CLI_Init
  split
  · exact h
  · rename_i cfg
    split
    · exact h
    · rename_i hni
      obtain ⟨h1, h2, h3, _, h5⟩ := h
      have hnr : s.receivingEscapeSequence ≠ true := fun hx => hni (h5 hx)
      have hs : EscOk (storeConfig cfg s) :=
        ⟨h1, h2, h3, fun _ => rfl, fun hx => absurd hx hnr⟩
      have hp : EscOk (if cfg.printPrompt = true then CLI_PrintPrompt 1 (storeConfig cfg s)
          else storeConfig cfg s) := by
        split
        · exact escOk_of_cfg (cfg_PrintPrompt 1 _) hs
        · exact hs
      have hrule : (if cfg.printPrompt = true then CLI_PrintPrompt 1 (storeConfig cfg s)
          else storeConfig cfg s).escapeSequence
          = escapeRules (if cfg.printPrompt = true then CLI_PrintPrompt 1 (storeConfig cfg s)
          else storeConfig cfg s).echo := by
        split
        · rw [(cfg_PrintPrompt 1 _).2.2.2.2.1, (cfg_PrintPrompt 1 _).2.2.1]
          rfl
        · rfl
      exact ⟨hp.1, hp.2.1, hp.2.2.1, fun _ => hrule, fun _ => rfl⟩

/-- In every reachable state the escape matcher is in step. -/
theorem reachable_escOk (H : Nat → Nat → List (List Nat) → Int) (s : CLI_DataTypeDef)
    (hr : Reachable H s) : EscOk s := by
  induction hr with
  | start =>
    exact ⟨rfl, Nat.zero_le _, fun h => absurd h (by decide), fun h => absurd h (by decide),
      fun h => absurd h (by decide)⟩
  | init cliInit s _ ih => exact escOk_Init cliInit s ih
  | inject ok table items s _ ih =>
    unfold CLI_InjectCommands
    repeat' split
    all_goals exact ih
  | build fuel ok b s s1 _ hb ih =>
    cases b with
    | true =>
      obtain ⟨arr, cnt, _, hs1⟩ := build_true fuel ok s s1 hb
      subst hs1
      exact ih
    | false =>
      rcases build_false fuel ok s s1 hb with hs1 | ⟨_, hs1⟩
      · subst hs1; exact ih
      · subst hs1; exact ih
  | char c s _ ih => exact escOk_ProcessChar c s ih
  | state fuel b s s1 _ hp ih => exact escOk_of_cfg (cfg_ProcessState H fuel b s s1 hp) ih
  | reset s _ ih => exact escOk_of_cfg (cfg_ResetState s) ih

/-- C39: for both rule sets `CLI_Init` installs no rule is a prefix of another
rule; and in every reachable state the accumulator `CurrentEscapeSequence` has
its 10 bytes, the count is at most 2, in escape mode the count, which is the
index of the next write, is at most 1 and so inside the accumulator, and a byte
from 1 to 127 that the engine accepts in escape mode with one byte accumulated
ends escape mode: escape mode lasts for at most 2 accepted bytes after the
introducer. -/
theorem C39_escape_accumulator_in_bounds (H : Nat → Nat → List (List Nat) → Int)
    (s : CLI_DataTypeDef) (hr : Reachable H s) :
    (∀ e : Bool, ∀ r1 ∈ escapeRules e, ∀ r2 ∈ escapeRules e,
      r1.string <+: r2.string → r1 = r2) ∧
    s.CurrentEscapeSequence.length = CLI_MAX_ESCAPE ∧ s.CurrentEscapeSequenceCount ≤ 2 ∧
    (s.receivingEscapeSequence = true →
      s.CurrentEscapeSequenceCount ≤ 1 ∧
      s.CurrentEscapeSequenceCount < s.CurrentEscapeSequence.length) ∧
    (∀ c, s.receivingEscapeSequence = true → s.CurrentEscapeSequenceCount = 1 →
      c ≠ 0 → c < 128 → s.cmnds ≠ none → s.execType = CLI_ExecTypeDef.CLI_Exec_Nothing →
      (CLI_ProcessChar c s).2.receivingEscapeSequence = false) := by
  have h := reachable_escOk H s hr
  refine ⟨?_, h.1, h.2.1, ?_, ?_⟩
  · intro e
    cases e <;> decide
  · intro hx
    have := h.2.2.1 hx
    refine ⟨this, ?_⟩
    rw [h.1]
    show _ < 10
    omega
  · intro c hrec h1c hc0 hc7 hm he
    have hi : s.initialized = true := h.2.2.2.2 hrec
    obtain ⟨_, e2, e3⟩ := escOk_ProcessEscape c s h hi hrec
    rw [char_escape c s hi hm he hrec hc0 hc7]
    split
    · exact e2 h1c
    · rename_i hne
      rw [processKey_mode _ _ (e3 hne).2]
      exact e2 h1c

set_option maxRecDepth 100000 in
/-- The demo session after ESC `[` is in escape mode with one byte accumulated,
the accumulator has its 10 bytes, and the byte `A` ends escape mode. -/
theorem C39_escape_accumulator_in_bounds_witness :
    demoEscBracket.receivingEscapeSequence = true ∧
    demoEscBracket.CurrentEscapeSequenceCount = 1 ∧
    demoEscBracket.CurrentEscapeSequence.length = CLI_MAX_ESCAPE ∧
    demoEscBracket.CurrentEscapeSequenceCount < demoEscBracket.CurrentEscapeSequence.length ∧
    (CLI_ProcessChar 65 demoEscBracket).2.receivingEscapeSequence = false :=
  have key := C39_escape_accumulator_in_bounds H0 demoEscBracket
    (reachable_typeBytes H0 _ _ (reachable_demoBuilt H0))
  have facts : demoEscBracket.receivingEscapeSequence = true ∧
      demoEscBracket.CurrentEscapeSequenceCount = 1 ∧ demoEscBracket.cmnds ≠ none ∧
      demoEscBracket.execType = CLI_ExecTypeDef.CLI_Exec_Nothing := by decide
  ⟨facts.1, facts.2.1, key.2.1, (key.2.2.2.1 facts.1).2,
    key.2.2.2.2 65 facts.1 facts.2.1 (by decide) (by decide) facts.2.2.1 facts.2.2.2⟩

/-! ## Claim C38: the worker loop -/

theorem flagSet_iff (x i : Nat) : flagSet x (2 ^ i) = x.testBit i := by
  unfold flagSet
  cases hb : x.testBit i with
  | true =>
    rw [bne_iff_ne]
    intro h0
    have h1 : (x &&& 2 ^ i).testBit i = true := by
      rw [Nat.testBit_and, hb, Nat.testBit_two_pow_self]
      rfl
    rw [h0, Nat.zero_testBit] at h1
    exact Bool.noConfusion h1
  | false =>
    rw [bne_eq_false_iff_eq]
    apply Nat.eq_of_testBit_eq
    intro j
    rw [Nat.testBit_and, Nat.zero_testBit, Nat.testBit_two_pow]
    by_cases hij : i = j
    · subst hij
      rw [hb]
      rfl
    · rw [decide_eq_false hij, Bool.and_false]

theorem flagSet_or (x i j : Nat) :
    flagSet (x ||| 2 ^ j) (2 ^ i) = (flagSet x (2 ^ i) || decide (j = i)) := by
  rw [flagSet_iff, flagSet_iff, Nat.testBit_or, Nat.testBit_two_pow]

theorem flagSet_zero (f : Nat) : flagSet 0 f = false := by
  unfold flagSet
  rw [Nat.zero_and]
  rfl

/-- Signalling an event keeps the command-request flag and sets the poll flag
only when it is the poll event. -/
theorem signal_flags (j : Nat) (w : TaskWorld) :
    (flagSet w.event_flags CLI_TASK_EVENT_CLI_CMD_REQ = true →
      flagSet (CLI_SignalEvent (2 ^ j) w).event_flags CLI_TASK_EVENT_CLI_CMD_REQ = true) ∧
    (j ≠ 2 → flagSet (CLI_SignalEvent (2 ^ j) w).event_flags CLI_TASK_EVENT_CLI_POLL_RX
      = flagSet w.event_flags CLI_TASK_EVENT_CLI_POLL_RX) ∧
    (j = 1 → flagSet (CLI_SignalEvent (2 ^ j) w).event_flags CLI_TASK_EVENT_CLI_CMD_REQ = true) := by
  have e1 : CLI_TASK_EVENT_CLI_CMD_REQ = 2 ^ 1 := by decide
  have e2 : CLI_TASK_EVENT_CLI_POLL_RX = 2 ^ 2 := by decide
  unfold CLI_SignalEvent
  rw [e1, e2]
  simp only [flagSet_or]
  refine ⟨?_, ?_, ?_⟩
  · intro h
    rw [h]
    rfl
  · intro hj
    rw [decide_eq_false hj, Bool.or_false]
  · intro hj
    rw [decide_eq_true hj, Bool.or_true]

theorem taskAlert_idem (w : TaskWorld) :
    TaskWorld.CLI_TaskAlert (TaskWorld.CLI_TaskAlert w) = TaskWorld.CLI_TaskAlert w := by
  unfold TaskWorld.CLI_TaskAlert
  by_cases h : w.initialized = true
  · rw [if_pos h]
    have h2 : (CLI_SignalEvent CLI_TASK_EVENT_CLI_CMD_REQ w).initialized = true := h
    rw [if_pos h2]
    unfold CLI_SignalEvent
    simp only [Nat.or_assoc, Nat.or_self]
  · rw [if_neg h, if_neg h]

theorem iterate_taskAlert (n : Nat) (w : TaskWorld) :
    Nat.iterate TaskWorld.CLI_TaskAlert n w = if n = 0 then w else TaskWorld.CLI_TaskAlert w := by
  induction n generalizing w with
  | zero => rfl
  | succ n ih =>
    show Nat.iterate TaskWorld.CLI_TaskAlert n (TaskWorld.CLI_TaskAlert w) = _
    rw [ih, if_neg (Nat.succ_ne_zero n)]
    split
    · rfl
    · exact taskAlert_idem w

/-- What an engine call does to the world: the engine state is the new one, the
task data keep all but the command-request flag, which is kept when set and is
set when the task is initialised and the engine recorded an alert. -/
theorem engineCall_fields (s1 : CLI_DataTypeDef) (w : TaskWorld) :
    (engineCall s1 w).cli = s1 ∧ (engineCall s1 w).initialized = w.initialized ∧
    (engineCall s1 w).timerRuns = w.timerRuns ∧ (engineCall s1 w).point = w.point ∧
    (engineCall s1 w).cli_events = w.cli_events ∧
    (flagSet (engineCall s1 w).event_flags CLI_TASK_EVENT_CLI_POLL_RX
      = flagSet w.event_flags CLI_TASK_EVENT_CLI_POLL_RX) ∧
    (flagSet w.event_flags CLI_TASK_EVENT_CLI_CMD_REQ = true →
      flagSet (engineCall s1 w).event_flags CLI_TASK_EVENT_CLI_CMD_REQ = true) ∧
    (w.initialized = true → alertCount w.cli.trace < alertCount s1.trace →
      flagSet (engineCall s1 w).event_flags CLI_TASK_EVENT_CLI_CMD_REQ = true) := by
  have e1 : CLI_TASK_EVENT_CLI_CMD_REQ = 2 ^ 1 := by decide
  unfold engineCall
  rw [iterate_taskAlert]
  by_cases hn : alertCount s1.trace - alertCount w.cli.trace = 0
  · rw [if_pos hn]
    exact ⟨rfl, rfl, rfl, rfl, rfl, rfl, fun h => h, fun _ hlt => absurd hn (by omega)⟩
  · rw [if_neg hn]
    unfold TaskWorld.CLI_TaskAlert
    by_cases hi : w.initialized = true
    · have hi2 : ({ w with cli := s1 } : TaskWorld).initialized = true := hi
      rw [if_pos hi2, e1]
      have f := signal_flags 1 { w with cli := s1 }
      rw [← e1] at f ⊢
      exact ⟨rfl, rfl, rfl, rfl, rfl, by rw [e1]; exact f.2.1 (by decide), f.1,
        fun _ _ => by rw [e1]; exact f.2.2 rfl⟩
    · have hi2 : ¬ ({ w with cli := s1 } : TaskWorld).initialized = true := hi
      rw [if_neg hi2]
      exact ⟨rfl, rfl, rfl, rfl, rfl, rfl, fun h => h, fun h _ => absurd h hi⟩

theorem alertCount_TaskAlert (s : CLI_DataTypeDef) :
    alertCount s.trace < alertCount (CLI_TaskAlert s).trace := by
  show List.count Event.alert s.trace < List.count Event.alert (s.trace ++ [Event.alert])
  rw [List.count_append]
  exact Nat.lt_add_of_pos_right (by decide)

theorem exec_EraseChar (s : CLI_DataTypeDef) : (CLI_EraseChar s).execType = s.execType := by
  unfold CLI_EraseChar
  split
  · rw [(traceOnly_fields (traceOnly_Print _ _ _)).2.2.2.2.2.1]
    rfl
  · rfl

theorem exec_keyDefault (c : Nat) (s : CLI_DataTypeDef) :
    (keyDefault c s).execType = s.execType := by
  unfold keyDefault
  split
  · show (echoChar (lowerIfAuto c s) s).execType = s.execType
    exact (traceOnly_fields (traceOnly_echoChar _ _)).2.2.2.2.2.1
  · rfl

/-- A key either leaves the pending action as it is or records an alert. -/
theorem processKey_raised (c : Nat) (s : CLI_DataTypeDef) :
    (processKey c s).execType = s.execType
    ∨ alertCount s.trace < alertCount (processKey c s).trace := by
  unfold processKey
  repeat' split
  · exact Or.inl rfl
  · unfold keyReturn
    by_cases hl : s.locked = true
    · rw [if_pos hl]
      exact Or.inl rfl
    · rw [if_neg hl]
      exact Or.inr (alertCount_TaskAlert _)
  · unfold keyTab
    split
    · exact Or.inr (alertCount_TaskAlert _)
    · exact Or.inl rfl
  · exact Or.inl (exec_EraseChar s)
  · unfold keyDown
    split
    · exact Or.inr (alertCount_TaskAlert _)
    · exact Or.inl rfl
  · unfold keyUp
    split
    · exact Or.inr (alertCount_TaskAlert _)
    · exact Or.inl rfl
  · exact Or.inl rfl
  · exact Or.inl rfl
  · unfold keyTab
    split
    · exact Or.inr (alertCount_TaskAlert _)
    · exact Or.inl rfl
  · exact Or.inl (exec_keyDefault c s)

theorem escape_quiet (c : Nat) (s : CLI_DataTypeDef) :
    (CLI_ProcessEscapeSequnceChar c s).2.execType = s.execType ∧
    (CLI_ProcessEscapeSequnceChar c s).2.trace = s.trace := by
  unfold CLI_ProcessEscapeSequnceChar
  split <;> exact ⟨rfl, rfl⟩

/-- `CLI_ProcessChar` either leaves the pending action as it is or records an
alert of the worker. -/
theorem char_raised (c : Nat) (s : CLI_DataTypeDef) :
    (CLI_ProcessChar c s).2.execType = s.execType
    ∨ alertCount s.trace < alertCount (CLI_ProcessChar c s).2.trace := by
  unfold CLI_ProcessChar
  repeat' split
  · exact Or.inl rfl
  · exact Or.inl rfl
  · exact Or.inl (escape_quiet c s).1
  · have h := processKey_raised (CLI_ProcessEscapeSequnceChar c s).1
      (CLI_ProcessEscapeSequnceChar c s).2
    rw [(escape_quiet c s).1, (escape_quiet c s).2] at h
    exact h
  · exact processKey_raised c s

theorem char_initialized (c : Nat) (s : CLI_DataTypeDef) :
    (CLI_ProcessChar c s).2.initialized = s.initialized := by
  unfold CLI_ProcessChar
  have he : (CLI_ProcessEscapeSequnceChar c s).2.initialized = s.initialized := by
    unfold CLI_ProcessEscapeSequnceChar
    split <;> rfl
  have hk : ∀ k x, (processKey k x).initialized = x.initialized := by
    intro k x
    unfold processKey
    repeat' split
    · rfl
    · exact (cfg_keyReturn x).1
    · exact (cfg_keyTab x).1
    · exact (cfg_keyBackspace x).1
    · exact (cfg_keyDown x).1
    · exact (cfg_keyUp x).1
    · rfl
    · rfl
    · exact (cfg_keyTab x).1
    · exact (cfg_keyDefault k x).1
  repeat' split
  · rfl
  · rfl
  · exact he
  · rw [hk]
    exact he
  · exact hk c s

/-- `CLI_ProcessState` on an initialised engine leaves no action pending. -/
theorem state_clears (H : Nat → Nat → List (List Nat) → Int) (fuel : Nat) (b : Bool)
    (s s1 : CLI_DataTypeDef) (hi : s.initialized = true)
    (h : CLI_ProcessState H fuel s = some (b, s1)) :
    s1.execType = CLI_ExecTypeDef.CLI_Exec_Nothing ∧ s1.initialized = true := by
  have hinit := (cfg_ProcessState H fuel b s s1 h).1
  refine ⟨?_, by rw [hinit]; exact hi⟩
  unfold CLI_ProcessState at h
  rw [if_neg (by rw [hi]; exact Bool.noConfusion)] at h
  split at h
  · exact Option.noConfusion h
  · injection h with h
    injection h with _ h
    rw [← h]

/-- `CLI_Init` succeeds on an engine not yet initialised only, which it
initialises; it never touches the pending action; when it fails the engine is
as it was. -/
theorem init_fields (cliInit : Option CLI_InitTypeDef) (s : CLI_DataTypeDef) :
    (CLI_Init cliInit s).2.execType = s.execType ∧
    ((CLI_Init cliInit s).1 = true →
      s.initialized = false ∧ (CLI_Init cliInit s).2.initialized = true) ∧
    ((CLI_Init cliInit s).1 = false → (CLI_Init cliInit s).2 = s) := by
  unfold CLI_Init
  split
  · exact ⟨rfl, fun h => Bool.noConfusion h, fun _ => rfl⟩
  · split
    · exact ⟨rfl, fun h => Bool.noConfusion h, fun _ => rfl⟩
    · rename_i cfg hn
      refine ⟨?_, fun _ => ⟨?_, rfl⟩, fun h => Bool.noConfusion h⟩
      · show (if cfg.printPrompt = true then CLI_PrintPrompt 1 (storeConfig cfg s)
          else storeConfig cfg s).execType = s.execType
        split
        · rw [(traceOnly_fields (traceOnly_PrintPrompt 1 _)).2.2.2.2.2.1]
          rfl
        · rfl
      · cases hx : s.initialized with
        | true => exact absurd hx hn
        | false => rfl

theorem inject_fields (ok : Bool) (table : Option (List CLI_CmdTypeDef)) (items : Int)
    (s : CLI_DataTypeDef) :
    (CLI_InjectCommands ok table items s).2.execType = s.execType ∧
    (CLI_InjectCommands ok table items s).2.initialized = s.initialized := by
  unfold CLI_InjectCommands
  repeat' split
  all_goals exact ⟨rfl, rfl⟩

theorem build_fields (fuel : Nat) (ok b : Bool) (s s1 : CLI_DataTypeDef)
    (h : CLI_BuildTable fuel ok s = some (b, s1)) :
    s1.execType = s.execType ∧ s1.initialized = s.initialized := by
  cases b with
  | true =>
    obtain ⟨arr, cnt, _, hs1⟩ := build_true fuel ok s s1 h
    subst hs1
    exact ⟨rfl, rfl⟩
  | false =>
    rcases build_false fuel ok s s1 h with hs1 | ⟨_, hs1⟩
    · subst hs1; exact ⟨rfl, rfl⟩
    · subst hs1; exact ⟨rfl, rfl⟩

theorem reset_fields (s : CLI_DataTypeDef) :
    (CLI_ResetState s).execType = s.execType ∧ (CLI_ResetState s).initialized = s.initialized := by
  unfold CLI_ResetState
  split <;> exact ⟨rfl, rfl⟩

/-- An engine call that keeps the pending action and the engine's initialised
flag keeps the invariant of the program. -/
theorem taskInv_engineCall (s1 : CLI_DataTypeDef) (w : TaskWorld) (h : TaskInv w)
    (he : s1.execType = w.cli.execType) (hi : s1.initialized = w.cli.initialized) :
    TaskInv (engineCall s1 w) := by
  obtain ⟨f1, f2, f3, f4, f5, f6, f7, _⟩ := engineCall_fields s1 w
  obtain ⟨a, b, c, d, e⟩ := h
  unfold TaskInv cmdReqSignalled
  rw [f1, f2, f3, f4, f5, f6, he, hi]
  refine ⟨a, b, c, d, fun hx => ?_⟩
  rcases e hx with ⟨hp, hf⟩ | ⟨hp, hf⟩
  · exact Or.inl ⟨hp, f7 hf⟩
  · exact Or.inr ⟨hp, hf⟩

theorem taskInv_world0 : TaskInv world0 := by
  refine ⟨fun h => absurd h (by decide), fun h => absurd h (by decide),
    fun h => absurd h (by decide), fun h => absurd rfl h, fun h => absurd rfl h⟩

/-- Every step of the program keeps the invariant. -/
theorem taskInv_step (H : Nat → Nat → List (List Nat) → Int) (a : TaskAction)
    (w w1 : TaskWorld) (h : TaskInv w) (hs : taskStep H a w = some w1) : TaskInv w1 := by
  have e0 : CLI_TASK_EVENT_INIT = 2 ^ 0 := by decide
  have e1 : CLI_TASK_EVENT_CLI_CMD_REQ = 2 ^ 1 := by decide
  have e2 : CLI_TASK_EVENT_CLI_POLL_RX = 2 ^ 2 := by decide
  have e3 : CLI_TASK_EVENT_SIGTERM = 2 ^ 3 := by decide
  obtain ⟨ha, hb, hc, hd, he⟩ := h
  cases a with
  | waitEvents =>
    unfold taskStep at hs
    simp only [] at hs
    split at hs
    · rename_i hp
      unfold CLI_WaitEvents at hs
      split at hs
      · exact Option.noConfusion hs
      · rename_i w2 hq
        split at hq
        · exact Option.noConfusion hq
        · injection hq with hq
          injection hs with hs
          subst hq
          subst hs
          refine ⟨ha, fun hx => ?_, hb, fun _ => hd (by rw [hp]; exact TaskPoint.noConfusion),
            fun hx => ?_⟩
          · rw [show flagSet 0 CLI_TASK_EVENT_CLI_POLL_RX = false from flagSet_zero _] at hx
            exact Bool.noConfusion hx
          · rcases he hx with ⟨_, hf⟩ | ⟨hq, _⟩
            · exact Or.inr ⟨Or.inl rfl, hf⟩
            · rw [hp] at hq
              rcases hq with hq | hq <;> exact TaskPoint.noConfusion hq
    · exact Option.noConfusion hs
  | initEvent timerOk =>
    unfold taskStep at hs
    simp only [] at hs
    split at hs
    · rename_i hp
      injection hs with hs
      subst hs
      unfold taskInitEvent
      split
      · refine ⟨fun _ => rfl, fun hx => ?_, fun hx => ?_, fun _ => hd (by rw [hp]; exact TaskPoint.noConfusion),
          fun hx => ?_⟩
        · show (w.timerRuns || timerOk) = true
          rw [hb hx]
          rfl
        · show (w.timerRuns || timerOk) = true
          rw [hc hx]
          rfl
        · rcases he hx with ⟨hq, _⟩ | ⟨_, hf⟩
          · rw [hp] at hq
            rcases hq with hq | hq | hq <;> exact TaskPoint.noConfusion hq
          · exact Or.inr ⟨Or.inr rfl, hf⟩
      · refine ⟨ha, hb, hc, fun _ => hd (by rw [hp]; exact TaskPoint.noConfusion), fun hx => ?_⟩
        rcases he hx with ⟨hq, _⟩ | ⟨_, hf⟩
        · rw [hp] at hq
          rcases hq with hq | hq | hq <;> exact TaskPoint.noConfusion hq
        · exact Or.inr ⟨Or.inr rfl, hf⟩
    · exact Option.noConfusion hs
  | cmdReq fuel =>
    unfold taskStep at hs
    simp only [] at hs
    split at hs
    · rename_i hp
      have hinit := hd (by rw [hp]; exact TaskPoint.noConfusion)
      split at hs
      · split at hs
        · exact Option.noConfusion hs
        · rename_i b s1 hq
          injection hs with hs
          subst hs
          obtain ⟨c1, c2⟩ := state_clears H fuel b w.cli s1 hinit hq
          obtain ⟨f1, f2, f3, f4, f5, f6, f7, _⟩ := engineCall_fields s1 w
          refine ⟨?_, ?_, ?_, fun _ => ?_, fun hx => ?_⟩
          · show (engineCall s1 w).timerRuns = true → (engineCall s1 w).initialized = true
            rw [f2, f3]
            exact ha
          · show flagSet (engineCall s1 w).event_flags _ = true → (engineCall s1 w).timerRuns = true
            rw [f6, f3]
            exact hb
          · show flagSet (engineCall s1 w).cli_events _ = true → (engineCall s1 w).timerRuns = true
            rw [f5, f3]
            exact hc
          · show (engineCall s1 w).cli.initialized = true
            rw [f1]
            exact c2
          · have hx2 : (engineCall s1 w).cli.execType ≠ CLI_ExecTypeDef.CLI_Exec_Nothing := hx
            rw [f1] at hx2
            exact absurd c1 hx2
      · rename_i hnf
        injection hs with hs
        subst hs
        refine ⟨ha, hb, hc, fun _ => hinit, fun hx => ?_⟩
        rcases he hx with ⟨hq, _⟩ | ⟨_, hf⟩
        · rw [hp] at hq
          rcases hq with hq | hq | hq <;> exact TaskPoint.noConfusion hq
        · exact absurd hf hnf
    · exact Option.noConfusion hs
  | pollRx byte =>
    unfold taskStep at hs
    simp only [] at hs
    split at hs
    · rename_i hp
      have hinit := hd (by rw [hp]; exact TaskPoint.noConfusion)
      have hnone : w.cli.execType = CLI_ExecTypeDef.CLI_Exec_Nothing := by
        by_cases hx : w.cli.execType = CLI_ExecTypeDef.CLI_Exec_Nothing
        · exact hx
        · rcases he hx with ⟨hq, _⟩ | ⟨hq, _⟩
          · rw [hp] at hq
            rcases hq with hq | hq | hq <;> exact TaskPoint.noConfusion hq
          · rw [hp] at hq
            rcases hq with hq | hq <;> exact TaskPoint.noConfusion hq
      have hquiet : TaskInv { w with point := TaskPoint.testSigterm } :=
        ⟨ha, hb, hc, fun _ => hinit, fun hx => absurd hnone hx⟩
      split at hs
      · rename_i hpoll
        split at hs
        · injection hs with hs
          subst hs
          exact hquiet
        · rename_i c
          split at hs
          · injection hs with hs
            subst hs
            obtain ⟨f1, f2, f3, f4, f5, f6, f7, f8⟩ :=
              engineCall_fields (CLI_ProcessChar c w.cli).2 w
            refine ⟨?_, ?_, ?_, fun _ => ?_, fun hx => ?_⟩
            · show (engineCall _ w).timerRuns = true → (engineCall _ w).initialized = true
              rw [f2, f3]
              exact ha
            · show flagSet (engineCall _ w).event_flags _ = true → (engineCall _ w).timerRuns = true
              rw [f6, f3]
              exact hb
            · show flagSet (engineCall _ w).cli_events _ = true → (engineCall _ w).timerRuns = true
              rw [f5, f3]
              exact hc
            · show (engineCall _ w).cli.initialized = true
              rw [f1, char_initialized]
              exact hinit
            · have hx2 : (engineCall (CLI_ProcessChar c w.cli).2 w).cli.execType
                  ≠ CLI_ExecTypeDef.CLI_Exec_Nothing := hx
              rw [f1] at hx2
              rcases char_raised c w.cli with hr | hr
              · rw [hr] at hx2
                exact absurd hnone hx2
              · exact Or.inl ⟨Or.inr (Or.inl rfl), f8 (ha (hc hpoll)) hr⟩
          · exact Option.noConfusion hs
      · injection hs with hs
        subst hs
        exact hquiet
    · exact Option.noConfusion hs
  | sigterm =>
    unfold taskStep at hs
    simp only [] at hs
    split at hs
    · rename_i hp
      injection hs with hs
      subst hs
      refine ⟨ha, hb, hc, fun _ => hd (by rw [hp]; exact TaskPoint.noConfusion), fun hx => ?_⟩
      rcases he hx with ⟨_, hf⟩ | ⟨hq, _⟩
      · refine Or.inl ⟨?_, hf⟩
        show (if flagSet w.cli_events CLI_TASK_EVENT_SIGTERM = true then TaskPoint.returned
          else TaskPoint.waitEvents) = _ ∨ _
        split
        · exact Or.inr (Or.inr rfl)
        · exact Or.inl rfl
      · rw [hp] at hq
        rcases hq with hq | hq <;> exact TaskPoint.noConfusion hq
    · exact Option.noConfusion hs
  | timer =>
    unfold taskStep at hs
    simp only [] at hs
    split at hs
    · rename_i ht
      injection hs with hs
      subst hs
      have f := signal_flags 2 w
      rw [← e2] at f
      refine ⟨ha, fun _ => ht, hc, hd, fun hx => ?_⟩
      rcases he hx with ⟨hq, hf⟩ | ⟨hq, hf⟩
      · exact Or.inl ⟨hq, f.1 hf⟩
      · exact Or.inr ⟨hq, hf⟩
    · exact Option.noConfusion hs
  | terminate =>
    unfold taskStep at hs
    simp only [] at hs
    injection hs with hs
    subst hs
    unfold CLI_TaskTerminate
    split
    · have f := signal_flags 3 w
      rw [← e3] at f
      refine ⟨ha, fun hx => hb (by rw [← f.2.1 (by decide)]; exact hx), hc, hd, fun hx => ?_⟩
      rcases he hx with ⟨hq, hf⟩ | ⟨hq, hf⟩
      · exact Or.inl ⟨hq, f.1 hf⟩
      · exact Or.inr ⟨hq, hf⟩
    · exact ⟨ha, hb, hc, hd, he⟩
  | init cliInit syncOk createOk =>
    unfold taskStep at hs
    simp only [] at hs
    obtain ⟨i1, i2, i3⟩ := init_fields cliInit w.cli
    split at hs
    · rename_i hok
      injection hs with hs
      subst hs
      obtain ⟨j1, j2⟩ := i2 hok
      have hpt : w.point = TaskPoint.notCreated := by
        by_cases hx : w.point = TaskPoint.notCreated
        · exact hx
        · have := hd hx
          rw [j1] at this
          exact Bool.noConfusion this
      have hnone : w.cli.execType = CLI_ExecTypeDef.CLI_Exec_Nothing := by
        by_cases hx : w.cli.execType = CLI_ExecTypeDef.CLI_Exec_Nothing
        · exact hx
        · rcases he hx with ⟨hq, _⟩ | ⟨hq, _⟩
          · rw [hpt] at hq
            rcases hq with hq | hq | hq <;> exact TaskPoint.noConfusion hq
          · rw [hpt] at hq
            rcases hq with hq | hq <;> exact TaskPoint.noConfusion hq
      obtain ⟨f1, f2, f3, f4, f5, f6, f7, _⟩ := engineCall_fields (CLI_Init cliInit w.cli).2 w
      have hex : (engineCall (CLI_Init cliInit w.cli).2 w).cli.execType
          = CLI_ExecTypeDef.CLI_Exec_Nothing := by rw [f1, i1]; exact hnone
      have hin : (engineCall (CLI_Init cliInit w.cli).2 w).cli.initialized = true := by
        rw [f1]; exact j2
      unfold CLI_InitTask
      split
      · refine ⟨by rw [f2, f3]; exact ha, by rw [f6, f3]; exact hb, by rw [f5, f3]; exact hc,
          fun _ => hin, fun hx => absurd hex hx⟩
      · split
        · refine ⟨?_, fun hx => ?_, ?_, fun _ => hin, fun hx => absurd hex hx⟩
          · show (engineCall _ w).timerRuns = true → (engineCall _ w).initialized = true
            rw [f2, f3]; exact ha
          · rw [show flagSet 0 CLI_TASK_EVENT_CLI_POLL_RX = false from flagSet_zero _] at hx
            exact Bool.noConfusion hx
          · show flagSet (engineCall _ w).cli_events _ = true → (engineCall _ w).timerRuns = true
            rw [f5, f3]; exact hc
        · refine ⟨?_, fun hx => ?_, ?_, fun _ => hin, fun hx => absurd hex hx⟩
          · show (engineCall _ w).timerRuns = true → (engineCall _ w).initialized = true
            rw [f2, f3]; exact ha
          · have hx2 : flagSet (0 ||| CLI_TASK_EVENT_INIT) CLI_TASK_EVENT_CLI_POLL_RX = true := hx
            exact absurd hx2 (by decide)
          · show flagSet (engineCall _ w).cli_events _ = true → (engineCall _ w).timerRuns = true
            rw [f5, f3]; exact hc
    · rename_i hok
      injection hs with hs
      subst hs
      have hfail : (CLI_Init cliInit w.cli).1 = false := by
        cases hx : (CLI_Init cliInit w.cli).1 with
        | true => exact absurd hx hok
        | false => rfl
      exact taskInv_engineCall _ w ⟨ha, hb, hc, hd, he⟩ i1 (by rw [i3 hfail])
  | inject mallocOk table items =>
    unfold taskStep at hs
    simp only [] at hs
    injection hs with hs
    subst hs
    exact taskInv_engineCall _ w ⟨ha, hb, hc, hd, he⟩ (inject_fields _ _ _ _).1
      (inject_fields _ _ _ _).2
  | build fuel mallocOk =>
    unfold taskStep at hs
    simp only [] at hs
    split at hs
    · exact Option.noConfusion hs
    · rename_i b s1 hq
      injection hs with hs
      subst hs
      obtain ⟨b1, b2⟩ := build_fields fuel mallocOk b w.cli s1 hq
      exact taskInv_engineCall _ w ⟨ha, hb, hc, hd, he⟩ b1 b2
  | reset =>
    unfold taskStep at hs
    simp only [] at hs
    injection hs with hs
    subst hs
    exact taskInv_engineCall _ w ⟨ha, hb, hc, hd, he⟩ (reset_fields _).1 (reset_fields _).2

/-- The invariant holds along every run. -/
theorem taskInv_run (H : Nat → Nat → List (List Nat) → Int) (l : List TaskAction)
    (w w1 : TaskWorld) (h : TaskInv w) (hr : taskRun H l w = some w1) : TaskInv w1 := by
  induction l generalizing w with
  | nil =>
    injection hr with hr
    rw [← hr]
    exact h
  | cons a t ih =>
    unfold taskRun at hr
    split at hr
    · exact Option.noConfusion hr
    · rename_i w2 hq
      exact ih w2 (taskInv_step H a w w2 h hq) hr

/-- C38: in every run of the program in which the worker loop `CLI_Task` is the
only caller of `CLI_ProcessChar` and `CLI_ProcessState` (other threads call
`CLI_Init`, `CLI_InjectCommands`, `CLI_BuildTable`, `CLI_ResetState` and
`CLI_TaskTerminate`, and the timer fires, at any moment), no action is pending
whenever the worker stands before its poll read, so a polled byte passed to
`CLI_ProcessChar` meets no pending action; an action that byte sets is
signalled: the command-request flag is set in `event_flags` until the next
`CLI_WaitEvents`, and in `cli_events` of the next batch until its
command-request test; and at that test `CLI_ProcessState`, when it returns,
leaves no action pending before the poll read of the batch. -/
theorem C38_no_action_pending_at_poll (H : Nat → Nat → List (List Nat) → Int)
    (l : List TaskAction) (w : TaskWorld) (hr : taskRun H l world0 = some w) :
    (w.point = TaskPoint.testPollRx → w.cli.execType = CLI_ExecTypeDef.CLI_Exec_Nothing) ∧
    (∀ c, c < 256 → w.point = TaskPoint.testPollRx →
      flagSet w.cli_events CLI_TASK_EVENT_CLI_POLL_RX = true →
      ∃ w1, taskStep H (TaskAction.pollRx (some c)) w = some w1 ∧
        w1.cli = (CLI_ProcessChar c w.cli).2 ∧ w1.point = TaskPoint.testSigterm ∧
        (w1.cli.execType ≠ CLI_ExecTypeDef.CLI_Exec_Nothing →
          flagSet w1.event_flags CLI_TASK_EVENT_CLI_CMD_REQ = true)) ∧
    (w.cli.execType ≠ CLI_ExecTypeDef.CLI_Exec_Nothing → cmdReqSignalled w) ∧
    (∀ fuel w1, w.point = TaskPoint.testCmdReq →
      taskStep H (TaskAction.cmdReq fuel) w = some w1 →
      w1.point = TaskPoint.testPollRx ∧
      w1.cli.execType = CLI_ExecTypeDef.CLI_Exec_Nothing) := by
  have hinv := taskInv_run H l world0 w taskInv_world0 hr
  have hpoll : ∀ x : TaskWorld, TaskInv x → x.point = TaskPoint.testPollRx →
      x.cli.execType = CLI_ExecTypeDef.CLI_Exec_Nothing := by
    intro x hx hp
    by_cases hn : x.cli.execType = CLI_ExecTypeDef.CLI_Exec_Nothing
    · exact hn
    · rcases hx.2.2.2.2 hn with ⟨hq, _⟩ | ⟨hq, _⟩
      · rw [hp] at hq
        rcases hq with hq | hq | hq <;> exact TaskPoint.noConfusion hq
      · rw [hp] at hq
        rcases hq with hq | hq <;> exact TaskPoint.noConfusion hq
  refine ⟨hpoll w hinv, ?_, hinv.2.2.2.2, ?_⟩
  · intro c hc hp hf
    have hstep : taskStep H (TaskAction.pollRx (some c)) w
        = some { engineCall (CLI_ProcessChar c w.cli).2 w with point := TaskPoint.testSigterm } := by
      unfold taskStep
      simp only []
      rw [if_pos hp, if_pos hf, if_pos hc]
    refine ⟨_, hstep, (engineCall_fields _ w).1, rfl, fun hx => ?_⟩
    have hinv1 := taskInv_step H _ w _ hinv hstep
    rcases hinv1.2.2.2.2 hx with ⟨_, hq⟩ | ⟨hq, _⟩
    · exact hq
    · rcases hq with hq | hq <;> exact TaskPoint.noConfusion hq
  · intro fuel w1 hp hs
    have hinv1 := taskInv_step H _ w w1 hinv hs
    have hp1 : w1.point = TaskPoint.testPollRx := by
      unfold taskStep at hs
      simp only [] at hs
      rw [if_pos hp] at hs
      split at hs
      · split at hs
        · exact Option.noConfusion hs
        · injection hs with hs
          rw [← hs]
      · injection hs with hs
        rw [← hs]
    exact ⟨hp1, hpoll w1 hinv1 hp1⟩

set_option maxRecDepth 100000 in
/-- The demo run reaches the command-request test of its third batch with the
execute action pending and the command-request flag in `cli_events`; after
`CLI_ProcessState` the worker stands before the poll read, the poll flag is
set, and no action is pending. -/
theorem C38_no_action_pending_at_poll_witness :
    taskRun H0 demoSteps world0 = some demoWorld ∧
    demoWorld.point = TaskPoint.testCmdReq ∧
    demoWorld.cli.execType = CLI_ExecTypeDef.CLI_Exec_SearchAndExec ∧
    flagSet demoWorld.cli_events CLI_TASK_EVENT_CLI_CMD_REQ = true ∧
    taskStep H0 (TaskAction.cmdReq 20) demoWorld = some demoWorldPolling ∧
    demoWorldPolling.point = TaskPoint.testPollRx ∧
    flagSet demoWorldPolling.cli_events CLI_TASK_EVENT_CLI_POLL_RX = true ∧
    demoWorldPolling.cli.execType = CLI_ExecTypeDef.CLI_Exec_Nothing :=
  have facts : taskRun H0 demoSteps world0 = some demoWorld ∧
      demoWorld.point = TaskPoint.testCmdReq ∧
      demoWorld.cli.execType = CLI_ExecTypeDef.CLI_Exec_SearchAndExec ∧
      flagSet demoWorld.cli_events CLI_TASK_EVENT_CLI_CMD_REQ = true ∧
      taskStep H0 (TaskAction.cmdReq 20) demoWorld = some demoWorldPolling ∧
      flagSet demoWorldPolling.cli_events CLI_TASK_EVENT_CLI_POLL_RX = true := by decide
  have key := (C38_no_action_pending_at_poll H0 demoSteps demoWorld facts.1).2.2.2 20
    demoWorldPolling facts.2.1 facts.2.2.2.2.1
  ⟨facts.1, facts.2.1, facts.2.2.1, facts.2.2.2.1, facts.2.2.2.2.1, key.1, facts.2.2.2.2.2, key.2⟩

end CliDemo
